import Mathlib

/-! # ARM conversion interface stage of the code generator

A shallow embedding of `v2/tools/generator/internal/codegen/pipeline/add_arm_conversion_interface.go`
and of the parts of the type model (`astmodel`) that stage relies on, of the methods of the
generated storage types (`named_value_types_gen.go`, `flexible_servers_database_types_gen.go`),
and of `v2/tools/generator/internal/config/type_configuration.go`.

* The type model, the definition set and the identifier factory are not among the
  sources; their definitions below are marked `Modelled from the spec:`.
* The functions of `add_arm_conversion_interface.go` keep their names and are
  translated statement by statement; Go's `(value, error)` results become `Except`.
* The range over a Go map is a traversal of a list; every order of enumeration
  is a possible list.
* A method that changes its receiver returns the receiver after the call; the decoding done by
  the YAML library is a parameter.
-/

namespace ARMConversion

/-! ## Names -/

/-- Modelled from the spec: a package of the object model, identified by its group and
version ("qualified type name (group + version + local name)"). -/
structure PackageReference where
  group : String
  version : String
deriving DecidableEq, Repr

/-- Modelled from the spec: a qualified type name, a package plus a local name. -/
structure InternalTypeName where
  pkg : PackageReference
  name : String
deriving DecidableEq, Repr

/-- The package a name lives in (`InternalPackageReference()` in the source). -/
def InternalTypeName.InternalPackageReference (n : InternalTypeName) : PackageReference := n.pkg

/-- The local name of a type (`Name()` of a type name in the source). -/
def InternalTypeName.Name (n : InternalTypeName) : String := n.name

/-- Modelled from the spec: the empty type name ("owner-type-name-or-empty") is the name whose
parts are all empty. -/
def EmptyInternalTypeName : InternalTypeName :=
  { pkg := { group := "", version := "" }, name := "" }

/-- Whether a type name is the empty name (`IsEmpty()` in the source). -/
def InternalTypeName.IsEmpty (n : InternalTypeName) : Bool := decide (n = EmptyInternalTypeName)

/-- The API group of a package (`Group()` in the source). -/
def PackageReference.Group (p : PackageReference) : String := p.group

/-! ## Errors -/

/-- A value substituted into an error message. -/
inductive ErrorArg where
  | typeName (n : InternalTypeName)
  | text (s : String)
  | index (i : Nat)
deriving DecidableEq, Repr

/-- Errors of the generator: a formatted message (`errors.Errorf`, `errors.New`), a message
wrapped around a cause (`errors.Wrapf`), or the distinguished not-configured signal of the
configuration package, with its message and the named lists of options it suggests. -/
inductive Error where
  | errorf (format : String) (args : List ErrorArg)
  | wrapf (cause : Error) (format : String) (args : List ErrorArg)
  | notConfigured (message : String) (options : List (String × List String))
deriving DecidableEq, Repr

/-- Modelled from the spec: the configuration package's test for the "not configured" signal is
not among the sources; the spec calls it a distinguished signal, recognised here anywhere in the
chain of causes. -/
def IsNotConfiguredError : Error → Bool
  | .notConfigured _ _ => true
  | .wrapf cause _ _ => IsNotConfiguredError cause
  | .errorf _ _ => false

/-- The arguments substituted into the outermost message of an error. -/
def Error.args : Error → List ErrorArg
  | .errorf _ args => args
  | .wrapf _ _ args => args
  | .notConfigured _ _ => []

/-- The cause an error wraps, if it wraps one. -/
def Error.cause : Error → Option Error
  | .wrapf cause _ _ => some cause
  | _ => none

/-! ## The type model -/

/-- Modelled from the spec: the scope of a resource. -/
inductive ResourceScope where
  | ResourceGroup
  | Extension
  | Tenant
  | Location
deriving DecidableEq, Repr

/-- Modelled from the spec: the operations a resource may support. -/
inductive ResourceOperation where
  | Get
  | Put
  | Patch
  | Delete
  | Head
  | List
deriving DecidableEq, Repr

/-- Modelled from the spec: the flags of a `Flagged` wrapper; `ARMFlag` marks the wire format. -/
inductive TypeFlag where
  | ARMFlag
  | StorageFlag
  | OneOfFlag
deriving DecidableEq, Repr

/-- Modelled from the spec: the payload-type policy, `omit-empty` or preserving empty
collections. -/
inductive PayloadType where
  | OmitEmptyProperties
  | ExplicitEmptyCollections
deriving DecidableEq, Repr

/-- Modelled from the spec: the classification recorded by a conversion capability. -/
inductive TypeKind where
  | TypeKindOrdinary
  | TypeKindSpec
  | TypeKindStatus
deriving DecidableEq, Repr

/-- Modelled from the spec: a resource holds a reference to its spec type and to its status type,
its owner's type name ("owner-type-name-or-empty"), its scope and its operations. -/
structure ResourceType where
  specType : InternalTypeName
  statusType : InternalTypeName
  owner : InternalTypeName
  scope : ResourceScope
  operations : List ResourceOperation
deriving DecidableEq, Repr

/-- The spec type reference of a resource. -/
def ResourceType.SpecType (r : ResourceType) : InternalTypeName := r.specType

/-- The owner of a resource, possibly the empty name. -/
def ResourceType.Owner (r : ResourceType) : InternalTypeName := r.owner

/-- The scope of a resource. -/
def ResourceType.Scope (r : ResourceType) : ResourceScope := r.scope

/-- Modelled from the spec: a capability attached to an object. The conversion capability
records the name of the wire-shaped twin, the classification and the payload-type policy; any
other capability is known by its name only. -/
inductive InterfaceImplementation where
  | armConversion (armTypeName : InternalTypeName) (typeKind : TypeKind)
      (payloadType : PayloadType)
  | other (name : String)
deriving DecidableEq, Repr

/-- The name under which a capability is attached; an object holds one capability per name. -/
def InterfaceImplementation.Name : InterfaceImplementation → String
  | .armConversion _ _ _ => "ARMTransformer"
  | .other name => name

/-- Modelled from the spec: a property has a name, a type, a required flag, a tag map and a
description; the name used on the wire is kept as well, as the constructor in the source is
given both names. -/
structure PropertyDefinitionOf (τ : Type) where
  propertyName : String
  jsonName : String
  propertyType : τ
  description : String
  required : Bool
  tags : List (String × String)
deriving Repr

/-- Modelled from the spec: an object is an ordered set of named properties with its attached
capabilities and its validation rules. -/
structure ObjectTypeOf (τ : Type) where
  properties : List (PropertyDefinitionOf τ)
  interfaces : List InterfaceImplementation
  validations : List String
deriving Repr

/-- Modelled from the spec: the closed set of type variants. `typeName` is the reference to a
named type that properties and resources use. -/
inductive AType where
  | object (o : ObjectTypeOf AType)
  | resource (r : ResourceType)
  | enum (baseType : String) (options : List String)
  | map (key value : AType)
  | array (element : AType)
  | optional (element : AType)
  | primitive (name : String)
  | flagged (element : AType) (flags : List TypeFlag)
  | typeName (name : InternalTypeName)
deriving Repr

/-- A property of the type model. -/
abbrev PropertyDefinition := PropertyDefinitionOf AType

/-- An object of the type model. -/
abbrev ObjectType := ObjectTypeOf AType

mutual
/-- Structural equality of types is decidable. -/
def AType.hasDecEq : (a b : AType) → Decidable (a = b)
  | .object ⟨p1, i1, v1⟩, .object ⟨p2, i2, v2⟩ =>
    match AType.propsDecEq p1 p2, decEq i1 i2, decEq v1 v2 with
    | isTrue h1, isTrue h2, isTrue h3 => isTrue (by rw [h1, h2, h3])
    | isFalse h1, _, _ => isFalse (by intro h; cases h; exact h1 rfl)
    | _, isFalse h2, _ => isFalse (by intro h; cases h; exact h2 rfl)
    | _, _, isFalse h3 => isFalse (by intro h; cases h; exact h3 rfl)
  | .resource a, .resource b =>
    if h : a = b then isTrue (by rw [h]) else isFalse (by intro h2; cases h2; exact h rfl)
  | .enum a1 o1, .enum a2 o2 =>
    if h : a1 = a2 ∧ o1 = o2 then isTrue (by rw [h.1, h.2])
    else isFalse (by intro h2; cases h2; exact h ⟨rfl, rfl⟩)
  | .map k1 v1, .map k2 v2 =>
    match AType.hasDecEq k1 k2, AType.hasDecEq v1 v2 with
    | isTrue h1, isTrue h2 => isTrue (by rw [h1, h2])
    | isFalse h1, _ => isFalse (by intro h; cases h; exact h1 rfl)
    | _, isFalse h2 => isFalse (by intro h; cases h; exact h2 rfl)
  | .array a, .array b =>
    match AType.hasDecEq a b with
    | isTrue h => isTrue (by rw [h])
    | isFalse h => isFalse (by intro h2; cases h2; exact h rfl)
  | .optional a, .optional b =>
    match AType.hasDecEq a b with
    | isTrue h => isTrue (by rw [h])
    | isFalse h => isFalse (by intro h2; cases h2; exact h rfl)
  | .primitive a, .primitive b =>
    if h : a = b then isTrue (by rw [h]) else isFalse (by intro h2; cases h2; exact h rfl)
  | .flagged a f, .flagged b g =>
    match AType.hasDecEq a b, decEq f g with
    | isTrue h1, isTrue h2 => isTrue (by rw [h1, h2])
    | isFalse h1, _ => isFalse (by intro h; cases h; exact h1 rfl)
    | _, isFalse h2 => isFalse (by intro h; cases h; exact h2 rfl)
  | .typeName a, .typeName b =>
    if h : a = b then isTrue (by rw [h]) else isFalse (by intro h2; cases h2; exact h rfl)
  | .object .., .resource .. | .object .., .enum .. | .object .., .map .. | .object .., .array .. | .object .., .optional .. | .object .., .primitive .. | .object .., .flagged .. | .object .., .typeName ..
  | .resource .., .object .. | .resource .., .enum .. | .resource .., .map .. | .resource .., .array .. | .resource .., .optional .. | .resource .., .primitive .. | .resource .., .flagged .. | .resource .., .typeName ..
  | .enum .., .object .. | .enum .., .resource .. | .enum .., .map .. | .enum .., .array .. | .enum .., .optional .. | .enum .., .primitive .. | .enum .., .flagged .. | .enum .., .typeName ..
  | .map .., .object .. | .map .., .resource .. | .map .., .enum .. | .map .., .array .. | .map .., .optional .. | .map .., .primitive .. | .map .., .flagged .. | .map .., .typeName ..
  | .array .., .object .. | .array .., .resource .. | .array .., .enum .. | .array .., .map .. | .array .., .optional .. | .array .., .primitive .. | .array .., .flagged .. | .array .., .typeName ..
  | .optional .., .object .. | .optional .., .resource .. | .optional .., .enum .. | .optional .., .map .. | .optional .., .array .. | .optional .., .primitive .. | .optional .., .flagged .. | .optional .., .typeName ..
  | .primitive .., .object .. | .primitive .., .resource .. | .primitive .., .enum .. | .primitive .., .map .. | .primitive .., .array .. | .primitive .., .optional .. | .primitive .., .flagged .. | .primitive .., .typeName ..
  | .flagged .., .object .. | .flagged .., .resource .. | .flagged .., .enum .. | .flagged .., .map .. | .flagged .., .array .. | .flagged .., .optional .. | .flagged .., .primitive .. | .flagged .., .typeName ..
  | .typeName .., .object .. | .typeName .., .resource .. | .typeName .., .enum .. | .typeName .., .map .. | .typeName .., .array .. | .typeName .., .optional .. | .typeName .., .primitive .. | .typeName .., .flagged .. =>
    isFalse (by intro h; cases h)
/-- Structural equality of property lists is decidable. -/
def AType.propsDecEq : (a b : List (PropertyDefinitionOf AType)) → Decidable (a = b)
  | [], [] => isTrue rfl
  | [], _ :: _ => isFalse (by intro h; cases h)
  | _ :: _, [] => isFalse (by intro h; cases h)
  | ⟨n1, j1, t1, d1, r1, g1⟩ :: xs, ⟨n2, j2, t2, d2, r2, g2⟩ :: ys =>
    match AType.hasDecEq t1 t2, AType.propsDecEq xs ys with
    | isTrue h1, isTrue h2 =>
      if h : n1 = n2 ∧ j1 = j2 ∧ d1 = d2 ∧ r1 = r2 ∧ g1 = g2 then
        isTrue (by rw [h1, h2, h.1, h.2.1, h.2.2.1, h.2.2.2.1, h.2.2.2.2])
      else isFalse (by intro h3; cases h3; exact h ⟨rfl, rfl, rfl, rfl, rfl⟩)
    | isFalse h1, _ => isFalse (by intro h; cases h; exact h1 rfl)
    | _, isFalse h2 => isFalse (by intro h; cases h; exact h2 rfl)
end

instance : DecidableEq AType := AType.hasDecEq

instance : DecidableEq PropertyDefinition := fun a b =>
  match a, b with
  | ⟨n1, j1, t1, d1, r1, g1⟩, ⟨n2, j2, t2, d2, r2, g2⟩ =>
    if h : n1 = n2 ∧ j1 = j2 ∧ t1 = t2 ∧ d1 = d2 ∧ r1 = r2 ∧ g1 = g2 then
      isTrue (by rw [h.1, h.2.1, h.2.2.1, h.2.2.2.1, h.2.2.2.2.1, h.2.2.2.2.2])
    else isFalse (by intro h3; cases h3; exact h ⟨rfl, rfl, rfl, rfl, rfl, rfl⟩)

instance : DecidableEq ObjectType := fun a b =>
  match a, b with
  | ⟨p1, i1, v1⟩, ⟨p2, i2, v2⟩ =>
    if h : p1 = p2 ∧ i1 = i2 ∧ v1 = v2 then isTrue (by rw [h.1, h.2.1, h.2.2])
    else isFalse (by intro h3; cases h3; exact h ⟨rfl, rfl, rfl⟩)

/-- Modelled from the spec: a definition is a qualified name, a type and an optional
description. -/
structure TypeDefinition where
  name : InternalTypeName
  type : AType
  description : Option String
deriving DecidableEq, Repr

/-- The name of a definition. -/
def TypeDefinition.Name (d : TypeDefinition) : InternalTypeName := d.name

/-- The type of a definition. -/
def TypeDefinition.Type (d : TypeDefinition) : AType := d.type

/-- The same definition with a different type. -/
def TypeDefinition.WithType (d : TypeDefinition) (t : AType) : TypeDefinition :=
  { d with type := t }

/-- The result of a fallible operation: Go's `(value, error)` pair. -/
abbrev Result (α : Type) := Except Error α

/-! ## Operations of the type model -/

/-- Modelled from the spec: `AsObjectType` is not among the sources; it finds the object a type
wraps, looking through the `Optional` and `Flagged` wrappers ("wrapped in `Optional` or
similar"). -/
def AsObjectType : AType → Option ObjectType
  | .object o => some o
  | .optional e => AsObjectType e
  | .flagged e _ => AsObjectType e
  | _ => none

/-- Modelled from the spec: `AsResourceType` is not among the sources; it finds the resource a
type wraps, looking through the same wrappers as `AsObjectType`. -/
def AsResourceType : AType → Option ResourceType
  | .resource r => some r
  | .optional e => AsResourceType e
  | .flagged e _ => AsResourceType e
  | _ => none

/-- Modelled from the spec: `TypeFlag.IsOn` is not among the sources; a type carries a flag when it
is a `Flagged` wrapper whose flag set holds it. -/
def TypeFlag.IsOn (f : TypeFlag) : AType → Bool
  | .flagged _ flags => flags.contains f
  | _ => false

/-- Modelled from the spec: `IgnoringErrors` is not among the sources and the closed set of
variants has no error wrapper, so every type is returned as it is and the result is never nil
(`none`). -/
def IgnoringErrors (t : AType) : Option AType := some t

/-- Modelled from the spec: the constructor of a property is not among the sources; a new
property has the two names and the type given, no description, no tag, and is not required. -/
def NewPropertyDefinition (propertyName jsonName : String) (propertyType : AType) :
    PropertyDefinition :=
  { propertyName := propertyName, jsonName := jsonName, propertyType := propertyType,
    description := "", required := false, tags := [] }

/-- The name of a property. -/
def PropertyDefinition.PropertyName (p : PropertyDefinition) : String := p.propertyName

/-- The type of a property. -/
def PropertyDefinition.PropertyType (p : PropertyDefinition) : AType := p.propertyType

/-- Modelled from the spec: "replace property type", a copy of the property with another type. -/
def PropertyDefinition.WithType (p : PropertyDefinition) (t : AType) : PropertyDefinition :=
  { p with propertyType := t }

/-- Modelled from the spec: a copy of the property with another description. -/
def PropertyDefinition.WithDescription (p : PropertyDefinition) (description : String) :
    PropertyDefinition :=
  { p with description := description }

/-- Modelled from the spec: a copy of the property whose tag map sends `key` to `value`. -/
def PropertyDefinition.WithTag (p : PropertyDefinition) (key value : String) :
    PropertyDefinition :=
  { p with tags := p.tags.filter (fun kv => decide (kv.1 ≠ key)) ++ [(key, value)] }

/-- Modelled from the spec: a copy of the property with the required flag set. -/
def PropertyDefinition.MakeRequired (p : PropertyDefinition) : PropertyDefinition :=
  { p with required := true }

/-- The value of a tag of a property, if the tag map has the key. -/
def PropertyDefinition.Tag (p : PropertyDefinition) (key : String) : Option String :=
  (p.tags.find? (fun kv => decide (kv.1 = key))).map (fun kv => kv.2)

/-- Modelled from the spec: the property of an object with the given name, if there is one. -/
def ObjectType.Property (t : ObjectType) (name : String) : Option PropertyDefinition :=
  t.properties.find? (fun p => decide (p.propertyName = name))

/-- Modelled from the spec: "remove property by name", a copy of the object without any property
of that name; everything else is kept. -/
def ObjectType.WithoutProperty (t : ObjectType) (name : String) : ObjectType :=
  { t with properties := t.properties.filter (fun p => decide (p.propertyName ≠ name)) }

/-- Modelled from the spec: "add property", a copy of the object in which the given property is
the one property of its name; everything else is kept. -/
def ObjectType.WithProperty (t : ObjectType) (p : PropertyDefinition) : ObjectType :=
  { t with
    properties := t.properties.filter (fun q => decide (q.propertyName ≠ p.propertyName)) ++ [p] }

/-- Modelled from the spec: "attach capability", a copy of the object in which the given capability
is the one capability of its name; everything else is kept. -/
def ObjectType.WithInterface (t : ObjectType) (iface : InterfaceImplementation) : ObjectType :=
  { t with interfaces := t.interfaces.filter (fun i => decide (i.Name ≠ iface.Name)) ++ [iface] }

/-- Applies `transform` to the object a type wraps, looking through `Optional` and `Flagged`;
`none` when the type wraps no object. -/
def transformObject (transform : ObjectType → Result AType) : AType → Option (Result AType)
  | .object o => some (transform o)
  | .optional e =>
    match transformObject transform e with
    | none => none
    | some (.error err) => some (.error err)
    | some (.ok t) => some (.ok (.optional t))
  | .flagged e flags =>
    match transformObject transform e with
    | none => none
    | some (.error err) => some (.error err)
    | some (.ok t) => some (.ok (.flagged t flags))
  | _ => none

/-- Modelled from the spec: `ApplyObjectTransformation` is not among the sources; it "applies `f`
to the object's shape if the target type wraps an `Object` (handling the case where the `Object` is
itself wrapped in `Optional` or similar) and fails with a descriptive error if the target type is
not object-shaped"; a failure of `f` is wrapped with the name of the definition. -/
def TypeDefinition.ApplyObjectTransformation (d : TypeDefinition)
    (transform : ObjectType → Result AType) : Result TypeDefinition :=
  match transformObject transform d.type with
  | none =>
    .error (.errorf "transformation was not applied to %s (expected object type)"
      [.typeName d.name])
  | some (.error err) => .error (.wrapf err "transformation of %s failed" [.typeName d.name])
  | some (.ok t) => .ok (d.WithType t)

/-- Applies a sequence of object transformations one after the other, from the given position;
a failure is wrapped with the position of the transformation that failed. -/
def applyTransforms : List (ObjectType → Result ObjectType) → Nat → ObjectType → Result ObjectType
  | [], _, t => .ok t
  | transform :: rest, i, t =>
    match transform t with
    | .error err => .error (.wrapf err "failed to apply object transformation %d" [.index i])
    | .ok rt => applyTransforms rest (i + 1) rt

/-- Modelled from the spec: `ApplyObjectTransformations` is not among the sources; it is
`ApplyObjectTransformation` with the given transformations applied in order. -/
def TypeDefinition.ApplyObjectTransformations (d : TypeDefinition)
    (transforms : List (ObjectType → Result ObjectType)) : Result TypeDefinition :=
  d.ApplyObjectTransformation (fun t =>
    match applyTransforms transforms 0 t with
    | .error err => .error err
    | .ok rt => .ok (.object rt))

/-! ## Definition sets -/

/-- Modelled from the spec: a mapping from qualified type name to one definition. The list is an
enumeration of the mapping; a well-formed set has no two definitions of one name. -/
abbrev TypeDefinitionSet := List TypeDefinition

/-- The definition a set holds under a name (the Go index expression `defs[name]`). -/
def TypeDefinitionSet.Lookup (set : TypeDefinitionSet) (name : InternalTypeName) :
    Option TypeDefinition :=
  set.find? (fun d => decide (d.name = name))

/-- Whether a set holds a definition under a name. -/
def TypeDefinitionSet.Contains (set : TypeDefinitionSet) (name : InternalTypeName) : Bool :=
  (TypeDefinitionSet.Lookup set name).isSome

/-- The keys of a mapping are unique. -/
def TypeDefinitionSet.WellFormed (set : TypeDefinitionSet) : Prop :=
  (set.map (fun d => d.name)).Nodup

instance (set : TypeDefinitionSet) : Decidable (TypeDefinitionSet.WellFormed set) :=
  inferInstanceAs (Decidable (List.Nodup _))

/-- Modelled from the spec: `Add` ("error on duplicate unless identical"). The callers in the
source have no error to check: a failing `Add` aborts the run. -/
def TypeDefinitionSet.Add (set : TypeDefinitionSet) (d : TypeDefinition) :
    Result TypeDefinitionSet :=
  match TypeDefinitionSet.Lookup set d.name with
  | none => .ok (set ++ [d])
  | some existing =>
    if existing = d then .ok set
    else .error (.errorf "type already defined: %s" [.typeName d.name])

/-- Modelled from the spec: `AddTypes` ("bulk union"), `Add` for every definition of the second
set. -/
def TypeDefinitionSet.AddTypes (set : TypeDefinitionSet) :
    TypeDefinitionSet → Result TypeDefinitionSet
  | [] => .ok set
  | d :: rest =>
    match TypeDefinitionSet.Add set d with
    | .error err => .error err
    | .ok next => TypeDefinitionSet.AddTypes next rest

/-- Modelled from the spec: `Where` ("filter predicate"). -/
def TypeDefinitionSet.Where (set : TypeDefinitionSet) (predicate : TypeDefinition → Bool) :
    TypeDefinitionSet :=
  set.filter predicate

/-- Modelled from the spec: `Except` ("set difference"), the definitions whose name the second
set does not hold. -/
def TypeDefinitionSet.Except (set definitions : TypeDefinitionSet) : TypeDefinitionSet :=
  set.filter (fun d => !TypeDefinitionSet.Contains definitions d.name)

/-- Modelled from the spec: `ResolveResourceSpecDefinition` is not among the sources; the spec
type reference of a resource "must resolve to an `Object` definition present in the same set",
and the lookup fails when the set has no definition of that name. -/
def TypeDefinitionSet.ResolveResourceSpecDefinition (set : TypeDefinitionSet)
    (resourceType : ResourceType) : Result TypeDefinition :=
  match TypeDefinitionSet.Lookup set resourceType.SpecType with
  | none => .error (.errorf "couldn't find spec %s" [.typeName resourceType.SpecType])
  | some resourceSpecDef => .ok resourceSpecDef

/-! ## Constants and collaborators of the stage -/

/-- Modelled from the spec: the name of the property promoted to `AzureName`. -/
def NameProperty : String := "Name"

/-- Modelled from the spec: the name of the property that carries the identifier in Azure. -/
def AzureNameProperty : String := "AzureName"

/-- Modelled from the spec: the name of the owner property. -/
def OwnerProperty : String := "Owner"

/-- Modelled from the spec: the "group suffix convention"; the scenario of the spec gives
`apimanagement.azure.com` for the group `apimanagement`. -/
def GroupSuffix : String := ".azure.com"

/-- Modelled from the spec: the package of the runtime library the reference types live in. -/
def GenRuntimeReference : PackageReference := { group := "genruntime", version := "" }

/-- Modelled from the spec: the reference to an owner of a known kind. -/
def KnownResourceReferenceType : AType :=
  .typeName { pkg := GenRuntimeReference, name := "KnownResourceReference" }

/-- Modelled from the spec: the "optional reference" type of the owner property. -/
def OptionalKnownResourceReferenceType : AType := .optional KnownResourceReferenceType

/-- Modelled from the spec: the "arbitrary (unconstrained-kind) reference" of an extension
resource's owner. -/
def ArbitraryOwnerReference : AType :=
  .typeName { pkg := GenRuntimeReference, name := "ArbitraryOwnerReference" }

/-- Modelled from the spec: the constructor of the `Optional` variant. -/
def NewOptionalType (element : AType) : AType := .optional element

/-- Modelled from the spec: the primitive string type. -/
def StringType : AType := .primitive "string"

/-- Whether an identifier is visible outside its package. -/
inductive Visibility where
  | Exported
  | NotExported
deriving DecidableEq, Repr

/-- Modelled from the spec: the identifier factory is not among the sources. An exported
identifier starts with an upper-case letter and an unexported one with a lower-case letter, the
rest of the name being kept (`Owner` and `owner`, `AzureName` and `azureName` in the generated
types). -/
def CreateIdentifier (name : String) (visibility : Visibility) : String :=
  match name.toList with
  | [] => ""
  | c :: cs =>
    match visibility with
    | .Exported => String.mk (c.toUpper :: cs)
    | .NotExported => String.mk (c.toLower :: cs)

/-- The name of a property made from a name (`idFactory.CreatePropertyName`). -/
def CreatePropertyName (name : String) (visibility : Visibility) : String :=
  CreateIdentifier name visibility

/-- An identifier made from a name (`idFactory.CreateStringIdentifier`). -/
def CreateStringIdentifier (name : String) (visibility : Visibility) : String :=
  CreateIdentifier name visibility

/-- Modelled from the spec: `GetAzureNameProperty` is not among the sources; the `AzureName`
property is a string property, described as in the generated types. -/
def GetAzureNameProperty : PropertyDefinition :=
  (NewPropertyDefinition
    (CreatePropertyName AzureNameProperty .Exported)
    (CreateStringIdentifier AzureNameProperty .NotExported)
    StringType).WithDescription
    ("The name of the resource in Azure. This is often the same as" ++
      " the name of the resource in Kubernetes but it doesn't have to be.")

/-- Modelled from the spec: `NewARMConversionImplementation` is not among the sources; the
capability it builds records "a reference to the twin's name, its payload-type policy, and the
capability classification". The object of the twin is an argument of the call and is not
recorded. -/
def NewARMConversionImplementation (armTypeName : InternalTypeName) (_armType : ObjectType)
    (typeKind : TypeKind) (payloadType : PayloadType) : InterfaceImplementation :=
  .armConversion armTypeName typeKind payloadType

/-- The functions of the generator the stage calls whose code is not among the sources, taken as
parameters: the derivation of the name of the wire-shaped twin (`astmodel.CreateARMTypeName`), the
test for the name of a status (`IsStatus`), and the test for the need of a wire-shaped twin
(`requiresARMType`). -/
structure Externals where
  CreateARMTypeName : InternalTypeName → InternalTypeName
  IsStatus : InternalTypeName → Bool
  requiresARMType : TypeDefinition → Bool

/-- The configuration of the object model, as far as the stage consults it: the lookup of the
payload type of a package (`config.PayloadType.Lookup`), which may fail. -/
structure ObjectModelConfiguration where
  PayloadTypeLookup : PackageReference → Result PayloadType

/-- The `armConversionApplier` of the source: the definitions and the configuration (the
identifier factory is the fixed one above). -/
structure armConversionApplier where
  definitions : TypeDefinitionSet
  config : ObjectModelConfiguration

/-! ## The stage (`add_arm_conversion_interface.go`) -/

/-- `GetARMTypeDefinition` gets the ARM type definition for a given Kubernetes type name; if no
matching definition can be found an error is returned. -/
def GetARMTypeDefinition (x : Externals) (defs : TypeDefinitionSet) (name : InternalTypeName) :
    Result TypeDefinition :=
  match TypeDefinitionSet.Lookup defs (x.CreateARMTypeName name) with
  | none => .error (.errorf "couldn't find ARM definition matching kube name %q" [.typeName name])
  | some armDefinition => .ok armDefinition

/-- `createOwnerProperty` of the source: the owner property of a resource with a known owner. -/
def createOwnerProperty (ownerTypeName : InternalTypeName) : PropertyDefinition :=
  let grp := ownerTypeName.InternalPackageReference.Group
  let group := grp ++ GroupSuffix
  let kind := ownerTypeName.Name
  let prop := NewPropertyDefinition
    (CreatePropertyName OwnerProperty .Exported)
    (CreateStringIdentifier OwnerProperty .NotExported)
    OptionalKnownResourceReferenceType
  let prop := prop.WithDescription
    ("The owner of the resource. The owner controls where the resource goes when it is deployed. " ++
      "The owner also controls the resources lifecycle. " ++
      "When the owner is deleted the resource will also be deleted. Owner is expected to " ++
      "be a reference to a " ++ group ++ "/" ++ kind ++ " resource")
  let prop := prop.WithTag "group" group
  let prop := prop.WithTag "kind" kind
  let prop := prop.MakeRequired
  prop

/-- `createExtensionResourceOwnerProperty` of the source: the owner property of an extension
resource. -/
def createExtensionResourceOwnerProperty : PropertyDefinition :=
  let prop := (NewPropertyDefinition
    (CreatePropertyName OwnerProperty .Exported)
    (CreateStringIdentifier OwnerProperty .NotExported)
    (NewOptionalType ArbitraryOwnerReference)).MakeRequired
  let prop := prop.WithDescription
    ("The owner of the resource. The owner controls where the resource goes when it is deployed. " ++
      "The owner also controls the resources lifecycle. " ++
      "When the owner is deleted the resource will also be deleted. " ++
      "This resource is an extension resource, which means that any other Azure resource can be its owner.")
  prop

/-- The closure `injectOwnerProperty` of `transformSpec`. -/
def injectOwnerProperty (resourceType : ResourceType) (t : ObjectType) : Result ObjectType :=
  if !resourceType.Owner.IsEmpty && decide (resourceType.Scope = .ResourceGroup) then
    let ownerProperty := createOwnerProperty resourceType.Owner
    .ok (ObjectType.WithProperty t ownerProperty)
  else if resourceType.Scope = .Extension then
    .ok (ObjectType.WithProperty t createExtensionResourceOwnerProperty)
  else
    .ok t

/-- The closure `remapProperties` of `transformSpec`. -/
def remapProperties (t : ObjectType) : Result ObjectType :=
  match ObjectType.Property t NameProperty with
  | none => .ok t
  | some nameProp =>
    let namePropType := nameProp.PropertyType
    let namePropType :=
      match namePropType with
      | .optional element => element
      | other => other
    let azureNameProp := GetAzureNameProperty.WithType namePropType
    .ok (ObjectType.WithProperty (ObjectType.WithoutProperty t NameProperty) azureNameProp)

/-- `transformSpec` adds an owner property to the given resource spec, with the property
remappings of the spec (`Name` to `AzureName`). -/
def transformSpec (c : armConversionApplier) (resourceType : ResourceType) :
    Result TypeDefinition :=
  match TypeDefinitionSet.ResolveResourceSpecDefinition c.definitions resourceType with
  | .error err => .error err
  | .ok resourceSpecDef =>
    match resourceSpecDef.ApplyObjectTransformations
        [remapProperties, injectOwnerProperty resourceType] with
    | .error err => .error (.wrapf err "remapping properties of Kubernetes definition" [])
    | .ok kubernetesDef => .ok kubernetesDef

/-- The payload type of a definition: the configured one, `OmitEmptyProperties` when none is
configured, and an error for any other failure of the lookup (lines 234-245 of the source). -/
def lookupPayloadType (c : armConversionApplier) (kubeDef : TypeDefinition) : Result PayloadType :=
  match c.config.PayloadTypeLookup kubeDef.Name.InternalPackageReference with
  | .ok payloadType => .ok payloadType
  | .error err =>
    if IsNotConfiguredError err then
      .ok .OmitEmptyProperties
    else
      .error (.wrapf err "looking up payload type for %q" [.typeName kubeDef.Name])

/-- `addARMConversionInterface` of the source. -/
def addARMConversionInterface (c : armConversionApplier) (kubeDef armDef : TypeDefinition)
    (typeType : TypeKind) : Result TypeDefinition :=
  match AsObjectType armDef.Type with
  | none =>
    .error (.errorf "ARM definition %q did not define an object type" [.typeName armDef.Name])
  | some objectType =>
    match lookupPayloadType c kubeDef with
    | .error err => .error err
    | .ok payloadType =>
      let addInterfaceHandler : ObjectType → Result AType := fun t =>
        let result := ObjectType.WithInterface t
          (NewARMConversionImplementation armDef.Name objectType typeType payloadType)
        .ok (.object result)
      match kubeDef.ApplyObjectTransformation addInterfaceHandler with
      | .error _ =>
        .error (.errorf
          "failed to add ARM conversion interface to Kubenetes object definition %s"
          [.typeName armDef.Name])
      | .ok result => .ok result

/-- The loops of the stage: for every definition enumerated, the body yields the definition to
add to the result (or nothing, a `continue`), or fails; the first failure ends the run. -/
def forEachAdd (body : TypeDefinition → Result (Option TypeDefinition)) :
    List TypeDefinition → TypeDefinitionSet → Result TypeDefinitionSet
  | [], result => .ok result
  | td :: rest, result =>
    match body td with
    | .error err => .error err
    | .ok none => forEachAdd body rest result
    | .ok (some d) =>
      match TypeDefinitionSet.Add result d with
      | .error err => .error err
      | .ok next => forEachAdd body rest next

/-- The body of the loop of `transformResourceSpecs` (lines 68-88 of the source). -/
def transformResourceSpecsBody (x : Externals) (c : armConversionApplier) (td : TypeDefinition) :
    Result (Option TypeDefinition) :=
  match AsResourceType td.Type with
  | none => .error (.errorf "%q was not a resource, instead %T" [.typeName td.Name])
  | some resource =>
    match transformSpec c resource with
    | .error err => .error err
    | .ok specDefinition =>
      match GetARMTypeDefinition x c.definitions specDefinition.Name with
      | .error err => .error err
      | .ok armSpecDefinition =>
        match addARMConversionInterface c specDefinition armSpecDefinition .TypeKindSpec with
        | .error err => .error err
        | .ok specDefinition => .ok (some specDefinition)

/-- `transformResourceSpecs` applies the conversion interface to all resource spec types; it also
adds the owner property. -/
def transformResourceSpecs (x : Externals) (c : armConversionApplier) : Result TypeDefinitionSet :=
  let resources := TypeDefinitionSet.Where c.definitions (fun td => (AsResourceType td.Type).isSome)
  forEachAdd (transformResourceSpecsBody x c) resources []

/-- The body of the loop of `transformResourceStatuses` (lines 106-121 of the source). -/
def transformResourceStatusesBody (x : Externals) (c : armConversionApplier)
    (td : TypeDefinition) : Result (Option TypeDefinition) :=
  match IgnoringErrors td.Type with
  | none => .ok none
  | some _ =>
    match GetARMTypeDefinition x c.definitions td.Name with
    | .error err => .error err
    | .ok armStatusDefinition =>
      match addARMConversionInterface c td armStatusDefinition .TypeKindStatus with
      | .error err => .error err
      | .ok statusDefinition => .ok (some statusDefinition)

/-- The predicate selecting the status definitions (lines 98-103 of the source). -/
def isStatusDefinition (x : Externals) (d : TypeDefinition) : Bool :=
  (AsObjectType d.Type).isSome && x.IsStatus d.Name && !TypeFlag.ARMFlag.IsOn d.Type

/-- `transformResourceStatuses` applies the conversion interface to all resource status types. -/
def transformResourceStatuses (x : Externals) (c : armConversionApplier) :
    Result TypeDefinitionSet :=
  let statusDefs := TypeDefinitionSet.Where c.definitions (isStatusDefinition x)
  forEachAdd (transformResourceStatusesBody x c) statusDefs []

/-- The body of the last loop of `transformTypes` (lines 150-169 of the source). -/
def transformTypesBody (x : Externals) (c : armConversionApplier) (td : TypeDefinition) :
    Result (Option TypeDefinition) :=
  let isObjectType := (AsObjectType td.Type).isSome
  let hasARMFlag := TypeFlag.ARMFlag.IsOn td.Type
  let requiresARMType := x.requiresARMType td
  if !isObjectType || hasARMFlag || !requiresARMType then
    .ok (some td)
  else
    match GetARMTypeDefinition x c.definitions td.Name with
    | .error err => .error err
    | .ok armDefinition =>
      match addARMConversionInterface c td armDefinition .TypeKindOrdinary with
      | .error err =>
        .error (.wrapf err "failed to add ARM conversion interface to %q" [.typeName td.Name])
      | .ok modifiedDef => .ok (some modifiedDef)

/-- `transformTypes` adds the required ARM conversion information to all applicable types; if a
type doesn't need any modification, it is returned unmodified. -/
def transformTypes (x : Externals) (c : armConversionApplier) : Result TypeDefinitionSet :=
  match transformResourceSpecs x c with
  | .error err => .error err
  | .ok specs =>
    match TypeDefinitionSet.AddTypes [] specs with
    | .error err => .error err
    | .ok result =>
      match transformResourceStatuses x c with
      | .error err => .error err
      | .ok statuses =>
        match TypeDefinitionSet.AddTypes result statuses with
        | .error err => .error err
        | .ok result =>
          let otherDefs := TypeDefinitionSet.Except c.definitions result
          forEachAdd (transformTypesBody x c) otherDefs result

/-! ## Auxiliary definitions and example inputs -/

/-- The type obtained by putting another object in the place of the object a type wraps. -/
def replaceObject (o : ObjectType) : AType → AType
  | .object _ => .object o
  | .optional e => .optional (replaceObject o e)
  | .flagged e flags => .flagged (replaceObject o e) flags
  | t => t

/-- The number of properties of an object that have the given name. -/
def ObjectType.countProperty (t : ObjectType) (name : String) : Nat :=
  (t.properties.filter (fun p => decide (p.propertyName = name))).length

/-- The object `remapProperties` yields; it never fails. -/
def remapped (t : ObjectType) : ObjectType :=
  match remapProperties t with
  | .ok t1 => t1
  | .error _ => t

/-- The object `injectOwnerProperty` yields; it never fails. -/
def withOwner (resourceType : ResourceType) (t : ObjectType) : ObjectType :=
  match injectOwnerProperty resourceType t with
  | .ok t1 => t1
  | .error _ => t

/-- The type of `AzureName` for a given type of `Name`: one outer `Optional` is removed. -/
def promotedNameType : AType → AType
  | .optional element => element
  | other => other

/-- The definition with the capability attached to the object it wraps; a definition that wraps
no object is left as it is. -/
def withCapability (iface : InterfaceImplementation) (d : TypeDefinition) : TypeDefinition :=
  match AsObjectType d.type with
  | some ko => d.WithType (replaceObject (ObjectType.WithInterface ko iface) d.type)
  | none => d

/-- The definition `transformSpec` yields for a resource whose spec resolves to the given
definition; a definition that wraps no object is left as it is. -/
def specTransformed (resourceType : ResourceType) (sd : TypeDefinition) : TypeDefinition :=
  match AsObjectType sd.type with
  | some o => sd.WithType (replaceObject (withOwner resourceType (remapped o)) sd.type)
  | none => sd

/-- Whether some resource of the set names the given type as its spec. -/
def TypeDefinitionSet.isResourceSpec (set : TypeDefinitionSet) (name : InternalTypeName) : Bool :=
  set.any (fun rd =>
    match AsResourceType rd.type with
    | some r => decide (r.specType = name)
    | none => false)

/-- Where a definition of the result of a run comes from: it is the transformed spec of a
resource, a transformed status, a definition of the input left as it was, or an object of the
input with the capability of kind `Ordinary`. -/
inductive Origin (x : Externals) (c : armConversionApplier) (d : TypeDefinition) : Prop where
  | spec (rd sd A : TypeDefinition) (r : ResourceType) (p : PayloadType)
      (hrd : rd ∈ c.definitions) (hr : AsResourceType rd.type = some r)
      (hspec : TypeDefinitionSet.Lookup c.definitions r.specType = some sd)
      (hobj : (AsObjectType sd.type).isSome = true)
      (harm : TypeDefinitionSet.Lookup c.definitions (x.CreateARMTypeName r.specType) = some A)
      (hao : (AsObjectType A.type).isSome = true)
      (hp : lookupPayloadType c sd = .ok p)
      (hd : d = withCapability (.armConversion A.name .TypeKindSpec p) (specTransformed r sd))
      (hns : isStatusDefinition x d = false) : Origin x c d
  | status (td A : TypeDefinition) (p : PayloadType)
      (htd : td ∈ c.definitions) (hst : isStatusDefinition x td = true)
      (harm : TypeDefinitionSet.Lookup c.definitions (x.CreateARMTypeName td.name) = some A)
      (hao : (AsObjectType A.type).isSome = true)
      (hp : lookupPayloadType c td = .ok p)
      (hd : d = withCapability (.armConversion A.name .TypeKindStatus p) td) : Origin x c d
  | unchanged (htd : d ∈ c.definitions) (hst : isStatusDefinition x d = false)
      (hcond : (AsObjectType d.type).isSome = false ∨ TypeFlag.ARMFlag.IsOn d.type = true ∨
        x.requiresARMType d = false) : Origin x c d
  | ordinary (td A : TypeDefinition) (p : PayloadType)
      (htd : td ∈ c.definitions) (hst : isStatusDefinition x td = false)
      (hobj : (AsObjectType td.type).isSome = true)
      (hflag : TypeFlag.ARMFlag.IsOn td.type = false)
      (harm : TypeDefinitionSet.Lookup c.definitions (x.CreateARMTypeName td.name) = some A)
      (hao : (AsObjectType A.type).isSome = true)
      (hp : lookupPayloadType c td = .ok p)
      (hd : d = withCapability (.armConversion A.name .TypeKindOrdinary p) td) : Origin x c d

/-- An example of the collaborators: the twin of a name has the suffix `_ARM`, a status name ends
in `_STATUS`, and every definition requires a twin. -/
def exampleExternals : Externals :=
  { CreateARMTypeName := fun n => { n with name := n.name ++ "_ARM" },
    IsStatus := fun n => "_STATUS".toList.isSuffixOf n.name.toList,
    requiresARMType := fun _ => true }

/-- A configuration in which no payload type is configured. -/
def unconfigured : ObjectModelConfiguration :=
  { PayloadTypeLookup := fun _ => .error (.notConfigured "no payload type configured" []) }

/-- A configuration whose payload type lookup fails for another reason. -/
def malformed : ObjectModelConfiguration :=
  { PayloadTypeLookup := fun _ => .error (.errorf "malformed payload type" []) }

/-- A configuration in which every package preserves empty collections. -/
def explicitCollections : ObjectModelConfiguration :=
  { PayloadTypeLookup := fun _ => .ok .ExplicitEmptyCollections }

/-- The package of the scenario of the spec. -/
def apimanagement : PackageReference := { group := "apimanagement", version := "v1api20220801" }

/-- A name in the package of the scenario. -/
def apiName (name : String) : InternalTypeName := { pkg := apimanagement, name := name }

/-- A property with a name and a type and nothing else. -/
def plainProperty (name : String) (t : AType) : PropertyDefinition :=
  NewPropertyDefinition name (CreateIdentifier name .NotExported) t

/-- The object of `Service_NamedValue_Spec` before the stage: `Name: *string` and a value. -/
def namedValueSpecObject : ObjectType :=
  { properties := [plainProperty "Name" (.optional StringType),
      plainProperty "Value" (.optional StringType)],
    interfaces := [], validations := [] }

/-- The definition of `Service_NamedValue_Spec` before the stage. -/
def namedValueSpec : TypeDefinition :=
  { name := apiName "Service_NamedValue_Spec", type := .object namedValueSpecObject,
    description := none }

/-- The object of the wire-shaped twins of the scenario. -/
def wireObject : ObjectType :=
  { properties := [plainProperty "Name" StringType], interfaces := [], validations := [] }

/-- The wire-shaped twin of `Service_NamedValue_Spec`. -/
def namedValueSpecARM : TypeDefinition :=
  { name := apiName "Service_NamedValue_Spec_ARM",
    type := .flagged (.object wireObject) [.ARMFlag],
    description := none }

/-- The object of `Service_NamedValue_STATUS`, which has a `Name` property. -/
def namedValueStatusObject : ObjectType :=
  { properties := [plainProperty "Name" (.optional StringType)], interfaces := [],
    validations := [] }

/-- The definition of `Service_NamedValue_STATUS` before the stage. -/
def namedValueStatus : TypeDefinition :=
  { name := apiName "Service_NamedValue_STATUS", type := .object namedValueStatusObject,
    description := none }

/-- The wire-shaped twin of `Service_NamedValue_STATUS`. -/
def namedValueStatusARM : TypeDefinition :=
  { name := apiName "Service_NamedValue_STATUS_ARM",
    type := .flagged (.object wireObject) [.ARMFlag],
    description := none }

/-- The resource `NamedValue`: scoped to a resource group and owned by `Service`. -/
def namedValueResourceType : ResourceType :=
  { specType := apiName "Service_NamedValue_Spec", statusType := apiName "Service_NamedValue_STATUS",
    owner := apiName "Service", scope := .ResourceGroup,
    operations := [.Delete, .Get, .Head, .Put] }

/-- The definition of the resource `NamedValue`. -/
def namedValue : TypeDefinition :=
  { name := apiName "NamedValue", type := .resource namedValueResourceType, description := none }

/-- The definition set of the scenario of the spec. -/
def namedValueDefinitions : TypeDefinitionSet :=
  [namedValue, namedValueSpec, namedValueSpecARM, namedValueStatus, namedValueStatusARM]

/-- The stage on the scenario of the spec, nothing being configured. -/
def namedValueApplier : armConversionApplier :=
  { definitions := namedValueDefinitions, config := unconfigured }

/-- An extension resource with the spec of the scenario. -/
def extensionResourceType : ResourceType :=
  { namedValueResourceType with owner := EmptyInternalTypeName, scope := .Extension }

/-- The object of `KeyVaultContractCreateProperties`, an object that is neither spec nor status. -/
def keyVaultObject : ObjectType :=
  { properties := [plainProperty "SecretIdentifier" (.optional StringType)],
    interfaces := [.other "Stringer"], validations := [] }

/-- The definition of `KeyVaultContractCreateProperties` before the stage. -/
def keyVault : TypeDefinition :=
  { name := apiName "KeyVaultContractCreateProperties", type := .object keyVaultObject,
    description := some "Create keyVault contract details." }

/-- The wire-shaped twin of `KeyVaultContractCreateProperties`. -/
def keyVaultARM : TypeDefinition :=
  { name := apiName "KeyVaultContractCreateProperties_ARM",
    type := .flagged (.object wireObject) [.ARMFlag], description := none }

/-- An enumeration, which is not an object type. -/
def apiVersion : TypeDefinition :=
  { name := apiName "APIVersion", type := .enum "string" ["2022-08-01"], description := none }

/-- The scenario of the spec with an ordinary object, its twin and an enumeration. -/
def fullDefinitions : TypeDefinitionSet :=
  [namedValue, namedValueSpec, namedValueSpecARM, namedValueStatus, namedValueStatusARM,
    keyVault, keyVaultARM, apiVersion]

/-- The stage on the full scenario, nothing being configured. -/
def fullApplier : armConversionApplier :=
  { definitions := fullDefinitions, config := unconfigured }

/-! ## Enumeration orders

The source ranges over Go maps, whose order of enumeration is not fixed. The stage with the five
enumerations made explicit: the resources, the transformed specs added to the result, the
status definitions, the transformed statuses added to the result, and the other definitions. -/

/-- The order in which each `range` of the stage enumerates its map: a rearrangement of the
definitions of the map. -/
structure Enumeration where
  resources : List TypeDefinition → List TypeDefinition
  specs : List TypeDefinition → List TypeDefinition
  statusDefs : List TypeDefinition → List TypeDefinition
  statuses : List TypeDefinition → List TypeDefinition
  otherDefs : List TypeDefinition → List TypeDefinition

/-- An enumeration visits every definition of the map once: it permutes the definitions. -/
def Enumeration.Valid (e : Enumeration) : Prop :=
  (∀ l, (e.resources l).Perm l) ∧ (∀ l, (e.specs l).Perm l) ∧ (∀ l, (e.statusDefs l).Perm l) ∧
    (∀ l, (e.statuses l).Perm l) ∧ (∀ l, (e.otherDefs l).Perm l)

/-- The enumeration in the order of the list. -/
def Enumeration.inOrder : Enumeration :=
  { resources := id, specs := id, statusDefs := id, statuses := id, otherDefs := id }

/-- The enumeration in the opposite order. -/
def Enumeration.reversed : Enumeration :=
  { resources := List.reverse, specs := List.reverse, statusDefs := List.reverse,
    statuses := List.reverse, otherDefs := List.reverse }

/-- `transformResourceSpecs`, the resources being enumerated in the given order. -/
def transformResourceSpecsIn (e : Enumeration) (x : Externals) (c : armConversionApplier) :
    Result TypeDefinitionSet :=
  let resources := TypeDefinitionSet.Where c.definitions (fun td => (AsResourceType td.Type).isSome)
  forEachAdd (transformResourceSpecsBody x c) (e.resources resources) []

/-- `transformResourceStatuses`, the status definitions being enumerated in the given order. -/
def transformResourceStatusesIn (e : Enumeration) (x : Externals) (c : armConversionApplier) :
    Result TypeDefinitionSet :=
  let statusDefs := TypeDefinitionSet.Where c.definitions (isStatusDefinition x)
  forEachAdd (transformResourceStatusesBody x c) (e.statusDefs statusDefs) []

/-- `transformTypes`, every map being enumerated in the given order. -/
def transformTypesIn (e : Enumeration) (x : Externals) (c : armConversionApplier) :
    Result TypeDefinitionSet :=
  match transformResourceSpecsIn e x c with
  | .error err => .error err
  | .ok specs =>
    match TypeDefinitionSet.AddTypes [] (e.specs specs) with
    | .error err => .error err
    | .ok result =>
      match transformResourceStatusesIn e x c with
      | .error err => .error err
      | .ok statuses =>
        match TypeDefinitionSet.AddTypes result (e.statuses statuses) with
        | .error err => .error err
        | .ok result =>
          let otherDefs := TypeDefinitionSet.Except c.definitions result
          forEachAdd (transformTypesBody x c) (e.otherDefs otherDefs) result

/-! ## The name of the twin -/

/-- Modelled from the spec: the suffix of the "fixed suffix/prefix transform" that derives the
name of the wire-shaped twin. -/
def ARMSuffix : String := "_ARM"

/-- Modelled from the spec: `astmodel.CreateARMTypeName` is not among the sources; "wire name =
typed name with a fixed suffix/prefix transform applied", the package being kept. -/
def CreateARMTypeName (name : InternalTypeName) : InternalTypeName :=
  { pkg := name.InternalPackageReference, name := name.Name ++ ARMSuffix }

/-! ## Conversions of the generated storage types

The methods `ConvertSpecFrom`, `ConvertSpecTo`, `ConvertStatusFrom` and `ConvertStatusTo` of
`named_value_types_gen.go` and `flexible_servers_database_types_gen.go`. A method either returns
or hands over to a method of its argument; the memory is passed through to show what a method
writes. -/

/-- The dynamic type of a value behind an interface: one of the four generated storage types, or
an implementation that is not among the sources. -/
inductive GoType where
  | Service_NamedValue_Spec
  | Service_NamedValue_STATUS
  | FlexibleServersDatabases_Spec
  | Database_Status
  | foreign (name : String)
deriving DecidableEq, Repr

/-- A non-nil interface value holding a pointer: the dynamic type and the address. Two interface
values are `==` when both parts are equal. -/
structure Ref where
  typ : GoType
  addr : Nat
deriving DecidableEq, Repr

/-- The conversion methods of `genruntime.ConvertibleSpec` and `genruntime.ConvertibleStatus`. -/
inductive Method where
  | ConvertSpecFrom
  | ConvertSpecTo
  | ConvertStatusFrom
  | ConvertStatusTo
deriving DecidableEq, Repr

/-- What a conversion method does: it returns (nil or an error), or it returns what a method of
another value returns, or it panics on a nil interface. -/
inductive Step where
  | returns (err : Option Error)
  | calls (method : Method) (receiver : Ref) (argument : Ref)
  | panics
deriving DecidableEq, Repr

/-- The error of the conversion methods of a spec (`errors.New`). -/
def unrelatedSpecError : Error :=
  .errorf ("attempted conversion between unrelated implementations of " ++
    "github.com/Azure/azure-service-operator/v2/pkg/genruntime/ConvertibleSpec") []

/-- The error of the conversion methods of a status (`errors.New`). -/
def unrelatedStatusError : Error :=
  .errorf ("attempted conversion between unrelated implementations of " ++
    "github.com/Azure/azure-service-operator/v2/pkg/genruntime/ConvertibleStatus") []

/-- `ConvertSpecFrom` populates our `Service_NamedValue_Spec` from the provided source. -/
def Service_NamedValue_Spec.ConvertSpecFrom {Memory : Type} (memory : Memory) (value : Nat)
    (source : Option Ref) : Memory × Step :=
  if source = some { typ := .Service_NamedValue_Spec, addr := value } then
    (memory, .returns (some unrelatedSpecError))
  else
    match source with
    | none => (memory, .panics)
    | some s => (memory, .calls .ConvertSpecTo s { typ := .Service_NamedValue_Spec, addr := value })

/-- `ConvertSpecTo` populates the provided destination from our `Service_NamedValue_Spec`. -/
def Service_NamedValue_Spec.ConvertSpecTo {Memory : Type} (memory : Memory) (value : Nat)
    (destination : Option Ref) : Memory × Step :=
  if destination = some { typ := .Service_NamedValue_Spec, addr := value } then
    (memory, .returns (some unrelatedSpecError))
  else
    match destination with
    | none => (memory, .panics)
    | some d =>
      (memory, .calls .ConvertSpecFrom d { typ := .Service_NamedValue_Spec, addr := value })

/-- `ConvertStatusFrom` populates our `Service_NamedValue_STATUS` from the provided source. -/
def Service_NamedValue_STATUS.ConvertStatusFrom {Memory : Type} (memory : Memory) (value : Nat)
    (source : Option Ref) : Memory × Step :=
  if source = some { typ := .Service_NamedValue_STATUS, addr := value } then
    (memory, .returns (some unrelatedStatusError))
  else
    match source with
    | none => (memory, .panics)
    | some s =>
      (memory, .calls .ConvertStatusTo s { typ := .Service_NamedValue_STATUS, addr := value })

/-- `ConvertStatusTo` populates the provided destination from our `Service_NamedValue_STATUS`. -/
def Service_NamedValue_STATUS.ConvertStatusTo {Memory : Type} (memory : Memory) (value : Nat)
    (destination : Option Ref) : Memory × Step :=
  if destination = some { typ := .Service_NamedValue_STATUS, addr := value } then
    (memory, .returns (some unrelatedStatusError))
  else
    match destination with
    | none => (memory, .panics)
    | some d =>
      (memory, .calls .ConvertStatusFrom d { typ := .Service_NamedValue_STATUS, addr := value })

/-- `ConvertStatusFrom` populates our `Database_Status` from the provided source. -/
def Database_Status.ConvertStatusFrom {Memory : Type} (memory : Memory) (database : Nat)
    (source : Option Ref) : Memory × Step :=
  if source = some { typ := .Database_Status, addr := database } then
    (memory, .returns (some unrelatedStatusError))
  else
    match source with
    | none => (memory, .panics)
    | some s => (memory, .calls .ConvertStatusTo s { typ := .Database_Status, addr := database })

/-- `ConvertStatusTo` populates the provided destination from our `Database_Status`. -/
def Database_Status.ConvertStatusTo {Memory : Type} (memory : Memory) (database : Nat)
    (destination : Option Ref) : Memory × Step :=
  if destination = some { typ := .Database_Status, addr := database } then
    (memory, .returns (some unrelatedStatusError))
  else
    match destination with
    | none => (memory, .panics)
    | some d =>
      (memory, .calls .ConvertStatusFrom d { typ := .Database_Status, addr := database })

/-- `ConvertSpecFrom` populates our `FlexibleServersDatabases_Spec` from the provided source. -/
def FlexibleServersDatabases_Spec.ConvertSpecFrom {Memory : Type} (memory : Memory)
    (databases : Nat) (source : Option Ref) : Memory × Step :=
  if source = some { typ := .FlexibleServersDatabases_Spec, addr := databases } then
    (memory, .returns (some unrelatedSpecError))
  else
    match source with
    | none => (memory, .panics)
    | some s =>
      (memory, .calls .ConvertSpecTo s { typ := .FlexibleServersDatabases_Spec, addr := databases })

/-- `ConvertSpecTo` populates the provided destination from our
`FlexibleServersDatabases_Spec`. -/
def FlexibleServersDatabases_Spec.ConvertSpecTo {Memory : Type} (memory : Memory)
    (databases : Nat) (destination : Option Ref) : Memory × Step :=
  if destination = some { typ := .FlexibleServersDatabases_Spec, addr := databases } then
    (memory, .returns (some unrelatedSpecError))
  else
    match destination with
    | none => (memory, .panics)
    | some d =>
      (memory,
        .calls .ConvertSpecFrom d { typ := .FlexibleServersDatabases_Spec, addr := databases })

/-! ## Strings (`strings` of the Go library) -/

/-- `strings.ToLower`: the string with its letters in lower case. The letters mapped are the
ASCII letters, the alphabet of directive and property names; every other character is kept. -/
def ToLower (s : String) : String := String.mk (s.toList.map Char.toLower)

/-- The long s, U+017F: the one character outside ASCII that folds with `S` and `s`. -/
def longS : Char := Char.ofNat 0x17F

/-- The Kelvin sign, U+212A: the one character outside ASCII that folds with `K` and `k`. -/
def kelvinSign : Char := Char.ofNat 0x212A

/-- The small letter that stands for a character under the simple case folding of Unicode.
`unicode.SimpleFold` of the Go library walks, in a cycle, the characters that fold together. The
cycles that hold an ASCII character are those of the 26 letters: a capital and its small letter,
and one more character in two of them, `K`, `k` and the Kelvin sign U+212A, and `S`, `s` and the
long s U+017F. Every character of such a cycle is sent to its small ASCII letter; every other
character is kept. -/
def foldRune (c : Char) : Char :=
  if c = longS then 's' else if c = kelvinSign then 'k' else c.toLower

/-- `strings.EqualFold` of the Go library: whether two strings are equal under the simple case
folding of Unicode, that is, have as many characters and, place by place, characters that fold
together. The comparison is the one of the library whenever one of the two strings is ASCII, as
the directive tags are at every call in `UnmarshalYAML`: a character then folds with the ASCII
character at its place exactly when `foldRune` sends both to one letter, which for the keys
includes `ſ` for `s` and the Kelvin sign for `k`. Two characters outside ASCII are compared as
written. -/
def EqualFold (s t : String) : Bool :=
  decide (s.toList.map foldRune = t.toList.map foldRune)

/-- `strings.HasPrefix`: whether the string starts with the given characters. -/
def startsWith (s start : String) : Bool := start.toList.isPrefixOf s.toList

/-! ## YAML nodes (`gopkg.in/yaml.v3`) -/

/-- The kind of a YAML node (`yaml.Kind`). -/
inductive yaml.Kind where
  | DocumentNode
  | SequenceNode
  | MappingNode
  | ScalarNode
  | AliasNode
deriving DecidableEq, Repr

/-- A YAML node (`yaml.Node`), with the fields the configuration reads: kind, value, content,
line and column. -/
inductive yaml.Node where
  | mk (kind : yaml.Kind) (value : String) (content : List yaml.Node) (line column : Nat)

/-- The field `Kind` of a node. -/
def yaml.Node.Kind : yaml.Node → yaml.Kind
  | .mk kind _ _ _ _ => kind

/-- The field `Value` of a node. -/
def yaml.Node.Value : yaml.Node → String
  | .mk _ value _ _ _ => value

/-- The field `Content` of a node. -/
def yaml.Node.Content : yaml.Node → List yaml.Node
  | .mk _ _ content _ _ => content

/-- The field `Line` of a node. -/
def yaml.Node.Line : yaml.Node → Nat
  | .mk _ _ _ line _ => line

/-- The field `Column` of a node. -/
def yaml.Node.Column : yaml.Node → Nat
  | .mk _ _ _ _ column => column

/-- A scalar node. -/
def yaml.scalar (value : String) (line column : Nat) : yaml.Node :=
  .mk .ScalarNode value [] line column

/-- A mapping node; its content alternates keys and values. -/
def yaml.mapping (content : List yaml.Node) (line column : Nat) : yaml.Node :=
  .mk .MappingNode "" content line column

/-- A sequence node. -/
def yaml.sequence (content : List yaml.Node) (line column : Nat) : yaml.Node :=
  .mk .SequenceNode "" content line column

/-! ## The configuration of a type (`type_configuration.go`) -/

/-- A Go map with string keys, as the list of its entries; a key occurs once. -/
abbrev GoMap (α : Type) := List (String × α)

/-- The value a map holds under a key (`m[key]` with the `ok` flag). -/
def GoMap.get {α : Type} (m : GoMap α) (key : String) : Option α :=
  (m.find? (fun kv => decide (kv.1 = key))).map (fun kv => kv.2)

/-- The map after `m[key] = value`. -/
def GoMap.set {α : Type} (m : GoMap α) (key : String) (value : α) : GoMap α :=
  m.filter (fun kv => decide (kv.1 ≠ key)) ++ [(key, value)]

/-- Modelled from the spec: a configurable value, "a value cell holding `(directive-name,
optional value, consumed flag)`", with the scope it belongs to; its code is not among the
sources. -/
structure configurable (α : Type) where
  tag : String
  scope : String
  value : Option α
  consumed : Bool
deriving DecidableEq, Repr

/-- Modelled from the spec: a new cell for a directive, without a value and not consumed. -/
def makeConfigurable {α : Type} (tag scope : String) : configurable α :=
  { tag := tag, scope := scope, value := none, consumed := false }

/-- Modelled from the spec: `Set` stores a value in the cell. -/
def configurable.Set {α : Type} (c : configurable α) (v : α) : configurable α :=
  { c with value := some v }

/-- Modelled from the spec: the typo advisor of `internal/util/typo` is not among the sources;
it holds the "typo-advisor term set". -/
structure typo.Advisor where
  terms : List String
deriving DecidableEq, Repr

/-- Modelled from the spec: a new advisor has no term. -/
def typo.NewAdvisor : typo.Advisor := { terms := [] }

/-- Modelled from the spec: `AddTerm` records a term in the set of terms. -/
def typo.Advisor.AddTerm (a : typo.Advisor) (term : String) : typo.Advisor :=
  if term ∈ a.terms then a else { terms := a.terms ++ [term] }

/-- Modelled from the spec: the configuration of a property is not among the sources; it has
the name of the property as written and the settings decoded for it. -/
structure PropertyConfiguration where
  name : String
  settings : List (String × String)
deriving DecidableEq, Repr

/-- Modelled from the spec: a new configuration of a property has its name and no setting. -/
def NewPropertyConfiguration (name : String) : PropertyConfiguration :=
  { name := name, settings := [] }

/-- The decoding of YAML values that is not among the sources, taken as parameters: `Decode`
of the YAML library into a `bool` and into a `string`, and the decoding of the settings of a
property configuration (its `UnmarshalYAML`), which leaves the name of the configuration. -/
structure yaml.Decoder where
  DecodeBool : yaml.Node → Result Bool
  DecodeString : yaml.Node → Result String
  DecodeProperty : yaml.Node → Result (List (String × String))

/-- `c.Decode(p)` for a property configuration `p`. -/
def PropertyConfiguration.Decode (dec : yaml.Decoder) (p : PropertyConfiguration)
    (c : yaml.Node) : Result PropertyConfiguration :=
  match dec.DecodeProperty c with
  | .error err => .error err
  | .ok settings => .ok { p with settings := settings }

/-- `TypeConfiguration` contains additional information about a specific kind of resource within
a version of a group. -/
structure TypeConfiguration where
  name : String
  properties : GoMap PropertyConfiguration
  advisor : typo.Advisor
  AzureGeneratedSecrets : configurable (List String)
  DefaultAzureName : configurable Bool
  Export : configurable Bool
  ExportAs : configurable String
  GeneratedConfigs : configurable (GoMap String)
  Importable : configurable Bool
  IsResource : configurable Bool
  ManualConfigs : configurable (List String)
  NameInNextVersion : configurable String
  RenameTo : configurable String
  ResourceEmbeddedInParent : configurable String
  SupportedFrom : configurable String
deriving DecidableEq, Repr

/-- A set of strings specifying which secrets are generated by Azure. -/
def azureGeneratedSecretsTag : String := "$azureGeneratedSecrets"

/-- A map of strings specifying which spec or status properties should be exported to
configmap. -/
def generatedConfigsTag : String := "$generatedConfigs"

/-- A set of strings specifying which config map fields should be generated. -/
def manualConfigsTag : String := "$manualConfigs"

/-- Boolean specifying whether a resource type is exported. -/
def exportTag : String := "$export"

/-- String specifying the name to use for a type. -/
def exportAsTag : String := "$exportAs"

/-- Boolean specifying whether a resource type is importable. -/
def importableTag : String := "$importable"

/-- Boolean specifying whether a particular type is a resource or not. -/
def isResourceTag : String := "$isResource"

/-- String specifying a type or property name change in the next version. -/
def nameInNextVersionTag : String := "$nameInNextVersion"

/-- Label specifying the first release supporting the resource. -/
def supportedFromTag : String := "$supportedFrom"

/-- String specifying the new name of a type. -/
def renameTo : String := "$renameTo"

/-- String specifying resource name of parent. -/
def resourceEmbeddedInParentTag : String := "$resourceEmbeddedInParent"

/-- Boolean indicating if the resource should automatically default `AzureName`. -/
def defaultAzureNameTag : String := "$defaultAzureName"

/-- `NewTypeConfiguration` of the source. -/
def NewTypeConfiguration (name : String) : TypeConfiguration :=
  let scope := "type " ++ name
  { name := name,
    properties := [],
    advisor := typo.NewAdvisor,
    AzureGeneratedSecrets := makeConfigurable azureGeneratedSecretsTag scope,
    DefaultAzureName := makeConfigurable defaultAzureNameTag scope,
    Export := makeConfigurable exportTag scope,
    ExportAs := makeConfigurable exportAsTag scope,
    Importable := makeConfigurable importableTag scope,
    IsResource := makeConfigurable isResourceTag scope,
    GeneratedConfigs := makeConfigurable generatedConfigsTag scope,
    ManualConfigs := makeConfigurable manualConfigsTag scope,
    NameInNextVersion := makeConfigurable nameInNextVersionTag scope,
    RenameTo := makeConfigurable renameTo scope,
    ResourceEmbeddedInParent := makeConfigurable resourceEmbeddedInParentTag scope,
    SupportedFrom := makeConfigurable supportedFromTag scope }

/-- `addProperty` includes configuration for the specified property as a part of this type
configuration, indexed by the lower-case name of the property. -/
def TypeConfiguration.addProperty (tc : TypeConfiguration) (name : String)
    (property : PropertyConfiguration) : TypeConfiguration :=
  { tc with properties := GoMap.set tc.properties (ToLower name) property }

/-- `configuredProperties` of the source: the names of the properties configured on this type,
in the order the map is enumerated. -/
def TypeConfiguration.configuredProperties (tc : TypeConfiguration) : List String :=
  tc.properties.map (fun kv => kv.2.name)

/-- Modelled from the spec: the constructor of the not-configured error, with its message and no
option. -/
def NewNotConfiguredError (message : String) : Error := .notConfigured message []

/-- Modelled from the spec: `WithOptions` adds a named list of options to a not-configured
error. -/
def Error.WithOptions (e : Error) (name : String) (options : List String) : Error :=
  match e with
  | .notConfigured message given => .notConfigured message (given ++ [(name, options)])
  | other => other

/-- `findProperty` uses the provided property name to work out which nested
`PropertyConfiguration` should be used; it returns the configuration with the term recorded,
and either the requested property configuration or an error saying that it couldn't be found. -/
def TypeConfiguration.findProperty (tc : TypeConfiguration) (property : String) :
    TypeConfiguration × Result PropertyConfiguration :=
  let tc := { tc with advisor := tc.advisor.AddTerm property }
  let p := ToLower property
  match GoMap.get tc.properties p with
  | some pc => (tc, .ok pc)
  | none =>
    let msg := "configuration of type " ++ tc.name ++ " has no detail for property " ++ property
    (tc, .error ((NewNotConfiguredError msg).WithOptions "properties" tc.configuredProperties))

/-- The loop over the content of a `$generatedConfigs` mapping (lines 163-189 of the source):
`idx` counts the nodes, `key` is the last key seen. -/
def generatedConfigsEntries :
    List yaml.Node → Nat → String → GoMap String → Result (GoMap String)
  | [], _, _, azureGeneratedConfigs => .ok azureGeneratedConfigs
  | content :: rest, idx, key, azureGeneratedConfigs =>
    if content.Kind = .ScalarNode then
      let val := content.Value
      let key := if idx % 2 = 0 then val else key
      if idx % 2 = 1 then
        if !startsWith val "$." then
          .error (.errorf "%s entry %q must begin with $." [.text generatedConfigsTag, .text val])
        else
          generatedConfigsEntries rest (idx + 1) key (GoMap.set azureGeneratedConfigs key val)
      else
        generatedConfigsEntries rest (idx + 1) key azureGeneratedConfigs
    else
      .error (.errorf "unexpected yam value for %s (line %d col %d)"
        [.text generatedConfigsTag, .index content.Line, .index content.Column])

/-- The loop over the elements of a sequence of scalars (lines 238-248 and 259-269 of the
source), for the directive with the given tag. -/
def scalarElements (tag : String) : List yaml.Node → List String → Result (List String)
  | [], values => .ok values
  | content :: rest, values =>
    if content.Kind = .ScalarNode then
      scalarElements tag rest (values ++ [content.Value])
    else
      .error (.errorf "unexpected yam value for %s (line %d col %d)"
        [.text tag, .index content.Line, .index content.Column])

/-- The handling of one value `c` of the mapping, `lastId` being its key (lines 160-343 of the
source): the configuration after it, and the error if it fails. In the handler of `$renameTo`
the local variable `renameTo` hides the constant of that name: what is stored is the string
decoded into the variable, and a failed decoding is wrapped with the content of the variable,
which is still empty. -/
def TypeConfiguration.unmarshalValue (dec : yaml.Decoder) (tc : TypeConfiguration)
    (lastId : String) (c : yaml.Node) : TypeConfiguration × Option Error :=
  if EqualFold lastId generatedConfigsTag && decide (c.Kind = .MappingNode) then
    match generatedConfigsEntries c.Content 0 "" [] with
    | .error err => (tc, some err)
    | .ok azureGeneratedConfigs =>
      ({ tc with GeneratedConfigs := tc.GeneratedConfigs.Set azureGeneratedConfigs }, none)
  else if c.Kind = .MappingNode then
    let p := NewPropertyConfiguration lastId
    match p.Decode dec c with
    | .error err => (tc, some (.wrapf err "decoding yaml for %q" [.text lastId]))
    | .ok p => (tc.addProperty lastId p, none)
  else if EqualFold lastId nameInNextVersionTag && decide (c.Kind = .ScalarNode) then
    ({ tc with NameInNextVersion := tc.NameInNextVersion.Set c.Value }, none)
  else if EqualFold lastId exportTag && decide (c.Kind = .ScalarNode) then
    match dec.DecodeBool c with
    | .error err => (tc, some (.wrapf err "decoding %s" [.text exportTag]))
    | .ok exported => ({ tc with Export := tc.Export.Set exported }, none)
  else if EqualFold lastId exportAsTag && decide (c.Kind = .ScalarNode) then
    ({ tc with ExportAs := tc.ExportAs.Set c.Value }, none)
  else if EqualFold lastId azureGeneratedSecretsTag && decide (c.Kind = .SequenceNode) then
    match scalarElements azureGeneratedSecretsTag c.Content [] with
    | .error err => (tc, some err)
    | .ok azureGeneratedSecrets =>
      ({ tc with AzureGeneratedSecrets := tc.AzureGeneratedSecrets.Set azureGeneratedSecrets },
        none)
  else if EqualFold lastId manualConfigsTag && decide (c.Kind = .SequenceNode) then
    match scalarElements manualConfigsTag c.Content [] with
    | .error err => (tc, some err)
    | .ok manualAzureGeneratedConfigs =>
      ({ tc with ManualConfigs := tc.ManualConfigs.Set manualAzureGeneratedConfigs }, none)
  else if EqualFold lastId supportedFromTag && decide (c.Kind = .ScalarNode) then
    ({ tc with SupportedFrom := tc.SupportedFrom.Set c.Value }, none)
  else if EqualFold lastId renameTo && decide (c.Kind = .ScalarNode) then
    match dec.DecodeString c with
    | .error err => (tc, some (.wrapf err "decoding %s" [.text ""]))
    | .ok renameTo => ({ tc with RenameTo := tc.RenameTo.Set renameTo }, none)
  else if EqualFold lastId resourceEmbeddedInParentTag && decide (c.Kind = .ScalarNode) then
    match dec.DecodeString c with
    | .error err => (tc, some (.wrapf err "decoding %s" [.text resourceEmbeddedInParentTag]))
    | .ok resourceEmbeddedInParent =>
      ({ tc with ResourceEmbeddedInParent :=
          tc.ResourceEmbeddedInParent.Set resourceEmbeddedInParent }, none)
  else if EqualFold lastId isResourceTag && decide (c.Kind = .ScalarNode) then
    match dec.DecodeBool c with
    | .error err => (tc, some (.wrapf err "decoding %s" [.text isResourceTag]))
    | .ok isResource => ({ tc with IsResource := tc.IsResource.Set isResource }, none)
  else if EqualFold lastId importableTag && decide (c.Kind = .ScalarNode) then
    match dec.DecodeBool c with
    | .error err => (tc, some (.wrapf err "decoding %s" [.text importableTag]))
    | .ok importable => ({ tc with Importable := tc.Importable.Set importable }, none)
  else if EqualFold lastId defaultAzureNameTag && decide (c.Kind = .ScalarNode) then
    match dec.DecodeBool c with
    | .error err => (tc, some (.wrapf err "decoding %s" [.text defaultAzureNameTag]))
    | .ok defaultAzureName =>
      ({ tc with DefaultAzureName := tc.DefaultAzureName.Set defaultAzureName }, none)
  else
    (tc, some (.errorf "type configuration, unexpected yaml value %s: %s (line %d col %d)"
      [.text lastId, .text c.Value, .index c.Line, .index c.Column]))

/-- The loop of `UnmarshalYAML` over the content of the mapping (lines 153-344 of the source):
a node at an even position is an identifier, the node after it is its value; the first failure
ends the loop. -/
def TypeConfiguration.unmarshalContent (dec : yaml.Decoder) :
    List yaml.Node → Nat → String → TypeConfiguration → TypeConfiguration × Option Error
  | [], _, _, tc => (tc, none)
  | c :: rest, i, lastId, tc =>
    if i % 2 = 0 then
      TypeConfiguration.unmarshalContent dec rest (i + 1) c.Value tc
    else
      match tc.unmarshalValue dec lastId c with
      | (tc, some err) => (tc, some err)
      | (tc, none) => TypeConfiguration.unmarshalContent dec rest (i + 1) lastId tc

/-- `UnmarshalYAML` populates our instance from the YAML: the configuration after the call, and
the error returned, if any. -/
def TypeConfiguration.UnmarshalYAML (dec : yaml.Decoder) (tc : TypeConfiguration)
    (value : yaml.Node) : TypeConfiguration × Option Error :=
  if value.Kind ≠ .MappingNode then
    (tc, some (.errorf "expected mapping" []))
  else
    let tc := { tc with properties := [] }
    TypeConfiguration.unmarshalContent dec value.Content 0 "" tc

/-! ## Auxiliary definitions for the configuration of a type -/

/-- The entries of a mapping: the nodes of its content taken two by two, key then value; a last
node without a value is no entry. -/
def yaml.pairs : List yaml.Node → List (yaml.Node × yaml.Node)
  | k :: v :: rest => (k, v) :: yaml.pairs rest
  | _ => []

/-- The loop of `UnmarshalYAML` seen entry by entry: every value is handled under its key, and
the first failure ends the loop. -/
def TypeConfiguration.unmarshalEntries (dec : yaml.Decoder) :
    List (yaml.Node × yaml.Node) → TypeConfiguration → TypeConfiguration × Option Error
  | [], tc => (tc, none)
  | (k, v) :: rest, tc =>
    match tc.unmarshalValue dec k.Value v with
    | (tc, some err) => (tc, some err)
    | (tc, none) => TypeConfiguration.unmarshalEntries dec rest tc

/-- The twelve directives of a type configuration. -/
def directiveTags : List String :=
  [azureGeneratedSecretsTag, generatedConfigsTag, manualConfigsTag, exportTag, exportAsTag,
    importableTag, isResourceTag, nameInNextVersionTag, supportedFromTag, renameTo,
    resourceEmbeddedInParentTag, defaultAzureNameTag]

/-- The key-to-value pairs of the entries of a mapping. -/
def yaml.keyValues (entries : List (yaml.Node × yaml.Node)) : List (String × String) :=
  entries.map (fun kv => (kv.1.Value, kv.2.Value))

/-- The value a mapping gives to a key: the value of the last entry with that key. -/
def lastValue (entries : List (String × String)) (key : String) : Option String :=
  (entries.reverse.find? (fun kv => decide (kv.1 = key))).map (fun kv => kv.2)

/-- Whether an error carries a value: the value is substituted into its message or into the
message of one of its causes. -/
def Error.carries (a : ErrorArg) : Error → Bool
  | .errorf _ args => args.contains a
  | .wrapf cause _ args => args.contains a || Error.carries a cause
  | .notConfigured _ _ => false

/-- The settings an example decoder reads off a property: the scalar entries of its mapping. -/
def exampleSettings (c : yaml.Node) : List (String × String) :=
  yaml.keyValues ((yaml.pairs c.Content).filter (fun kv => decide (kv.2.Kind = .ScalarNode)))

/-- An example of the decoding: `true` and `false` are the booleans, a string is the value of
the node, and the settings of a property are its scalar entries. -/
def exampleDecoder : yaml.Decoder :=
  { DecodeBool := fun c =>
      if c.Value = "true" then .ok true
      else if c.Value = "false" then .ok false
      else .error (.errorf "line %d: cannot unmarshal %s into bool"
        [.index c.Line, .text c.Value]),
    DecodeString := fun c => .ok c.Value,
    DecodeProperty := fun c => .ok (exampleSettings c) }

/-- The type configuration the examples start from. -/
def exampleType : TypeConfiguration := NewTypeConfiguration "NamedValue"

/-- The document `$generatedConfigs: {primaryKey: $.Status.Key, endpoint: $.Status.Endpoint}`. -/
def generatedConfigsDocument : yaml.Node :=
  yaml.mapping [yaml.scalar "$generatedConfigs" 1 1,
    yaml.mapping [yaml.scalar "primaryKey" 2 3, yaml.scalar "$.Status.Key" 2 15,
      yaml.scalar "endpoint" 3 3, yaml.scalar "$.Status.Endpoint" 3 13] 2 3] 1 1

/-- The document `$generatedConfigs: {primaryKey: Status.Key}`, whose value lacks the `$.`. -/
def badGeneratedConfigsDocument : yaml.Node :=
  yaml.mapping [yaml.scalar "$generatedConfigs" 1 1,
    yaml.mapping [yaml.scalar "primaryKey" 2 3, yaml.scalar "Status.Key" 2 15] 2 3] 1 1

/-- The document `$export: true` followed by `color: red`, a scalar under a key that is no
directive, and by `$exportAs: Other`. -/
def unknownKeyDocument : yaml.Node :=
  yaml.mapping [yaml.scalar "$export" 1 1, yaml.scalar "true" 1 10,
    yaml.scalar "color" 2 1, yaml.scalar "red" 2 8,
    yaml.scalar "$exportAs" 3 1, yaml.scalar "Other" 3 12] 1 1

/-- The document `$exportAſ: Other`, whose key is `$exportAs` written with a long s. -/
def longSDocument : yaml.Node :=
  yaml.mapping [yaml.scalar "$exportAſ" 1 1, yaml.scalar "Other" 1 12] 1 1

/-- The document `$export: maybe`. -/
def badExportDocument : yaml.Node :=
  yaml.mapping [yaml.scalar "$export" 1 1, yaml.scalar "maybe" 1 10] 1 1

/-- The document `$azureGeneratedSecrets: [PrimaryKey, {a: b}]`, whose second element is no
scalar. -/
def badSecretsDocument : yaml.Node :=
  yaml.mapping [yaml.scalar "$azureGeneratedSecrets" 1 1,
    yaml.sequence [yaml.scalar "PrimaryKey" 2 5,
      yaml.mapping [yaml.scalar "a" 3 5, yaml.scalar "b" 3 8] 3 5] 2 3] 1 1

/-- The document `DisplayName: {$renameTo: Title}`, the configuration of a property. -/
def propertyDocument : yaml.Node :=
  yaml.mapping [yaml.scalar "DisplayName" 1 1,
    yaml.mapping [yaml.scalar "$renameTo" 2 3, yaml.scalar "Title" 2 14] 2 3] 1 1

/-- The document `$EXPORT: true`. -/
def upperExportDocument : yaml.Node :=
  yaml.mapping [yaml.scalar "$EXPORT" 1 1, yaml.scalar "true" 1 10] 1 1

/-- The document `$export: true`. -/
def exportDocument : yaml.Node :=
  yaml.mapping [yaml.scalar "$export" 1 1, yaml.scalar "true" 1 10] 1 1

/-- The document `$renameTo: Widget`. -/
def renameToDocument : yaml.Node :=
  yaml.mapping [yaml.scalar "$renameTo" 1 1, yaml.scalar "Widget" 1 12] 1 1


/-- The twelve directives, each with the kind of value its handler accepts (the conditions of
the handlers of `UnmarshalYAML`). -/
def directiveKinds : List (String × yaml.Kind) :=
  [(azureGeneratedSecretsTag, .SequenceNode), (generatedConfigsTag, .MappingNode),
    (manualConfigsTag, .SequenceNode), (exportTag, .ScalarNode), (exportAsTag, .ScalarNode),
    (importableTag, .ScalarNode), (isResourceTag, .ScalarNode),
    (nameInNextVersionTag, .ScalarNode), (supportedFromTag, .ScalarNode),
    (renameTo, .ScalarNode), (resourceEmbeddedInParentTag, .ScalarNode),
    (defaultAzureNameTag, .ScalarNode)]

/-! ## Visiting the properties of a type configuration -/

/-- The visitor of a configuration (`configurationVisitor`) is not among the sources; it is taken
as a parameter: what the visit of the configuration of a property does to the state `σ` of the
visitor, which stands for everything a visit may change, and the error the visit returns. -/
structure configurationVisitor (σ : Type) where
  visitProperty : σ → PropertyConfiguration → σ × Option Error

/-- Modelled from the spec: `Wrapf` of the typo advisor is not among the sources. It returns nil
for nil; otherwise it wraps the error in the message given, to which it adds the suggestion of
the fuzzy match of the term against the terms looked up ("did you mean X?") when there is one.
The fuzzy match is the parameter `suggest`. -/
def typo.Advisor.Wrapf (suggest : List String → String → Option String) (a : typo.Advisor)
    (originalError : Option Error) (term : String) (format : String) (args : List ErrorArg) :
    Option Error :=
  match originalError with
  | none => none
  | some err =>
    match suggest a.terms term with
    | none => some (.wrapf err format args)
    | some suggestion =>
      some (.wrapf err (format ++ " (did you mean %s?)") (args ++ [.text suggestion]))

/-- `kerrors.NewAggregate` of the Kubernetes library: the errors of the list that are not nil,
in their order; nil when there is none. -/
def kerrors.NewAggregate (errs : List (Option Error)) : Option (List Error) :=
  match errs.filterMap id with
  | [] => none
  | e :: es => some (e :: es)

/-- An aggregate of errors wrapped in a message (`errors.Wrapf` around a `kerrors.Aggregate`). -/
structure AggregateError where
  errors : List Error
  format : String
  args : List ErrorArg
deriving DecidableEq, Repr

/-- `errors.Wrapf` on an aggregate: nil for nil. -/
def kerrors.Wrapf (aggregate : Option (List Error)) (format : String) (args : List ErrorArg) :
    Option AggregateError :=
  match aggregate with
  | none => none
  | some errs => some { errors := errs, format := format, args := args }

/-- `visitProperty` invokes the provided visitor on the specified property if present. It returns
the configuration after the call (the lookup records the name), the state of the visitor, and a
`NotConfiguredError` if the property is not found, otherwise the error of the visit, wrapped. -/
def TypeConfiguration.visitProperty {σ : Type} (tc : TypeConfiguration) (property : String)
    (visitor : configurationVisitor σ) (s : σ) : TypeConfiguration × σ × Option Error :=
  match tc.findProperty property with
  | (tc, .error err) => (tc, s, some err)
  | (tc, .ok pc) =>
    match visitor.visitProperty s pc with
    | (s, some err) => (tc, s, some (.wrapf err "configuration of type %s" [.text tc.name]))
    | (s, none) => (tc, s, none)

/-- The loop of `visitProperties` (lines 112-116 of the source) over the entries of the map, in
the order they are enumerated. -/
def TypeConfiguration.visitEntries {σ : Type} (suggest : List String → String → Option String)
    (tc : TypeConfiguration) (visitor : configurationVisitor σ) :
    List (String × PropertyConfiguration) → σ → List (Option Error) → σ × List (Option Error)
  | [], s, errs => (s, errs)
  | (_, pc) :: rest, s, errs =>
    match visitor.visitProperty s pc with
    | (s, err) =>
      let err := tc.advisor.Wrapf suggest err pc.name "property %s not seen" [.text pc.name]
      TypeConfiguration.visitEntries suggest tc visitor rest s (errs ++ [err])

/-- `visitProperties` invokes the provided visitor on all properties: the state of the visitor
after the call and the error returned. -/
def TypeConfiguration.visitProperties {σ : Type} (suggest : List String → String → Option String)
    (tc : TypeConfiguration) (visitor : configurationVisitor σ) (s : σ) :
    σ × Option AggregateError :=
  match TypeConfiguration.visitEntries suggest tc visitor tc.properties s [] with
  | (s, errs) => (s, kerrors.Wrapf (kerrors.NewAggregate errs) "type %s" [.text tc.name])

/-- The visits a visitor makes on a list of properties, from a state: each property with the
state the visit starts in and the error the visit returns; every property is visited in turn,
from the state the visit before left. -/
def visits {σ : Type} (visitor : configurationVisitor σ) :
    List PropertyConfiguration → σ → List (PropertyConfiguration × σ × Option Error)
  | [], _ => []
  | pc :: rest, s =>
    (pc, s, (visitor.visitProperty s pc).2) :: visits visitor rest (visitor.visitProperty s pc).1

/-- The state of a visitor after its visits of a list of properties. -/
def visited {σ : Type} (visitor : configurationVisitor σ) :
    List PropertyConfiguration → σ → σ
  | [], s => s
  | pc :: rest, s => visited visitor rest (visitor.visitProperty s pc).1

/-! ## Consumption of configured values -/

/-- Modelled from the spec: `Lookup` of a configurable value is not among the sources. The lookup
methods "return `(value, found)` and mark the cell consumed on any lookup, found or not". -/
def configurable.Lookup {α : Type} (c : configurable α) : configurable α × Option α :=
  ({ c with consumed := true }, c.value)

/-- Modelled from the spec: the final validation of a configurable value is not among the
sources. "Every configured entry must have been consumed at least once or the run fails": a cell
that has a value and is not consumed gives an error that cites its directive and its scope. -/
def configurable.VerifyConsumed {α : Type} (c : configurable α) : Option Error :=
  if c.value.isSome && !c.consumed then
    some (.errorf "%s specified for %s but was not consumed" [.text c.tag, .text c.scope])
  else
    none

/-- The cell after a number of lookups. -/
def configurable.lookups {α : Type} (c : configurable α) : Nat → configurable α
  | 0 => c
  | n + 1 => (configurable.lookups c n).Lookup.1

/-! ## Examples of visits -/

/-- A visitor that counts its visits and fails on the properties of the given names. -/
def failingOn (names : List String) : configurationVisitor Nat :=
  { visitProperty := fun n pc =>
      (n + 1, if pc.name ∈ names then some (.errorf "%s is not used" [.text pc.name]) else none) }

/-- A visitor that counts its visits and reports every property as not configured. -/
def notConfiguring : configurationVisitor Nat :=
  { visitProperty := fun n pc => (n + 1, some (NewNotConfiguredError ("no value for " ++ pc.name))) }

/-- No fuzzy match: no suggestion is made. -/
def noSuggestion : List String → String → Option String := fun _ _ => none

/-- The configuration of a type with the properties `Zeta`, `Alpha` and `Mid`, added in that
order. -/
def threeProperties : TypeConfiguration :=
  ((exampleType.addProperty "Zeta" (NewPropertyConfiguration "Zeta")).addProperty "Alpha"
    (NewPropertyConfiguration "Alpha")).addProperty "Mid" (NewPropertyConfiguration "Mid")

/-- The document `$export: false`. -/
def exportFalseDocument : yaml.Node :=
  yaml.mapping [yaml.scalar "$export" 1 1, yaml.scalar "false" 1 10] 1 1

/-- The document `$azureGeneratedSecrets: [PrimaryKey, SecondaryKey, PrimaryKey]`. -/
def secretsDocument : yaml.Node :=
  yaml.mapping [yaml.scalar "$azureGeneratedSecrets" 1 1,
    yaml.sequence [yaml.scalar "PrimaryKey" 2 5, yaml.scalar "SecondaryKey" 3 5,
      yaml.scalar "PrimaryKey" 4 5] 2 3] 1 1

/-- The order of Go on strings (`<`), the order `sort.Strings` sorts by: the strings are compared
character by character, and a string is before the strings it starts. -/
def lessChars : List Char → List Char → Bool
  | [], [] => false
  | [], _ :: _ => true
  | _ :: _, [] => false
  | a :: as, b :: bs =>
    if a.toNat < b.toNat then true
    else if b.toNat < a.toNat then false
    else lessChars as bs

/-- Whether a slice of strings is in ascending order: no string is before the one it follows. -/
def ascending : List String → Bool
  | [] => true
  | [_] => true
  | a :: b :: rest => !lessChars b.toList a.toList && ascending (b :: rest)

/-! ## The generated resources (`named_value_types_gen.go`,
`flexible_servers_database_types_gen.go`) -/

/-- The type information of an object of the Kubernetes library (`metav1.TypeMeta`). -/
structure metav1.TypeMeta where
  Kind : String
  APIVersion : String
deriving DecidableEq, Repr

/-- The metadata of an object of the Kubernetes library (`metav1.ObjectMeta`), as far as its
name and namespace. -/
structure metav1.ObjectMeta where
  Name : String
  Namespace : String
deriving DecidableEq, Repr

/-- Modelled from the spec: `conditions.Condition` is not among the sources; a condition is kept
as the columns the resources print of it: type, status, severity, reason and message (`Type_`
stands for the field `Type`). -/
structure conditions.Condition where
  Type_ : String
  Status : String
  Severity : String
  Reason : String
  Message : String
deriving DecidableEq, Repr

/-- Modelled from the spec: `genruntime.PropertyBag` is not among the sources; a bag of values
kept under their names. -/
abbrev genruntime.PropertyBag := GoMap String

/-- Modelled from the spec: `genruntime.KnownResourceReference` is not among the sources; the
reference to an owner of a known kind, by the name of the owner. -/
structure genruntime.KnownResourceReference where
  Name : String
deriving DecidableEq, Repr

/-- Modelled from the spec: `genruntime.ResourceReference` is not among the sources; the
reference to a resource by its group, its kind and its name, the fields the source sets. -/
structure genruntime.ResourceReference where
  Group : String
  Kind : String
  Name : String
deriving DecidableEq, Repr

/-- Modelled from the spec: `SystemData_Status` is not among the sources; kept as its bag of
values. -/
structure SystemData_Status where
  PropertyBag : genruntime.PropertyBag
deriving DecidableEq, Repr

/-- Storage version of `v1alpha1api20210601.Database_Status` (`Type_` stands for the field
`Type`). -/
structure Database_Status where
  Charset : Option String
  Collation : Option String
  Conditions : List conditions.Condition
  Id : Option String
  Name : Option String
  PropertyBag : genruntime.PropertyBag
  SystemData : Option SystemData_Status
  Type_ : Option String
deriving DecidableEq, Repr

/-- Storage version of `v1alpha1api20210601.FlexibleServersDatabases_Spec`. -/
structure FlexibleServersDatabases_Spec where
  AzureName : String
  Charset : Option String
  Collation : Option String
  Location : Option String
  OriginalVersion : String
  Owner : genruntime.KnownResourceReference
  PropertyBag : genruntime.PropertyBag
  Tags : GoMap String
deriving DecidableEq, Repr

/-- The tags of the field `Owner` of `FlexibleServersDatabases_Spec` (line 175 of the source). -/
def FlexibleServersDatabases_Spec.OwnerTags : List (String × String) :=
  [("group", "dbforpostgresql.azure.com"), ("json", "owner"), ("kind", "FlexibleServer")]

/-- Storage version of `v1alpha1api20210601.FlexibleServersDatabase`. -/
structure FlexibleServersDatabase where
  TypeMeta : metav1.TypeMeta
  ObjectMeta : metav1.ObjectMeta
  Spec : FlexibleServersDatabases_Spec
  Status : Database_Status
deriving DecidableEq, Repr

/-- Modelled from the spec: `genruntime.LookupOwnerGroupKind` is not among the sources; the
group and the kind of the owner are the tags `group` and `kind` of the field `Owner` of the
spec ("tagged with the owner's group and kind"), empty when a tag is missing. -/
def genruntime.LookupOwnerGroupKind (ownerTags : List (String × String)) : String × String :=
  (((ownerTags.find? (fun kv => decide (kv.1 = "group"))).map (fun kv => kv.2)).getD "",
    ((ownerTags.find? (fun kv => decide (kv.1 = "kind"))).map (fun kv => kv.2)).getD "")

/-- `Owner` returns the `ResourceReference` of the owner, or nil if there is no owner (the
comment of the source); the pointer returned is `some`, and nil is `none`. -/
def FlexibleServersDatabase.Owner (database : FlexibleServersDatabase) :
    Option genruntime.ResourceReference :=
  match genruntime.LookupOwnerGroupKind FlexibleServersDatabases_Spec.OwnerTags with
  | (group, kind) =>
    some { Group := group, Kind := kind, Name := database.Spec.Owner.Name }

/-- A value of the interface `genruntime.ConvertibleStatus` given to `SetStatus`, as the resource
whose status has type `S` sees it: a pointer to an `S`, or another implementation, known by what
its `ConvertStatusTo` does with a destination of type `S`: the destination after the call and
the error returned. The value is not nil and the call returns. -/
inductive genruntime.ConvertibleStatus (S : Type) where
  | exactly (st : S)
  | other (ConvertStatusTo : S → S × Option Error)

/-- The zero value `Database_Status{}`. -/
def Database_Status.zero : Database_Status :=
  { Charset := none, Collation := none, Conditions := [], Id := none, Name := none,
    PropertyBag := [], SystemData := none, Type_ := none }

/-- `errors.Wrap`: the error wrapped in a message. -/
def Wrap (err : Error) (message : String) : Error := .wrapf err message []

/-- `SetStatus` sets the status of this resource: the resource after the call and the error
returned. -/
def FlexibleServersDatabase.SetStatus (database : FlexibleServersDatabase)
    (status : genruntime.ConvertibleStatus Database_Status) :
    FlexibleServersDatabase × Option Error :=
  match status with
  | .exactly st => ({ database with Status := st }, none)
  | .other ConvertStatusTo =>
    match ConvertStatusTo Database_Status.zero with
    | (_, some err) => (database, some (Wrap err "failed to convert status"))
    | (st, none) => ({ database with Status := st }, none)

/-- Storage version of `v1api20220801.KeyVaultContractCreateProperties`; the reference to a
config map, which is not among the sources, is kept as the name and the key it refers to. -/
structure KeyVaultContractCreateProperties where
  IdentityClientId : Option String
  IdentityClientIdFromConfig : Option (String × String)
  PropertyBag : genruntime.PropertyBag
  SecretIdentifier : Option String
deriving DecidableEq, Repr

/-- Storage version of `v1api20220801.KeyVaultLastAccessStatusContractProperties_STATUS`. -/
structure KeyVaultLastAccessStatusContractProperties_STATUS where
  Code : Option String
  Message : Option String
  PropertyBag : genruntime.PropertyBag
  TimeStampUtc : Option String
deriving DecidableEq, Repr

/-- Storage version of `v1api20220801.KeyVaultContractProperties_STATUS`. -/
structure KeyVaultContractProperties_STATUS where
  IdentityClientId : Option String
  LastStatus : Option KeyVaultLastAccessStatusContractProperties_STATUS
  PropertyBag : genruntime.PropertyBag
  SecretIdentifier : Option String
deriving DecidableEq, Repr

/-- Storage version of `v1api20220801.Service_NamedValue_Spec`. -/
structure Service_NamedValue_Spec where
  AzureName : String
  DisplayName : Option String
  KeyVault : Option KeyVaultContractCreateProperties
  OriginalVersion : String
  Owner : Option genruntime.KnownResourceReference
  PropertyBag : genruntime.PropertyBag
  Secret : Option Bool
  Tags : List String
  Value : Option String
deriving DecidableEq, Repr

/-- Storage version of `v1api20220801.Service_NamedValue_STATUS` (`Type_` stands for the field
`Type`). -/
structure Service_NamedValue_STATUS where
  Conditions : List conditions.Condition
  DisplayName : Option String
  Id : Option String
  KeyVault : Option KeyVaultContractProperties_STATUS
  Name : Option String
  PropertyBag : genruntime.PropertyBag
  Secret : Option Bool
  Tags : List String
  Type_ : Option String
  Value : Option String
deriving DecidableEq, Repr

/-- The zero value `Service_NamedValue_STATUS{}`. -/
def Service_NamedValue_STATUS.zero : Service_NamedValue_STATUS :=
  { Conditions := [], DisplayName := none, Id := none, KeyVault := none, Name := none,
    PropertyBag := [], Secret := none, Tags := [], Type_ := none, Value := none }

/-- Storage version of `v1api20220801.NamedValue`. -/
structure NamedValue where
  TypeMeta : metav1.TypeMeta
  ObjectMeta : metav1.ObjectMeta
  Spec : Service_NamedValue_Spec
  Status : Service_NamedValue_STATUS
deriving DecidableEq, Repr

/-- `SetStatus` sets the status of this resource: the resource after the call and the error
returned. -/
def NamedValue.SetStatus (value : NamedValue)
    (status : genruntime.ConvertibleStatus Service_NamedValue_STATUS) :
    NamedValue × Option Error :=
  match status with
  | .exactly st => ({ value with Status := st }, none)
  | .other ConvertStatusTo =>
    match ConvertStatusTo Service_NamedValue_STATUS.zero with
    | (_, some err) => (value, some (Wrap err "failed to convert status"))
    | (st, none) => ({ value with Status := st }, none)

/-! ## Examples of resources -/

/-- The zero value `FlexibleServersDatabase{}`: a database for which no owner is given. -/
def emptyDatabase : FlexibleServersDatabase :=
  { TypeMeta := { Kind := "", APIVersion := "" },
    ObjectMeta := { Name := "", Namespace := "" },
    Spec := { AzureName := "", Charset := none, Collation := none, Location := none,
              OriginalVersion := "", Owner := { Name := "" }, PropertyBag := [], Tags := [] },
    Status := Database_Status.zero }

/-- A database owned by the server `my-server`. -/
def ownedDatabase : FlexibleServersDatabase :=
  { emptyDatabase with
    ObjectMeta := { Name := "my-database", Namespace := "default" },
    Spec := { emptyDatabase.Spec with AzureName := "mydb", Owner := { Name := "my-server" } } }

/-- A named value with a display name and no status yet. -/
def exampleNamedValue : NamedValue :=
  { TypeMeta := { Kind := "NamedValue", APIVersion := "apimanagement.azure.com/v1api20220801" },
    ObjectMeta := { Name := "my-value", Namespace := "default" },
    Spec := { AzureName := "myvalue", DisplayName := some "My value", KeyVault := none,
              OriginalVersion := "v1api20220801", Owner := some { Name := "my-service" },
              PropertyBag := [], Secret := none, Tags := [], Value := some "42" },
    Status := Service_NamedValue_STATUS.zero }

/-- A status with an identifier. -/
def readyStatus : Service_NamedValue_STATUS :=
  { Service_NamedValue_STATUS.zero with Id := some "/subscriptions/0/namedValues/myvalue" }

/-- A status of another version whose conversion fills in the identifier. -/
def convertingStatus : genruntime.ConvertibleStatus Service_NamedValue_STATUS :=
  .other (fun st => ({ st with Id := some "converted" }, none))

/-- A status of another version whose conversion fails after it has written to the
destination. -/
def failingStatus : genruntime.ConvertibleStatus Service_NamedValue_STATUS :=
  .other (fun st => ({ st with Id := some "partial" }, some (.errorf "cannot convert" [])))

/-! ## Examples of resources without an injected owner -/

/-- A resource of tenant scope with the spec of the scenario. -/
def tenantResourceType : ResourceType :=
  { namedValueResourceType with scope := .Tenant }

/-- A resource scoped to a resource group that has no owner, with the spec of the scenario. -/
def unownedResourceType : ResourceType :=
  { namedValueResourceType with owner := EmptyInternalTypeName }

/-! ## Running the conversions of the generated storage types -/

/-- The call of a conversion method on an interface value: the method of the dynamic type of the
value is the one that runs. There is no result for a type that is not among the sources, nor
for a method the type does not have. -/
def callMethod {Memory : Type} (memory : Memory) (method : Method) (receiver : Ref)
    (argument : Option Ref) : Option (Memory × Step) :=
  match receiver.typ, method with
  | .Service_NamedValue_Spec, .ConvertSpecFrom =>
    some (Service_NamedValue_Spec.ConvertSpecFrom memory receiver.addr argument)
  | .Service_NamedValue_Spec, .ConvertSpecTo =>
    some (Service_NamedValue_Spec.ConvertSpecTo memory receiver.addr argument)
  | .Service_NamedValue_STATUS, .ConvertStatusFrom =>
    some (Service_NamedValue_STATUS.ConvertStatusFrom memory receiver.addr argument)
  | .Service_NamedValue_STATUS, .ConvertStatusTo =>
    some (Service_NamedValue_STATUS.ConvertStatusTo memory receiver.addr argument)
  | .FlexibleServersDatabases_Spec, .ConvertSpecFrom =>
    some (FlexibleServersDatabases_Spec.ConvertSpecFrom memory receiver.addr argument)
  | .FlexibleServersDatabases_Spec, .ConvertSpecTo =>
    some (FlexibleServersDatabases_Spec.ConvertSpecTo memory receiver.addr argument)
  | .Database_Status, .ConvertStatusFrom =>
    some (Database_Status.ConvertStatusFrom memory receiver.addr argument)
  | .Database_Status, .ConvertStatusTo =>
    some (Database_Status.ConvertStatusTo memory receiver.addr argument)
  | _, _ => none

/-- The first steps of the call of a conversion method: after no step the call is still to be
made; a step runs the method called, and a method that hands over to another one leaves that
call to be made in the steps that remain. The result is the memory and what the conversion has
come to: it has returned, it has panicked, or a call is still to be made. -/
def runConversion {Memory : Type} :
    Nat → Memory → Method → Ref → Ref → Option (Memory × Step)
  | 0, memory, method, receiver, argument => some (memory, .calls method receiver argument)
  | n + 1, memory, method, receiver, argument =>
    match callMethod memory method receiver (some argument) with
    | none => none
    | some (memory, .calls next r a) => runConversion n memory next r a
    | some (memory, .returns err) => some (memory, .returns err)
    | some (memory, .panics) => some (memory, .panics)

/-- Whether a conversion has returned. -/
def Step.hasReturned : Step → Bool
  | .returns _ => true
  | _ => false

/-- The generated storage types, the hub types of their resources. -/
def hubTypes : List GoType :=
  [.Service_NamedValue_Spec, .Service_NamedValue_STATUS, .FlexibleServersDatabases_Spec,
    .Database_Status]

/-- The method that populates a value of a hub type from another value. -/
def convertFrom : GoType → Method
  | .Service_NamedValue_STATUS => .ConvertStatusFrom
  | .Database_Status => .ConvertStatusFrom
  | _ => .ConvertSpecFrom

/-- The method that populates another value from a value of a hub type. -/
def convertTo : GoType → Method
  | .Service_NamedValue_STATUS => .ConvertStatusTo
  | .Database_Status => .ConvertStatusTo
  | _ => .ConvertSpecTo

/-! ## Examples of documents with colliding keys -/

/-- The document `DisplayName: {$renameTo: Title}`, `displayname: {$renameTo: Caption}`: two
keys that differ in case only. -/
def collidingDocument : yaml.Node :=
  yaml.mapping [yaml.scalar "DisplayName" 1 1,
    yaml.mapping [yaml.scalar "$renameTo" 2 3, yaml.scalar "Title" 2 14] 2 3,
    yaml.scalar "displayname" 3 1,
    yaml.mapping [yaml.scalar "$renameTo" 4 3, yaml.scalar "Caption" 4 14] 4 3] 1 1

/-- The empty mapping `{}`. -/
def emptyDocument : yaml.Node := yaml.mapping [] 1 1

/-- The scalar document `true`. -/
def scalarDocument : yaml.Node := yaml.scalar "true" 1 1

/-- A type configuration in which `$export` is set and the property `Old` is registered. -/
def configuredType : TypeConfiguration :=
  { exampleType.addProperty "Old" (NewPropertyConfiguration "Old") with
    Export := exampleType.Export.Set true }

/-- The map of the properties is keyed by the lower-cased names of the properties, and no key
occurs twice. -/
def KeyedByName (m : GoMap PropertyConfiguration) : Prop :=
  (∀ kv ∈ m, kv.1 = ToLower kv.2.name) ∧ (m.map (fun kv => kv.1)).Nodup

/-! ## Lemmas on the type model -/

theorem transformObject_none (f : ObjectType → Result AType) (t : AType)
    (h : AsObjectType t = none) : transformObject f t = none := by
  induction t using AsObjectType.induct with
  | case1 o => simp [AsObjectType] at h
  | case2 e ih => simp [AsObjectType] at h; simp [transformObject, ih h]
  | case3 e flags ih => simp [AsObjectType] at h; simp [transformObject, ih h]
  | case4 t h1 h2 h3 => cases t <;> simp_all [transformObject]

theorem transformObject_ok (f : ObjectType → Result AType) (t : AType) (o o2 : ObjectType)
    (h : AsObjectType t = some o) (hf : f o = .ok (.object o2)) :
    transformObject f t = some (.ok (replaceObject o2 t)) := by
  induction t using AsObjectType.induct with
  | case1 o1 =>
    simp [AsObjectType] at h
    subst h
    simp [transformObject, replaceObject, hf]
  | case2 e ih => simp [AsObjectType] at h; simp [transformObject, replaceObject, ih h]
  | case3 e flags ih => simp [AsObjectType] at h; simp [transformObject, replaceObject, ih h]
  | case4 t h1 h2 h3 => cases t <;> simp_all [AsObjectType]

theorem transformObject_error (f : ObjectType → Result AType) (t : AType) (o : ObjectType)
    (err : Error) (h : AsObjectType t = some o) (hf : f o = .error err) :
    transformObject f t = some (.error err) := by
  induction t using AsObjectType.induct with
  | case1 o1 =>
    simp [AsObjectType] at h
    subst h
    simp [transformObject, hf]
  | case2 e ih => simp [AsObjectType] at h; simp [transformObject, ih h]
  | case3 e flags ih => simp [AsObjectType] at h; simp [transformObject, ih h]
  | case4 t h1 h2 h3 => cases t <;> simp_all [AsObjectType]

theorem AsObjectType_replaceObject (o2 : ObjectType) (t : AType)
    (h : (AsObjectType t).isSome = true) : AsObjectType (replaceObject o2 t) = some o2 := by
  induction t using AsObjectType.induct with
  | case1 o1 => simp [replaceObject, AsObjectType]
  | case2 e ih => simp [AsObjectType] at h; simp [replaceObject, AsObjectType, ih h]
  | case3 e flags ih => simp [AsObjectType] at h; simp [replaceObject, AsObjectType, ih h]
  | case4 t h1 h2 h3 => cases t <;> simp_all [AsObjectType]

theorem replaceObject_self (o : ObjectType) (t : AType) (h : AsObjectType t = some o) :
    replaceObject o t = t := by
  induction t using AsObjectType.induct with
  | case1 o1 => simp [AsObjectType] at h; simp [replaceObject, h]
  | case2 e ih => simp [AsObjectType] at h; simp [replaceObject, ih h]
  | case3 e flags ih => simp [AsObjectType] at h; simp [replaceObject, ih h]
  | case4 t h1 h2 h3 => cases t <;> simp_all [AsObjectType]

theorem replaceObject_replaceObject (o1 o2 : ObjectType) (t : AType) :
    replaceObject o2 (replaceObject o1 t) = replaceObject o2 t := by
  induction t using AsObjectType.induct with
  | case1 o => simp [replaceObject]
  | case2 e ih => simp [replaceObject, ih]
  | case3 e flags ih => simp [replaceObject, ih]
  | case4 t h1 h2 h3 => cases t <;> simp_all [replaceObject]

theorem ARMFlag_replaceObject (o : ObjectType) (t : AType) :
    TypeFlag.ARMFlag.IsOn (replaceObject o t) = TypeFlag.ARMFlag.IsOn t := by
  cases t <;> simp [replaceObject, TypeFlag.IsOn]

theorem AsResourceType_of_object (t : AType) (h : (AsObjectType t).isSome = true) :
    AsResourceType t = none := by
  induction t using AsObjectType.induct with
  | case1 o1 => simp [AsResourceType]
  | case2 e ih => simp [AsObjectType] at h; simp [AsResourceType, ih h]
  | case3 e flags ih => simp [AsObjectType] at h; simp [AsResourceType, ih h]
  | case4 t h1 h2 h3 => cases t <;> simp_all [AsObjectType]

/-! ## Properties of objects -/

theorem find?_filter_ne_none {α : Type} (p q : α → Bool) (l : List α)
    (h : ∀ a, q a = true → p a = false) : (l.filter p).find? q = none := by
  induction l with
  | nil => rfl
  | cons a l ih =>
    by_cases hp : p a = true
    · have hq : q a = false := by
        cases hqa : q a
        · rfl
        · rw [h a hqa] at hp; cases hp
      simp [List.filter_cons, hp, List.find?_cons, hq, ih]
    · simp [List.filter_cons, hp, ih]

theorem find?_filter_of_imp {α : Type} (p q : α → Bool) (l : List α)
    (h : ∀ a, q a = true → p a = true) : (l.filter p).find? q = l.find? q := by
  induction l with
  | nil => rfl
  | cons a l ih =>
    by_cases hp : p a = true
    · cases hq : q a <;> simp [List.filter_cons, hp, List.find?_cons, hq, ih]
    · have hq : q a = false := by
        cases hqa : q a
        · rfl
        · exact absurd (h a hqa) hp
      simp [List.filter_cons, hp, List.find?_cons, hq, ih]

theorem Property_WithProperty_same (t : ObjectType) (p : PropertyDefinition) :
    ObjectType.Property (ObjectType.WithProperty t p) p.propertyName = some p := by
  unfold ObjectType.Property ObjectType.WithProperty
  simp only [List.find?_append]
  rw [find?_filter_ne_none]
  · simp
  · intro a ha; simpa using ha

theorem Property_WithProperty_other (t : ObjectType) (p : PropertyDefinition) (name : String)
    (h : name ≠ p.propertyName) :
    ObjectType.Property (ObjectType.WithProperty t p) name = ObjectType.Property t name := by
  unfold ObjectType.Property ObjectType.WithProperty
  simp only [List.find?_append]
  rw [find?_filter_of_imp]
  · have : ¬ p.propertyName = name := fun e => h e.symm
    cases hf : List.find? (fun q => decide (q.propertyName = name)) t.properties <;> simp [this]
  · intro a ha
    have : a.propertyName = name := by simpa using ha
    simp [this, h]

theorem Property_WithoutProperty_same (t : ObjectType) (name : String) :
    ObjectType.Property (ObjectType.WithoutProperty t name) name = none := by
  unfold ObjectType.Property ObjectType.WithoutProperty
  apply find?_filter_ne_none
  intro a ha; simpa using ha

theorem Property_WithoutProperty_other (t : ObjectType) (name other : String)
    (h : other ≠ name) :
    ObjectType.Property (ObjectType.WithoutProperty t name) other = ObjectType.Property t other := by
  unfold ObjectType.Property ObjectType.WithoutProperty
  apply find?_filter_of_imp
  intro a ha
  have : a.propertyName = other := by simpa using ha
  simp [this, h]

theorem countProperty_WithProperty (t : ObjectType) (p : PropertyDefinition) :
    ObjectType.countProperty (ObjectType.WithProperty t p) p.propertyName = 1 := by
  unfold ObjectType.countProperty ObjectType.WithProperty
  simp only [List.filter_append, List.filter_filter, List.length_append]
  have h1 : List.filter (fun a => decide (a.propertyName = p.propertyName) &&
      decide (a.propertyName ≠ p.propertyName)) t.properties = [] := by
    apply List.filter_eq_nil_iff.mpr
    intro a _; simp
  rw [h1]; simp

theorem createOwnerProperty_name (owner : InternalTypeName) :
    (createOwnerProperty owner).propertyName = "Owner" := by
  rfl

theorem createExtensionResourceOwnerProperty_name :
    createExtensionResourceOwnerProperty.propertyName = "Owner" := by
  rfl

theorem GetAzureNameProperty_name : GetAzureNameProperty.propertyName = "AzureName" := by
  rfl

/-! ## `transformSpec` -/

theorem remapProperties_eq (t : ObjectType) : remapProperties t = .ok (remapped t) := by
  unfold remapped
  unfold remapProperties
  cases ObjectType.Property t NameProperty <;> rfl

theorem injectOwnerProperty_eq (r : ResourceType) (t : ObjectType) :
    injectOwnerProperty r t = .ok (withOwner r t) := by
  unfold withOwner
  unfold injectOwnerProperty
  split
  · rfl
  · split <;> rfl

theorem remapped_of_no_name (t : ObjectType) (h : ObjectType.Property t NameProperty = none) :
    remapped t = t := by
  simp [remapped, remapProperties, h]

theorem remapped_of_name (t : ObjectType) (nameProp : PropertyDefinition)
    (h : ObjectType.Property t NameProperty = some nameProp) :
    remapped t = ObjectType.WithProperty (ObjectType.WithoutProperty t NameProperty)
      (GetAzureNameProperty.WithType (promotedNameType nameProp.propertyType)) := by
  simp only [remapped, remapProperties, h, PropertyDefinition.PropertyType]
  cases nameProp.propertyType <;> rfl

theorem withOwner_resource_group (r : ResourceType) (t : ObjectType)
    (hscope : r.scope = .ResourceGroup) (howner : r.owner.IsEmpty = false) :
    withOwner r t = ObjectType.WithProperty t (createOwnerProperty r.owner) := by
  simp [withOwner, injectOwnerProperty, ResourceType.Owner, ResourceType.Scope, hscope, howner]

theorem withOwner_extension (r : ResourceType) (t : ObjectType) (hscope : r.scope = .Extension) :
    withOwner r t = ObjectType.WithProperty t createExtensionResourceOwnerProperty := by
  simp [withOwner, injectOwnerProperty, ResourceType.Owner, ResourceType.Scope, hscope]

theorem withOwner_unchanged (r : ResourceType) (t : ObjectType) (hscope : r.scope ≠ .Extension)
    (h : ¬ (r.owner.IsEmpty = false ∧ r.scope = .ResourceGroup)) : withOwner r t = t := by
  unfold withOwner injectOwnerProperty
  simp only [ResourceType.Owner, ResourceType.Scope]
  by_cases h1 : r.owner.IsEmpty = false
  · have h2 : ¬ r.scope = .ResourceGroup := fun e => h ⟨h1, e⟩
    simp [h1, h2, hscope]
  · simp at h1
    simp [h1, hscope]

theorem ApplyObjectTransformation_ok (d : TypeDefinition) (f : ObjectType → Result AType)
    (o o2 : ObjectType) (h : AsObjectType d.type = some o) (hf : f o = .ok (.object o2)) :
    d.ApplyObjectTransformation f = .ok (d.WithType (replaceObject o2 d.type)) := by
  simp [TypeDefinition.ApplyObjectTransformation, transformObject_ok f d.type o o2 h hf]

theorem ApplyObjectTransformation_not_object (d : TypeDefinition) (f : ObjectType → Result AType)
    (h : AsObjectType d.type = none) :
    d.ApplyObjectTransformation f =
      .error (.errorf "transformation was not applied to %s (expected object type)"
        [.typeName d.name]) := by
  simp [TypeDefinition.ApplyObjectTransformation, transformObject_none f d.type h]

theorem Lookup_name (set : TypeDefinitionSet) (n : InternalTypeName) (d : TypeDefinition)
    (h : TypeDefinitionSet.Lookup set n = some d) : d.name = n := by
  have := List.find?_some h
  simpa using this

theorem Lookup_mem (set : TypeDefinitionSet) (n : InternalTypeName) (d : TypeDefinition)
    (h : TypeDefinitionSet.Lookup set n = some d) : d ∈ set :=
  List.mem_of_find?_eq_some h

theorem transformSpec_ok (c : armConversionApplier) (r : ResourceType) (sd : TypeDefinition)
    (o : ObjectType) (hspec : TypeDefinitionSet.Lookup c.definitions r.specType = some sd)
    (hobj : AsObjectType sd.type = some o) :
    transformSpec c r = .ok (sd.WithType (replaceObject (withOwner r (remapped o)) sd.type)) := by
  unfold transformSpec TypeDefinitionSet.ResolveResourceSpecDefinition
  simp only [ResourceType.SpecType, hspec, TypeDefinition.ApplyObjectTransformations]
  rw [ApplyObjectTransformation_ok sd _ o (withOwner r (remapped o)) hobj]
  simp [applyTransforms, remapProperties_eq, injectOwnerProperty_eq]

theorem transformSpec_not_object (c : armConversionApplier) (r : ResourceType)
    (sd : TypeDefinition) (hspec : TypeDefinitionSet.Lookup c.definitions r.specType = some sd)
    (hobj : AsObjectType sd.type = none) : ∃ err, transformSpec c r = .error err := by
  unfold transformSpec TypeDefinitionSet.ResolveResourceSpecDefinition
  simp only [ResourceType.SpecType, hspec, TypeDefinition.ApplyObjectTransformations]
  rw [ApplyObjectTransformation_not_object sd _ hobj]
  exact ⟨_, rfl⟩

theorem transformSpec_unresolved (c : armConversionApplier) (r : ResourceType)
    (hspec : TypeDefinitionSet.Lookup c.definitions r.specType = none) :
    ∃ err, transformSpec c r = .error err := by
  unfold transformSpec TypeDefinitionSet.ResolveResourceSpecDefinition
  simp only [ResourceType.SpecType, hspec]
  exact ⟨_, rfl⟩

theorem createOwnerProperty_tag_group (owner : InternalTypeName) :
    (createOwnerProperty owner).Tag "group" = some (owner.pkg.group ++ GroupSuffix) := by
  simp [createOwnerProperty, PropertyDefinition.Tag, PropertyDefinition.WithTag,
    PropertyDefinition.MakeRequired, PropertyDefinition.WithDescription, NewPropertyDefinition,
    InternalTypeName.InternalPackageReference, PackageReference.Group, List.find?_cons]

theorem createOwnerProperty_tag_kind (owner : InternalTypeName) :
    (createOwnerProperty owner).Tag "kind" = some owner.name := by
  simp [createOwnerProperty, PropertyDefinition.Tag, PropertyDefinition.WithTag,
    PropertyDefinition.MakeRequired, PropertyDefinition.WithDescription, NewPropertyDefinition,
    InternalTypeName.Name, List.find?_cons]

/-- C1: for a resource scoped to a resource group with a non-empty owner, whose spec resolves to
an object, `transformSpec` produces a spec definition whose object has exactly one property named
`Owner`; that property is required, its type is the optional known-resource reference, its tag
`group` is the group of the owner's package followed by `GroupSuffix`, and its tag `kind` is the
local name of the owner. -/
theorem transformSpec_owner_resource_group (c : armConversionApplier) (r : ResourceType)
    (sd : TypeDefinition) (o : ObjectType)
    (hspec : TypeDefinitionSet.Lookup c.definitions r.specType = some sd)
    (hobj : AsObjectType sd.type = some o)
    (hscope : r.scope = .ResourceGroup) (howner : r.owner.IsEmpty = false) :
    ∃ d t p, transformSpec c r = .ok d ∧ AsObjectType d.type = some t ∧
      ObjectType.countProperty t "Owner" = 1 ∧
      ObjectType.Property t "Owner" = some p ∧
      p.required = true ∧
      p.propertyType = OptionalKnownResourceReferenceType ∧
      p.Tag "group" = some (r.owner.pkg.group ++ GroupSuffix) ∧
      p.Tag "kind" = some r.owner.name := by
  refine ⟨_, withOwner r (remapped o), createOwnerProperty r.owner,
    transformSpec_ok c r sd o hspec hobj, ?_, ?_, ?_, rfl, rfl,
    createOwnerProperty_tag_group r.owner, createOwnerProperty_tag_kind r.owner⟩
  · exact AsObjectType_replaceObject _ _ (by simp [hobj])
  · rw [withOwner_resource_group r _ hscope howner]
    exact countProperty_WithProperty _ (createOwnerProperty r.owner)
  · rw [withOwner_resource_group r _ hscope howner]
    exact Property_WithProperty_same _ (createOwnerProperty r.owner)

/-- C1, witness: the resource `NamedValue` of the scenario, owned by `Service` in the group
`apimanagement`, gets an `Owner` property tagged `group=apimanagement.azure.com`,
`kind=Service`. -/
theorem transformSpec_owner_resource_group_witness :
    ∃ d t p, transformSpec namedValueApplier namedValueResourceType = .ok d ∧
      AsObjectType d.type = some t ∧
      ObjectType.countProperty t "Owner" = 1 ∧
      ObjectType.Property t "Owner" = some p ∧
      p.required = true ∧
      p.propertyType = OptionalKnownResourceReferenceType ∧
      p.Tag "group" = some "apimanagement.azure.com" ∧
      p.Tag "kind" = some "Service" :=
  transformSpec_owner_resource_group namedValueApplier namedValueResourceType namedValueSpec
    namedValueSpecObject (by decide) (by rfl) (by rfl) (by decide)

theorem Property_withOwner_other (r : ResourceType) (t : ObjectType) (name : String)
    (h : name ≠ "Owner") :
    ObjectType.Property (withOwner r t) name = ObjectType.Property t name := by
  unfold withOwner injectOwnerProperty
  split
  · next t1 heq =>
    split at heq
    · cases heq
      exact Property_WithProperty_other t _ name (by rw [createOwnerProperty_name]; exact h)
    · split at heq
      · cases heq
        exact Property_WithProperty_other t _ name
          (by rw [createExtensionResourceOwnerProperty_name]; exact h)
      · cases heq; rfl
  · rfl

/-- C2: when the spec of a resource resolves to an object that has a `Name` property,
`transformSpec` produces a definition whose object has no `Name` property and has an `AzureName`
property; the type of `AzureName` is the element type when the type of `Name` is `Optional`, and
the type of `Name` itself otherwise. -/
theorem transformSpec_name_promotion (c : armConversionApplier) (r : ResourceType)
    (sd : TypeDefinition) (o : ObjectType) (nameProp : PropertyDefinition)
    (hspec : TypeDefinitionSet.Lookup c.definitions r.specType = some sd)
    (hobj : AsObjectType sd.type = some o)
    (hname : ObjectType.Property o "Name" = some nameProp) :
    ∃ d t azureName, transformSpec c r = .ok d ∧ AsObjectType d.type = some t ∧
      ObjectType.Property t "Name" = none ∧
      ObjectType.Property t "AzureName" = some azureName ∧
      (∀ element, nameProp.propertyType = .optional element →
        azureName.propertyType = element) ∧
      ((∀ element, nameProp.propertyType ≠ .optional element) →
        azureName.propertyType = nameProp.propertyType) := by
  have hrem := remapped_of_name o nameProp hname
  refine ⟨_, withOwner r (remapped o),
    GetAzureNameProperty.WithType (promotedNameType nameProp.propertyType),
    transformSpec_ok c r sd o hspec hobj, ?_, ?_, ?_, ?_, ?_⟩
  · exact AsObjectType_replaceObject _ _ (by simp [hobj])
  · rw [Property_withOwner_other r _ "Name" (by decide), hrem,
      Property_WithProperty_other _ _ "Name"
        (by show "Name" ≠ GetAzureNameProperty.propertyName; decide)]
    exact Property_WithoutProperty_same o "Name"
  · rw [Property_withOwner_other r _ "AzureName" (by decide), hrem]
    exact Property_WithProperty_same _ _
  · intro element he
    simp [PropertyDefinition.WithType, promotedNameType, he]
  · intro hne
    simp only [PropertyDefinition.WithType]
    cases hty : nameProp.propertyType <;> simp [promotedNameType]
    exact absurd hty (hne _)

/-- C2, witness: in the scenario `Name: *string` becomes `AzureName: string`. -/
theorem transformSpec_name_promotion_witness :
    ∃ d t azureName,
      transformSpec namedValueApplier namedValueResourceType = .ok d ∧
      AsObjectType d.type = some t ∧
      ObjectType.Property t "Name" = none ∧
      ObjectType.Property t "AzureName" = some azureName ∧
      azureName.propertyType = StringType := by
  obtain ⟨d, t, azureName, h1, h2, h3, h4, h5, _⟩ :=
    transformSpec_name_promotion namedValueApplier namedValueResourceType namedValueSpec
      namedValueSpecObject (plainProperty "Name" (.optional StringType))
      (by decide) (by rfl) (by decide)
  exact ⟨d, t, azureName, h1, h2, h3, h4, h5 StringType rfl⟩

theorem createExtensionResourceOwnerProperty_tag (key : String) :
    createExtensionResourceOwnerProperty.Tag key = none := by
  rfl

/-- C3: for a resource whose scope is `Extension` and whose spec resolves to an object,
`transformSpec` produces a definition whose object has exactly one property named `Owner`; it is
required, its type is the optional arbitrary-owner reference, which is not the known-resource
reference, and it has no `group` tag and no `kind` tag. -/
theorem transformSpec_owner_extension (c : armConversionApplier) (r : ResourceType)
    (sd : TypeDefinition) (o : ObjectType)
    (hspec : TypeDefinitionSet.Lookup c.definitions r.specType = some sd)
    (hobj : AsObjectType sd.type = some o)
    (hscope : r.scope = .Extension) :
    ∃ d t p, transformSpec c r = .ok d ∧ AsObjectType d.type = some t ∧
      ObjectType.countProperty t "Owner" = 1 ∧
      ObjectType.Property t "Owner" = some p ∧
      p.required = true ∧
      p.propertyType = .optional ArbitraryOwnerReference ∧
      p.propertyType ≠ OptionalKnownResourceReferenceType ∧
      p.Tag "group" = none ∧
      p.Tag "kind" = none := by
  refine ⟨_, withOwner r (remapped o), createExtensionResourceOwnerProperty,
    transformSpec_ok c r sd o hspec hobj, ?_, ?_, ?_, rfl, rfl, by decide, rfl, rfl⟩
  · exact AsObjectType_replaceObject _ _ (by simp [hobj])
  · rw [withOwner_extension r _ hscope]
    exact countProperty_WithProperty _ createExtensionResourceOwnerProperty
  · rw [withOwner_extension r _ hscope]
    exact Property_WithProperty_same _ createExtensionResourceOwnerProperty

/-- C3, witness: an extension resource with the spec of the scenario. -/
theorem transformSpec_owner_extension_witness :
    ∃ d t p, transformSpec namedValueApplier extensionResourceType = .ok d ∧
      AsObjectType d.type = some t ∧
      ObjectType.countProperty t "Owner" = 1 ∧
      ObjectType.Property t "Owner" = some p ∧
      p.required = true ∧
      p.propertyType = .optional ArbitraryOwnerReference ∧
      p.propertyType ≠ OptionalKnownResourceReferenceType ∧
      p.Tag "group" = none ∧
      p.Tag "kind" = none :=
  transformSpec_owner_extension namedValueApplier extensionResourceType namedValueSpec
    namedValueSpecObject (by decide) (by rfl) (by rfl)

/-! ## `addARMConversionInterface` -/

theorem lookupPayloadType_not_configured (c : armConversionApplier) (kubeDef : TypeDefinition)
    (err : Error) (h : c.config.PayloadTypeLookup kubeDef.name.pkg = .error err)
    (hnc : IsNotConfiguredError err = true) :
    lookupPayloadType c kubeDef = .ok .OmitEmptyProperties := by
  simp [lookupPayloadType, TypeDefinition.Name, InternalTypeName.InternalPackageReference, h, hnc]

theorem lookupPayloadType_failure (c : armConversionApplier) (kubeDef : TypeDefinition)
    (err : Error) (h : c.config.PayloadTypeLookup kubeDef.name.pkg = .error err)
    (hnc : IsNotConfiguredError err = false) :
    lookupPayloadType c kubeDef =
      .error (.wrapf err "looking up payload type for %q" [.typeName kubeDef.name]) := by
  simp [lookupPayloadType, TypeDefinition.Name, InternalTypeName.InternalPackageReference, h, hnc]

theorem lookupPayloadType_configured (c : armConversionApplier) (kubeDef : TypeDefinition)
    (p : PayloadType) (h : c.config.PayloadTypeLookup kubeDef.name.pkg = .ok p) :
    lookupPayloadType c kubeDef = .ok p := by
  simp [lookupPayloadType, TypeDefinition.Name, InternalTypeName.InternalPackageReference, h]

theorem addARMConversionInterface_ok (c : armConversionApplier) (kubeDef armDef : TypeDefinition)
    (kind : TypeKind) (ao ko : ObjectType) (p : PayloadType)
    (harm : AsObjectType armDef.type = some ao) (hkube : AsObjectType kubeDef.type = some ko)
    (hp : lookupPayloadType c kubeDef = .ok p) :
    addARMConversionInterface c kubeDef armDef kind =
      .ok (withCapability (.armConversion armDef.name kind p) kubeDef) := by
  unfold addARMConversionInterface
  simp only [TypeDefinition.Type, harm, hp]
  rw [ApplyObjectTransformation_ok kubeDef _ ko
    (ObjectType.WithInterface ko (.armConversion armDef.name kind p)) hkube rfl]
  simp [withCapability, hkube]

theorem addARMConversionInterface_payload_error (c : armConversionApplier)
    (kubeDef armDef : TypeDefinition) (kind : TypeKind) (ao : ObjectType) (err : Error)
    (harm : AsObjectType armDef.type = some ao) (hp : lookupPayloadType c kubeDef = .error err) :
    addARMConversionInterface c kubeDef armDef kind = .error err := by
  unfold addARMConversionInterface
  simp only [TypeDefinition.Type, harm, hp]

theorem addARMConversionInterface_inv (c : armConversionApplier) (kubeDef armDef d : TypeDefinition)
    (kind : TypeKind) (h : addARMConversionInterface c kubeDef armDef kind = .ok d) :
    ∃ ao ko p, AsObjectType armDef.type = some ao ∧ AsObjectType kubeDef.type = some ko ∧
      lookupPayloadType c kubeDef = .ok p ∧
      d = withCapability (.armConversion armDef.name kind p) kubeDef := by
  cases harm : AsObjectType armDef.type with
  | none => simp [addARMConversionInterface, TypeDefinition.Type, harm] at h
  | some ao =>
    cases hp : lookupPayloadType c kubeDef with
    | error err => rw [addARMConversionInterface_payload_error c kubeDef armDef kind ao err harm hp] at h; cases h
    | ok p =>
      cases hkube : AsObjectType kubeDef.type with
      | none =>
        unfold addARMConversionInterface at h
        simp only [TypeDefinition.Type, harm, hp] at h
        rw [ApplyObjectTransformation_not_object kubeDef _ hkube] at h
        cases h
      | some ko =>
        rw [addARMConversionInterface_ok c kubeDef armDef kind ao ko p harm hkube hp] at h
        cases h
        exact ⟨ao, ko, p, rfl, rfl, rfl, rfl⟩

/-- C5: in `addARMConversionInterface`, for an ARM definition and a Kubernetes definition that are
object-shaped: when the lookup of the payload type of the Kubernetes definition's package fails
with a not-configured error, the capability is attached with `OmitEmptyProperties` and no error is
returned; when it fails with any other error, the result is an error that wraps that error and
names the Kubernetes type, and no definition; when it succeeds, the capability is attached with
the payload type looked up. -/
theorem addARMConversionInterface_payload_type (c : armConversionApplier)
    (kubeDef armDef : TypeDefinition) (kind : TypeKind) (ao ko : ObjectType)
    (harm : AsObjectType armDef.type = some ao) (hkube : AsObjectType kubeDef.type = some ko) :
    (∀ err, c.config.PayloadTypeLookup kubeDef.name.pkg = .error err →
      IsNotConfiguredError err = true →
      addARMConversionInterface c kubeDef armDef kind =
        .ok (kubeDef.WithType (replaceObject (ObjectType.WithInterface ko
          (.armConversion armDef.name kind .OmitEmptyProperties)) kubeDef.type))) ∧
    (∀ err, c.config.PayloadTypeLookup kubeDef.name.pkg = .error err →
      IsNotConfiguredError err = false →
      ∃ e, addARMConversionInterface c kubeDef armDef kind = .error e ∧
        e.cause = some err ∧ ErrorArg.typeName kubeDef.name ∈ e.args) ∧
    (∀ p, c.config.PayloadTypeLookup kubeDef.name.pkg = .ok p →
      addARMConversionInterface c kubeDef armDef kind =
        .ok (kubeDef.WithType (replaceObject (ObjectType.WithInterface ko
          (.armConversion armDef.name kind p)) kubeDef.type))) := by
  refine ⟨?_, ?_, ?_⟩
  · intro err h hnc
    rw [addARMConversionInterface_ok c kubeDef armDef kind ao ko _ harm hkube
      (lookupPayloadType_not_configured c kubeDef err h hnc)]
    simp [withCapability, hkube]
  · intro err h hnc
    refine ⟨_, addARMConversionInterface_payload_error c kubeDef armDef kind ao _ harm
      (lookupPayloadType_failure c kubeDef err h hnc), rfl, ?_⟩
    simp [Error.args]
  · intro p h
    rw [addARMConversionInterface_ok c kubeDef armDef kind ao ko _ harm hkube
      (lookupPayloadType_configured c kubeDef p h)]
    simp [withCapability, hkube]

/-- C5, witness: the spec of the scenario and its twin, under a configuration with nothing
configured, under one whose lookup fails otherwise, and under one that configures the payload
type. -/
theorem addARMConversionInterface_payload_type_witness :
    addARMConversionInterface { definitions := [], config := unconfigured }
        namedValueSpec namedValueSpecARM .TypeKindSpec =
      .ok (namedValueSpec.WithType (.object (ObjectType.WithInterface namedValueSpecObject
        (.armConversion namedValueSpecARM.name .TypeKindSpec .OmitEmptyProperties)))) ∧
    (∃ e, addARMConversionInterface { definitions := [], config := malformed }
        namedValueSpec namedValueSpecARM .TypeKindSpec = .error e ∧
      e.cause = some (.errorf "malformed payload type" []) ∧
      ErrorArg.typeName namedValueSpec.name ∈ e.args) ∧
    addARMConversionInterface { definitions := [], config := explicitCollections }
        namedValueSpec namedValueSpecARM .TypeKindSpec =
      .ok (namedValueSpec.WithType (.object (ObjectType.WithInterface namedValueSpecObject
        (.armConversion namedValueSpecARM.name .TypeKindSpec .ExplicitEmptyCollections)))) :=
  ⟨(addARMConversionInterface_payload_type { definitions := [], config := unconfigured }
      namedValueSpec namedValueSpecARM .TypeKindSpec wireObject namedValueSpecObject
      rfl rfl).1 _ rfl rfl,
   (addARMConversionInterface_payload_type { definitions := [], config := malformed }
      namedValueSpec namedValueSpecARM .TypeKindSpec wireObject namedValueSpecObject
      rfl rfl).2.1 _ rfl rfl,
   (addARMConversionInterface_payload_type { definitions := [], config := explicitCollections }
      namedValueSpec namedValueSpecARM .TypeKindSpec wireObject namedValueSpecObject
      rfl rfl).2.2 _ rfl⟩

/-! ## Definition sets -/

theorem Lookup_nil (n : InternalTypeName) : TypeDefinitionSet.Lookup [] n = none := rfl

theorem Lookup_append (s t : TypeDefinitionSet) (n : InternalTypeName) :
    TypeDefinitionSet.Lookup (s ++ t) n =
      (TypeDefinitionSet.Lookup s n).or (TypeDefinitionSet.Lookup t n) := by
  simp [TypeDefinitionSet.Lookup, List.find?_append]

theorem Lookup_eq_none_iff (s : TypeDefinitionSet) (n : InternalTypeName) :
    TypeDefinitionSet.Lookup s n = none ↔ ∀ d ∈ s, d.name ≠ n := by
  simp [TypeDefinitionSet.Lookup, List.find?_eq_none]

theorem Lookup_isSome_of_mem (s : TypeDefinitionSet) (d : TypeDefinition) (h : d ∈ s) :
    ∃ e, TypeDefinitionSet.Lookup s d.name = some e := by
  cases hl : TypeDefinitionSet.Lookup s d.name with
  | none => exact absurd rfl ((Lookup_eq_none_iff s d.name).mp hl d h)
  | some e => exact ⟨e, rfl⟩

theorem Lookup_of_mem_wellFormed (s : TypeDefinitionSet) (d : TypeDefinition)
    (hwf : TypeDefinitionSet.WellFormed s) (h : d ∈ s) :
    TypeDefinitionSet.Lookup s d.name = some d := by
  induction s with
  | nil => cases h
  | cons a s ih =>
    unfold TypeDefinitionSet.WellFormed at hwf
    simp only [List.map_cons, List.nodup_cons] at hwf
    by_cases hda : a.name = d.name
    · rcases List.mem_cons.mp h with h1 | h1
      · subst h1
        simp [TypeDefinitionSet.Lookup, List.find?_cons]
      · exfalso
        apply hwf.1
        rw [hda]
        exact List.mem_map_of_mem (fun d => d.name) h1
    · rcases List.mem_cons.mp h with h1 | h1
      · subst h1; exact absurd rfl hda
      · have := ih hwf.2 h1
        simp only [TypeDefinitionSet.Lookup, List.find?_cons] at this ⊢
        simp [hda, this]

theorem Add_lookup (s s2 : TypeDefinitionSet) (d : TypeDefinition)
    (h : TypeDefinitionSet.Add s d = .ok s2) (n : InternalTypeName) :
    TypeDefinitionSet.Lookup s2 n = if n = d.name then some d else TypeDefinitionSet.Lookup s n := by
  unfold TypeDefinitionSet.Add at h
  cases hl : TypeDefinitionSet.Lookup s d.name with
  | none =>
    simp only [hl] at h
    cases h
    rw [Lookup_append]
    by_cases hn : n = d.name
    · subst hn
      rw [hl]
      simp [TypeDefinitionSet.Lookup, List.find?_cons]
    · have hn2 : ¬ d.name = n := fun e => hn e.symm
      simp only [hn, if_false]
      cases TypeDefinitionSet.Lookup s n <;>
        simp [TypeDefinitionSet.Lookup, List.find?_cons, hn2]
  | some e =>
    simp only [hl] at h
    by_cases he : e = d
    · simp only [he, if_true] at h
      cases h
      by_cases hn : n = d.name
      · subst hn
        simp [hl, he]
      · simp [hn]
    · simp [he] at h

theorem Add_wellFormed (s s2 : TypeDefinitionSet) (d : TypeDefinition)
    (hwf : TypeDefinitionSet.WellFormed s) (h : TypeDefinitionSet.Add s d = .ok s2) :
    TypeDefinitionSet.WellFormed s2 := by
  unfold TypeDefinitionSet.Add at h
  cases hl : TypeDefinitionSet.Lookup s d.name with
  | none =>
    simp only [hl] at h
    cases h
    unfold TypeDefinitionSet.WellFormed at hwf ⊢
    rw [List.map_append, List.nodup_append]
    refine ⟨hwf, by simp, ?_⟩
    intro a ha hb
    simp only [List.map_cons, List.map_nil, List.mem_singleton] at hb
    obtain ⟨e, he, hea⟩ := List.mem_map.mp ha
    exact (Lookup_eq_none_iff s d.name).mp hl e he (by rw [hea, hb])
  | some e =>
    simp only [hl] at h
    by_cases he : e = d
    · simp only [he, if_true] at h
      cases h
      exact hwf
    · simp [he] at h

theorem Add_ok_of_agrees (s : TypeDefinitionSet) (d : TypeDefinition)
    (F : InternalTypeName → Option TypeDefinition)
    (hs : ∀ n e, TypeDefinitionSet.Lookup s n = some e → F n = some e)
    (hd : F d.name = some d) : ∃ s2, TypeDefinitionSet.Add s d = .ok s2 := by
  unfold TypeDefinitionSet.Add
  cases hl : TypeDefinitionSet.Lookup s d.name with
  | none => exact ⟨_, rfl⟩
  | some e =>
    have := hs _ _ hl
    rw [hd] at this
    cases this
    exact ⟨s, by simp⟩

/-! ## The loops -/

theorem forEachAdd_cons (body : TypeDefinition → Result (Option TypeDefinition))
    (td : TypeDefinition) (rest : List TypeDefinition) (acc : TypeDefinitionSet) :
    forEachAdd body (td :: rest) acc =
      match body td with
      | .error err => .error err
      | .ok none => forEachAdd body rest acc
      | .ok (some d) =>
        match TypeDefinitionSet.Add acc d with
        | .error err => .error err
        | .ok next => forEachAdd body rest next := by
  rw [forEachAdd]

theorem forEachAdd_mono (body : TypeDefinition → Result (Option TypeDefinition))
    (l : List TypeDefinition) (acc res : TypeDefinitionSet)
    (h : forEachAdd body l acc = .ok res) (n : InternalTypeName) (d : TypeDefinition)
    (hd : TypeDefinitionSet.Lookup acc n = some d) : TypeDefinitionSet.Lookup res n = some d := by
  induction l generalizing acc with
  | nil => simp [forEachAdd] at h; subst h; exact hd
  | cons td rest ih =>
    unfold forEachAdd at h
    cases hb : body td with
    | error err => simp [hb] at h
    | ok o =>
      cases o with
      | none => simp only [hb] at h; exact ih acc h hd
      | some e =>
        simp only [hb] at h
        cases ha : TypeDefinitionSet.Add acc e with
        | error err => simp [ha] at h
        | ok next =>
          simp only [ha] at h
          apply ih next h
          rw [Add_lookup acc next e ha n]
          by_cases hn : n = e.name
          · subst hn
            simp only [if_true]
            unfold TypeDefinitionSet.Add at ha
            simp only [hd] at ha
            by_cases hde : d = e
            · rw [hde]
            · simp [hde] at ha
          · simp [hn, hd]

theorem forEachAdd_body (body : TypeDefinition → Result (Option TypeDefinition))
    (l : List TypeDefinition) (acc res : TypeDefinitionSet)
    (h : forEachAdd body l acc = .ok res) (td : TypeDefinition) (htd : td ∈ l) :
    ∃ o, body td = .ok o ∧ ∀ d, o = some d → TypeDefinitionSet.Lookup res d.name = some d := by
  induction l generalizing acc with
  | nil => cases htd
  | cons a rest ih =>
    unfold forEachAdd at h
    cases hb : body a with
    | error err => simp [hb] at h
    | ok o =>
      cases o with
      | none =>
        simp only [hb] at h
        rcases List.mem_cons.mp htd with h1 | h1
        · subst h1
          exact ⟨none, hb, by intro d hd; cases hd⟩
        · exact ih acc h h1
      | some e =>
        simp only [hb] at h
        cases ha : TypeDefinitionSet.Add acc e with
        | error err => simp [ha] at h
        | ok next =>
          simp only [ha] at h
          rcases List.mem_cons.mp htd with h1 | h1
          · subst h1
            refine ⟨some e, hb, ?_⟩
            intro d hd
            have hde : e = d := by simpa using hd
            subst hde
            apply forEachAdd_mono body rest next res h
            rw [Add_lookup acc next e ha]
            simp
          · exact ih next h h1

theorem forEachAdd_origin (body : TypeDefinition → Result (Option TypeDefinition))
    (l : List TypeDefinition) (acc res : TypeDefinitionSet)
    (h : forEachAdd body l acc = .ok res) (n : InternalTypeName) (d : TypeDefinition)
    (hd : TypeDefinitionSet.Lookup res n = some d) :
    TypeDefinitionSet.Lookup acc n = some d ∨
      ∃ td ∈ l, body td = .ok (some d) ∧ d.name = n := by
  induction l generalizing acc with
  | nil => simp [forEachAdd] at h; subst h; exact Or.inl hd
  | cons a rest ih =>
    unfold forEachAdd at h
    cases hb : body a with
    | error err => simp [hb] at h
    | ok o =>
      cases o with
      | none =>
        simp only [hb] at h
        rcases ih acc h with h1 | ⟨td, htd, h2⟩
        · exact Or.inl h1
        · exact Or.inr ⟨td, List.mem_cons_of_mem _ htd, h2⟩
      | some e =>
        simp only [hb] at h
        cases ha : TypeDefinitionSet.Add acc e with
        | error err => simp [ha] at h
        | ok next =>
          simp only [ha] at h
          rcases ih next h with h1 | ⟨td, htd, h2⟩
          · rw [Add_lookup acc next e ha n] at h1
            by_cases hn : n = e.name
            · simp only [hn, if_true] at h1
              have hde : e = d := by simpa using h1
              subst hde
              exact Or.inr ⟨a, List.mem_cons_self _ _, hb, hn.symm⟩
            · simp only [hn, if_false] at h1
              exact Or.inl h1
          · exact Or.inr ⟨td, List.mem_cons_of_mem _ htd, h2⟩

theorem forEachAdd_wellFormed (body : TypeDefinition → Result (Option TypeDefinition))
    (l : List TypeDefinition) (acc res : TypeDefinitionSet)
    (hwf : TypeDefinitionSet.WellFormed acc)
    (h : forEachAdd body l acc = .ok res) : TypeDefinitionSet.WellFormed res := by
  induction l generalizing acc with
  | nil => simp [forEachAdd] at h; subst h; exact hwf
  | cons a rest ih =>
    unfold forEachAdd at h
    cases hb : body a with
    | error err => simp [hb] at h
    | ok o =>
      cases o with
      | none => simp only [hb] at h; exact ih acc hwf h
      | some e =>
        simp only [hb] at h
        cases ha : TypeDefinitionSet.Add acc e with
        | error err => simp [ha] at h
        | ok next =>
          simp only [ha] at h
          exact ih next (Add_wellFormed acc next e hwf ha) h

theorem forEachAdd_succeeds (body : TypeDefinition → Result (Option TypeDefinition))
    (F : InternalTypeName → Option TypeDefinition)
    (l : List TypeDefinition) (acc : TypeDefinitionSet)
    (hacc : ∀ n e, TypeDefinitionSet.Lookup acc n = some e → F n = some e)
    (hbody : ∀ td ∈ l, ∃ o, body td = .ok o ∧ ∀ d, o = some d → F d.name = some d) :
    ∃ res, forEachAdd body l acc = .ok res ∧
      ∀ n e, TypeDefinitionSet.Lookup res n = some e → F n = some e := by
  induction l generalizing acc with
  | nil => exact ⟨acc, rfl, hacc⟩
  | cons a rest ih =>
    obtain ⟨o, hb, ho⟩ := hbody a (List.mem_cons_self _ _)
    have hrest : ∀ td ∈ rest, ∃ o, body td = .ok o ∧ ∀ d, o = some d → F d.name = some d :=
      fun td htd => hbody td (List.mem_cons_of_mem _ htd)
    unfold forEachAdd
    cases o with
    | none => simp only [hb]; exact ih acc hacc hrest
    | some e =>
      simp only [hb]
      obtain ⟨next, ha⟩ := Add_ok_of_agrees acc e F hacc (ho e rfl)
      simp only [ha]
      apply ih next _ hrest
      intro n d hd
      rw [Add_lookup acc next e ha n] at hd
      by_cases hn : n = e.name
      · simp only [hn, if_true] at hd
        have hde : e = d := by simpa using hd
        subst hde
        rw [hn]; exact ho e rfl
      · simp only [hn, if_false] at hd
        exact hacc n d hd

theorem forEachAdd_error_of_mem (body : TypeDefinition → Result (Option TypeDefinition))
    (l : List TypeDefinition) (acc : TypeDefinitionSet) (td : TypeDefinition) (htd : td ∈ l)
    (err : Error) (hb : body td = .error err) : ∃ e, forEachAdd body l acc = .error e := by
  cases h : forEachAdd body l acc with
  | error e => exact ⟨e, rfl⟩
  | ok res =>
    obtain ⟨o, ho, _⟩ := forEachAdd_body body l acc res h td htd
    rw [hb] at ho
    cases ho

theorem forEachAdd_append (body : TypeDefinition → Result (Option TypeDefinition))
    (l1 l2 : List TypeDefinition) (acc : TypeDefinitionSet) :
    forEachAdd body (l1 ++ l2) acc =
      match forEachAdd body l1 acc with
      | .error err => .error err
      | .ok mid => forEachAdd body l2 mid := by
  induction l1 generalizing acc with
  | nil => rfl
  | cons a rest ih =>
    rw [List.cons_append, forEachAdd_cons, forEachAdd_cons]
    cases hb : body a with
    | error err => rfl
    | ok o =>
      cases o with
      | none => exact ih acc
      | some e =>
        simp only []
        cases ha : TypeDefinitionSet.Add acc e with
        | error err => rfl
        | ok next => exact ih next

theorem AddTypes_eq_forEachAdd (s t : TypeDefinitionSet) :
    TypeDefinitionSet.AddTypes s t = forEachAdd (fun d => .ok (some d)) t s := by
  induction t generalizing s with
  | nil => rfl
  | cons a rest ih =>
    rw [forEachAdd_cons, TypeDefinitionSet.AddTypes]
    simp only []
    cases ha : TypeDefinitionSet.Add s a with
    | error err => rfl
    | ok next => exact ih next

/-! ## Attaching the capability to a definition -/

theorem withCapability_name (i : InterfaceImplementation) (d : TypeDefinition) :
    (withCapability i d).name = d.name := by
  unfold withCapability
  cases AsObjectType d.type <;> rfl

theorem withCapability_description (i : InterfaceImplementation) (d : TypeDefinition) :
    (withCapability i d).description = d.description := by
  unfold withCapability
  cases AsObjectType d.type <;> rfl

theorem withCapability_object (i : InterfaceImplementation) (d : TypeDefinition) (ko : ObjectType)
    (h : AsObjectType d.type = some ko) :
    AsObjectType (withCapability i d).type = some (ObjectType.WithInterface ko i) := by
  simp only [withCapability, h, TypeDefinition.WithType]
  exact AsObjectType_replaceObject _ _ (by simp [h])

theorem withCapability_type (i : InterfaceImplementation) (d : TypeDefinition) (ko : ObjectType)
    (h : AsObjectType d.type = some ko) :
    (withCapability i d).type = replaceObject (ObjectType.WithInterface ko i) d.type := by
  simp only [withCapability, h, TypeDefinition.WithType]

theorem withCapability_eq (i : InterfaceImplementation) (d : TypeDefinition) (ko : ObjectType)
    (h : AsObjectType d.type = some ko) :
    withCapability i d =
      { name := d.name, type := replaceObject (ObjectType.WithInterface ko i) d.type,
        description := d.description } := by
  simp only [withCapability, h, TypeDefinition.WithType]

theorem withCapability_not_object (i : InterfaceImplementation) (d : TypeDefinition)
    (h : AsObjectType d.type = none) : withCapability i d = d := by
  simp only [withCapability, h]

theorem withCapability_isObject (i : InterfaceImplementation) (d : TypeDefinition) :
    (AsObjectType (withCapability i d).type).isSome = (AsObjectType d.type).isSome := by
  cases h : AsObjectType d.type with
  | none => rw [withCapability_not_object i d h, h]
  | some ko => rw [withCapability_object i d ko h]; rfl

theorem withCapability_flag (i : InterfaceImplementation) (d : TypeDefinition) :
    TypeFlag.ARMFlag.IsOn (withCapability i d).type = TypeFlag.ARMFlag.IsOn d.type := by
  cases h : AsObjectType d.type with
  | none => rw [withCapability_not_object i d h]
  | some ko => rw [withCapability_type i d ko h, ARMFlag_replaceObject]

theorem WithInterface_WithInterface (t : ObjectType) (i : InterfaceImplementation) :
    ObjectType.WithInterface (ObjectType.WithInterface t i) i = ObjectType.WithInterface t i := by
  unfold ObjectType.WithInterface
  simp only [List.filter_append, List.filter_filter]
  have h1 : List.filter (fun a => decide (a.Name ≠ i.Name) && decide (a.Name ≠ i.Name))
      t.interfaces = List.filter (fun a => decide (a.Name ≠ i.Name)) t.interfaces := by
    congr 1; funext a; simp
  simp [h1]

theorem withCapability_withCapability (i : InterfaceImplementation) (d : TypeDefinition) :
    withCapability i (withCapability i d) = withCapability i d := by
  cases h : AsObjectType d.type with
  | none => rw [withCapability_not_object i d h, withCapability_not_object i d h]
  | some ko =>
    have h2 := withCapability_object i d ko h
    rw [withCapability_eq i (withCapability i d) _ h2, WithInterface_WithInterface,
      withCapability_name, withCapability_description, withCapability_type i d ko h,
      replaceObject_replaceObject, withCapability_eq i d ko h]

theorem withCapability_last (i : InterfaceImplementation) (d : TypeDefinition) (o : ObjectType)
    (hd : (AsObjectType d.type).isSome = true)
    (h : AsObjectType (withCapability i d).type = some o) : o.interfaces.getLast? = some i := by
  cases hk : AsObjectType d.type with
  | none => simp [hk] at hd
  | some ko =>
    rw [withCapability_object i d ko hk] at h
    cases h
    simp [ObjectType.WithInterface]

theorem isStatusDefinition_withCapability (x : Externals) (i : InterfaceImplementation)
    (d : TypeDefinition) : isStatusDefinition x (withCapability i d) = isStatusDefinition x d := by
  simp only [isStatusDefinition, TypeDefinition.Type, TypeDefinition.Name, withCapability_isObject,
    withCapability_flag, withCapability_name]

theorem lookupPayloadType_congr (c1 c2 : armConversionApplier) (d1 d2 : TypeDefinition)
    (hc : c1.config = c2.config) (hn : d1.name = d2.name) :
    lookupPayloadType c1 d1 = lookupPayloadType c2 d2 := by
  simp only [lookupPayloadType, TypeDefinition.Name, hc, hn]

/-! ## The transformed spec -/

theorem specTransformed_name (r : ResourceType) (sd : TypeDefinition) :
    (specTransformed r sd).name = sd.name := by
  unfold specTransformed
  cases AsObjectType sd.type <;> rfl

theorem specTransformed_object (r : ResourceType) (sd : TypeDefinition) (o : ObjectType)
    (h : AsObjectType sd.type = some o) :
    AsObjectType (specTransformed r sd).type = some (withOwner r (remapped o)) := by
  simp only [specTransformed, h, TypeDefinition.WithType]
  exact AsObjectType_replaceObject _ _ (by simp [h])

theorem specTransformed_eq (r : ResourceType) (sd : TypeDefinition) (o : ObjectType)
    (h : AsObjectType sd.type = some o) :
    specTransformed r sd =
      { name := sd.name, type := replaceObject (withOwner r (remapped o)) sd.type,
        description := sd.description } := by
  simp only [specTransformed, h, TypeDefinition.WithType]

theorem specTransformed_flag (r : ResourceType) (sd : TypeDefinition) :
    TypeFlag.ARMFlag.IsOn (specTransformed r sd).type = TypeFlag.ARMFlag.IsOn sd.type := by
  unfold specTransformed
  cases h : AsObjectType sd.type with
  | none => rfl
  | some o => simp only [TypeDefinition.WithType, ARMFlag_replaceObject]

theorem transformSpec_eq (c : armConversionApplier) (r : ResourceType) (sd : TypeDefinition)
    (o : ObjectType) (hspec : TypeDefinitionSet.Lookup c.definitions r.specType = some sd)
    (hobj : AsObjectType sd.type = some o) : transformSpec c r = .ok (specTransformed r sd) := by
  rw [transformSpec_ok c r sd o hspec hobj]
  simp [specTransformed, hobj]

theorem Property_specObject_name (r : ResourceType) (o : ObjectType) :
    ObjectType.Property (withOwner r (remapped o)) NameProperty = none := by
  rw [Property_withOwner_other r _ NameProperty (by decide)]
  cases h : ObjectType.Property o NameProperty with
  | none => rw [remapped_of_no_name o h]; exact h
  | some nameProp =>
    rw [remapped_of_name o nameProp h, Property_WithProperty_other _ _ NameProperty
      (by show NameProperty ≠ GetAzureNameProperty.propertyName; decide)]
    exact Property_WithoutProperty_same o NameProperty

theorem WithProperty_WithProperty (t : ObjectType) (p : PropertyDefinition) :
    ObjectType.WithProperty (ObjectType.WithProperty t p) p = ObjectType.WithProperty t p := by
  unfold ObjectType.WithProperty
  simp only [List.filter_append, List.filter_filter]
  have h1 : List.filter (fun a => decide (a.propertyName ≠ p.propertyName) &&
      decide (a.propertyName ≠ p.propertyName)) t.properties =
      List.filter (fun a => decide (a.propertyName ≠ p.propertyName)) t.properties := by
    congr 1; funext a; simp
  simp [h1]

theorem withOwner_withOwner (r : ResourceType) (t : ObjectType) :
    withOwner r (withOwner r t) = withOwner r t := by
  by_cases hext : r.scope = .Extension
  · rw [withOwner_extension r _ hext, withOwner_extension r _ hext, WithProperty_WithProperty]
  · by_cases h : r.owner.IsEmpty = false ∧ r.scope = .ResourceGroup
    · rw [withOwner_resource_group r _ h.2 h.1, withOwner_resource_group r _ h.2 h.1,
        WithProperty_WithProperty]
    · rw [withOwner_unchanged r _ hext h, withOwner_unchanged r _ hext h]

theorem withOwner_WithInterface (r : ResourceType) (t : ObjectType)
    (i : InterfaceImplementation) :
    withOwner r (ObjectType.WithInterface t i) = ObjectType.WithInterface (withOwner r t) i := by
  by_cases hext : r.scope = .Extension
  · rw [withOwner_extension r _ hext, withOwner_extension r _ hext]; rfl
  · by_cases h : r.owner.IsEmpty = false ∧ r.scope = .ResourceGroup
    · rw [withOwner_resource_group r _ h.2 h.1, withOwner_resource_group r _ h.2 h.1]; rfl
    · rw [withOwner_unchanged r _ hext h, withOwner_unchanged r _ hext h]

/-- Transforming a transformed spec again, capability included, changes nothing. -/
theorem specTransformed_idempotent (r : ResourceType) (sd : TypeDefinition)
    (i : InterfaceImplementation) (h : (AsObjectType sd.type).isSome = true) :
    withCapability i (specTransformed r (withCapability i (specTransformed r sd))) =
      withCapability i (specTransformed r sd) := by
  cases ho : AsObjectType sd.type with
  | none => simp [ho] at h
  | some o =>
    have h1 := specTransformed_object r sd o ho
    have h2 := withCapability_object i _ _ h1
    have hname : ObjectType.Property (ObjectType.WithInterface (withOwner r (remapped o)) i)
        NameProperty = none := Property_specObject_name r o
    have h3 : withOwner r (remapped (ObjectType.WithInterface (withOwner r (remapped o)) i)) =
        ObjectType.WithInterface (withOwner r (remapped o)) i := by
      rw [remapped_of_no_name _ hname, withOwner_WithInterface, withOwner_withOwner]
    have h4 : specTransformed r (withCapability i (specTransformed r sd)) =
        withCapability i (specTransformed r sd) := by
      rw [specTransformed_eq r _ _ h2, h3, withCapability_name, withCapability_description,
        withCapability_type i _ _ h1, replaceObject_replaceObject, withCapability_eq i _ _ h1]
    rw [h4, withCapability_withCapability]

/-! ## The bodies of the loops -/

theorem GetARMTypeDefinition_some (x : Externals) (defs : TypeDefinitionSet)
    (name : InternalTypeName) (A : TypeDefinition)
    (h : TypeDefinitionSet.Lookup defs (x.CreateARMTypeName name) = some A) :
    GetARMTypeDefinition x defs name = .ok A := by
  simp [GetARMTypeDefinition, h]

theorem GetARMTypeDefinition_none (x : Externals) (defs : TypeDefinitionSet)
    (name : InternalTypeName)
    (h : TypeDefinitionSet.Lookup defs (x.CreateARMTypeName name) = none) :
    GetARMTypeDefinition x defs name =
      .error (.errorf "couldn't find ARM definition matching kube name %q" [.typeName name]) := by
  simp [GetARMTypeDefinition, h]

theorem transformResourceSpecsBody_ok (x : Externals) (c : armConversionApplier)
    (td sd A : TypeDefinition) (r : ResourceType) (p : PayloadType)
    (hr : AsResourceType td.type = some r)
    (hspec : TypeDefinitionSet.Lookup c.definitions r.specType = some sd)
    (hobj : (AsObjectType sd.type).isSome = true)
    (harm : TypeDefinitionSet.Lookup c.definitions (x.CreateARMTypeName r.specType) = some A)
    (hao : (AsObjectType A.type).isSome = true)
    (hp : lookupPayloadType c sd = .ok p) :
    transformResourceSpecsBody x c td =
      .ok (some (withCapability (.armConversion A.name .TypeKindSpec p) (specTransformed r sd))) := by
  obtain ⟨o, ho⟩ := Option.isSome_iff_exists.mp hobj
  obtain ⟨ao, hao2⟩ := Option.isSome_iff_exists.mp hao
  have hname : (specTransformed r sd).name = r.specType := by
    rw [specTransformed_name]; exact Lookup_name _ _ _ hspec
  have hp2 : lookupPayloadType c (specTransformed r sd) = .ok p := by
    rw [lookupPayloadType_congr c c _ sd rfl (specTransformed_name r sd)]; exact hp
  unfold transformResourceSpecsBody
  simp only [TypeDefinition.Type, hr, transformSpec_eq c r sd o hspec ho, TypeDefinition.Name, hname,
    GetARMTypeDefinition_some x _ _ A harm]
  rw [addARMConversionInterface_ok c _ A .TypeKindSpec ao _ p hao2
    (specTransformed_object r sd o ho) hp2]

theorem transformResourceSpecsBody_inv (x : Externals) (c : armConversionApplier)
    (td : TypeDefinition) (res : Option TypeDefinition)
    (h : transformResourceSpecsBody x c td = .ok res) :
    ∃ r sd A p, AsResourceType td.type = some r ∧
      TypeDefinitionSet.Lookup c.definitions r.specType = some sd ∧
      (AsObjectType sd.type).isSome = true ∧
      TypeDefinitionSet.Lookup c.definitions (x.CreateARMTypeName r.specType) = some A ∧
      (AsObjectType A.type).isSome = true ∧
      lookupPayloadType c sd = .ok p ∧
      res = some (withCapability (.armConversion A.name .TypeKindSpec p)
        (specTransformed r sd)) := by
  cases hr : AsResourceType td.type with
  | none => simp [transformResourceSpecsBody, TypeDefinition.Type, hr] at h
  | some r =>
    cases hspec : TypeDefinitionSet.Lookup c.definitions r.specType with
    | none =>
      obtain ⟨err, he⟩ := transformSpec_unresolved c r hspec
      simp [transformResourceSpecsBody, TypeDefinition.Type, hr, he] at h
    | some sd =>
      cases hobj : AsObjectType sd.type with
      | none =>
        obtain ⟨err, he⟩ := transformSpec_not_object c r sd hspec hobj
        simp [transformResourceSpecsBody, TypeDefinition.Type, hr, he] at h
      | some o =>
        have hname : (specTransformed r sd).name = r.specType := by
          rw [specTransformed_name]; exact Lookup_name _ _ _ hspec
        cases harm : TypeDefinitionSet.Lookup c.definitions (x.CreateARMTypeName r.specType) with
        | none =>
          simp [transformResourceSpecsBody, TypeDefinition.Type, hr,
            transformSpec_eq c r sd o hspec hobj, TypeDefinition.Name, hname,
            GetARMTypeDefinition_none x _ _ harm] at h
        | some A =>
          unfold transformResourceSpecsBody at h
          simp only [TypeDefinition.Type, hr, transformSpec_eq c r sd o hspec hobj,
            TypeDefinition.Name, hname, GetARMTypeDefinition_some x _ _ A harm] at h
          cases hadd : addARMConversionInterface c (specTransformed r sd) A .TypeKindSpec with
          | error err => simp [hadd] at h
          | ok d =>
            simp only [hadd] at h
            obtain ⟨ao, ko, p, h1, _, h3, h4⟩ := addARMConversionInterface_inv c _ A d _ hadd
            rw [lookupPayloadType_congr c c _ sd rfl (specTransformed_name r sd)] at h3
            refine ⟨r, sd, A, p, rfl, hspec, by simp [hobj], harm, by simp [h1], h3, ?_⟩
            rw [← h4]
            cases h
            rfl

theorem transformResourceStatusesBody_ok (x : Externals) (c : armConversionApplier)
    (td A : TypeDefinition) (p : PayloadType)
    (hobj : (AsObjectType td.type).isSome = true)
    (harm : TypeDefinitionSet.Lookup c.definitions (x.CreateARMTypeName td.name) = some A)
    (hao : (AsObjectType A.type).isSome = true)
    (hp : lookupPayloadType c td = .ok p) :
    transformResourceStatusesBody x c td =
      .ok (some (withCapability (.armConversion A.name .TypeKindStatus p) td)) := by
  obtain ⟨o, ho⟩ := Option.isSome_iff_exists.mp hobj
  obtain ⟨ao, hao2⟩ := Option.isSome_iff_exists.mp hao
  unfold transformResourceStatusesBody
  simp only [IgnoringErrors, TypeDefinition.Name, GetARMTypeDefinition_some x _ _ A harm]
  rw [addARMConversionInterface_ok c td A .TypeKindStatus ao o p hao2 ho hp]

theorem transformResourceStatusesBody_inv (x : Externals) (c : armConversionApplier)
    (td : TypeDefinition) (res : Option TypeDefinition)
    (h : transformResourceStatusesBody x c td = .ok res) :
    ∃ A p, TypeDefinitionSet.Lookup c.definitions (x.CreateARMTypeName td.name) = some A ∧
      (AsObjectType A.type).isSome = true ∧ (AsObjectType td.type).isSome = true ∧
      lookupPayloadType c td = .ok p ∧
      res = some (withCapability (.armConversion A.name .TypeKindStatus p) td) := by
  cases harm : TypeDefinitionSet.Lookup c.definitions (x.CreateARMTypeName td.name) with
  | none =>
    simp [transformResourceStatusesBody, IgnoringErrors, TypeDefinition.Name,
      GetARMTypeDefinition_none x _ _ harm] at h
  | some A =>
    unfold transformResourceStatusesBody at h
    simp only [IgnoringErrors, TypeDefinition.Name, GetARMTypeDefinition_some x _ _ A harm] at h
    cases hadd : addARMConversionInterface c td A .TypeKindStatus with
    | error err => simp [hadd] at h
    | ok d =>
      simp only [hadd] at h
      obtain ⟨ao, ko, p, h1, h2, h3, h4⟩ := addARMConversionInterface_inv c _ A d _ hadd
      refine ⟨A, p, rfl, by simp [h1], by simp [h2], h3, ?_⟩
      rw [← h4]
      cases h
      rfl

/-- The condition under which the last loop of `transformTypes` attaches the capability. -/
theorem transformTypesBody_unchanged (x : Externals) (c : armConversionApplier)
    (td : TypeDefinition)
    (h : (AsObjectType td.type).isSome = false ∨ TypeFlag.ARMFlag.IsOn td.type = true ∨
      x.requiresARMType td = false) :
    transformTypesBody x c td = .ok (some td) := by
  unfold transformTypesBody
  simp only [TypeDefinition.Type]
  rcases h with h | h | h <;> simp [h]

theorem transformTypesBody_ok (x : Externals) (c : armConversionApplier)
    (td A : TypeDefinition) (p : PayloadType)
    (hobj : (AsObjectType td.type).isSome = true) (hflag : TypeFlag.ARMFlag.IsOn td.type = false)
    (hreq : x.requiresARMType td = true)
    (harm : TypeDefinitionSet.Lookup c.definitions (x.CreateARMTypeName td.name) = some A)
    (hao : (AsObjectType A.type).isSome = true)
    (hp : lookupPayloadType c td = .ok p) :
    transformTypesBody x c td =
      .ok (some (withCapability (.armConversion A.name .TypeKindOrdinary p) td)) := by
  obtain ⟨o, ho⟩ := Option.isSome_iff_exists.mp hobj
  obtain ⟨ao, hao2⟩ := Option.isSome_iff_exists.mp hao
  unfold transformTypesBody
  simp only [TypeDefinition.Type, hobj, hflag, hreq, TypeDefinition.Name,
    GetARMTypeDefinition_some x _ _ A harm]
  rw [addARMConversionInterface_ok c td A .TypeKindOrdinary ao o p hao2 ho hp]
  simp

theorem transformTypesBody_inv (x : Externals) (c : armConversionApplier)
    (td : TypeDefinition) (res : Option TypeDefinition)
    (h : transformTypesBody x c td = .ok res) :
    (((AsObjectType td.type).isSome = false ∨ TypeFlag.ARMFlag.IsOn td.type = true ∨
        x.requiresARMType td = false) ∧ res = some td) ∨
    ((AsObjectType td.type).isSome = true ∧ TypeFlag.ARMFlag.IsOn td.type = false ∧
      x.requiresARMType td = true ∧
      ∃ A p, TypeDefinitionSet.Lookup c.definitions (x.CreateARMTypeName td.name) = some A ∧
        (AsObjectType A.type).isSome = true ∧ lookupPayloadType c td = .ok p ∧
        res = some (withCapability (.armConversion A.name .TypeKindOrdinary p) td)) := by
  by_cases hcond : (AsObjectType td.type).isSome = false ∨ TypeFlag.ARMFlag.IsOn td.type = true ∨
      x.requiresARMType td = false
  · rw [transformTypesBody_unchanged x c td hcond] at h
    cases h
    exact Or.inl ⟨hcond, rfl⟩
  · have hobj : (AsObjectType td.type).isSome = true := by
      cases hv : (AsObjectType td.type).isSome
      · exact absurd (Or.inl hv) hcond
      · rfl
    have hflag : TypeFlag.ARMFlag.IsOn td.type = false := by
      cases hv : TypeFlag.ARMFlag.IsOn td.type
      · rfl
      · exact absurd (Or.inr (Or.inl hv)) hcond
    have hreq : x.requiresARMType td = true := by
      cases hv : x.requiresARMType td
      · exact absurd (Or.inr (Or.inr hv)) hcond
      · rfl
    refine Or.inr ⟨hobj, hflag, hreq, ?_⟩
    cases harm : TypeDefinitionSet.Lookup c.definitions (x.CreateARMTypeName td.name) with
    | none =>
      simp [transformTypesBody, TypeDefinition.Type, hobj, hflag, hreq, TypeDefinition.Name,
        GetARMTypeDefinition_none x _ _ harm] at h
    | some A =>
      unfold transformTypesBody at h
      simp only [TypeDefinition.Type, hobj, hflag, hreq, TypeDefinition.Name,
        GetARMTypeDefinition_some x _ _ A harm] at h
      cases hadd : addARMConversionInterface c td A .TypeKindOrdinary with
      | error err => simp [hadd] at h
      | ok d =>
        simp [hadd] at h
        obtain ⟨ao, ko, p, h1, _, h3, h4⟩ := addARMConversionInterface_inv c _ A d _ hadd
        refine ⟨A, p, rfl, by simp [h1], h3, ?_⟩
        rw [← h4, h]

/-! ## The stages of a run -/

theorem wellFormed_nil : TypeDefinitionSet.WellFormed [] := by
  simp [TypeDefinitionSet.WellFormed]

theorem mem_Except (s t : TypeDefinitionSet) (td : TypeDefinition) :
    td ∈ TypeDefinitionSet.Except s t ↔ td ∈ s ∧ TypeDefinitionSet.Lookup t td.name = none := by
  simp only [TypeDefinitionSet.Except, TypeDefinitionSet.Contains, List.mem_filter]
  cases TypeDefinitionSet.Lookup t td.name <;> simp

theorem mem_Where (s : TypeDefinitionSet) (p : TypeDefinition → Bool) (td : TypeDefinition) :
    td ∈ TypeDefinitionSet.Where s p ↔ td ∈ s ∧ p td = true := by
  simp [TypeDefinitionSet.Where, List.mem_filter]

theorem AddTypes_wellFormed (s t res : TypeDefinitionSet) (hwf : TypeDefinitionSet.WellFormed s)
    (h : TypeDefinitionSet.AddTypes s t = .ok res) : TypeDefinitionSet.WellFormed res := by
  rw [AddTypes_eq_forEachAdd] at h
  exact forEachAdd_wellFormed _ t s res hwf h

theorem AddTypes_mono (s t res : TypeDefinitionSet)
    (h : TypeDefinitionSet.AddTypes s t = .ok res) (n : InternalTypeName) (d : TypeDefinition)
    (hd : TypeDefinitionSet.Lookup s n = some d) : TypeDefinitionSet.Lookup res n = some d := by
  rw [AddTypes_eq_forEachAdd] at h
  exact forEachAdd_mono _ t s res h n d hd

theorem AddTypes_mem (s t res : TypeDefinitionSet)
    (h : TypeDefinitionSet.AddTypes s t = .ok res) (d : TypeDefinition) (hd : d ∈ t) :
    TypeDefinitionSet.Lookup res d.name = some d := by
  rw [AddTypes_eq_forEachAdd] at h
  obtain ⟨o, ho, hl⟩ := forEachAdd_body _ t s res h d hd
  cases ho
  exact hl d rfl

theorem AddTypes_origin (s t res : TypeDefinitionSet)
    (h : TypeDefinitionSet.AddTypes s t = .ok res) (n : InternalTypeName) (d : TypeDefinition)
    (hd : TypeDefinitionSet.Lookup res n = some d) :
    TypeDefinitionSet.Lookup s n = some d ∨ (d ∈ t ∧ d.name = n) := by
  rw [AddTypes_eq_forEachAdd] at h
  rcases forEachAdd_origin _ t s res h n d hd with h1 | ⟨td, htd, hb, hn⟩
  · exact Or.inl h1
  · have : td = d := by simpa using hb
    subst this
    exact Or.inr ⟨htd, hn⟩

theorem transformTypes_inv (x : Externals) (c : armConversionApplier) (res : TypeDefinitionSet)
    (h : transformTypes x c = .ok res) :
    ∃ specs r1 statuses r2,
      transformResourceSpecs x c = .ok specs ∧
      TypeDefinitionSet.AddTypes [] specs = .ok r1 ∧
      transformResourceStatuses x c = .ok statuses ∧
      TypeDefinitionSet.AddTypes r1 statuses = .ok r2 ∧
      forEachAdd (transformTypesBody x c) (TypeDefinitionSet.Except c.definitions r2) r2 =
        .ok res := by
  unfold transformTypes at h
  cases h1 : transformResourceSpecs x c with
  | error err => simp [h1] at h
  | ok specs =>
    simp only [h1] at h
    cases h2 : TypeDefinitionSet.AddTypes [] specs with
    | error err => simp [h2] at h
    | ok r1 =>
      simp only [h2] at h
      cases h3 : transformResourceStatuses x c with
      | error err => simp [h3] at h
      | ok statuses =>
        simp only [h3] at h
        cases h4 : TypeDefinitionSet.AddTypes r1 statuses with
        | error err => simp [h4] at h
        | ok r2 =>
          simp only [h4] at h
          exact ⟨specs, r1, statuses, r2, rfl, h2, rfl, h4, h⟩

theorem transformTypes_of_stages (x : Externals) (c : armConversionApplier)
    (specs r1 statuses r2 res : TypeDefinitionSet)
    (h1 : transformResourceSpecs x c = .ok specs)
    (h2 : TypeDefinitionSet.AddTypes [] specs = .ok r1)
    (h3 : transformResourceStatuses x c = .ok statuses)
    (h4 : TypeDefinitionSet.AddTypes r1 statuses = .ok r2)
    (h5 : forEachAdd (transformTypesBody x c) (TypeDefinitionSet.Except c.definitions r2) r2 =
      .ok res) : transformTypes x c = .ok res := by
  unfold transformTypes
  simp only [h1, h2, h3, h4, h5]

/-- What the result of the first two loops holds: the transformed specs of the resources and the
transformed statuses, and nothing else. -/
theorem stage2_facts (x : Externals) (c : armConversionApplier)
    (specs r1 statuses r2 : TypeDefinitionSet)
    (h1 : transformResourceSpecs x c = .ok specs)
    (h2 : TypeDefinitionSet.AddTypes [] specs = .ok r1)
    (h3 : transformResourceStatuses x c = .ok statuses)
    (h4 : TypeDefinitionSet.AddTypes r1 statuses = .ok r2) :
    TypeDefinitionSet.WellFormed r2 ∧
    (∀ td ∈ c.definitions, (AsResourceType td.type).isSome = true →
      ∃ d, transformResourceSpecsBody x c td = .ok (some d) ∧
        TypeDefinitionSet.Lookup r2 d.name = some d) ∧
    (∀ td ∈ c.definitions, isStatusDefinition x td = true →
      ∃ d, transformResourceStatusesBody x c td = .ok (some d) ∧
        TypeDefinitionSet.Lookup r2 d.name = some d) ∧
    (∀ n d, TypeDefinitionSet.Lookup r2 n = some d →
      (∃ td ∈ c.definitions, (AsResourceType td.type).isSome = true ∧
        transformResourceSpecsBody x c td = .ok (some d) ∧ d.name = n) ∨
      (∃ td ∈ c.definitions, isStatusDefinition x td = true ∧
        transformResourceStatusesBody x c td = .ok (some d) ∧ d.name = n)) := by
  unfold transformResourceSpecs at h1
  unfold transformResourceStatuses at h3
  simp only [] at h1 h3
  have wfSpecs := forEachAdd_wellFormed _ _ _ _ wellFormed_nil h1
  have wfStatuses := forEachAdd_wellFormed _ _ _ _ wellFormed_nil h3
  have wf1 := AddTypes_wellFormed _ _ _ wellFormed_nil h2
  refine ⟨AddTypes_wellFormed _ _ _ wf1 h4, ?_, ?_, ?_⟩
  · intro td htd hres
    obtain ⟨o, hb, hl⟩ := forEachAdd_body _ _ _ _ h1 td ((mem_Where _ _ _).mpr ⟨htd, hres⟩)
    obtain ⟨r, sd, A, p, _, _, _, _, _, _, ho⟩ := transformResourceSpecsBody_inv x c td o hb
    subst ho
    refine ⟨_, hb, ?_⟩
    apply AddTypes_mono _ _ _ h4
    exact AddTypes_mem _ _ _ h2 _ (Lookup_mem _ _ _ (hl _ rfl))
  · intro td htd hst
    obtain ⟨o, hb, hl⟩ := forEachAdd_body _ _ _ _ h3 td ((mem_Where _ _ _).mpr ⟨htd, hst⟩)
    obtain ⟨A, p, _, _, _, _, ho⟩ := transformResourceStatusesBody_inv x c td o hb
    subst ho
    refine ⟨_, hb, ?_⟩
    exact AddTypes_mem _ _ _ h4 _ (Lookup_mem _ _ _ (hl _ rfl))
  · intro n d hd
    rcases AddTypes_origin _ _ _ h4 n d hd with hr1 | ⟨hmem, hn⟩
    · rcases AddTypes_origin _ _ _ h2 n d hr1 with hnil | ⟨hmem, hn⟩
      · simp [Lookup_nil] at hnil
      · have hl := Lookup_of_mem_wellFormed _ _ wfSpecs hmem
        rcases forEachAdd_origin _ _ _ _ h1 _ _ hl with hnil | ⟨td, htd, hb, _⟩
        · simp [Lookup_nil] at hnil
        · obtain ⟨htd1, htd2⟩ := (mem_Where _ _ _).mp htd
          exact Or.inl ⟨td, htd1, htd2, hb, hn⟩
    · have hl := Lookup_of_mem_wellFormed _ _ wfStatuses hmem
      rcases forEachAdd_origin _ _ _ _ h3 _ _ hl with hnil | ⟨td, htd, hb, _⟩
      · simp [Lookup_nil] at hnil
      · obtain ⟨htd1, htd2⟩ := (mem_Where _ _ _).mp htd
        exact Or.inr ⟨td, htd1, htd2, hb, hn⟩

/-- What the result of a run holds beyond the first two loops: for every other definition, the
definition the last loop yields for it. -/
theorem stage3_facts (x : Externals) (c : armConversionApplier) (r2 res : TypeDefinitionSet)
    (hwf : TypeDefinitionSet.WellFormed r2)
    (h5 : forEachAdd (transformTypesBody x c) (TypeDefinitionSet.Except c.definitions r2) r2 =
      .ok res) :
    TypeDefinitionSet.WellFormed res ∧
    (∀ n d, TypeDefinitionSet.Lookup r2 n = some d → TypeDefinitionSet.Lookup res n = some d) ∧
    (∀ td ∈ c.definitions, TypeDefinitionSet.Lookup r2 td.name = none →
      ∃ d, transformTypesBody x c td = .ok (some d) ∧ d.name = td.name ∧
        TypeDefinitionSet.Lookup res td.name = some d) ∧
    (∀ n d, TypeDefinitionSet.Lookup res n = some d →
      TypeDefinitionSet.Lookup r2 n = some d ∨
      ∃ td ∈ c.definitions, TypeDefinitionSet.Lookup r2 td.name = none ∧
        transformTypesBody x c td = .ok (some d) ∧ d.name = n) := by
  refine ⟨forEachAdd_wellFormed _ _ _ _ hwf h5, forEachAdd_mono _ _ _ _ h5, ?_, ?_⟩
  · intro td htd hnone
    obtain ⟨o, hb, hl⟩ := forEachAdd_body _ _ _ _ h5 td ((mem_Except _ _ _).mpr ⟨htd, hnone⟩)
    rcases transformTypesBody_inv x c td o hb with ⟨_, ho⟩ | ⟨_, _, _, A, p, _, _, _, ho⟩
    · subst ho
      exact ⟨td, hb, rfl, hl td rfl⟩
    · subst ho
      refine ⟨_, hb, withCapability_name _ _, ?_⟩
      have := hl _ rfl
      rwa [withCapability_name] at this
  · intro n d hd
    rcases forEachAdd_origin _ _ _ _ h5 n d hd with h | ⟨td, htd, hb, hn⟩
    · exact Or.inl h
    · obtain ⟨htd1, htd2⟩ := (mem_Except _ _ _).mp htd
      exact Or.inr ⟨td, htd1, htd2, hb, hn⟩

/-! ## Failure on a missing twin -/

theorem transformResourceSpecsBody_missing_twin (x : Externals) (c : armConversionApplier)
    (td sd : TypeDefinition) (r : ResourceType)
    (hr : AsResourceType td.type = some r)
    (hspec : TypeDefinitionSet.Lookup c.definitions r.specType = some sd)
    (hobj : (AsObjectType sd.type).isSome = true)
    (htwin : TypeDefinitionSet.Lookup c.definitions (x.CreateARMTypeName r.specType) = none) :
    transformResourceSpecsBody x c td =
      .error (.errorf "couldn't find ARM definition matching kube name %q"
        [.typeName r.specType]) := by
  obtain ⟨o, ho⟩ := Option.isSome_iff_exists.mp hobj
  have hname : (specTransformed r sd).name = r.specType := by
    rw [specTransformed_name]; exact Lookup_name _ _ _ hspec
  unfold transformResourceSpecsBody
  simp only [TypeDefinition.Type, hr, transformSpec_eq c r sd o hspec ho, TypeDefinition.Name, hname,
    GetARMTypeDefinition_none x _ _ htwin]

theorem transformTypes_error_of_specs (x : Externals) (c : armConversionApplier) (err : Error)
    (h : transformResourceSpecs x c = .error err) : transformTypes x c = .error err := by
  unfold transformTypes
  simp only [h]

/-- C4: if the definition set holds a resource whose spec resolves to an object and has no ARM
twin, `transformTypes` fails and yields no definition set; the run ends at the first definition
that fails, so when the loop over the resources enumerated before this one succeeds, the error
is the one of `GetARMTypeDefinition` and names the spec type of the resource. -/
theorem transformTypes_missing_twin (x : Externals) (c : armConversionApplier)
    (pre post : List TypeDefinition) (td sd : TypeDefinition) (r : ResourceType)
    (hdefs : c.definitions = pre ++ td :: post)
    (hr : AsResourceType td.type = some r)
    (hspec : TypeDefinitionSet.Lookup c.definitions r.specType = some sd)
    (hobj : (AsObjectType sd.type).isSome = true)
    (htwin : TypeDefinitionSet.Lookup c.definitions (x.CreateARMTypeName r.specType) = none) :
    (∃ err, transformTypes x c = .error err) ∧
    ((∃ acc, forEachAdd (transformResourceSpecsBody x c)
        (TypeDefinitionSet.Where pre (fun d => (AsResourceType d.Type).isSome)) [] = .ok acc) →
      ∃ err, transformTypes x c = .error err ∧
        err = .errorf "couldn't find ARM definition matching kube name %q"
          [.typeName r.specType] ∧
        ErrorArg.typeName r.specType ∈ err.args) := by
  have hbody := transformResourceSpecsBody_missing_twin x c td sd r hr hspec hobj htwin
  have hsel : (fun d : TypeDefinition => (AsResourceType d.Type).isSome) td = true := by
    simp [TypeDefinition.Type, hr]
  constructor
  · have hmem : td ∈ TypeDefinitionSet.Where c.definitions
        (fun d => (AsResourceType d.Type).isSome) := by
      rw [mem_Where, hdefs]
      exact ⟨by simp, hsel⟩
    obtain ⟨e, he⟩ := forEachAdd_error_of_mem (transformResourceSpecsBody x c) _ [] td hmem _ hbody
    exact ⟨e, transformTypes_error_of_specs x c e he⟩
  · rintro ⟨acc, hacc⟩
    refine ⟨_, transformTypes_error_of_specs x c _ ?_, rfl, by simp [Error.args]⟩
    unfold transformResourceSpecs
    simp only [hdefs, TypeDefinitionSet.Where, List.filter_append]
    rw [forEachAdd_append]
    simp only [TypeDefinitionSet.Where] at hacc
    rw [hacc]
    simp only [List.filter_cons, hsel, if_true]
    rw [forEachAdd_cons]
    simp only [hbody]

/-- C4, witness: the resource of the scenario with its spec and without the twin of the spec. -/
theorem transformTypes_missing_twin_witness :
    (∃ err, transformTypes exampleExternals
      { definitions := [namedValue, namedValueSpec], config := unconfigured } = .error err) ∧
    ∃ err, transformTypes exampleExternals
        { definitions := [namedValue, namedValueSpec], config := unconfigured } = .error err ∧
      err = .errorf "couldn't find ARM definition matching kube name %q"
        [.typeName (apiName "Service_NamedValue_Spec")] ∧
      ErrorArg.typeName (apiName "Service_NamedValue_Spec") ∈ err.args :=
  have h := transformTypes_missing_twin exampleExternals
    { definitions := [namedValue, namedValueSpec], config := unconfigured }
    [] [namedValueSpec] namedValue namedValueSpec namedValueResourceType rfl rfl
    (by decide) (by rfl) (by decide)
  ⟨h.1, h.2 ⟨[], rfl⟩⟩

/-! ## Statuses, ordinary objects and untouched definitions -/

theorem wellFormed_unique (s : TypeDefinitionSet) (a b : TypeDefinition)
    (hwf : TypeDefinitionSet.WellFormed s) (ha : a ∈ s) (hb : b ∈ s) (hn : a.name = b.name) :
    a = b := by
  have h1 := Lookup_of_mem_wellFormed s a hwf ha
  have h2 := Lookup_of_mem_wellFormed s b hwf hb
  rw [hn, h2] at h1
  cases h1
  rfl

theorem WithInterface_properties (t : ObjectType) (i : InterfaceImplementation) :
    (ObjectType.WithInterface t i).properties = t.properties := rfl

theorem WithInterface_validations (t : ObjectType) (i : InterfaceImplementation) :
    (ObjectType.WithInterface t i).validations = t.validations := rfl

theorem Property_WithInterface (t : ObjectType) (i : InterfaceImplementation) (name : String) :
    ObjectType.Property (ObjectType.WithInterface t i) name = ObjectType.Property t name := rfl

theorem mem_WithInterface (t : ObjectType) (i : InterfaceImplementation) :
    i ∈ (ObjectType.WithInterface t i).interfaces := by
  simp [ObjectType.WithInterface]

theorem isStatusDefinition_iff (x : Externals) (td : TypeDefinition) :
    isStatusDefinition x td = true ↔
      (AsObjectType td.type).isSome = true ∧ x.IsStatus td.name = true ∧
        TypeFlag.ARMFlag.IsOn td.type = false := by
  simp [isStatusDefinition, TypeDefinition.Type, TypeDefinition.Name, and_assoc]

/-- A definition that no resource names as its spec and that is not selected as a status is not
in the result of the first two loops. -/
theorem not_in_stage2 (x : Externals) (c : armConversionApplier)
    (specs r1 statuses r2 : TypeDefinitionSet)
    (h1 : transformResourceSpecs x c = .ok specs)
    (h2 : TypeDefinitionSet.AddTypes [] specs = .ok r1)
    (h3 : transformResourceStatuses x c = .ok statuses)
    (h4 : TypeDefinitionSet.AddTypes r1 statuses = .ok r2)
    (hwf : TypeDefinitionSet.WellFormed c.definitions) (td : TypeDefinition)
    (htd : td ∈ c.definitions)
    (hnotspec : ∀ rd ∈ c.definitions, ∀ r, AsResourceType rd.type = some r →
      r.specType ≠ td.name)
    (hnotstatus : isStatusDefinition x td = false) :
    TypeDefinitionSet.Lookup r2 td.name = none := by
  obtain ⟨_, _, _, horigin⟩ := stage2_facts x c specs r1 statuses r2 h1 h2 h3 h4
  cases hl : TypeDefinitionSet.Lookup r2 td.name with
  | none => rfl
  | some d =>
    exfalso
    rcases horigin _ _ hl with ⟨rd, hrd, _, hb, hn⟩ | ⟨td2, htd2, hst, hb, hn⟩
    · obtain ⟨r, sd, A, p, hr, hspec, _, _, _, _, ho⟩ := transformResourceSpecsBody_inv x c rd _ hb
      have hd : d = withCapability (.armConversion A.name .TypeKindSpec p)
          (specTransformed r sd) := by simpa using ho
      apply hnotspec rd hrd r hr
      rw [← hn, hd, withCapability_name, specTransformed_name]
      exact (Lookup_name _ _ _ hspec).symm
    · obtain ⟨A, p, _, _, _, _, ho⟩ := transformResourceStatusesBody_inv x c td2 _ hb
      have hd : d = withCapability (.armConversion A.name .TypeKindStatus p) td2 := by
        simpa using ho
      have hname : td2.name = td.name := by rw [← hn, hd, withCapability_name]
      have := wellFormed_unique _ _ _ hwf htd2 htd hname
      subst this
      rw [hst] at hnotstatus
      cases hnotstatus

/-- What a successful run holds for a definition that no resource names as its spec and that is
not selected as a status: the definition the last loop yields for it. -/
theorem other_lookup (x : Externals) (c : armConversionApplier) (res : TypeDefinitionSet)
    (h : transformTypes x c = .ok res)
    (hwf : TypeDefinitionSet.WellFormed c.definitions) (td : TypeDefinition)
    (htd : td ∈ c.definitions)
    (hnotspec : ∀ rd ∈ c.definitions, ∀ r, AsResourceType rd.type = some r →
      r.specType ≠ td.name)
    (hnotstatus : isStatusDefinition x td = false) :
    ∃ d, transformTypesBody x c td = .ok (some d) ∧
      TypeDefinitionSet.Lookup res td.name = some d := by
  obtain ⟨specs, r1, statuses, r2, h1, h2, h3, h4, h5⟩ := transformTypes_inv x c res h
  have hnone := not_in_stage2 x c specs r1 statuses r2 h1 h2 h3 h4 hwf td htd hnotspec hnotstatus
  obtain ⟨hwf2, _, _, _⟩ := stage2_facts x c specs r1 statuses r2 h1 h2 h3 h4
  obtain ⟨_, _, hother, _⟩ := stage3_facts x c r2 res hwf2 h5
  obtain ⟨d, hb, _, hl⟩ := hother td htd hnone
  exact ⟨d, hb, hl⟩

/-- A definition the last loop leaves alone is in the result of a successful run as it was. -/
theorem unchanged_lookup (x : Externals) (c : armConversionApplier) (res : TypeDefinitionSet)
    (h : transformTypes x c = .ok res)
    (hwf : TypeDefinitionSet.WellFormed c.definitions) (td : TypeDefinition)
    (htd : td ∈ c.definitions)
    (hnotspec : ∀ rd ∈ c.definitions, ∀ r, AsResourceType rd.type = some r →
      r.specType ≠ td.name)
    (hnotstatus : isStatusDefinition x td = false)
    (hcond : (AsObjectType td.type).isSome = false ∨ TypeFlag.ARMFlag.IsOn td.type = true ∨
      x.requiresARMType td = false) :
    TypeDefinitionSet.Lookup res td.name = some td := by
  obtain ⟨d, hb, hl⟩ := other_lookup x c res h hwf td htd hnotspec hnotstatus
  rw [transformTypesBody_unchanged x c td hcond] at hb
  cases hb
  exact hl

/-- C8: for a definition of the set that is an object type, has a status name and is not
ARM-flagged, the body of the loop of `transformResourceStatuses` yields, given the twin and the
payload type, the definition with the capability of kind `Status` attached; and when
`transformResourceStatuses` succeeds, its result holds under the name of the definition a
definition with the same name and description whose object has the capability of kind `Status`
referencing the twin, and exactly the properties and validations of the input object: the lookup
of every property name, `Name`, `Owner` and `AzureName` included, is as in the input. -/
theorem transformResourceStatuses_status (x : Externals) (c : armConversionApplier)
    (td : TypeDefinition) (ko : ObjectType)
    (htd : td ∈ c.definitions) (hobj : AsObjectType td.type = some ko)
    (hname : x.IsStatus td.name = true) (hflag : TypeFlag.ARMFlag.IsOn td.type = false) :
    (∀ A p, TypeDefinitionSet.Lookup c.definitions (x.CreateARMTypeName td.name) = some A →
      (AsObjectType A.type).isSome = true → lookupPayloadType c td = .ok p →
      transformResourceStatusesBody x c td =
        .ok (some (td.WithType (replaceObject (ObjectType.WithInterface ko
          (.armConversion (x.CreateARMTypeName td.name) .TypeKindStatus p)) td.type)))) ∧
    (∀ statuses, transformResourceStatuses x c = .ok statuses →
      ∃ d t p, TypeDefinitionSet.Lookup statuses td.name = some d ∧
        d.name = td.name ∧ d.description = td.description ∧
        AsObjectType d.type = some t ∧
        t = ObjectType.WithInterface ko
          (.armConversion (x.CreateARMTypeName td.name) .TypeKindStatus p) ∧
        InterfaceImplementation.armConversion (x.CreateARMTypeName td.name) .TypeKindStatus p
          ∈ t.interfaces ∧
        t.properties = ko.properties ∧ t.validations = ko.validations ∧
        ∀ name, ObjectType.Property t name = ObjectType.Property ko name) := by
  constructor
  · intro A p harm hao hp
    rw [transformResourceStatusesBody_ok x c td A p (by simp [hobj]) harm hao hp,
      Lookup_name _ _ _ harm, withCapability_eq _ td ko hobj]
    rfl
  · intro statuses h3
    unfold transformResourceStatuses at h3
    simp only [] at h3
    have hsel : isStatusDefinition x td = true :=
      (isStatusDefinition_iff x td).mpr ⟨by simp [hobj], hname, hflag⟩
    obtain ⟨o, hb, hl⟩ := forEachAdd_body _ _ _ _ h3 td ((mem_Where _ _ _).mpr ⟨htd, hsel⟩)
    obtain ⟨A, p, harm, _, _, _, ho⟩ := transformResourceStatusesBody_inv x c td o hb
    subst ho
    have hl2 := hl _ rfl
    rw [withCapability_name] at hl2
    rw [Lookup_name _ _ _ harm] at hl2
    refine ⟨_, _, p, hl2, withCapability_name _ _, withCapability_description _ _,
      withCapability_object _ td ko hobj, rfl, mem_WithInterface _ _, rfl, rfl, ?_⟩
    intro name
    rfl

/-- C8, witness: `Service_NamedValue_STATUS` of the scenario keeps its `Name` property and gets
no `Owner` and no `AzureName` property. -/
theorem transformResourceStatuses_status_witness :
    ∃ statuses d t p, transformResourceStatuses exampleExternals namedValueApplier = .ok statuses ∧
      TypeDefinitionSet.Lookup statuses namedValueStatus.name = some d ∧
      AsObjectType d.type = some t ∧
      InterfaceImplementation.armConversion (apiName "Service_NamedValue_STATUS_ARM")
        .TypeKindStatus p ∈ t.interfaces ∧
      t.properties = namedValueStatusObject.properties ∧
      ObjectType.Property t "Name" = some (plainProperty "Name" (.optional StringType)) ∧
      ObjectType.Property t "Owner" = none ∧
      ObjectType.Property t "AzureName" = none := by
  have hrun : transformResourceStatuses exampleExternals namedValueApplier =
      .ok [withCapability (.armConversion (apiName "Service_NamedValue_STATUS_ARM")
        .TypeKindStatus .OmitEmptyProperties) namedValueStatus] := by rfl
  obtain ⟨d, t, p, h1, _, _, h4, _, h6, h7, _, h9⟩ :=
    (transformResourceStatuses_status exampleExternals namedValueApplier namedValueStatus
      namedValueStatusObject (by decide) rfl (by decide) (by decide)).2 _ hrun
  refine ⟨_, d, t, p, hrun, h1, h4, h6, h7, ?_, ?_, ?_⟩
  · rw [h9]; decide
  · rw [h9]; decide
  · rw [h9]; decide

theorem isResourceSpec_false (set : TypeDefinitionSet) (name : InternalTypeName)
    (h : TypeDefinitionSet.isResourceSpec set name = false) :
    ∀ rd ∈ set, ∀ r, AsResourceType rd.type = some r → r.specType ≠ name := by
  intro rd hrd r hr heq
  have : TypeDefinitionSet.isResourceSpec set name = true := by
    unfold TypeDefinitionSet.isResourceSpec
    rw [List.any_eq_true]
    exact ⟨rd, hrd, by simp [hr, heq]⟩
  rw [h] at this
  cases this

theorem isResourceSpec_true (set : TypeDefinitionSet) (name : InternalTypeName)
    (h : TypeDefinitionSet.isResourceSpec set name = true) :
    ∃ rd ∈ set, ∃ r, AsResourceType rd.type = some r ∧ r.specType = name := by
  unfold TypeDefinitionSet.isResourceSpec at h
  rw [List.any_eq_true] at h
  obtain ⟨rd, hrd, hm⟩ := h
  cases hr : AsResourceType rd.type with
  | none => simp [hr] at hm
  | some r => exact ⟨rd, hrd, r, hr, by simpa [hr] using hm⟩

theorem ok_of_toBool {α : Type} (e : Result α) (h : e.toBool = true) : ∃ a, e = .ok a := by
  cases e with
  | error err => simp [Except.toBool] at h
  | ok a => exact ⟨a, rfl⟩

/-- A resource definition is in the result of a successful run as it was. -/
theorem resource_lookup (x : Externals) (c : armConversionApplier) (res : TypeDefinitionSet)
    (h : transformTypes x c = .ok res)
    (hwf : TypeDefinitionSet.WellFormed c.definitions) (td : TypeDefinition)
    (htd : td ∈ c.definitions) (hres : (AsResourceType td.type).isSome = true) :
    TypeDefinitionSet.Lookup res td.name = some td := by
  have hnotobj : (AsObjectType td.type).isSome = false := by
    cases hv : (AsObjectType td.type).isSome
    · rfl
    · rw [AsResourceType_of_object td.type hv] at hres
      cases hres
  apply unchanged_lookup x c res h hwf td htd _ _ (Or.inl hnotobj)
  · intro rd hrd r hr heq
    obtain ⟨specs, r1, statuses, r2, h1, h2, h3, h4, h5⟩ := transformTypes_inv x c res h
    obtain ⟨_, hspecs, _, _⟩ := stage2_facts x c specs r1 statuses r2 h1 h2 h3 h4
    obtain ⟨d, hb, _⟩ := hspecs rd hrd (by simp [hr])
    obtain ⟨r2, sd, A, p, hr2, hspec, hobj, _⟩ := transformResourceSpecsBody_inv x c rd _ hb
    rw [hr] at hr2
    cases hr2
    have hsd : sd = td := wellFormed_unique _ _ _ hwf (Lookup_mem _ _ _ hspec) htd
      (by rw [Lookup_name _ _ _ hspec, heq])
    rw [hsd, hnotobj] at hobj
    cases hobj
  · cases hst : isStatusDefinition x td
    · rfl
    · have := ((isStatusDefinition_iff x td).mp hst).1
      rw [hnotobj] at this
      cases this

/-- C9: in a well-formed definition set, a definition that no resource names as its spec, that
is not selected as a status, that is an object type, is not ARM-flagged and requires an ARM type
is, in the result of every successful run of `transformTypes`, the same definition with the
capability of kind `Ordinary` attached, referencing its ARM twin, its properties and validations
being those of the input; and if its ARM twin is absent, the run fails. -/
theorem transformTypes_ordinary (x : Externals) (c : armConversionApplier)
    (td : TypeDefinition) (ko : ObjectType)
    (hwf : TypeDefinitionSet.WellFormed c.definitions) (htd : td ∈ c.definitions)
    (hnotspec : TypeDefinitionSet.isResourceSpec c.definitions td.name = false)
    (hnotstatus : isStatusDefinition x td = false)
    (hobj : AsObjectType td.type = some ko) (hflag : TypeFlag.ARMFlag.IsOn td.type = false)
    (hreq : x.requiresARMType td = true) :
    (∀ res, transformTypes x c = .ok res →
      ∃ d t p, TypeDefinitionSet.Lookup res td.name = some d ∧
        d.name = td.name ∧ d.description = td.description ∧
        AsObjectType d.type = some t ∧
        t = ObjectType.WithInterface ko
          (.armConversion (x.CreateARMTypeName td.name) .TypeKindOrdinary p) ∧
        InterfaceImplementation.armConversion (x.CreateARMTypeName td.name) .TypeKindOrdinary p
          ∈ t.interfaces ∧
        t.properties = ko.properties ∧ t.validations = ko.validations ∧
        ∀ name, ObjectType.Property t name = ObjectType.Property ko name) ∧
    (TypeDefinitionSet.Lookup c.definitions (x.CreateARMTypeName td.name) = none →
      ∃ err, transformTypes x c = .error err) := by
  have hns := isResourceSpec_false _ _ hnotspec
  constructor
  · intro res h
    obtain ⟨d, hb, hl⟩ := other_lookup x c res h hwf td htd hns hnotstatus
    rcases transformTypesBody_inv x c td _ hb with ⟨hcond, _⟩ | ⟨_, _, _, A, p, harm, _, _, ho⟩
    · exfalso
      rcases hcond with h1 | h1 | h1
      · simp [hobj] at h1
      · rw [hflag] at h1; cases h1
      · rw [hreq] at h1; cases h1
    · have hd : d = withCapability (.armConversion A.name .TypeKindOrdinary p) td := by
        simpa using ho
      rw [Lookup_name _ _ _ harm] at hd
      subst hd
      exact ⟨_, _, p, hl, withCapability_name _ _, withCapability_description _ _,
        withCapability_object _ td ko hobj, rfl, mem_WithInterface _ _, rfl, rfl, fun _ => rfl⟩
  · intro htwin
    cases h : transformTypes x c with
    | error err => exact ⟨err, rfl⟩
    | ok res =>
      exfalso
      obtain ⟨d, hb, _⟩ := other_lookup x c res h hwf td htd hns hnotstatus
      rcases transformTypesBody_inv x c td _ hb with ⟨hcond, _⟩ | ⟨_, _, _, A, p, harm, _⟩
      · rcases hcond with h1 | h1 | h1
        · simp [hobj] at h1
        · rw [hflag] at h1; cases h1
        · rw [hreq] at h1; cases h1
      · rw [htwin] at harm
        cases harm

/-- C9, witness: `KeyVaultContractCreateProperties` in the full scenario gets the capability of
kind `Ordinary` and keeps its property; without its twin the run fails. -/
theorem transformTypes_ordinary_witness :
    (∃ res d t p, transformTypes exampleExternals fullApplier = .ok res ∧
      TypeDefinitionSet.Lookup res keyVault.name = some d ∧
      AsObjectType d.type = some t ∧
      InterfaceImplementation.armConversion (apiName "KeyVaultContractCreateProperties_ARM")
        .TypeKindOrdinary p ∈ t.interfaces ∧
      t.properties = keyVaultObject.properties) ∧
    ∃ err, transformTypes exampleExternals
      { definitions := [keyVault], config := unconfigured } = .error err := by
  constructor
  · obtain ⟨res, hrun⟩ := ok_of_toBool (transformTypes exampleExternals fullApplier) (by decide)
    obtain ⟨d, t, p, h1, _, _, h4, _, h6, h7, _⟩ :=
      (transformTypes_ordinary exampleExternals fullApplier keyVault keyVaultObject
        (by decide) (by decide) (by decide) (by decide) rfl (by decide) (by decide)).1 res hrun
    exact ⟨res, d, t, p, hrun, h1, h4, h6, h7⟩
  · exact (transformTypes_ordinary exampleExternals
      { definitions := [keyVault], config := unconfigured } keyVault keyVaultObject
      (by decide) (by decide) (by decide) (by decide) rfl (by decide) (by decide)).2 (by decide)

/-- C10: in a successful run of `transformTypes` on a well-formed definition set, every
definition that no resource names as its spec, that is not selected as a status, and that is not
an object type, or is ARM-flagged, or does not require an ARM type, is in the result under its
name, equal to the input definition; so is every resource definition. -/
theorem transformTypes_unmodified (x : Externals) (c : armConversionApplier)
    (res : TypeDefinitionSet) (h : transformTypes x c = .ok res)
    (hwf : TypeDefinitionSet.WellFormed c.definitions) :
    (∀ td ∈ c.definitions,
      TypeDefinitionSet.isResourceSpec c.definitions td.name = false →
      isStatusDefinition x td = false →
      ((AsObjectType td.type).isSome = false ∨ TypeFlag.ARMFlag.IsOn td.type = true ∨
        x.requiresARMType td = false) →
      TypeDefinitionSet.Lookup res td.name = some td) ∧
    (∀ td ∈ c.definitions, (AsResourceType td.type).isSome = true →
      TypeDefinitionSet.Lookup res td.name = some td) := by
  constructor
  · intro td htd hnotspec hnotstatus hcond
    exact unchanged_lookup x c res h hwf td htd (isResourceSpec_false _ _ hnotspec) hnotstatus hcond
  · intro td htd hres
    exact resource_lookup x c res h hwf td htd hres

/-- C10, witness: in the full scenario the enumeration, the twin of the spec and the resource
itself are in the result as they were. -/
theorem transformTypes_unmodified_witness :
    ∃ res, transformTypes exampleExternals fullApplier = .ok res ∧
      TypeDefinitionSet.Lookup res apiVersion.name = some apiVersion ∧
      TypeDefinitionSet.Lookup res namedValueSpecARM.name = some namedValueSpecARM ∧
      TypeDefinitionSet.Lookup res namedValue.name = some namedValue := by
  obtain ⟨res, hrun⟩ := ok_of_toBool (transformTypes exampleExternals fullApplier) (by decide)
  have h := transformTypes_unmodified exampleExternals fullApplier res hrun (by decide)
  exact ⟨res, hrun,
    h.1 apiVersion (by decide) (by decide) (by decide) (Or.inl (by decide)),
    h.1 namedValueSpecARM (by decide) (by decide) (by decide) (Or.inr (Or.inl (by decide))),
    h.2 namedValue (by decide) (by decide)⟩

/-! ## Where the definitions of a result come from -/

theorem specTransformed_isObject (r : ResourceType) (sd : TypeDefinition) :
    (AsObjectType (specTransformed r sd).type).isSome = (AsObjectType sd.type).isSome := by
  cases h : AsObjectType sd.type with
  | none => simp [specTransformed, h]
  | some o => rw [specTransformed_object r sd o h]; rfl

theorem isStatusDefinition_specTransformed (x : Externals) (r : ResourceType)
    (sd : TypeDefinition) :
    isStatusDefinition x (specTransformed r sd) = isStatusDefinition x sd := by
  simp only [isStatusDefinition, TypeDefinition.Type, TypeDefinition.Name,
    specTransformed_isObject, specTransformed_flag, specTransformed_name]

theorem kind_conflict (i j : InterfaceImplementation) (d1 d2 : TypeDefinition)
    (h1 : (AsObjectType d1.type).isSome = true) (h2 : (AsObjectType d2.type).isSome = true)
    (h : withCapability i d1 = withCapability j d2) : i = j := by
  obtain ⟨o1, ho1⟩ := Option.isSome_iff_exists.mp h1
  have h3 := withCapability_object i d1 o1 ho1
  have h4 := withCapability_last i d1 _ h1 h3
  rw [h] at h3
  have h5 := withCapability_last j d2 _ h2 h3
  rw [h4] at h5
  exact Option.some.inj h5

/-- Every definition of the result of a successful run has one of the four origins. -/
theorem run_origin (x : Externals) (c : armConversionApplier) (res : TypeDefinitionSet)
    (h : transformTypes x c = .ok res) (d : TypeDefinition) (hd : d ∈ res) :
    Origin x c d := by
  obtain ⟨specs, r1, statuses, mid, h1, h2, h3, h4, h5⟩ := transformTypes_inv x c res h
  obtain ⟨wf2, hspecs, hstatuses, horigin2⟩ := stage2_facts x c specs r1 statuses mid h1 h2 h3 h4
  obtain ⟨wfR, hmono, hother, horigin3⟩ := stage3_facts x c mid res wf2 h5
  have hl := Lookup_of_mem_wellFormed res d wfR hd
  have hstatus_in : ∀ td ∈ c.definitions, isStatusDefinition x td = true →
      ∃ (A : TypeDefinition) (p : PayloadType), TypeDefinitionSet.Lookup mid td.name =
        some (withCapability (.armConversion A.name .TypeKindStatus p) td) ∧
        (AsObjectType td.type).isSome = true := by
    intro td htd hst
    obtain ⟨d2, hb, hl2⟩ := hstatuses td htd hst
    obtain ⟨A, p, _, _, hobj, _, ho⟩ := transformResourceStatusesBody_inv x c td _ hb
    have hd2 : d2 = withCapability (.armConversion A.name .TypeKindStatus p) td := by
      simpa using ho
    subst hd2
    rw [withCapability_name] at hl2
    exact ⟨A, p, hl2, hobj⟩
  rcases horigin3 _ _ hl with hin | ⟨td, htd, hnone, hb, hn⟩
  · rcases horigin2 _ _ hin with ⟨rd, hrd, _, hb, hn⟩ | ⟨td, htd, hst, hb, hn⟩
    · obtain ⟨r, sd, A, p, hr, hspec, hobj, harm, hao, hp, ho⟩ :=
        transformResourceSpecsBody_inv x c rd _ hb
      have hdeq : d = withCapability (.armConversion A.name .TypeKindSpec p)
          (specTransformed r sd) := by simpa using ho
      refine Origin.spec rd sd A r p hrd hr hspec hobj harm hao hp hdeq ?_
      cases hst : isStatusDefinition x d
      · rfl
      · exfalso
        have hst2 : isStatusDefinition x sd = true := by
          rw [← isStatusDefinition_specTransformed x r sd, ← isStatusDefinition_withCapability x
            (.armConversion A.name .TypeKindSpec p), ← hdeq]
          exact hst
        obtain ⟨A2, p2, hl2, hobj2⟩ := hstatus_in sd (Lookup_mem _ _ _ hspec) hst2
        have hname : sd.name = d.name := by
          rw [hdeq, withCapability_name, specTransformed_name]
        rw [hname, hin] at hl2
        have heq := Option.some.inj hl2
        rw [hdeq] at heq
        have := kind_conflict _ _ _ _ (by rw [specTransformed_isObject]; exact hobj) hobj2 heq
        simp at this
    · obtain ⟨A, p, harm, hao, _, hp, ho⟩ := transformResourceStatusesBody_inv x c td _ hb
      have hdeq : d = withCapability (.armConversion A.name .TypeKindStatus p) td := by
        simpa using ho
      exact Origin.status td A p htd hst harm hao hp hdeq
  · have hst : isStatusDefinition x td = false := by
      cases hst : isStatusDefinition x td
      · rfl
      · exfalso
        obtain ⟨A2, p2, hl2, _⟩ := hstatus_in td htd hst
        rw [hnone] at hl2
        cases hl2
    rcases transformTypesBody_inv x c td _ hb with
      ⟨hcond, ho⟩ | ⟨hobj, hflag, _, A, p, harm, hao, hp, ho⟩
    · have hdeq : d = td := by simpa using ho
      subst hdeq
      exact Origin.unchanged htd hst hcond
    · have hdeq : d = withCapability (.armConversion A.name .TypeKindOrdinary p) td := by
        simpa using ho
      exact Origin.ordinary td A p htd hst hobj hflag harm hao hp hdeq

theorem Origin_isObject (x : Externals) (c : armConversionApplier) (d : TypeDefinition)
    (ho : Origin x c d) :
    ∃ td ∈ c.definitions, td.name = d.name ∧
      (AsObjectType d.type).isSome = (AsObjectType td.type).isSome ∧
      (AsResourceType d.type).isSome = (AsResourceType td.type).isSome := by
  cases ho with
  | spec rd sd A r p hrd hr hspec hobj harm hao hp hd hns =>
    refine ⟨sd, Lookup_mem _ _ _ hspec, ?_, ?_, ?_⟩
    · rw [hd, withCapability_name, specTransformed_name]
    · rw [hd, withCapability_isObject, specTransformed_isObject]
    · have h1 : (AsObjectType d.type).isSome = true := by
        rw [hd, withCapability_isObject, specTransformed_isObject]; exact hobj
      rw [AsResourceType_of_object _ h1, AsResourceType_of_object _ hobj]
  | status td A p htd hst harm hao hp hd =>
    have hobj := ((isStatusDefinition_iff x td).mp hst).1
    refine ⟨td, htd, ?_, ?_, ?_⟩
    · rw [hd, withCapability_name]
    · rw [hd, withCapability_isObject]
    · have h1 : (AsObjectType d.type).isSome = true := by
        rw [hd, withCapability_isObject]; exact hobj
      rw [AsResourceType_of_object _ h1, AsResourceType_of_object _ hobj]
  | unchanged htd hst hcond => exact ⟨d, htd, rfl, rfl, rfl⟩
  | ordinary td A p htd hst hobj hflag harm hao hp hd =>
    refine ⟨td, htd, ?_, ?_, ?_⟩
    · rw [hd, withCapability_name]
    · rw [hd, withCapability_isObject]
    · have h1 : (AsObjectType d.type).isSome = true := by
        rw [hd, withCapability_isObject]; exact hobj
      rw [AsResourceType_of_object _ h1, AsResourceType_of_object _ hobj]

/-- Every name of the input is a name of the result of a successful run. -/
theorem run_total (x : Externals) (c : armConversionApplier) (res : TypeDefinitionSet)
    (h : transformTypes x c = .ok res) (td : TypeDefinition) (htd : td ∈ c.definitions) :
    ∃ d, TypeDefinitionSet.Lookup res td.name = some d := by
  obtain ⟨specs, r1, statuses, mid, h1, h2, h3, h4, h5⟩ := transformTypes_inv x c res h
  obtain ⟨wf2, _, _, _⟩ := stage2_facts x c specs r1 statuses mid h1 h2 h3 h4
  obtain ⟨_, hmono, hother, _⟩ := stage3_facts x c mid res wf2 h5
  cases hl : TypeDefinitionSet.Lookup mid td.name with
  | some d => exact ⟨d, hmono _ _ hl⟩
  | none =>
    obtain ⟨d, _, _, hl2⟩ := hother td htd hl
    exact ⟨d, hl2⟩

theorem run_wellFormed (x : Externals) (c : armConversionApplier) (res : TypeDefinitionSet)
    (h : transformTypes x c = .ok res) : TypeDefinitionSet.WellFormed res := by
  obtain ⟨specs, r1, statuses, mid, h1, h2, h3, h4, h5⟩ := transformTypes_inv x c res h
  obtain ⟨wf2, _, _, _⟩ := stage2_facts x c specs r1 statuses mid h1 h2 h3 h4
  exact (stage3_facts x c mid res wf2 h5).1

/-- An object of a well-formed input is an object of the result, under the same name. -/
theorem run_object (x : Externals) (c : armConversionApplier) (res : TypeDefinitionSet)
    (h : transformTypes x c = .ok res) (hwf : TypeDefinitionSet.WellFormed c.definitions)
    (A : TypeDefinition) (hA : A ∈ c.definitions) (hobj : (AsObjectType A.type).isSome = true) :
    ∃ A2, TypeDefinitionSet.Lookup res A.name = some A2 ∧
      (AsObjectType A2.type).isSome = true := by
  obtain ⟨A2, hl⟩ := run_total x c res h A hA
  refine ⟨A2, hl, ?_⟩
  obtain ⟨td, htd, hn, ho, _⟩ := Origin_isObject x c A2 (run_origin x c res h A2 (Lookup_mem _ _ _ hl))
  have : td = A := wellFormed_unique _ _ _ hwf htd hA (by rw [hn, Lookup_name _ _ _ hl])
  rw [ho, this]
  exact hobj

/-! ## The twin is left alone -/

theorem isStatusDefinition_of_flag (x : Externals) (td : TypeDefinition)
    (h : TypeFlag.ARMFlag.IsOn td.type = true) : isStatusDefinition x td = false := by
  simp [isStatusDefinition, TypeDefinition.Type, h]

/-- C7: attaching the capability does not change the wire-shaped twin. In a successful run of
`transformTypes` on a well-formed definition set, the ARM definition looked up for a name, when
it is wire-shaped (it carries the ARM flag and no resource names it as its spec), is in the
result under the same name and equal to the input ARM definition. And the definition
`addARMConversionInterface` returns differs from the Kubernetes definition it is given only in
the capability: name, description, wrappers, properties, validations and the other capabilities
are kept, and the capability added records the name of the twin, the kind and the payload
type. -/
theorem addARMConversionInterface_frame (x : Externals) (c : armConversionApplier)
    (res : TypeDefinitionSet) (h : transformTypes x c = .ok res)
    (hwf : TypeDefinitionSet.WellFormed c.definitions) :
    (∀ n A, TypeDefinitionSet.Lookup c.definitions (x.CreateARMTypeName n) = some A →
      TypeFlag.ARMFlag.IsOn A.type = true →
      TypeDefinitionSet.isResourceSpec c.definitions A.name = false →
      TypeDefinitionSet.Lookup res (x.CreateARMTypeName n) = some A) ∧
    (∀ kubeDef armDef kind d, addARMConversionInterface c kubeDef armDef kind = .ok d →
      d.name = kubeDef.name ∧ d.description = kubeDef.description ∧
      ∃ ko t p, AsObjectType kubeDef.type = some ko ∧ AsObjectType d.type = some t ∧
        lookupPayloadType c kubeDef = .ok p ∧
        d.type = replaceObject t kubeDef.type ∧
        t = ObjectType.WithInterface ko (.armConversion armDef.name kind p) ∧
        InterfaceImplementation.armConversion armDef.name kind p ∈ t.interfaces ∧
        t.properties = ko.properties ∧ t.validations = ko.validations ∧
        (∀ i ∈ ko.interfaces, i.Name ≠ "ARMTransformer" → i ∈ t.interfaces) ∧
        (∀ i ∈ t.interfaces,
          i ∈ ko.interfaces ∨ i = InterfaceImplementation.armConversion armDef.name kind p)) := by
  constructor
  · intro n A harm hflag hnotspec
    have hmem := Lookup_mem _ _ _ harm
    have hl := unchanged_lookup x c res h hwf A hmem (isResourceSpec_false _ _ hnotspec)
      (isStatusDefinition_of_flag x A hflag) (Or.inr (Or.inl hflag))
    rwa [Lookup_name _ _ _ harm] at hl
  · intro kubeDef armDef kind d hadd
    obtain ⟨ao, ko, p, _, hko, hp, hd⟩ := addARMConversionInterface_inv c kubeDef armDef d kind hadd
    subst hd
    refine ⟨withCapability_name _ _, withCapability_description _ _, ko, _, p, hko,
      withCapability_object _ _ ko hko, hp, withCapability_type _ _ ko hko, rfl,
      mem_WithInterface _ _, rfl, rfl, ?_, ?_⟩
    · intro i hi hne
      simp only [ObjectType.WithInterface, List.mem_append, List.mem_filter]
      exact Or.inl ⟨hi, by simpa [InterfaceImplementation.Name] using hne⟩
    · intro i hi
      simp only [ObjectType.WithInterface, List.mem_append, List.mem_filter,
        List.mem_singleton] at hi
      rcases hi with hi | hi
      · exact Or.inl hi.1
      · exact Or.inr hi

/-- C7, witness: in the full scenario the twin of `KeyVaultContractCreateProperties` is in the
result as it was, and attaching the capability to `KeyVaultContractCreateProperties` keeps its
property and its other capability. -/
theorem addARMConversionInterface_frame_witness :
    ∃ res, transformTypes exampleExternals fullApplier = .ok res ∧
      TypeDefinitionSet.Lookup res (apiName "KeyVaultContractCreateProperties_ARM") =
        some keyVaultARM ∧
      ∃ d t, addARMConversionInterface fullApplier keyVault keyVaultARM .TypeKindOrdinary =
          .ok d ∧
        AsObjectType d.type = some t ∧ t.properties = keyVaultObject.properties ∧
        InterfaceImplementation.other "Stringer" ∈ t.interfaces := by
  obtain ⟨res, hrun⟩ := ok_of_toBool (transformTypes exampleExternals fullApplier) (by decide)
  have h := addARMConversionInterface_frame exampleExternals fullApplier res hrun (by decide)
  obtain ⟨d, hadd⟩ := ok_of_toBool
    (addARMConversionInterface fullApplier keyVault keyVaultARM .TypeKindOrdinary) (by decide)
  obtain ⟨_, _, ko, t, p, hko, ht, _, _, _, _, hprops, _, hkeep, _⟩ := h.2 _ _ _ _ hadd
  have hk : ko = keyVaultObject := by
    have : AsObjectType keyVault.type = some keyVaultObject := rfl
    rw [this] at hko
    exact (Option.some.inj hko).symm
  subst hk
  exact ⟨res, hrun, h.1 keyVault.name keyVaultARM (by decide) (by decide) (by decide),
    d, t, hadd, ht, hprops, hkeep _ (by decide) (by decide)⟩

/-! ## Running the stage on its own result -/

/-- On the result of a run, the body of the first loop yields for a resource the transformed
spec the run already holds. -/
theorem second_run_spec (x : Externals) (c : armConversionApplier) (res : TypeDefinitionSet)
    (h : transformTypes x c = .ok res) (hwf : TypeDefinitionSet.WellFormed c.definitions)
    (rd : TypeDefinition) (hrd : rd ∈ c.definitions)
    (hres : (AsResourceType rd.type).isSome = true) :
    ∃ d, transformResourceSpecsBody x { definitions := res, config := c.config } rd =
        .ok (some d) ∧
      TypeDefinitionSet.Lookup res d.name = some d ∧
      transformResourceSpecsBody x c rd = .ok (some d) := by
  obtain ⟨specs, r1, statuses, mid, h1, h2, h3, h4, h5⟩ := transformTypes_inv x c res h
  obtain ⟨wf2, hspecs, _, _⟩ := stage2_facts x c specs r1 statuses mid h1 h2 h3 h4
  obtain ⟨_, hmono, _, _⟩ := stage3_facts x c mid res wf2 h5
  obtain ⟨d, hb, hl⟩ := hspecs rd hrd hres
  have hlres := hmono _ _ hl
  obtain ⟨r, sd, A, p, hr, hspec, hobj, harm, hao, hp, ho⟩ :=
    transformResourceSpecsBody_inv x c rd _ hb
  have hd : d = withCapability (.armConversion A.name .TypeKindSpec p)
      (specTransformed r sd) := by simpa using ho
  have hname : d.name = r.specType := by
    rw [hd, withCapability_name, specTransformed_name]; exact Lookup_name _ _ _ hspec
  have hdobj : (AsObjectType d.type).isSome = true := by
    rw [hd, withCapability_isObject, specTransformed_isObject]; exact hobj
  obtain ⟨A2, hlA, haoA⟩ := run_object x c res h hwf A (Lookup_mem _ _ _ harm) hao
  have hAname := Lookup_name _ _ _ harm
  rw [hAname] at hlA
  have hA2name : A2.name = A.name := by rw [Lookup_name _ _ _ hlA, hAname]
  have hp2 : lookupPayloadType { definitions := res, config := c.config } d = .ok p := by
    exact (lookupPayloadType_congr { definitions := res, config := c.config } c d sd rfl
      (by rw [hname, Lookup_name _ _ _ hspec])).trans hp
  refine ⟨d, ?_, hlres, hb⟩
  rw [transformResourceSpecsBody_ok x { definitions := res, config := c.config } rd d A2 r p hr
    (by rw [← hname]; exact hlres) hdobj hlA haoA hp2, hA2name]
  conv_lhs => rw [hd]
  rw [specTransformed_idempotent r sd _ hobj, ← hd]

/-- On the result of a run, the twin of a definition that got the capability is still there, an
object under the same name, and the payload type of the definition is the same. -/
theorem second_run_twin (x : Externals) (c : armConversionApplier) (res : TypeDefinitionSet)
    (h : transformTypes x c = .ok res) (hwf : TypeDefinitionSet.WellFormed c.definitions)
    (td A : TypeDefinition) (i : InterfaceImplementation) (p : PayloadType)
    (harm : TypeDefinitionSet.Lookup c.definitions (x.CreateARMTypeName td.name) = some A)
    (hao : (AsObjectType A.type).isSome = true)
    (hp : lookupPayloadType c td = .ok p) :
    ∃ A2, TypeDefinitionSet.Lookup res (x.CreateARMTypeName (withCapability i td).name) =
        some A2 ∧
      (AsObjectType A2.type).isSome = true ∧ A2.name = A.name ∧
      lookupPayloadType { definitions := res, config := c.config } (withCapability i td) =
        .ok p := by
  obtain ⟨A2, hlA, haoA⟩ := run_object x c res h hwf A (Lookup_mem _ _ _ harm) hao
  have hAname := Lookup_name _ _ _ harm
  rw [hAname] at hlA
  refine ⟨A2, by rw [withCapability_name]; exact hlA, haoA,
    by rw [Lookup_name _ _ _ hlA, hAname], ?_⟩
  exact (lookupPayloadType_congr { definitions := res, config := c.config } c _ td rfl
    (withCapability_name i td)).trans hp

/-- On the result of a run, the body of the second loop yields for a selected status the
definition itself. -/
theorem second_run_status (x : Externals) (c : armConversionApplier) (res : TypeDefinitionSet)
    (h : transformTypes x c = .ok res) (hwf : TypeDefinitionSet.WellFormed c.definitions)
    (d : TypeDefinition) (hd : d ∈ res) (hst : isStatusDefinition x d = true) :
    transformResourceStatusesBody x { definitions := res, config := c.config } d =
      .ok (some d) := by
  cases run_origin x c res h d hd with
  | spec rd sd A r p hrd hr hspec hobj harm hao hp hdeq hns =>
    rw [hst] at hns; cases hns
  | status td A p htd hst2 harm hao hp hdeq =>
    obtain ⟨A2, hlA, haoA, hA2, hp2⟩ := second_run_twin x c res h hwf td A
      (.armConversion A.name .TypeKindStatus p) p harm hao hp
    rw [← hdeq] at hlA hp2
    rw [transformResourceStatusesBody_ok x _ d A2 p ((isStatusDefinition_iff x d).mp hst).1
      hlA haoA hp2, hA2]
    conv_lhs => rw [hdeq]
    rw [withCapability_withCapability, ← hdeq]
  | unchanged htd hst2 hcond => rw [hst] at hst2; cases hst2
  | ordinary td A p htd hst2 hobj hflag harm hao hp hdeq =>
    rw [hdeq, isStatusDefinition_withCapability, hst2] at hst
    cases hst

/-- On the result of a run, the body of the last loop yields for a definition that was left as
it was, or that got the capability of kind `Ordinary`, the definition itself. -/
theorem second_run_other (x : Externals) (c : armConversionApplier) (res : TypeDefinitionSet)
    (h : transformTypes x c = .ok res) (hwf : TypeDefinitionSet.WellFormed c.definitions)
    (d : TypeDefinition)
    (ho : (d ∈ c.definitions ∧ ((AsObjectType d.type).isSome = false ∨
        TypeFlag.ARMFlag.IsOn d.type = true ∨ x.requiresARMType d = false)) ∨
      ∃ td A p, (AsObjectType td.type).isSome = true ∧ TypeFlag.ARMFlag.IsOn td.type = false ∧
        TypeDefinitionSet.Lookup c.definitions (x.CreateARMTypeName td.name) = some A ∧
        (AsObjectType A.type).isSome = true ∧ lookupPayloadType c td = .ok p ∧
        d = withCapability (.armConversion A.name .TypeKindOrdinary p) td) :
    transformTypesBody x { definitions := res, config := c.config } d = .ok (some d) := by
  rcases ho with ⟨_, hcond⟩ | ⟨td, A, p, hobj, hflag, harm, hao, hp, hdeq⟩
  · exact transformTypesBody_unchanged x _ d hcond
  · cases hreq : x.requiresARMType d with
    | false => exact transformTypesBody_unchanged x _ d (Or.inr (Or.inr hreq))
    | true =>
      obtain ⟨A2, hlA, haoA, hA2, hp2⟩ := second_run_twin x c res h hwf td A
        (.armConversion A.name .TypeKindOrdinary p) p harm hao hp
      rw [← hdeq] at hlA hp2
      rw [transformTypesBody_ok x _ d A2 p
        (by rw [hdeq, withCapability_isObject]; exact hobj)
        (by rw [hdeq, withCapability_flag]; exact hflag) hreq hlA haoA hp2, hA2]
      conv_lhs => rw [hdeq]
      rw [withCapability_withCapability, ← hdeq]

theorem resource_of_result (x : Externals) (c : armConversionApplier) (res : TypeDefinitionSet)
    (h : transformTypes x c = .ok res) (d : TypeDefinition) (hd : d ∈ res)
    (hres : (AsResourceType d.type).isSome = true) : d ∈ c.definitions := by
  have hnotobj : (AsObjectType d.type).isSome = true → False := by
    intro hv
    rw [AsResourceType_of_object _ hv] at hres
    cases hres
  cases run_origin x c res h d hd with
  | spec rd sd A r p hrd hr hspec hobj harm hao hp hdeq hns =>
    exact absurd (by rw [hdeq, withCapability_isObject, specTransformed_isObject]; exact hobj)
      hnotobj
  | status td A p htd hst2 harm hao hp hdeq =>
    exact absurd (by rw [hdeq, withCapability_isObject]
                     exact ((isStatusDefinition_iff x td).mp hst2).1) hnotobj
  | unchanged htd hst2 hcond => exact htd
  | ordinary td A p htd hst2 hobj hflag harm hao hp hdeq =>
    exact absurd (by rw [hdeq, withCapability_isObject]; exact hobj) hnotobj

theorem AddTypes_succeeds (F : InternalTypeName → Option TypeDefinition)
    (s t : TypeDefinitionSet)
    (hs : ∀ n e, TypeDefinitionSet.Lookup s n = some e → F n = some e)
    (hwf : TypeDefinitionSet.WellFormed t)
    (ht : ∀ n e, TypeDefinitionSet.Lookup t n = some e → F n = some e) :
    ∃ res, TypeDefinitionSet.AddTypes s t = .ok res ∧
      ∀ n e, TypeDefinitionSet.Lookup res n = some e → F n = some e := by
  rw [AddTypes_eq_forEachAdd]
  apply forEachAdd_succeeds _ F t s hs
  intro e he
  refine ⟨some e, rfl, ?_⟩
  intro d hd
  have hde : e = d := by simpa using hd
  subst hde
  exact ht _ _ (Lookup_of_mem_wellFormed t e hwf he)

theorem perm_of_lookup (a b : TypeDefinitionSet) (ha : TypeDefinitionSet.WellFormed a)
    (hb : TypeDefinitionSet.WellFormed b)
    (h : ∀ n, TypeDefinitionSet.Lookup a n = TypeDefinitionSet.Lookup b n) : a.Perm b := by
  apply (List.perm_ext_iff_of_nodup (List.Nodup.of_map _ ha) (List.Nodup.of_map _ hb)).mpr
  intro d
  constructor
  · intro hd
    have := Lookup_of_mem_wellFormed a d ha hd
    rw [h] at this
    exact Lookup_mem _ _ _ this
  · intro hd
    have := Lookup_of_mem_wellFormed b d hb hd
    rw [← h] at this
    exact Lookup_mem _ _ _ this

/-- C6: the stage is idempotent. When `transformTypes` succeeds on a well-formed definition set
with the result `res`, `transformTypes` on `res`, under the same configuration, succeeds, and
its result is the same mapping as `res`: every name has the same definition in both, and the two
enumerate the same definitions. A definition that already carries the capability is left as it
is. -/
theorem transformTypes_idempotent (x : Externals) (c : armConversionApplier)
    (res : TypeDefinitionSet) (h : transformTypes x c = .ok res)
    (hwf : TypeDefinitionSet.WellFormed c.definitions) :
    ∃ res2, transformTypes x { definitions := res, config := c.config } = .ok res2 ∧
      (∀ n, TypeDefinitionSet.Lookup res2 n = TypeDefinitionSet.Lookup res n) ∧
      res2.Perm res := by
  have wfR := run_wellFormed x c res h
  -- the first loop
  have hbody1 : ∀ td ∈ TypeDefinitionSet.Where res (fun td => (AsResourceType td.Type).isSome),
      ∃ o, transformResourceSpecsBody x { definitions := res, config := c.config } td = .ok o ∧
        ∀ d, o = some d → TypeDefinitionSet.Lookup res d.name = some d := by
    intro td htd
    obtain ⟨hmem, hsel⟩ := (mem_Where _ _ _).mp htd
    simp only [TypeDefinition.Type] at hsel
    obtain ⟨d, hb, hl, _⟩ := second_run_spec x c res h hwf td
      (resource_of_result x c res h td hmem hsel) hsel
    refine ⟨some d, hb, ?_⟩
    intro d2 hd2
    have hde : d = d2 := by simpa using hd2
    subst hde
    exact hl
  obtain ⟨specs2, hs1, hsub1⟩ := forEachAdd_succeeds _ (TypeDefinitionSet.Lookup res) _ []
    (by intro n e hne; simp [Lookup_nil] at hne) hbody1
  have wfs1 := forEachAdd_wellFormed _ _ _ _ wellFormed_nil hs1
  obtain ⟨r12, hs2, hsub2⟩ := AddTypes_succeeds (TypeDefinitionSet.Lookup res) [] specs2
    (by intro n e hne; simp [Lookup_nil] at hne) wfs1 hsub1
  -- the second loop
  have hbody3 : ∀ td ∈ TypeDefinitionSet.Where res (isStatusDefinition x),
      ∃ o, transformResourceStatusesBody x { definitions := res, config := c.config } td =
          .ok o ∧
        ∀ d, o = some d → TypeDefinitionSet.Lookup res d.name = some d := by
    intro td htd
    obtain ⟨hmem, hsel⟩ := (mem_Where _ _ _).mp htd
    refine ⟨some td, second_run_status x c res h hwf td hmem hsel, ?_⟩
    intro d2 hd2
    have hde : td = d2 := by simpa using hd2
    subst hde
    exact Lookup_of_mem_wellFormed res td wfR hmem
  obtain ⟨statuses2, hs3, hsub3⟩ := forEachAdd_succeeds _ (TypeDefinitionSet.Lookup res) _ []
    (by intro n e hne; simp [Lookup_nil] at hne) hbody3
  have wfs3 := forEachAdd_wellFormed _ _ _ _ wellFormed_nil hs3
  obtain ⟨mid2, hs4, hsub4⟩ := AddTypes_succeeds (TypeDefinitionSet.Lookup res) r12 statuses2
    hsub2 wfs3 hsub3
  have wfmid2 := AddTypes_wellFormed _ _ _ (AddTypes_wellFormed _ _ _ wellFormed_nil hs2) hs4
  -- the last loop
  have hbody5 : ∀ td ∈ TypeDefinitionSet.Except res mid2,
      transformTypesBody x { definitions := res, config := c.config } td = .ok (some td) := by
    intro td htd
    obtain ⟨hmem, hnone⟩ := (mem_Except _ _ _).mp htd
    cases run_origin x c res h td hmem with
    | spec rd sd A r p hrd hr hspec hobj harm hao hp hdeq hns =>
      exfalso
      have hres : (AsResourceType rd.type).isSome = true := by simp [hr]
      obtain ⟨d, hb2, _, hb1⟩ := second_run_spec x c res h hwf rd hrd hres
      rw [transformResourceSpecsBody_ok x c rd sd A r p hr hspec hobj harm hao hp,
        ← hdeq] at hb1
      have hde : td = d := by simpa using hb1
      subst hde
      have hrdres := Lookup_mem _ _ _ (resource_lookup x c res h hwf rd hrd hres)
      obtain ⟨o, hbo, hlo⟩ := forEachAdd_body _ _ _ _ hs1 rd
        ((mem_Where _ _ _).mpr ⟨hrdres, by simp [TypeDefinition.Type, hr]⟩)
      rw [hb2] at hbo
      have hlspecs := hlo td (by simpa using hbo.symm)
      have := AddTypes_mono _ _ _ hs4 _ _
        (AddTypes_mem _ _ _ hs2 td (Lookup_mem _ _ _ hlspecs))
      rw [hnone] at this
      cases this
    | status td0 A p htd0 hst2 harm hao hp hdeq =>
      exfalso
      have hst : isStatusDefinition x td = true := by
        rw [hdeq, isStatusDefinition_withCapability]; exact hst2
      obtain ⟨o, hbo, hlo⟩ := forEachAdd_body _ _ _ _ hs3 td ((mem_Where _ _ _).mpr ⟨hmem, hst⟩)
      rw [second_run_status x c res h hwf td hmem hst] at hbo
      have hlst := hlo td (by simpa using hbo.symm)
      have := AddTypes_mem _ _ _ hs4 td (Lookup_mem _ _ _ hlst)
      rw [hnone] at this
      cases this
    | unchanged htd0 hst2 hcond =>
      exact second_run_other x c res h hwf td (Or.inl ⟨htd0, hcond⟩)
    | ordinary td0 A p htd0 hst2 hobj hflag harm hao hp hdeq =>
      exact second_run_other x c res h hwf td
        (Or.inr ⟨td0, A, p, hobj, hflag, harm, hao, hp, hdeq⟩)
  have hbody5F : ∀ td ∈ TypeDefinitionSet.Except res mid2,
      ∃ o, transformTypesBody x { definitions := res, config := c.config } td = .ok o ∧
        ∀ d, o = some d → TypeDefinitionSet.Lookup res d.name = some d := by
    intro td htd
    refine ⟨some td, hbody5 td htd, ?_⟩
    intro d2 hd2
    have hde : td = d2 := by simpa using hd2
    subst hde
    exact Lookup_of_mem_wellFormed res td wfR ((mem_Except _ _ _).mp htd).1
  obtain ⟨res2, hs5, hsub5⟩ := forEachAdd_succeeds _ (TypeDefinitionSet.Lookup res) _ mid2
    hsub4 hbody5F
  have hrun2 : transformTypes x { definitions := res, config := c.config } = .ok res2 :=
    transformTypes_of_stages x _ specs2 r12 statuses2 mid2 res2 hs1 hs2 hs3 hs4 hs5
  have heq : ∀ n, TypeDefinitionSet.Lookup res2 n = TypeDefinitionSet.Lookup res n := by
    intro n
    cases hl : TypeDefinitionSet.Lookup res n with
    | none =>
      cases hl2 : TypeDefinitionSet.Lookup res2 n with
      | none => rfl
      | some e => rw [hsub5 n e hl2] at hl; cases hl
    | some e =>
      have hmem := Lookup_mem _ _ _ hl
      have hname := Lookup_name _ _ _ hl
      cases hm : TypeDefinitionSet.Lookup mid2 n with
      | some e2 =>
        have h2 := forEachAdd_mono _ _ _ _ hs5 n e2 hm
        have h3 := hsub5 n e2 h2
        rw [hl] at h3
        rw [h2, ← h3]
      | none =>
        have hin : e ∈ TypeDefinitionSet.Except res mid2 :=
          (mem_Except _ _ _).mpr ⟨hmem, by rw [hname]; exact hm⟩
        obtain ⟨o, hbo, hlo⟩ := forEachAdd_body _ _ _ _ hs5 e hin
        rw [hbody5 e hin] at hbo
        have := hlo e (by simpa using hbo.symm)
        rw [hname] at this
        exact this
  exact ⟨res2, hrun2, heq, perm_of_lookup res2 res (run_wellFormed x _ res2 hrun2) wfR heq⟩

/-- C6, witness: on the full scenario the stage succeeds, and running it on its result succeeds
with the same mapping. -/
theorem transformTypes_idempotent_witness :
    ∃ res res2, transformTypes exampleExternals fullApplier = .ok res ∧
      transformTypes exampleExternals { definitions := res, config := unconfigured } =
        .ok res2 ∧
      (∀ n, TypeDefinitionSet.Lookup res2 n = TypeDefinitionSet.Lookup res n) ∧
      res2.Perm res := by
  obtain ⟨res, hrun⟩ := ok_of_toBool (transformTypes exampleExternals fullApplier) (by decide)
  obtain ⟨res2, h2, h3, h4⟩ :=
    transformTypes_idempotent exampleExternals fullApplier res hrun (by decide)
  exact ⟨res, res2, hrun, h2, h3, h4⟩

/-! ## Self-conversion of the generated storage types -/

/-- C12: self-conversion is an error. For every value of the four generated storage types, at
any address and in any memory, each of its conversion methods called with the value itself as
argument returns a non-nil error at once: it hands over to no other method, and the memory, the
value included, is as before. -/
theorem self_conversion_error {Memory : Type} (memory : Memory) (v : Nat) :
    Service_NamedValue_Spec.ConvertSpecFrom memory v
        (some { typ := .Service_NamedValue_Spec, addr := v }) =
      (memory, .returns (some unrelatedSpecError)) ∧
    Service_NamedValue_Spec.ConvertSpecTo memory v
        (some { typ := .Service_NamedValue_Spec, addr := v }) =
      (memory, .returns (some unrelatedSpecError)) ∧
    Service_NamedValue_STATUS.ConvertStatusFrom memory v
        (some { typ := .Service_NamedValue_STATUS, addr := v }) =
      (memory, .returns (some unrelatedStatusError)) ∧
    Service_NamedValue_STATUS.ConvertStatusTo memory v
        (some { typ := .Service_NamedValue_STATUS, addr := v }) =
      (memory, .returns (some unrelatedStatusError)) ∧
    FlexibleServersDatabases_Spec.ConvertSpecFrom memory v
        (some { typ := .FlexibleServersDatabases_Spec, addr := v }) =
      (memory, .returns (some unrelatedSpecError)) ∧
    FlexibleServersDatabases_Spec.ConvertSpecTo memory v
        (some { typ := .FlexibleServersDatabases_Spec, addr := v }) =
      (memory, .returns (some unrelatedSpecError)) ∧
    Database_Status.ConvertStatusFrom memory v (some { typ := .Database_Status, addr := v }) =
      (memory, .returns (some unrelatedStatusError)) ∧
    Database_Status.ConvertStatusTo memory v (some { typ := .Database_Status, addr := v }) =
      (memory, .returns (some unrelatedStatusError)) := by
  refine ⟨?_, ?_, ?_, ?_, ?_, ?_, ?_, ?_⟩
  · simp [Service_NamedValue_Spec.ConvertSpecFrom]
  · simp [Service_NamedValue_Spec.ConvertSpecTo]
  · simp [Service_NamedValue_STATUS.ConvertStatusFrom]
  · simp [Service_NamedValue_STATUS.ConvertStatusTo]
  · simp [FlexibleServersDatabases_Spec.ConvertSpecFrom]
  · simp [FlexibleServersDatabases_Spec.ConvertSpecTo]
  · simp [Database_Status.ConvertStatusFrom]
  · simp [Database_Status.ConvertStatusTo]

/-! ## The error of a failed attachment -/

/-- What `addARMConversionInterface` returns when the Kubernetes definition wraps no object: a
new error that names the ARM definition and has no cause. -/
theorem addARMConversionInterface_not_object (c : armConversionApplier)
    (kubeDef armDef : TypeDefinition) (kind : TypeKind) (p : PayloadType)
    (harm : (AsObjectType armDef.type).isSome = true)
    (hp : lookupPayloadType c kubeDef = .ok p)
    (hkube : AsObjectType kubeDef.type = none) :
    addARMConversionInterface c kubeDef armDef kind =
      .error (.errorf "failed to add ARM conversion interface to Kubenetes object definition %s"
        [.typeName armDef.name]) := by
  obtain ⟨ao, hao⟩ := Option.isSome_iff_exists.mp harm
  unfold addARMConversionInterface
  simp only [TypeDefinition.Type, hao, hp]
  rw [ApplyObjectTransformation_not_object kubeDef _ hkube]
  rfl

/-- C13, at the failing input: the enumeration `APIVersion` as Kubernetes definition and the
twin of `KeyVaultContractCreateProperties` as ARM definition. Applying the transformation to the
Kubernetes definition fails; the error `addARMConversionInterface` returns is a new one, it has
no cause, and what it names is the ARM definition, not the Kubernetes type. -/
theorem addARMConversionInterface_drops_cause :
    (∃ cause, ∀ f, apiVersion.ApplyObjectTransformation f = .error cause) ∧
    ∃ e, addARMConversionInterface fullApplier apiVersion keyVaultARM .TypeKindOrdinary =
        .error e ∧
      e = .errorf "failed to add ARM conversion interface to Kubenetes object definition %s"
        [.typeName keyVaultARM.name] ∧
      e.cause = none ∧
      ErrorArg.typeName apiVersion.name ∉ e.args := by
  refine ⟨⟨_, fun f => ApplyObjectTransformation_not_object apiVersion f rfl⟩, _,
    addARMConversionInterface_not_object fullApplier apiVersion keyVaultARM .TypeKindOrdinary
      .OmitEmptyProperties rfl rfl rfl, rfl, rfl, ?_⟩
  decide

/-! ## `GetARMTypeDefinition` -/

theorem CreateARMTypeName_ne (name : InternalTypeName) : CreateARMTypeName name ≠ name := by
  intro h
  have h2 : (CreateARMTypeName name).name.length = name.name.length := by rw [h]
  simp only [CreateARMTypeName, InternalTypeName.Name, ARMSuffix, String.length_append] at h2
  have h3 : "_ARM".length = 4 := by decide
  omega

/-- C14: `GetARMTypeDefinition` returns the definition the set holds under
`CreateARMTypeName(name)`, without error, when the set holds one; it returns an error, and no
definition, exactly when the set holds none; the definition it returns is named
`CreateARMTypeName(name)`, so it is not the definition held under `name` whenever the two names
differ, and they always differ for the suffix transform of the spec. -/
theorem GetARMTypeDefinition_lookup (x : Externals) (defs : TypeDefinitionSet)
    (name : InternalTypeName) :
    (∀ A, TypeDefinitionSet.Lookup defs (x.CreateARMTypeName name) = some A →
      GetARMTypeDefinition x defs name = .ok A) ∧
    ((∃ err, GetARMTypeDefinition x defs name = .error err) ↔
      TypeDefinitionSet.Lookup defs (x.CreateARMTypeName name) = none) ∧
    (∀ d, GetARMTypeDefinition x defs name = .ok d →
      TypeDefinitionSet.Lookup defs (x.CreateARMTypeName name) = some d ∧
      d.name = x.CreateARMTypeName name ∧
      (x.CreateARMTypeName name ≠ name → TypeDefinitionSet.Lookup defs name ≠ some d)) ∧
    (∀ d, GetARMTypeDefinition { x with CreateARMTypeName := CreateARMTypeName } defs name =
        .ok d → TypeDefinitionSet.Lookup defs name ≠ some d) := by
  have key : ∀ (y : Externals) (d : TypeDefinition), GetARMTypeDefinition y defs name = .ok d →
      TypeDefinitionSet.Lookup defs (y.CreateARMTypeName name) = some d := by
    intro y d hd
    cases hl : TypeDefinitionSet.Lookup defs (y.CreateARMTypeName name) with
    | none => rw [GetARMTypeDefinition_none y defs name hl] at hd; cases hd
    | some A =>
      rw [GetARMTypeDefinition_some y defs name A hl] at hd
      cases hd
      rfl
  have differ : ∀ (y : Externals) (d : TypeDefinition), GetARMTypeDefinition y defs name = .ok d →
      y.CreateARMTypeName name ≠ name → TypeDefinitionSet.Lookup defs name ≠ some d := by
    intro y d hd hne hk
    have h1 := Lookup_name _ _ _ (key y d hd)
    have h2 := Lookup_name _ _ _ hk
    exact hne (h1.symm.trans h2)
  refine ⟨fun A h => GetARMTypeDefinition_some x defs name A h, ?_, ?_, ?_⟩
  · constructor
    · rintro ⟨err, he⟩
      cases hl : TypeDefinitionSet.Lookup defs (x.CreateARMTypeName name) with
      | none => rfl
      | some A => rw [GetARMTypeDefinition_some x defs name A hl] at he; cases he
    · intro hl
      exact ⟨_, GetARMTypeDefinition_none x defs name hl⟩
  · intro d hd
    exact ⟨key x d hd, Lookup_name _ _ _ (key x d hd), differ x d hd⟩
  · intro d hd
    exact differ _ d hd (CreateARMTypeName_ne name)

/-- C14, on the scenario: the lookup for `Service_NamedValue_Spec` yields its twin and not the
spec itself; the lookup for `NamedValue`, which has no twin, fails. -/
theorem GetARMTypeDefinition_lookup_witness :
    GetARMTypeDefinition exampleExternals namedValueDefinitions namedValueSpec.name =
      .ok namedValueSpecARM ∧
    TypeDefinitionSet.Lookup namedValueDefinitions namedValueSpec.name ≠
      some namedValueSpecARM ∧
    ∃ err, GetARMTypeDefinition exampleExternals namedValueDefinitions namedValue.name =
      .error err :=
  have h := GetARMTypeDefinition_lookup exampleExternals namedValueDefinitions namedValueSpec.name
  have h2 := GetARMTypeDefinition_lookup exampleExternals namedValueDefinitions namedValue.name
  ⟨h.1 namedValueSpecARM (by decide),
   (h.2.2.1 namedValueSpecARM (h.1 namedValueSpecARM (by decide))).2.2 (by decide),
   h2.2.1.mpr (by decide)⟩

/-! ## Independence of the order of enumeration -/

theorem wellFormed_perm (s t : TypeDefinitionSet) (hwf : TypeDefinitionSet.WellFormed s)
    (hperm : s.Perm t) : TypeDefinitionSet.WellFormed t := by
  unfold TypeDefinitionSet.WellFormed at hwf ⊢
  exact (List.Perm.nodup_iff (List.Perm.map (fun d : TypeDefinition => d.name) hperm)).mp hwf

theorem Lookup_perm (s t : TypeDefinitionSet) (hwf : TypeDefinitionSet.WellFormed s)
    (hperm : s.Perm t) (n : InternalTypeName) :
    TypeDefinitionSet.Lookup s n = TypeDefinitionSet.Lookup t n := by
  have hwft := wellFormed_perm s t hwf hperm
  cases hl : TypeDefinitionSet.Lookup s n with
  | none =>
    symm
    rw [Lookup_eq_none_iff] at hl ⊢
    intro d hd
    exact hl d (hperm.mem_iff.mpr hd)
  | some d =>
    have hmem := hperm.mem_iff.mp (Lookup_mem _ _ _ hl)
    have := Lookup_of_mem_wellFormed t d hwft hmem
    rw [Lookup_name _ _ _ hl] at this
    exact this.symm

theorem lookup_ext (a b : TypeDefinitionSet)
    (h1 : ∀ n d, TypeDefinitionSet.Lookup a n = some d → TypeDefinitionSet.Lookup b n = some d)
    (h2 : ∀ n d, TypeDefinitionSet.Lookup b n = some d → TypeDefinitionSet.Lookup a n = some d)
    (n : InternalTypeName) : TypeDefinitionSet.Lookup a n = TypeDefinitionSet.Lookup b n := by
  cases ha : TypeDefinitionSet.Lookup a n with
  | some d => exact (h1 n d ha).symm
  | none =>
    cases hb : TypeDefinitionSet.Lookup b n with
    | none => rfl
    | some d => rw [h2 n d hb] at ha; cases ha

/-- A loop of the stage yields the same mapping whatever the order of its enumeration. -/
theorem forEachAdd_equiv (body1 body2 : TypeDefinition → Result (Option TypeDefinition))
    (hbody : ∀ td, body1 td = body2 td) (l1 l2 : List TypeDefinition)
    (hl : ∀ td, td ∈ l1 ↔ td ∈ l2) (acc1 acc2 : TypeDefinitionSet)
    (hacc : ∀ n, TypeDefinitionSet.Lookup acc1 n = TypeDefinitionSet.Lookup acc2 n)
    (res1 : TypeDefinitionSet) (h : forEachAdd body1 l1 acc1 = .ok res1) :
    ∃ res2, forEachAdd body2 l2 acc2 = .ok res2 ∧
      ∀ n, TypeDefinitionSet.Lookup res2 n = TypeDefinitionSet.Lookup res1 n := by
  obtain ⟨res2, h2, hsub⟩ := forEachAdd_succeeds body2 (TypeDefinitionSet.Lookup res1) l2 acc2
    (by
      intro n e hne
      rw [← hacc] at hne
      exact forEachAdd_mono _ _ _ _ h n e hne)
    (by
      intro td htd
      obtain ⟨o, hb, ho⟩ := forEachAdd_body _ _ _ _ h td ((hl td).mpr htd)
      exact ⟨o, by rw [← hbody]; exact hb, ho⟩)
  refine ⟨res2, h2, lookup_ext res2 res1 hsub ?_⟩
  intro n d hd
  rcases forEachAdd_origin _ _ _ _ h n d hd with hin | ⟨td, htd, hb, hn⟩
  · rw [hacc] at hin
    exact forEachAdd_mono _ _ _ _ h2 n d hin
  · obtain ⟨o, hb2, ho⟩ := forEachAdd_body _ _ _ _ h2 td ((hl td).mp htd)
    rw [← hbody, hb] at hb2
    have := ho d (by simpa using hb2.symm)
    rwa [hn] at this

theorem AddTypes_equiv (s1 s2 t1 t2 res1 : TypeDefinitionSet)
    (hs : ∀ n, TypeDefinitionSet.Lookup s1 n = TypeDefinitionSet.Lookup s2 n)
    (ht : ∀ td, td ∈ t1 ↔ td ∈ t2)
    (h : TypeDefinitionSet.AddTypes s1 t1 = .ok res1) :
    ∃ res2, TypeDefinitionSet.AddTypes s2 t2 = .ok res2 ∧
      ∀ n, TypeDefinitionSet.Lookup res2 n = TypeDefinitionSet.Lookup res1 n := by
  rw [AddTypes_eq_forEachAdd] at h ⊢
  exact forEachAdd_equiv _ _ (fun _ => rfl) t1 t2 ht s1 s2 hs res1 h

theorem bodies_congr (x : Externals) (c1 c2 : armConversionApplier)
    (hdefs : ∀ n, TypeDefinitionSet.Lookup c1.definitions n =
      TypeDefinitionSet.Lookup c2.definitions n)
    (hcfg : c1.config = c2.config) (td : TypeDefinition) :
    transformResourceSpecsBody x c1 td = transformResourceSpecsBody x c2 td ∧
    transformResourceStatusesBody x c1 td = transformResourceStatusesBody x c2 td ∧
    transformTypesBody x c1 td = transformTypesBody x c2 td := by
  have hadd : ∀ k a kind, addARMConversionInterface c1 k a kind =
      addARMConversionInterface c2 k a kind := by
    intro k a kind
    simp only [addARMConversionInterface, lookupPayloadType, hcfg]
  have hget : ∀ n, GetARMTypeDefinition x c1.definitions n =
      GetARMTypeDefinition x c2.definitions n := by
    intro n
    simp only [GetARMTypeDefinition, hdefs]
  have hspec : ∀ r, transformSpec c1 r = transformSpec c2 r := by
    intro r
    simp only [transformSpec, TypeDefinitionSet.ResolveResourceSpecDefinition, hdefs]
  refine ⟨?_, ?_, ?_⟩
  · simp only [transformResourceSpecsBody, hspec, hget, hadd]
  · simp only [transformResourceStatusesBody, hget, hadd]
  · simp only [transformTypesBody, hget, hadd]

theorem mem_of_lookup_eq (a b : TypeDefinitionSet) (ha : TypeDefinitionSet.WellFormed a)
    (hb : TypeDefinitionSet.WellFormed b)
    (h : ∀ n, TypeDefinitionSet.Lookup a n = TypeDefinitionSet.Lookup b n) (td : TypeDefinition) :
    td ∈ a ↔ td ∈ b :=
  (perm_of_lookup a b ha hb h).mem_iff

theorem transformTypes_eq_inOrder (x : Externals) (c : armConversionApplier) :
    transformTypes x c = transformTypesIn Enumeration.inOrder x c := rfl

theorem transformTypesIn_wellFormed (e : Enumeration) (x : Externals) (c : armConversionApplier)
    (res : TypeDefinitionSet) (h : transformTypesIn e x c = .ok res) :
    TypeDefinitionSet.WellFormed res := by
  unfold transformTypesIn at h
  cases h1 : transformResourceSpecsIn e x c with
  | error err => simp [h1] at h
  | ok specs =>
    simp only [h1] at h
    cases h2 : TypeDefinitionSet.AddTypes [] (e.specs specs) with
    | error err => simp [h2] at h
    | ok r1 =>
      simp only [h2] at h
      cases h3 : transformResourceStatusesIn e x c with
      | error err => simp [h3] at h
      | ok statuses =>
        simp only [h3] at h
        cases h4 : TypeDefinitionSet.AddTypes r1 (e.statuses statuses) with
        | error err => simp [h4] at h
        | ok mid =>
          simp only [h4] at h
          exact forEachAdd_wellFormed _ _ _ _
            (AddTypes_wellFormed _ _ _ (AddTypes_wellFormed _ _ _ wellFormed_nil h2) h4) h

/-- A successful run in one order of enumeration succeeds in every other one, on every
enumeration of the same definitions, with the same mapping as result. -/
theorem transformTypesIn_congr (x : Externals) (c1 c2 : armConversionApplier)
    (e1 e2 : Enumeration) (hv1 : e1.Valid) (hv2 : e2.Valid)
    (hwf : TypeDefinitionSet.WellFormed c1.definitions)
    (hperm : c1.definitions.Perm c2.definitions) (hcfg : c1.config = c2.config)
    (res1 : TypeDefinitionSet) (h : transformTypesIn e1 x c1 = .ok res1) :
    ∃ res2, transformTypesIn e2 x c2 = .ok res2 ∧
      ∀ n, TypeDefinitionSet.Lookup res2 n = TypeDefinitionSet.Lookup res1 n := by
  have hdefs := Lookup_perm _ _ hwf hperm
  have hb := bodies_congr x c1 c2 hdefs hcfg
  obtain ⟨hr1, hs1, hsd1, hst1, ho1⟩ := hv1
  obtain ⟨hr2, hs2, hsd2, hst2, ho2⟩ := hv2
  unfold transformTypesIn at h
  cases h1 : transformResourceSpecsIn e1 x c1 with
  | error err => simp [h1] at h
  | ok specs =>
    simp only [h1] at h
    cases h2 : TypeDefinitionSet.AddTypes [] (e1.specs specs) with
    | error err => simp [h2] at h
    | ok r1 =>
      simp only [h2] at h
      cases h3 : transformResourceStatusesIn e1 x c1 with
      | error err => simp [h3] at h
      | ok statuses =>
        simp only [h3] at h
        cases h4 : TypeDefinitionSet.AddTypes r1 (e1.statuses statuses) with
        | error err => simp [h4] at h
        | ok mid =>
          simp only [h4] at h
          unfold transformResourceSpecsIn at h1
          unfold transformResourceStatusesIn at h3
          simp only [] at h1 h3
          -- the first loop
          obtain ⟨specs2, g1, q1⟩ := forEachAdd_equiv _ (transformResourceSpecsBody x c2)
            (fun td => (hb td).1) _
            (e2.resources (TypeDefinitionSet.Where c2.definitions
              (fun td => (AsResourceType td.Type).isSome)))
            (by
              intro td
              rw [(hr1 _).mem_iff, (hr2 _).mem_iff, mem_Where, mem_Where, hperm.mem_iff])
            [] [] (fun _ => rfl) specs h1
          have wfs := forEachAdd_wellFormed _ _ _ _ wellFormed_nil h1
          have wfs2 := forEachAdd_wellFormed _ _ _ _ wellFormed_nil g1
          obtain ⟨r12, g2, q2⟩ := AddTypes_equiv [] [] (e1.specs specs) (e2.specs specs2) r1
            (fun _ => rfl)
            (by
              intro td
              rw [(hs1 _).mem_iff, (hs2 _).mem_iff]
              exact (mem_of_lookup_eq specs2 specs wfs2 wfs q1 td).symm)
            h2
          -- the second loop
          obtain ⟨statuses2, g3, q3⟩ := forEachAdd_equiv _ (transformResourceStatusesBody x c2)
            (fun td => (hb td).2.1) _
            (e2.statusDefs (TypeDefinitionSet.Where c2.definitions (isStatusDefinition x)))
            (by
              intro td
              rw [(hsd1 _).mem_iff, (hsd2 _).mem_iff, mem_Where, mem_Where, hperm.mem_iff])
            [] [] (fun _ => rfl) statuses h3
          have wft := forEachAdd_wellFormed _ _ _ _ wellFormed_nil h3
          have wft2 := forEachAdd_wellFormed _ _ _ _ wellFormed_nil g3
          obtain ⟨mid2, g4, q4⟩ := AddTypes_equiv r1 r12 (e1.statuses statuses)
            (e2.statuses statuses2) mid (fun n => (q2 n).symm)
            (by
              intro td
              rw [(hst1 _).mem_iff, (hst2 _).mem_iff]
              exact (mem_of_lookup_eq statuses2 statuses wft2 wft q3 td).symm)
            h4
          -- the last loop
          obtain ⟨res2, g5, q5⟩ := forEachAdd_equiv _ (transformTypesBody x c2)
            (fun td => (hb td).2.2) _
            (e2.otherDefs (TypeDefinitionSet.Except c2.definitions mid2))
            (by
              intro td
              rw [(ho1 _).mem_iff, (ho2 _).mem_iff, mem_Except, mem_Except, hperm.mem_iff, q4])
            mid mid2 (fun n => (q4 n).symm) res1 h
          refine ⟨res2, ?_, q5⟩
          unfold transformTypesIn transformResourceSpecsIn transformResourceStatusesIn
          simp only [g1, g2, g3, g4, g5]

/-- C11: the stage is a function of the definition set and the configuration, not of the order
of enumeration. For two enumerations of the same well-formed definition set under the same
configuration, each of the five ranges of `transformTypes` going through its map in any order:
if one run succeeds, so does the other, and the two results are the same mapping (the same
definition under every name, the same definitions in all); if one run fails, so does the
other. `transformTypes` itself is the run in the order of the list. -/
theorem transformTypes_deterministic (x : Externals) (c1 c2 : armConversionApplier)
    (e1 e2 : Enumeration) (hv1 : e1.Valid) (hv2 : e2.Valid)
    (hwf : TypeDefinitionSet.WellFormed c1.definitions)
    (hperm : c1.definitions.Perm c2.definitions) (hcfg : c1.config = c2.config) :
    (∀ res1, transformTypesIn e1 x c1 = .ok res1 →
      ∃ res2, transformTypesIn e2 x c2 = .ok res2 ∧
        (∀ n, TypeDefinitionSet.Lookup res2 n = TypeDefinitionSet.Lookup res1 n) ∧
        res2.Perm res1) ∧
    (∀ err1, transformTypesIn e1 x c1 = .error err1 →
      ∃ err2, transformTypesIn e2 x c2 = .error err2) ∧
    transformTypes x c1 = transformTypesIn Enumeration.inOrder x c1 := by
  refine ⟨?_, ?_, rfl⟩
  · intro res1 h
    obtain ⟨res2, h2, q⟩ := transformTypesIn_congr x c1 c2 e1 e2 hv1 hv2 hwf hperm hcfg res1 h
    exact ⟨res2, h2, q, perm_of_lookup res2 res1 (transformTypesIn_wellFormed e2 x c2 res2 h2)
      (transformTypesIn_wellFormed e1 x c1 res1 h) q⟩
  · intro err1 h
    cases h2 : transformTypesIn e2 x c2 with
    | error err2 => exact ⟨err2, rfl⟩
    | ok res2 =>
      obtain ⟨res1, h1, _⟩ := transformTypesIn_congr x c2 c1 e2 e1 hv2 hv1
        (wellFormed_perm _ _ hwf hperm) hperm.symm hcfg.symm res2 h2
      rw [h] at h1
      cases h1

theorem Enumeration.inOrder_valid : Enumeration.inOrder.Valid :=
  ⟨fun _ => List.Perm.refl _, fun _ => List.Perm.refl _, fun _ => List.Perm.refl _,
    fun _ => List.Perm.refl _, fun _ => List.Perm.refl _⟩

theorem Enumeration.reversed_valid : Enumeration.reversed.Valid :=
  ⟨fun _ => List.reverse_perm _, fun _ => List.reverse_perm _, fun _ => List.reverse_perm _,
    fun _ => List.reverse_perm _, fun _ => List.reverse_perm _⟩

/-- C11, on the full scenario: the run in the order of the list and the run that goes through
every map in the opposite order, on the definitions listed backwards, give the same mapping. -/
theorem transformTypes_deterministic_witness :
    ∃ res1 res2, transformTypes exampleExternals fullApplier = .ok res1 ∧
      transformTypesIn Enumeration.reversed exampleExternals
        { definitions := fullDefinitions.reverse, config := unconfigured } = .ok res2 ∧
      (∀ n, TypeDefinitionSet.Lookup res2 n = TypeDefinitionSet.Lookup res1 n) ∧
      res2.Perm res1 := by
  obtain ⟨res1, hrun⟩ := ok_of_toBool (transformTypes exampleExternals fullApplier) (by decide)
  obtain ⟨res2, h2, h3, h4⟩ :=
    (transformTypes_deterministic exampleExternals fullApplier
      { definitions := fullDefinitions.reverse, config := unconfigured }
      Enumeration.inOrder Enumeration.reversed Enumeration.inOrder_valid
      Enumeration.reversed_valid (by decide) (List.reverse_perm _).symm rfl).1 res1 hrun
  exact ⟨res1, res2, hrun, h2, h3, h4⟩

/-! ## The configuration of a type: the loop of `UnmarshalYAML` -/

/-- `EqualFold` holds of a string and itself. -/
theorem EqualFold_refl (s : String) : EqualFold s s = true := by
  simp [EqualFold]

/-- Two strings equal when case is ignored compare alike with every third string. -/
theorem EqualFold_congr (k tag x : String) (h : EqualFold k tag = true) :
    EqualFold k x = EqualFold tag x := by
  unfold EqualFold at h ⊢
  rw [decide_eq_true_eq] at h
  rw [h]

/-- Folding a character after lowering it is folding it. -/
theorem foldRune_toLower (c : Char) : foldRune c.toLower = foldRune c := by
  by_cases hu : c.toNat ≥ 65 ∧ c.toNat ≤ 90
  · have hc : c = Char.ofNat c.toNat := (Char.ofNat_toNat c).symm
    generalize c.toNat = n at hu hc
    subst hc
    obtain ⟨h1, h2⟩ := hu
    interval_cases n <;> decide
  · have h1 : c.toLower = c := by
      unfold Char.toLower
      simp only [hu, if_false]
    rw [h1]

/-- Strings with the same lower-casing are equal when case is ignored. -/
theorem EqualFold_of_ToLower (s t : String) (h : ToLower s = ToLower t) :
    EqualFold s t = true := by
  unfold EqualFold
  rw [decide_eq_true_eq]
  have h1 : s.toList.map Char.toLower = t.toList.map Char.toLower := congrArg String.data h
  have h2 : ∀ l : List Char, l.map foldRune = (l.map Char.toLower).map foldRune := by
    intro l
    rw [List.map_map]
    apply List.map_congr_left
    intro c _
    exact (foldRune_toLower c).symm
  rw [h2 s.toList, h2 t.toList, h1]

/-- A key written with a long s folds with the tag written with `s`: `$exportAſ` is the
directive `$exportAs`, `$isReſource` is `$isResource` and `$ſupportedFrom` is `$supportedFrom`;
`$exportAſ` does not fold with `$export`. -/
theorem EqualFold_long_s :
    EqualFold "$exportAſ" exportAsTag = true ∧
    EqualFold "$isReſource" isResourceTag = true ∧
    EqualFold "$ſupportedFrom" supportedFromTag = true ∧
    EqualFold "$exportAſ" exportTag = false := by
  decide

/-- The loop over the content of the mapping handles the entries of the mapping one by one. -/
theorem unmarshalContent_pairs (dec : yaml.Decoder) (content : List yaml.Node) :
    ∀ (i : Nat) (lastId : String) (tc : TypeConfiguration), i % 2 = 0 →
      TypeConfiguration.unmarshalContent dec content i lastId tc
        = TypeConfiguration.unmarshalEntries dec (yaml.pairs content) tc := by
  induction content using yaml.pairs.induct with
  | case1 k v rest ih =>
    intro i lastId tc hi
    have hi1 : ¬ ((i + 1) % 2 = 0) := by omega
    have hi2 : (i + 1 + 1) % 2 = 0 := by omega
    simp only [TypeConfiguration.unmarshalContent, yaml.pairs,
      TypeConfiguration.unmarshalEntries, hi, hi1, if_true, if_false]
    cases hv : TypeConfiguration.unmarshalValue dec tc k.Value v with
    | mk tc1 err =>
      cases err with
      | some e => rfl
      | none => exact ih (i + 1 + 1) k.Value tc1 hi2
  | case2 content hne =>
    intro i lastId tc hi
    match content, hne with
    | [], _ => simp [TypeConfiguration.unmarshalContent, yaml.pairs,
        TypeConfiguration.unmarshalEntries]
    | [k], _ => simp [TypeConfiguration.unmarshalContent, yaml.pairs,
        TypeConfiguration.unmarshalEntries, hi]
    | k :: v :: rest, hne => exact absurd rfl (hne k v rest)

/-- On a mapping, `UnmarshalYAML` empties the properties and handles the entries one by one. -/
theorem UnmarshalYAML_mapping (dec : yaml.Decoder) (tc : TypeConfiguration) (value : yaml.Node)
    (hkind : value.Kind = .MappingNode) :
    TypeConfiguration.UnmarshalYAML dec tc value
      = TypeConfiguration.unmarshalEntries dec (yaml.pairs value.Content)
          { tc with properties := [] } := by
  unfold TypeConfiguration.UnmarshalYAML
  simp only [hkind, ne_eq, not_true_eq_false, if_false]
  exact unmarshalContent_pairs dec value.Content 0 "" _ rfl

/-- The loop over entries that succeed goes on with the entries after them. -/
theorem unmarshalEntries_append (dec : yaml.Decoder) (es1 es2 : List (yaml.Node × yaml.Node)) :
    ∀ (tc tc1 : TypeConfiguration),
      TypeConfiguration.unmarshalEntries dec es1 tc = (tc1, none) →
      TypeConfiguration.unmarshalEntries dec (es1 ++ es2) tc
        = TypeConfiguration.unmarshalEntries dec es2 tc1 := by
  induction es1 with
  | nil =>
    intro tc tc1 h
    simp only [TypeConfiguration.unmarshalEntries, Prod.mk.injEq, and_true] at h
    rw [List.nil_append, h]
  | cons e es ih =>
    intro tc tc1 h
    obtain ⟨k, v⟩ := e
    rw [List.cons_append]
    simp only [TypeConfiguration.unmarshalEntries] at h ⊢
    cases hv : TypeConfiguration.unmarshalValue dec tc k.Value v with
    | mk t err =>
      rw [hv] at h
      cases err with
      | some e => simp at h
      | none => exact ih t tc1 h

/-- The loop at an entry: the entry is handled, and a failure ends the loop. -/
theorem unmarshalEntries_cons (dec : yaml.Decoder) (k v : yaml.Node)
    (es : List (yaml.Node × yaml.Node)) (tc : TypeConfiguration) :
    TypeConfiguration.unmarshalEntries dec ((k, v) :: es) tc
      = match tc.unmarshalValue dec k.Value v with
        | (tc, some err) => (tc, some err)
        | (tc, none) => TypeConfiguration.unmarshalEntries dec es tc := by
  simp only [TypeConfiguration.unmarshalEntries]

/-- A failing entry after entries that succeed: the loop ends with its error and with the
configuration the entries before it left. -/
theorem unmarshalEntries_stops (dec : yaml.Decoder) (es1 es2 : List (yaml.Node × yaml.Node))
    (k v : yaml.Node) (tc tc1 tc2 : TypeConfiguration) (err : Error)
    (h1 : TypeConfiguration.unmarshalEntries dec es1 tc = (tc1, none))
    (hv : tc1.unmarshalValue dec k.Value v = (tc2, some err)) :
    TypeConfiguration.unmarshalEntries dec (es1 ++ (k, v) :: es2) tc = (tc2, some err) := by
  rw [unmarshalEntries_append dec es1 _ tc tc1 h1, unmarshalEntries_cons, hv]

/-- An entry that succeeds after entries that succeed: the loop goes on after it. -/
theorem unmarshalEntries_continues (dec : yaml.Decoder) (es1 es2 : List (yaml.Node × yaml.Node))
    (k v : yaml.Node) (tc tc1 tc2 : TypeConfiguration)
    (h1 : TypeConfiguration.unmarshalEntries dec es1 tc = (tc1, none))
    (hv : tc1.unmarshalValue dec k.Value v = (tc2, none)) :
    TypeConfiguration.unmarshalEntries dec (es1 ++ (k, v) :: es2) tc
      = TypeConfiguration.unmarshalEntries dec es2 tc2 := by
  rw [unmarshalEntries_append dec es1 _ tc tc1 h1, unmarshalEntries_cons, hv]

/-- A scalar under a key that is no directive: the handler fails, naming the key, the value and
the position of the value, and leaves the configuration as it was. -/
theorem unmarshalValue_unknown (dec : yaml.Decoder) (tc : TypeConfiguration) (k : String)
    (v : yaml.Node) (hscalar : v.Kind = .ScalarNode)
    (hk : ∀ tag ∈ directiveTags, EqualFold k tag = false) :
    tc.unmarshalValue dec k v
      = (tc, some (.errorf "type configuration, unexpected yaml value %s: %s (line %d col %d)"
          [.text k, .text v.Value, .index v.Line, .index v.Column])) := by
  simp only [directiveTags, List.forall_mem_cons, List.mem_singleton, forall_eq, List.mem_cons,
    forall_eq_or_imp] at hk
  obtain ⟨h1, h2, h3, h4, h5, h6, h7, h8, h9, h10, h11, h12⟩ := hk
  unfold TypeConfiguration.unmarshalValue
  simp only [h1, h2, h3, h4, h5, h6, h7, h8, h9, h10, h11, h12, hscalar, Bool.false_and,
    Bool.false_eq_true, if_false, reduceCtorEq]

/-- A mapping under `$generatedConfigs`: the handler is the loop over the content of the
mapping. -/
theorem unmarshalValue_generatedConfigs (dec : yaml.Decoder) (tc : TypeConfiguration)
    (k : String) (v : yaml.Node) (hk : EqualFold k generatedConfigsTag = true)
    (hkind : v.Kind = .MappingNode) :
    tc.unmarshalValue dec k v
      = match generatedConfigsEntries v.Content 0 "" [] with
        | .error err => (tc, some err)
        | .ok m => ({ tc with GeneratedConfigs := tc.GeneratedConfigs.Set m }, none) := by
  unfold TypeConfiguration.unmarshalValue
  simp only [hk, hkind, decide_True, Bool.and_self, if_true]

/-- A mapping under another key: the handler decodes the configuration of a property. -/
theorem unmarshalValue_property (dec : yaml.Decoder) (tc : TypeConfiguration)
    (k : String) (v : yaml.Node) (hk : EqualFold k generatedConfigsTag = false)
    (hkind : v.Kind = .MappingNode) :
    tc.unmarshalValue dec k v
      = match dec.DecodeProperty v with
        | .error err => (tc, some (.wrapf err "decoding yaml for %q" [.text k]))
        | .ok settings => (tc.addProperty k { name := k, settings := settings }, none) := by
  unfold TypeConfiguration.unmarshalValue
  simp only [hk, hkind, Bool.false_and, Bool.false_eq_true, if_false, if_true,
    PropertyConfiguration.Decode, NewPropertyConfiguration]
  cases dec.DecodeProperty v <;> rfl

/-- A key equal to a directive when case is ignored, with a value of the kind the directive
accepts, is handled as the directive itself. -/
theorem unmarshalValue_fold (dec : yaml.Decoder) (tc : TypeConfiguration) (k tag : String)
    (kind : yaml.Kind) (v : yaml.Node) (htag : (tag, kind) ∈ directiveKinds)
    (hk : EqualFold k tag = true) (hkind : v.Kind = kind) :
    tc.unmarshalValue dec k v = tc.unmarshalValue dec tag v := by
  have hc : ∀ x, EqualFold k x = EqualFold tag x := fun x => EqualFold_congr k tag x hk
  simp only [directiveKinds, List.mem_cons, List.mem_singleton, Prod.mk.injEq,
    List.not_mem_nil, or_false] at htag
  unfold TypeConfiguration.unmarshalValue
  rcases htag with h | h | h | h | h | h | h | h | h | h | h | h <;>
    (obtain ⟨h1, h2⟩ := h
     subst h1
     subst h2
     simp only [hc, hkind, EqualFold_refl, decide_True, decide_False, Bool.and_self,
       Bool.and_true, Bool.and_false, Bool.false_eq_true, if_true, if_false, reduceCtorEq])

/-- What the handling of a value can do: it fails and leaves the configuration as it was, or it
sets the cell of the directive the key matches, to the value decoded, or it adds the
configuration of a property under the key. -/
theorem unmarshalValue_elim (dec : yaml.Decoder) (tc : TypeConfiguration) (k : String)
    (v : yaml.Node) (P : TypeConfiguration × Option Error → Prop)
    (hfail : ∀ err, P (tc, some err))
    (h1 : EqualFold k generatedConfigsTag = true → v.Kind = .MappingNode →
      ∀ m, generatedConfigsEntries v.Content 0 "" [] = .ok m →
        P ({ tc with GeneratedConfigs := tc.GeneratedConfigs.Set m }, none))
    (h2 : EqualFold k generatedConfigsTag = false → v.Kind = .MappingNode →
      ∀ settings, dec.DecodeProperty v = .ok settings →
        P (tc.addProperty k { name := k, settings := settings }, none))
    (h3 : EqualFold k nameInNextVersionTag = true → v.Kind = .ScalarNode →
      P ({ tc with NameInNextVersion := tc.NameInNextVersion.Set v.Value }, none))
    (h4 : EqualFold k exportTag = true → v.Kind = .ScalarNode →
      ∀ b, dec.DecodeBool v = .ok b → P ({ tc with Export := tc.Export.Set b }, none))
    (h5 : EqualFold k exportAsTag = true → v.Kind = .ScalarNode →
      P ({ tc with ExportAs := tc.ExportAs.Set v.Value }, none))
    (h6 : EqualFold k azureGeneratedSecretsTag = true → v.Kind = .SequenceNode →
      ∀ l, scalarElements azureGeneratedSecretsTag v.Content [] = .ok l →
        P ({ tc with AzureGeneratedSecrets := tc.AzureGeneratedSecrets.Set l }, none))
    (h7 : EqualFold k manualConfigsTag = true → v.Kind = .SequenceNode →
      ∀ l, scalarElements manualConfigsTag v.Content [] = .ok l →
        P ({ tc with ManualConfigs := tc.ManualConfigs.Set l }, none))
    (h8 : EqualFold k supportedFromTag = true → v.Kind = .ScalarNode →
      P ({ tc with SupportedFrom := tc.SupportedFrom.Set v.Value }, none))
    (h9 : EqualFold k renameTo = true → v.Kind = .ScalarNode →
      ∀ s, dec.DecodeString v = .ok s → P ({ tc with RenameTo := tc.RenameTo.Set s }, none))
    (h10 : EqualFold k resourceEmbeddedInParentTag = true → v.Kind = .ScalarNode →
      ∀ s, dec.DecodeString v = .ok s →
        P ({ tc with ResourceEmbeddedInParent := tc.ResourceEmbeddedInParent.Set s }, none))
    (h11 : EqualFold k isResourceTag = true → v.Kind = .ScalarNode →
      ∀ b, dec.DecodeBool v = .ok b → P ({ tc with IsResource := tc.IsResource.Set b }, none))
    (h12 : EqualFold k importableTag = true → v.Kind = .ScalarNode →
      ∀ b, dec.DecodeBool v = .ok b → P ({ tc with Importable := tc.Importable.Set b }, none))
    (h13 : EqualFold k defaultAzureNameTag = true → v.Kind = .ScalarNode →
      ∀ b, dec.DecodeBool v = .ok b →
        P ({ tc with DefaultAzureName := tc.DefaultAzureName.Set b }, none)) :
    P (tc.unmarshalValue dec k v) := by
  have split : ∀ (a : Bool) (p : Prop) [Decidable p], (a && decide p) = true → a = true ∧ p := by
    intro a p _ h
    simpa using h
  unfold TypeConfiguration.unmarshalValue
  by_cases c1 : (EqualFold k generatedConfigsTag && decide (v.Kind = .MappingNode)) = true
  · rw [if_pos c1]
    cases hm : generatedConfigsEntries v.Content 0 "" [] with
    | error e => exact hfail e
    | ok m => exact h1 (split _ _ c1).1 (split _ _ c1).2 m hm
  rw [if_neg c1]
  by_cases c2 : v.Kind = .MappingNode
  · rw [if_pos c2]
    have hk : EqualFold k generatedConfigsTag = false := by simpa [c2] using c1
    simp only [PropertyConfiguration.Decode, NewPropertyConfiguration]
    cases hd : dec.DecodeProperty v with
    | error e => exact hfail _
    | ok settings => exact h2 hk c2 settings hd
  rw [if_neg c2]
  by_cases c3 : (EqualFold k nameInNextVersionTag && decide (v.Kind = .ScalarNode)) = true
  · rw [if_pos c3]
    exact h3 (split _ _ c3).1 (split _ _ c3).2
  rw [if_neg c3]
  by_cases c4 : (EqualFold k exportTag && decide (v.Kind = .ScalarNode)) = true
  · rw [if_pos c4]
    cases hd : dec.DecodeBool v with
    | error e => exact hfail _
    | ok b => exact h4 (split _ _ c4).1 (split _ _ c4).2 b hd
  rw [if_neg c4]
  by_cases c5 : (EqualFold k exportAsTag && decide (v.Kind = .ScalarNode)) = true
  · rw [if_pos c5]
    exact h5 (split _ _ c5).1 (split _ _ c5).2
  rw [if_neg c5]
  by_cases c6 : (EqualFold k azureGeneratedSecretsTag && decide (v.Kind = .SequenceNode)) = true
  · rw [if_pos c6]
    cases hd : scalarElements azureGeneratedSecretsTag v.Content [] with
    | error e => exact hfail _
    | ok l => exact h6 (split _ _ c6).1 (split _ _ c6).2 l hd
  rw [if_neg c6]
  by_cases c7 : (EqualFold k manualConfigsTag && decide (v.Kind = .SequenceNode)) = true
  · rw [if_pos c7]
    cases hd : scalarElements manualConfigsTag v.Content [] with
    | error e => exact hfail _
    | ok l => exact h7 (split _ _ c7).1 (split _ _ c7).2 l hd
  rw [if_neg c7]
  by_cases c8 : (EqualFold k supportedFromTag && decide (v.Kind = .ScalarNode)) = true
  · rw [if_pos c8]
    exact h8 (split _ _ c8).1 (split _ _ c8).2
  rw [if_neg c8]
  by_cases c9 : (EqualFold k renameTo && decide (v.Kind = .ScalarNode)) = true
  · rw [if_pos c9]
    cases hd : dec.DecodeString v with
    | error e => exact hfail _
    | ok s => exact h9 (split _ _ c9).1 (split _ _ c9).2 s hd
  rw [if_neg c9]
  by_cases c10 : (EqualFold k resourceEmbeddedInParentTag && decide (v.Kind = .ScalarNode)) = true
  · rw [if_pos c10]
    cases hd : dec.DecodeString v with
    | error e => exact hfail _
    | ok s => exact h10 (split _ _ c10).1 (split _ _ c10).2 s hd
  rw [if_neg c10]
  by_cases c11 : (EqualFold k isResourceTag && decide (v.Kind = .ScalarNode)) = true
  · rw [if_pos c11]
    cases hd : dec.DecodeBool v with
    | error e => exact hfail _
    | ok b => exact h11 (split _ _ c11).1 (split _ _ c11).2 b hd
  rw [if_neg c11]
  by_cases c12 : (EqualFold k importableTag && decide (v.Kind = .ScalarNode)) = true
  · rw [if_pos c12]
    cases hd : dec.DecodeBool v with
    | error e => exact hfail _
    | ok b => exact h12 (split _ _ c12).1 (split _ _ c12).2 b hd
  rw [if_neg c12]
  by_cases c13 : (EqualFold k defaultAzureNameTag && decide (v.Kind = .ScalarNode)) = true
  · rw [if_pos c13]
    cases hd : dec.DecodeBool v with
    | error e => exact hfail _
    | ok b => exact h13 (split _ _ c13).1 (split _ _ c13).2 b hd
  rw [if_neg c13]
  exact hfail _

/-- An entry that fails in every configuration makes the loop fail, whatever the entries
before it do. -/
theorem unmarshalEntries_fails (dec : yaml.Decoder) (es1 es2 : List (yaml.Node × yaml.Node))
    (k v : yaml.Node)
    (hv : ∀ tc1 : TypeConfiguration, (tc1.unmarshalValue dec k.Value v).2 ≠ none) :
    ∀ tc : TypeConfiguration,
      (TypeConfiguration.unmarshalEntries dec (es1 ++ (k, v) :: es2) tc).2 ≠ none := by
  induction es1 with
  | nil =>
    intro tc
    rw [List.nil_append, unmarshalEntries_cons]
    cases h : TypeConfiguration.unmarshalValue dec tc k.Value v with
    | mk t err =>
      cases err with
      | some e => simp
      | none => exact absurd (by rw [h]) (hv tc)
  | cons e es ih =>
    intro tc
    obtain ⟨k1, v1⟩ := e
    rw [List.cons_append, unmarshalEntries_cons]
    cases h : TypeConfiguration.unmarshalValue dec tc k1.Value v1 with
    | mk t err =>
      cases err with
      | some e => simp
      | none => exact ih t

/-- A property of the configuration that every entry keeps is kept by the loop, also when the
loop fails. -/
theorem unmarshalEntries_invariant (dec : yaml.Decoder) (P : TypeConfiguration → Prop)
    (es : List (yaml.Node × yaml.Node))
    (hstep : ∀ e ∈ es, ∀ tc : TypeConfiguration, P tc →
      P (tc.unmarshalValue dec e.1.Value e.2).1) :
    ∀ tc : TypeConfiguration, P tc → P (TypeConfiguration.unmarshalEntries dec es tc).1 := by
  induction es with
  | nil =>
    intro tc h
    exact h
  | cons e es ih =>
    intro tc h
    obtain ⟨k, v⟩ := e
    rw [unmarshalEntries_cons]
    have hs := hstep (k, v) (List.mem_cons_self _ _) tc h
    cases hv : TypeConfiguration.unmarshalValue dec tc k.Value v with
    | mk t err =>
      rw [hv] at hs
      cases err with
      | some e => exact hs
      | none => exact ih (fun e he => hstep e (List.mem_cons_of_mem _ he)) t hs

/-- The value under a key after `m[key] = value`. -/
theorem GoMap.get_set {α : Type} (m : GoMap α) (key : String) (value : α) (q : String) :
    GoMap.get (GoMap.set m key value) q = if key = q then some value else GoMap.get m q := by
  unfold GoMap.get GoMap.set
  induction m with
  | nil =>
    by_cases h : key = q <;> simp [List.find?, h]
  | cons x xs ih =>
    by_cases hx : x.1 = key
    · have hf : List.filter (fun kv => decide (kv.1 ≠ key)) (x :: xs)
          = List.filter (fun kv => decide (kv.1 ≠ key)) xs := by
        simp [List.filter_cons, hx]
      rw [hf, ih]
      by_cases h : key = q
      · simp [h]
      · have hxq : ¬ x.1 = q := fun hq => h (hx.symm.trans hq)
        simp [h, List.find?_cons, hxq]
    · have hf : List.filter (fun kv => decide (kv.1 ≠ key)) (x :: xs)
          = x :: List.filter (fun kv => decide (kv.1 ≠ key)) xs := by
        simp [List.filter_cons, hx]
      rw [hf, List.cons_append, List.find?_cons, List.find?_cons]
      by_cases hxq : x.1 = q
      · have h : ¬ key = q := fun hq => hx (hxq.trans hq.symm)
        simp [hxq, h]
      · simp only [hxq, decide_False]
        exact ih

/-- The entries of a content that has a first entry: the content starts with the key and the
value of that entry. -/
theorem yaml.pairs_eq_cons (content : List yaml.Node) (p : yaml.Node × yaml.Node)
    (ps : List (yaml.Node × yaml.Node)) (h : yaml.pairs content = p :: ps) :
    ∃ tail, content = p.1 :: p.2 :: tail ∧ yaml.pairs tail = ps := by
  match content, h with
  | k :: v :: rest, h =>
    simp only [yaml.pairs, List.cons.injEq] at h
    exact ⟨rest, by rw [← h.1], h.2⟩

/-- The value a mapping gives to a key, entry by entry: a later entry wins. -/
theorem lastValue_cons (kv : String × String) (rest : List (String × String)) (q : String) :
    lastValue (kv :: rest) q
      = (lastValue rest q).or (if kv.1 = q then some kv.2 else none) := by
  unfold lastValue
  rw [List.reverse_cons, List.find?_append]
  cases List.find? (fun kv => decide (kv.1 = q)) rest.reverse with
  | some x => rfl
  | none =>
    by_cases h : kv.1 = q <;> simp [List.find?, h]

/-- One entry of a `$generatedConfigs` mapping, both nodes scalars and the value starting with
`$.`: the loop records the value under the key and goes on. -/
theorem generatedConfigsEntries_entry (ik iv : yaml.Node) (rest : List yaml.Node) (idx : Nat)
    (key : String) (acc : GoMap String) (hidx : idx % 2 = 0) (hk : ik.Kind = .ScalarNode)
    (hv : iv.Kind = .ScalarNode) (hp : startsWith iv.Value "$." = true) :
    generatedConfigsEntries (ik :: iv :: rest) idx key acc
      = generatedConfigsEntries rest (idx + 1 + 1) ik.Value (GoMap.set acc ik.Value iv.Value) := by
  have h1 : ¬ (idx % 2 = 1) := by omega
  have h2 : (idx + 1) % 2 = 1 := by omega
  have h3 : ¬ ((idx + 1) % 2 = 0) := by omega
  simp only [generatedConfigsEntries, hk, hv, hidx, h1, h2, h3, hp, if_true, if_false,
    Bool.not_true, Bool.false_eq_true, zero_ne_one, one_ne_zero]

/-- A value of a `$generatedConfigs` mapping that does not start with `$.` makes the loop over
the mapping fail. -/
theorem generatedConfigsEntries_fails (content : List yaml.Node) :
    ∀ (idx : Nat) (key : String) (acc : GoMap String), idx % 2 = 0 →
      (∃ e ∈ yaml.pairs content, startsWith e.2.Value "$." = false) →
      ∃ err, generatedConfigsEntries content idx key acc = .error err := by
  induction content using yaml.pairs.induct with
  | case1 ik iv rest ih =>
    intro idx key acc hidx hbad
    by_cases hk : ik.Kind = .ScalarNode
    · by_cases hv : iv.Kind = .ScalarNode
      · by_cases hp : startsWith iv.Value "$." = true
        · rw [generatedConfigsEntries_entry ik iv rest idx key acc hidx hk hv hp]
          apply ih (idx + 1 + 1) ik.Value _ (by omega)
          obtain ⟨e, he, hbad⟩ := hbad
          simp only [yaml.pairs, List.mem_cons] at he
          rcases he with he | he
          · subst he
            rw [hp] at hbad
            exact absurd hbad (by decide)
          · exact ⟨e, he, hbad⟩
        · have h1 : ¬ (idx % 2 = 1) := by omega
          have h2 : (idx + 1) % 2 = 1 := by omega
          have h3 : ¬ ((idx + 1) % 2 = 0) := by omega
          have hp2 : startsWith iv.Value "$." = false := by
            cases hs : startsWith iv.Value "$." with
            | true => exact absurd hs hp
            | false => rfl
          simp only [generatedConfigsEntries, hk, hv, hidx, h1, h2, h3, hp2, if_true,
            if_false, Bool.not_false, zero_ne_one, one_ne_zero]
          exact ⟨_, rfl⟩
      · have h1 : ¬ (idx % 2 = 1) := by omega
        simp only [generatedConfigsEntries, hk, hv, hidx, h1, if_true, if_false, zero_ne_one,
          one_ne_zero]
        exact ⟨_, rfl⟩
    · simp only [generatedConfigsEntries, hk, if_false]
      exact ⟨_, rfl⟩
  | case2 content hne =>
    intro idx key acc hidx hbad
    obtain ⟨e, he, _⟩ := hbad
    match content, hne, he with
    | [], _, he => simp [yaml.pairs] at he
    | [k], _, he => simp [yaml.pairs] at he
    | k :: v :: rest, hne, _ => exact absurd rfl (hne k v rest)

/-- A `$generatedConfigs` mapping of scalars whose values start with `$.`: the loop over the
mapping succeeds, and the map it returns holds, under every key, the value the mapping gives to
the key, or else what the map held before. -/
theorem generatedConfigsEntries_ok (content : List yaml.Node) :
    ∀ (idx : Nat) (key : String) (acc : GoMap String), idx % 2 = 0 →
      (∀ c ∈ content, c.Kind = .ScalarNode) →
      (∀ e ∈ yaml.pairs content, startsWith e.2.Value "$." = true) →
      ∃ m, generatedConfigsEntries content idx key acc = .ok m ∧
        ∀ q, GoMap.get m q
          = (lastValue (yaml.keyValues (yaml.pairs content)) q).or (GoMap.get acc q) := by
  induction content using yaml.pairs.induct with
  | case1 ik iv rest ih =>
    intro idx key acc hidx hs hp
    have hk : ik.Kind = .ScalarNode := hs ik (by simp)
    have hv : iv.Kind = .ScalarNode := hs iv (by simp)
    have hpv : startsWith iv.Value "$." = true := hp (ik, iv) (by simp [yaml.pairs])
    rw [generatedConfigsEntries_entry ik iv rest idx key acc hidx hk hv hpv]
    obtain ⟨m, hm, hget⟩ := ih (idx + 1 + 1) ik.Value (GoMap.set acc ik.Value iv.Value)
      (by omega) (fun c hc => hs c (by simp [hc]))
      (fun e he => hp e (by simp [yaml.pairs, he]))
    refine ⟨m, hm, ?_⟩
    intro q
    rw [hget q, GoMap.get_set]
    simp only [yaml.pairs, yaml.keyValues, List.map_cons]
    rw [lastValue_cons]
    cases lastValue (List.map (fun kv => (kv.1.Value, kv.2.Value)) (yaml.pairs rest)) q with
    | some x => rfl
    | none =>
      by_cases h : ik.Value = q <;> simp [h]
  | case2 content hne =>
    intro idx key acc hidx hs hp
    match content, hne, hs with
    | [], _, _ =>
      exact ⟨acc, by simp [generatedConfigsEntries], by
        intro q
        simp [yaml.pairs, yaml.keyValues, lastValue]⟩
    | [k], _, hs =>
      have hk : k.Kind = .ScalarNode := hs k (by simp)
      have h1 : ¬ (idx % 2 = 1) := by omega
      exact ⟨acc, by simp [generatedConfigsEntries, hk, hidx], by
        intro q
        simp [yaml.pairs, yaml.keyValues, lastValue]⟩
    | k :: v :: rest, hne, _ => exact absurd rfl (hne k v rest)

/-- The first value of a `$generatedConfigs` mapping that does not start with `$.`, after
entries of scalars: the loop fails with the error that names the directive and the value. -/
theorem generatedConfigsEntries_first (ps1 ps2 : List (yaml.Node × yaml.Node))
    (ik iv : yaml.Node) (hk : ik.Kind = .ScalarNode) (hv : iv.Kind = .ScalarNode)
    (hp : startsWith iv.Value "$." = false) :
    ∀ (content : List yaml.Node) (idx : Nat) (key : String) (acc : GoMap String),
      idx % 2 = 0 → yaml.pairs content = ps1 ++ (ik, iv) :: ps2 →
      (∀ e ∈ ps1, e.1.Kind = .ScalarNode ∧ e.2.Kind = .ScalarNode ∧
        startsWith e.2.Value "$." = true) →
      generatedConfigsEntries content idx key acc
        = .error (.errorf "%s entry %q must begin with $."
            [.text generatedConfigsTag, .text iv.Value]) := by
  induction ps1 with
  | nil =>
    intro content idx key acc hidx hc _
    obtain ⟨tail, ht, _⟩ := yaml.pairs_eq_cons content _ _ hc
    subst ht
    have h1 : ¬ (idx % 2 = 1) := by omega
    have h2 : (idx + 1) % 2 = 1 := by omega
    have h3 : ¬ ((idx + 1) % 2 = 0) := by omega
    simp only [generatedConfigsEntries, hk, hv, hidx, h1, h2, h3, hp, if_true, if_false,
      Bool.not_false, zero_ne_one, one_ne_zero]
  | cons p ps ih =>
    intro content idx key acc hidx hc hs
    rw [List.cons_append] at hc
    obtain ⟨tail, ht, hrest⟩ := yaml.pairs_eq_cons content _ _ hc
    subst ht
    obtain ⟨hp1, hp2, hp3⟩ := hs p (List.mem_cons_self _ _)
    rw [generatedConfigsEntries_entry p.1 p.2 tail idx key acc hidx hp1 hp2 hp3]
    exact ih tail (idx + 1 + 1) p.1.Value _ (by omega) hrest
      (fun e he => hs e (List.mem_cons_of_mem _ he))

/-- The first element of a sequence that is no scalar: the loop over the sequence fails with the
error that names the directive and the line and column of the element. -/
theorem scalarElements_first (tag : String) (xs ys : List yaml.Node) (c : yaml.Node)
    (hc : c.Kind ≠ .ScalarNode) :
    ∀ values : List String, (∀ x ∈ xs, x.Kind = .ScalarNode) →
      scalarElements tag (xs ++ c :: ys) values
        = .error (.errorf "unexpected yam value for %s (line %d col %d)"
            [.text tag, .index c.Line, .index c.Column]) := by
  induction xs with
  | nil =>
    intro values _
    simp only [List.nil_append, scalarElements, hc, if_false]
  | cons x xs ih =>
    intro values hs
    have hx : x.Kind = .ScalarNode := hs x (List.mem_cons_self _ _)
    simp only [List.cons_append, scalarElements, hx, if_true]
    exact ih _ (fun y hy => hs y (List.mem_cons_of_mem _ hy))

/-- A scalar under `$export`: the handler decodes a boolean, and stores it or fails with the
error of the decoding wrapped under the name of the directive. -/
theorem unmarshalValue_exportTag (dec : yaml.Decoder) (tc : TypeConfiguration) (v : yaml.Node)
    (hkind : v.Kind = .ScalarNode) :
    tc.unmarshalValue dec exportTag v
      = match dec.DecodeBool v with
        | .error err => (tc, some (.wrapf err "decoding %s" [.text exportTag]))
        | .ok b => ({ tc with Export := tc.Export.Set b }, none) := by
  have f1 : EqualFold exportTag azureGeneratedSecretsTag = false := by decide
  have f2 : EqualFold exportTag generatedConfigsTag = false := by decide
  have f3 : EqualFold exportTag manualConfigsTag = false := by decide
  have f4 : EqualFold exportTag exportAsTag = false := by decide
  have f5 : EqualFold exportTag importableTag = false := by decide
  have f6 : EqualFold exportTag isResourceTag = false := by decide
  have f7 : EqualFold exportTag nameInNextVersionTag = false := by decide
  have f8 : EqualFold exportTag supportedFromTag = false := by decide
  have f9 : EqualFold exportTag renameTo = false := by decide
  have f10 : EqualFold exportTag resourceEmbeddedInParentTag = false := by decide
  have f11 : EqualFold exportTag defaultAzureNameTag = false := by decide
  unfold TypeConfiguration.unmarshalValue
  simp only [f1, f2, f3, f4, f5, f6, f7, f8, f9, f10, f11, hkind, EqualFold_refl, decide_True, decide_False, Bool.and_self,
    Bool.and_true, Bool.and_false, Bool.false_and, Bool.false_eq_true, if_true, if_false,
    reduceCtorEq]

/-- A scalar under `$isResource`: the handler decodes a boolean, and stores it or fails with the
error of the decoding wrapped under the name of the directive. -/
theorem unmarshalValue_isResourceTag (dec : yaml.Decoder) (tc : TypeConfiguration) (v : yaml.Node)
    (hkind : v.Kind = .ScalarNode) :
    tc.unmarshalValue dec isResourceTag v
      = match dec.DecodeBool v with
        | .error err => (tc, some (.wrapf err "decoding %s" [.text isResourceTag]))
        | .ok b => ({ tc with IsResource := tc.IsResource.Set b }, none) := by
  have f1 : EqualFold isResourceTag azureGeneratedSecretsTag = false := by decide
  have f2 : EqualFold isResourceTag generatedConfigsTag = false := by decide
  have f3 : EqualFold isResourceTag manualConfigsTag = false := by decide
  have f4 : EqualFold isResourceTag exportTag = false := by decide
  have f5 : EqualFold isResourceTag exportAsTag = false := by decide
  have f6 : EqualFold isResourceTag importableTag = false := by decide
  have f7 : EqualFold isResourceTag nameInNextVersionTag = false := by decide
  have f8 : EqualFold isResourceTag supportedFromTag = false := by decide
  have f9 : EqualFold isResourceTag renameTo = false := by decide
  have f10 : EqualFold isResourceTag resourceEmbeddedInParentTag = false := by decide
  have f11 : EqualFold isResourceTag defaultAzureNameTag = false := by decide
  unfold TypeConfiguration.unmarshalValue
  simp only [f1, f2, f3, f4, f5, f6, f7, f8, f9, f10, f11, hkind, EqualFold_refl, decide_True, decide_False, Bool.and_self,
    Bool.and_true, Bool.and_false, Bool.false_and, Bool.false_eq_true, if_true, if_false,
    reduceCtorEq]

/-- A scalar under `$importable`: the handler decodes a boolean, and stores it or fails with the
error of the decoding wrapped under the name of the directive. -/
theorem unmarshalValue_importableTag (dec : yaml.Decoder) (tc : TypeConfiguration) (v : yaml.Node)
    (hkind : v.Kind = .ScalarNode) :
    tc.unmarshalValue dec importableTag v
      = match dec.DecodeBool v with
        | .error err => (tc, some (.wrapf err "decoding %s" [.text importableTag]))
        | .ok b => ({ tc with Importable := tc.Importable.Set b }, none) := by
  have f1 : EqualFold importableTag azureGeneratedSecretsTag = false := by decide
  have f2 : EqualFold importableTag generatedConfigsTag = false := by decide
  have f3 : EqualFold importableTag manualConfigsTag = false := by decide
  have f4 : EqualFold importableTag exportTag = false := by decide
  have f5 : EqualFold importableTag exportAsTag = false := by decide
  have f6 : EqualFold importableTag isResourceTag = false := by decide
  have f7 : EqualFold importableTag nameInNextVersionTag = false := by decide
  have f8 : EqualFold importableTag supportedFromTag = false := by decide
  have f9 : EqualFold importableTag renameTo = false := by decide
  have f10 : EqualFold importableTag resourceEmbeddedInParentTag = false := by decide
  have f11 : EqualFold importableTag defaultAzureNameTag = false := by decide
  unfold TypeConfiguration.unmarshalValue
  simp only [f1, f2, f3, f4, f5, f6, f7, f8, f9, f10, f11, hkind, EqualFold_refl, decide_True, decide_False, Bool.and_self,
    Bool.and_true, Bool.and_false, Bool.false_and, Bool.false_eq_true, if_true, if_false,
    reduceCtorEq]

/-- A scalar under `$defaultAzureName`: the handler decodes a boolean, and stores it or fails with the
error of the decoding wrapped under the name of the directive. -/
theorem unmarshalValue_defaultAzureNameTag (dec : yaml.Decoder) (tc : TypeConfiguration) (v : yaml.Node)
    (hkind : v.Kind = .ScalarNode) :
    tc.unmarshalValue dec defaultAzureNameTag v
      = match dec.DecodeBool v with
        | .error err => (tc, some (.wrapf err "decoding %s" [.text defaultAzureNameTag]))
        | .ok b => ({ tc with DefaultAzureName := tc.DefaultAzureName.Set b }, none) := by
  have f1 : EqualFold defaultAzureNameTag azureGeneratedSecretsTag = false := by decide
  have f2 : EqualFold defaultAzureNameTag generatedConfigsTag = false := by decide
  have f3 : EqualFold defaultAzureNameTag manualConfigsTag = false := by decide
  have f4 : EqualFold defaultAzureNameTag exportTag = false := by decide
  have f5 : EqualFold defaultAzureNameTag exportAsTag = false := by decide
  have f6 : EqualFold defaultAzureNameTag importableTag = false := by decide
  have f7 : EqualFold defaultAzureNameTag isResourceTag = false := by decide
  have f8 : EqualFold defaultAzureNameTag nameInNextVersionTag = false := by decide
  have f9 : EqualFold defaultAzureNameTag supportedFromTag = false := by decide
  have f10 : EqualFold defaultAzureNameTag renameTo = false := by decide
  have f11 : EqualFold defaultAzureNameTag resourceEmbeddedInParentTag = false := by decide
  unfold TypeConfiguration.unmarshalValue
  simp only [f1, f2, f3, f4, f5, f6, f7, f8, f9, f10, f11, hkind, EqualFold_refl, decide_True, decide_False, Bool.and_self,
    Bool.and_true, Bool.and_false, Bool.false_and, Bool.false_eq_true, if_true, if_false,
    reduceCtorEq]

/-- A scalar under `$renameTo`: the handler decodes a string, and stores it or fails. -/
theorem unmarshalValue_renameTo (dec : yaml.Decoder) (tc : TypeConfiguration) (v : yaml.Node)
    (hkind : v.Kind = .ScalarNode) :
    tc.unmarshalValue dec renameTo v
      = match dec.DecodeString v with
        | .error err => (tc, some (.wrapf err "decoding %s" [.text ""]))
        | .ok s => ({ tc with RenameTo := tc.RenameTo.Set s }, none) := by
  have f1 : EqualFold renameTo azureGeneratedSecretsTag = false := by decide
  have f2 : EqualFold renameTo generatedConfigsTag = false := by decide
  have f3 : EqualFold renameTo manualConfigsTag = false := by decide
  have f4 : EqualFold renameTo exportTag = false := by decide
  have f5 : EqualFold renameTo exportAsTag = false := by decide
  have f6 : EqualFold renameTo importableTag = false := by decide
  have f7 : EqualFold renameTo isResourceTag = false := by decide
  have f8 : EqualFold renameTo nameInNextVersionTag = false := by decide
  have f9 : EqualFold renameTo supportedFromTag = false := by decide
  have f10 : EqualFold renameTo resourceEmbeddedInParentTag = false := by decide
  have f11 : EqualFold renameTo defaultAzureNameTag = false := by decide
  unfold TypeConfiguration.unmarshalValue
  simp only [f1, f2, f3, f4, f5, f6, f7, f8, f9, f10, f11, hkind, EqualFold_refl, decide_True, decide_False, Bool.and_self,
    Bool.and_true, Bool.and_false, Bool.false_and, Bool.false_eq_true, if_true, if_false,
    reduceCtorEq]

/-- A sequence under `$azureGeneratedSecrets`: the handler is the loop over the elements of the sequence. -/
theorem unmarshalValue_azureGeneratedSecretsTag (dec : yaml.Decoder) (tc : TypeConfiguration) (v : yaml.Node)
    (hkind : v.Kind = .SequenceNode) :
    tc.unmarshalValue dec azureGeneratedSecretsTag v
      = match scalarElements azureGeneratedSecretsTag v.Content [] with
        | .error err => (tc, some err)
        | .ok l => ({ tc with AzureGeneratedSecrets := tc.AzureGeneratedSecrets.Set l }, none) := by
  have f1 : EqualFold azureGeneratedSecretsTag generatedConfigsTag = false := by decide
  have f2 : EqualFold azureGeneratedSecretsTag manualConfigsTag = false := by decide
  have f3 : EqualFold azureGeneratedSecretsTag exportTag = false := by decide
  have f4 : EqualFold azureGeneratedSecretsTag exportAsTag = false := by decide
  have f5 : EqualFold azureGeneratedSecretsTag importableTag = false := by decide
  have f6 : EqualFold azureGeneratedSecretsTag isResourceTag = false := by decide
  have f7 : EqualFold azureGeneratedSecretsTag nameInNextVersionTag = false := by decide
  have f8 : EqualFold azureGeneratedSecretsTag supportedFromTag = false := by decide
  have f9 : EqualFold azureGeneratedSecretsTag renameTo = false := by decide
  have f10 : EqualFold azureGeneratedSecretsTag resourceEmbeddedInParentTag = false := by decide
  have f11 : EqualFold azureGeneratedSecretsTag defaultAzureNameTag = false := by decide
  unfold TypeConfiguration.unmarshalValue
  simp only [f1, f2, f3, f4, f5, f6, f7, f8, f9, f10, f11, hkind, EqualFold_refl, decide_True, decide_False, Bool.and_self,
    Bool.and_true, Bool.and_false, Bool.false_and, Bool.false_eq_true, if_true, if_false,
    reduceCtorEq]

/-- A sequence under `$manualConfigs`: the handler is the loop over the elements of the sequence. -/
theorem unmarshalValue_manualConfigsTag (dec : yaml.Decoder) (tc : TypeConfiguration) (v : yaml.Node)
    (hkind : v.Kind = .SequenceNode) :
    tc.unmarshalValue dec manualConfigsTag v
      = match scalarElements manualConfigsTag v.Content [] with
        | .error err => (tc, some err)
        | .ok l => ({ tc with ManualConfigs := tc.ManualConfigs.Set l }, none) := by
  have f1 : EqualFold manualConfigsTag azureGeneratedSecretsTag = false := by decide
  have f2 : EqualFold manualConfigsTag generatedConfigsTag = false := by decide
  have f3 : EqualFold manualConfigsTag exportTag = false := by decide
  have f4 : EqualFold manualConfigsTag exportAsTag = false := by decide
  have f5 : EqualFold manualConfigsTag importableTag = false := by decide
  have f6 : EqualFold manualConfigsTag isResourceTag = false := by decide
  have f7 : EqualFold manualConfigsTag nameInNextVersionTag = false := by decide
  have f8 : EqualFold manualConfigsTag supportedFromTag = false := by decide
  have f9 : EqualFold manualConfigsTag renameTo = false := by decide
  have f10 : EqualFold manualConfigsTag resourceEmbeddedInParentTag = false := by decide
  have f11 : EqualFold manualConfigsTag defaultAzureNameTag = false := by decide
  unfold TypeConfiguration.unmarshalValue
  simp only [f1, f2, f3, f4, f5, f6, f7, f8, f9, f10, f11, hkind, EqualFold_refl, decide_True, decide_False, Bool.and_self,
    Bool.and_true, Bool.and_false, Bool.false_and, Bool.false_eq_true, if_true, if_false,
    reduceCtorEq]

/-- The handlers other than that of `$generatedConfigs` leave `GeneratedConfigs` as it was. -/
theorem unmarshalValue_frame_GeneratedConfigs (dec : yaml.Decoder) (tc : TypeConfiguration)
    (k : String) (v : yaml.Node)
    (h : ¬ (EqualFold k generatedConfigsTag = true ∧ v.Kind = .MappingNode)) :
    (tc.unmarshalValue dec k v).1.GeneratedConfigs = tc.GeneratedConfigs := by
  apply unmarshalValue_elim dec tc k v (fun r => r.1.GeneratedConfigs = tc.GeneratedConfigs)
  case h1 => exact fun hk hkind => absurd ⟨hk, hkind⟩ h
  all_goals intros
  all_goals rfl

/-- The handlers other than that of `$renameTo` leave `RenameTo` as it was. -/
theorem unmarshalValue_frame_RenameTo (dec : yaml.Decoder) (tc : TypeConfiguration)
    (k : String) (v : yaml.Node)
    (h : ¬ (EqualFold k renameTo = true ∧ v.Kind = .ScalarNode)) :
    (tc.unmarshalValue dec k v).1.RenameTo = tc.RenameTo := by
  apply unmarshalValue_elim dec tc k v (fun r => r.1.RenameTo = tc.RenameTo)
  case h9 => exact fun hk hkind => absurd ⟨hk, hkind⟩ h
  all_goals intros
  all_goals rfl

/-- The handling of a value changes the configuration of a property only when the value is a
mapping under a key, other than `$generatedConfigs`, with the lower-casing of the property. -/
theorem unmarshalValue_frame_properties (dec : yaml.Decoder) (tc : TypeConfiguration)
    (k : String) (v : yaml.Node) (q : String)
    (h : ¬ (v.Kind = .MappingNode ∧ EqualFold k generatedConfigsTag = false ∧ ToLower k = q)) :
    GoMap.get (tc.unmarshalValue dec k v).1.properties q = GoMap.get tc.properties q := by
  apply unmarshalValue_elim dec tc k v
    (fun r => GoMap.get r.1.properties q = GoMap.get tc.properties q)
  case h2 =>
    intro hk hkind settings _
    have hq : ¬ ToLower k = q := fun hq => h ⟨hkind, hk, hq⟩
    show GoMap.get (GoMap.set tc.properties (ToLower k) _) q = _
    rw [GoMap.get_set, if_neg hq]
  all_goals intros
  all_goals rfl

/-- Two keys handled alike in every configuration can stand for each other in the loop. -/
theorem unmarshalEntries_middle (dec : yaml.Decoder) (es1 es2 : List (yaml.Node × yaml.Node))
    (a b v : yaml.Node)
    (h : ∀ t : TypeConfiguration, t.unmarshalValue dec a.Value v = t.unmarshalValue dec b.Value v) :
    ∀ tc : TypeConfiguration,
      TypeConfiguration.unmarshalEntries dec (es1 ++ (a, v) :: es2) tc
        = TypeConfiguration.unmarshalEntries dec (es1 ++ (b, v) :: es2) tc := by
  induction es1 with
  | nil =>
    intro tc
    rw [List.nil_append, List.nil_append, unmarshalEntries_cons, unmarshalEntries_cons, h tc]
  | cons e es ih =>
    intro tc
    obtain ⟨k1, v1⟩ := e
    rw [List.cons_append, List.cons_append, unmarshalEntries_cons, unmarshalEntries_cons]
    cases hv : TypeConfiguration.unmarshalValue dec tc k1.Value v1 with
    | mk t err =>
      cases err with
      | some e => rfl
      | none => exact ih t

/-! ## The configuration of a type: claims on `UnmarshalYAML` -/

/-- C15: on a mapping with an entry `$generatedConfigs` (case ignored) whose value is a mapping,
`UnmarshalYAML` fails whenever some value of that inner mapping does not start with `$.`; and
when all the nodes of the inner mapping are scalars and all its values start with `$.`, the
entries before it succeed and no later entry is a `$generatedConfigs` mapping, the handler
succeeds and `GeneratedConfigs` holds a map that gives to every key exactly the value the inner
mapping gives to it. -/
theorem UnmarshalYAML_generatedConfigs (dec : yaml.Decoder) (tc : TypeConfiguration)
    (doc k v : yaml.Node) (es1 es2 : List (yaml.Node × yaml.Node))
    (hdoc : doc.Kind = .MappingNode)
    (hentries : yaml.pairs doc.Content = es1 ++ (k, v) :: es2)
    (hk : EqualFold k.Value generatedConfigsTag = true)
    (hkind : v.Kind = .MappingNode) :
    ((∃ e ∈ yaml.pairs v.Content, startsWith e.2.Value "$." = false) →
      (tc.UnmarshalYAML dec doc).2 ≠ none) ∧
    ((∀ c ∈ v.Content, c.Kind = .ScalarNode) →
      (∀ e ∈ yaml.pairs v.Content, startsWith e.2.Value "$." = true) →
      ∀ tc1,
        TypeConfiguration.unmarshalEntries dec es1 { tc with properties := [] } = (tc1, none) →
        (∀ e ∈ es2, ¬ (EqualFold e.1.Value generatedConfigsTag = true ∧
          e.2.Kind = .MappingNode)) →
        ∃ m, tc1.unmarshalValue dec k.Value v
            = ({ tc1 with GeneratedConfigs := tc1.GeneratedConfigs.Set m }, none) ∧
          (tc.UnmarshalYAML dec doc).1.GeneratedConfigs.value = some m ∧
          ∀ q, GoMap.get m q = lastValue (yaml.keyValues (yaml.pairs v.Content)) q) := by
  rw [UnmarshalYAML_mapping dec tc doc hdoc, hentries]
  constructor
  · intro hbad
    apply unmarshalEntries_fails
    intro t
    rw [unmarshalValue_generatedConfigs dec t k.Value v hk hkind]
    obtain ⟨err, herr⟩ := generatedConfigsEntries_fails v.Content 0 "" [] rfl hbad
    rw [herr]
    simp
  · intro hs hp tc1 h1 hafter
    obtain ⟨m, hm, hget⟩ := generatedConfigsEntries_ok v.Content 0 "" [] rfl hs hp
    have hv : tc1.unmarshalValue dec k.Value v
        = ({ tc1 with GeneratedConfigs := tc1.GeneratedConfigs.Set m }, none) := by
      rw [unmarshalValue_generatedConfigs dec tc1 k.Value v hk hkind, hm]
    refine ⟨m, hv, ?_, ?_⟩
    · rw [unmarshalEntries_continues dec es1 es2 k v _ tc1 _ h1 hv]
      exact unmarshalEntries_invariant dec (fun t => t.GeneratedConfigs.value = some m) es2
        (fun e he t ht => by
          show (t.unmarshalValue dec e.1.Value e.2).1.GeneratedConfigs.value = some m
          rw [unmarshalValue_frame_GeneratedConfigs dec t e.1.Value e.2 (hafter e he)]
          exact ht) _ rfl
    · intro q
      rw [hget q]
      cases lastValue (yaml.keyValues (yaml.pairs v.Content)) q <;> rfl

/-- The document `$generatedConfigs: {primaryKey: Status.Key}` is rejected, and the document
`$generatedConfigs: {primaryKey: $.Status.Key, endpoint: $.Status.Endpoint}` sets
`GeneratedConfigs` to the map of its two entries. -/
theorem UnmarshalYAML_generatedConfigs_witness :
    (exampleType.UnmarshalYAML exampleDecoder badGeneratedConfigsDocument).2 ≠ none ∧
    ∃ m, (exampleType.UnmarshalYAML exampleDecoder generatedConfigsDocument).1.GeneratedConfigs.value
        = some m ∧
      GoMap.get m "primaryKey" = some "$.Status.Key" ∧
      GoMap.get m "endpoint" = some "$.Status.Endpoint" ∧
      GoMap.get m "other" = none := by
  constructor
  · exact (UnmarshalYAML_generatedConfigs exampleDecoder exampleType badGeneratedConfigsDocument
      (yaml.scalar "$generatedConfigs" 1 1)
      (yaml.mapping [yaml.scalar "primaryKey" 2 3, yaml.scalar "Status.Key" 2 15] 2 3)
      [] [] rfl rfl (by decide) rfl).1
      ⟨(yaml.scalar "primaryKey" 2 3, yaml.scalar "Status.Key" 2 15), by simp [yaml.pairs,
        yaml.mapping, yaml.Node.Content], by decide⟩
  · obtain ⟨m, _, hm, hget⟩ := (UnmarshalYAML_generatedConfigs exampleDecoder exampleType
      generatedConfigsDocument (yaml.scalar "$generatedConfigs" 1 1)
      (yaml.mapping [yaml.scalar "primaryKey" 2 3, yaml.scalar "$.Status.Key" 2 15,
        yaml.scalar "endpoint" 3 3, yaml.scalar "$.Status.Endpoint" 3 13] 2 3)
      [] [] rfl rfl (by decide) rfl).2 (by decide) (by decide) _ rfl (by simp)
    exact ⟨m, hm, by rw [hget]; decide, by rw [hget]; decide, by rw [hget]; decide⟩


/-- The document `$exportAſ: Other` is read as the directive `$exportAs`, a long s folding with
`s`: the parse succeeds and `ExportAs` is set to `Other`. -/
theorem UnmarshalYAML_long_s :
    (exampleType.UnmarshalYAML exampleDecoder longSDocument).2 = none ∧
    (exampleType.UnmarshalYAML exampleDecoder longSDocument).1.ExportAs.value = some "Other" ∧
    ¬ (∀ tag ∈ directiveTags, EqualFold "$exportAſ" tag = false) := by
  refine ⟨rfl, rfl, ?_⟩
  intro h
  exact absurd (h exportAsTag (by decide)) (by decide)

/-- C16: `UnmarshalYAML` rejects a scalar under a key that is none of the twelve directives,
case ignored as `strings.EqualFold` ignores it (a key that differs from a directive by the case
of letters, or by a long s for an `s`, is the directive and is not rejected): the parse fails;
and when the entries before that key succeed, the error names the key, its value and the line
and column of the value node, and the configuration is the one the entries before the key left,
the entries after the key not being handled. -/
theorem UnmarshalYAML_unknown_key (dec : yaml.Decoder) (tc : TypeConfiguration)
    (doc k v : yaml.Node) (es1 es2 : List (yaml.Node × yaml.Node))
    (hdoc : doc.Kind = .MappingNode)
    (hentries : yaml.pairs doc.Content = es1 ++ (k, v) :: es2)
    (hscalar : v.Kind = .ScalarNode)
    (hk : ∀ tag ∈ directiveTags, EqualFold k.Value tag = false) :
    (tc.UnmarshalYAML dec doc).2 ≠ none ∧
    ∀ tc1, TypeConfiguration.unmarshalEntries dec es1 { tc with properties := [] } = (tc1, none) →
      tc.UnmarshalYAML dec doc
        = (tc1, some (.errorf "type configuration, unexpected yaml value %s: %s (line %d col %d)"
            [.text k.Value, .text v.Value, .index v.Line, .index v.Column])) := by
  rw [UnmarshalYAML_mapping dec tc doc hdoc, hentries]
  constructor
  · apply unmarshalEntries_fails
    intro t
    rw [unmarshalValue_unknown dec t k.Value v hscalar hk]
    simp
  · intro tc1 h1
    exact unmarshalEntries_stops dec es1 es2 k v _ tc1 tc1 _ h1
      (unmarshalValue_unknown dec tc1 k.Value v hscalar hk)

/-- The document `$export: true`, `color: red`, `$exportAs: Other` is rejected at `color`: the
error names `color`, `red`, line 2 and column 8; `$export` has been set and `$exportAs` has
not. -/
theorem UnmarshalYAML_unknown_key_witness :
    (exampleType.UnmarshalYAML exampleDecoder unknownKeyDocument).2
      = some (.errorf "type configuration, unexpected yaml value %s: %s (line %d col %d)"
          [.text "color", .text "red", .index 2, .index 8]) ∧
    (exampleType.UnmarshalYAML exampleDecoder unknownKeyDocument).1.Export.value = some true ∧
    (exampleType.UnmarshalYAML exampleDecoder unknownKeyDocument).1.ExportAs.value = none := by
  have h := (UnmarshalYAML_unknown_key exampleDecoder exampleType unknownKeyDocument
    (yaml.scalar "color" 2 1) (yaml.scalar "red" 2 8)
    [(yaml.scalar "$export" 1 1, yaml.scalar "true" 1 10)]
    [(yaml.scalar "$exportAs" 3 1, yaml.scalar "Other" 3 12)] rfl rfl rfl (by decide)).2 _ rfl
  rw [h]
  exact ⟨rfl, rfl, rfl⟩

/-- C17, counterexample: the document `$generatedConfigs: {primaryKey: Status.Key}`, whose value
at line 2, column 15 lacks the `$.`, fails with an error that carries the name of the directive
and the value, and carries no line and no column, in its message or in a cause. -/
theorem UnmarshalYAML_error_without_position :
    (exampleType.UnmarshalYAML exampleDecoder badGeneratedConfigsDocument).2
      = some (.errorf "%s entry %q must begin with $."
          [.text generatedConfigsTag, .text "Status.Key"]) ∧
    ∀ err, (exampleType.UnmarshalYAML exampleDecoder badGeneratedConfigsDocument).2 = some err →
      err.carries (.text generatedConfigsTag) = true ∧
      ∀ n, err.carries (.index n) = false := by
  have h : (exampleType.UnmarshalYAML exampleDecoder badGeneratedConfigsDocument).2
      = some (.errorf "%s entry %q must begin with $."
          [.text generatedConfigsTag, .text "Status.Key"]) := rfl
  refine ⟨h, ?_⟩
  intro err herr
  rw [h] at herr
  cases herr
  refine ⟨by decide, ?_⟩
  intro n
  simp [Error.carries]

/-- C17, amended: a malformed value of a directive, after entries that succeed, makes
`UnmarshalYAML` fail with an error that names the directive, and the configuration is the one
the entries before left. For a scalar under `$export`, `$isResource`, `$importable` or
`$defaultAzureName` that does not decode into a boolean, the error is the error of the decoding
wrapped under the name of the directive, with no position added. For the first element of
`$azureGeneratedSecrets` or `$manualConfigs` that is no scalar, the error carries the name of
the directive and the line and column of the element. For the first value of `$generatedConfigs`
that lacks the `$.`, the error carries the name of the directive and the value, not its
position. -/
theorem UnmarshalYAML_malformed (dec : yaml.Decoder) (tc tc1 : TypeConfiguration)
    (doc k v : yaml.Node) (es1 es2 : List (yaml.Node × yaml.Node))
    (hdoc : doc.Kind = .MappingNode)
    (hentries : yaml.pairs doc.Content = es1 ++ (k, v) :: es2)
    (hbefore : TypeConfiguration.unmarshalEntries dec es1 { tc with properties := [] }
      = (tc1, none)) :
    (∀ tag ∈ [exportTag, isResourceTag, importableTag, defaultAzureNameTag],
      EqualFold k.Value tag = true → v.Kind = .ScalarNode →
      ∀ cause, dec.DecodeBool v = .error cause →
        tc.UnmarshalYAML dec doc = (tc1, some (.wrapf cause "decoding %s" [.text tag]))) ∧
    (∀ tag ∈ [azureGeneratedSecretsTag, manualConfigsTag],
      EqualFold k.Value tag = true → v.Kind = .SequenceNode →
      ∀ xs c ys, v.Content = xs ++ c :: ys → (∀ x ∈ xs, x.Kind = .ScalarNode) →
        c.Kind ≠ .ScalarNode →
        tc.UnmarshalYAML dec doc
          = (tc1, some (.errorf "unexpected yam value for %s (line %d col %d)"
              [.text tag, .index c.Line, .index c.Column]))) ∧
    (EqualFold k.Value generatedConfigsTag = true → v.Kind = .MappingNode →
      ∀ ps1 ik iv ps2, yaml.pairs v.Content = ps1 ++ (ik, iv) :: ps2 →
        (∀ e ∈ ps1, e.1.Kind = .ScalarNode ∧ e.2.Kind = .ScalarNode ∧
          startsWith e.2.Value "$." = true) →
        ik.Kind = .ScalarNode → iv.Kind = .ScalarNode → startsWith iv.Value "$." = false →
        tc.UnmarshalYAML dec doc
          = (tc1, some (.errorf "%s entry %q must begin with $."
              [.text generatedConfigsTag, .text iv.Value]))) := by
  rw [UnmarshalYAML_mapping dec tc doc hdoc, hentries]
  refine ⟨?_, ?_, ?_⟩
  · intro tag htag hk hscalar cause hcause
    apply unmarshalEntries_stops dec es1 es2 k v _ tc1 tc1 _ hbefore
    simp only [List.mem_cons, List.mem_singleton, List.not_mem_nil, or_false] at htag
    rcases htag with h | h | h | h
    · subst h
      rw [unmarshalValue_fold dec tc1 k.Value exportTag .ScalarNode v
        (by simp [directiveKinds]) hk hscalar, unmarshalValue_exportTag dec tc1 v hscalar,
        hcause]
    · subst h
      rw [unmarshalValue_fold dec tc1 k.Value isResourceTag .ScalarNode v
        (by simp [directiveKinds]) hk hscalar, unmarshalValue_isResourceTag dec tc1 v hscalar,
        hcause]
    · subst h
      rw [unmarshalValue_fold dec tc1 k.Value importableTag .ScalarNode v
        (by simp [directiveKinds]) hk hscalar, unmarshalValue_importableTag dec tc1 v hscalar,
        hcause]
    · subst h
      rw [unmarshalValue_fold dec tc1 k.Value defaultAzureNameTag .ScalarNode v
        (by simp [directiveKinds]) hk hscalar,
        unmarshalValue_defaultAzureNameTag dec tc1 v hscalar, hcause]
  · intro tag htag hk hseq xs c ys hcontent hxs hc
    apply unmarshalEntries_stops dec es1 es2 k v _ tc1 tc1 _ hbefore
    simp only [List.mem_cons, List.mem_singleton, List.not_mem_nil, or_false] at htag
    rcases htag with h | h
    · subst h
      rw [unmarshalValue_fold dec tc1 k.Value azureGeneratedSecretsTag .SequenceNode v
        (by simp [directiveKinds]) hk hseq,
        unmarshalValue_azureGeneratedSecretsTag dec tc1 v hseq, hcontent,
        scalarElements_first azureGeneratedSecretsTag xs ys c hc [] hxs]
    · subst h
      rw [unmarshalValue_fold dec tc1 k.Value manualConfigsTag .SequenceNode v
        (by simp [directiveKinds]) hk hseq,
        unmarshalValue_manualConfigsTag dec tc1 v hseq, hcontent,
        scalarElements_first manualConfigsTag xs ys c hc [] hxs]
  · intro hk hmap ps1 ik iv ps2 hpairs hps1 hik hiv hp
    apply unmarshalEntries_stops dec es1 es2 k v _ tc1 tc1 _ hbefore
    rw [unmarshalValue_generatedConfigs dec tc1 k.Value v hk hmap,
      generatedConfigsEntries_first ps1 ps2 ik iv hik hiv hp v.Content 0 "" [] rfl hpairs hps1]

/-- The document `$export: maybe` fails with the error of the decoding wrapped under `$export`;
the document `$azureGeneratedSecrets: [PrimaryKey, {a: b}]` fails with an error that carries
`$azureGeneratedSecrets`, line 3 and column 5; the document
`$generatedConfigs: {primaryKey: Status.Key}` fails with an error that carries
`$generatedConfigs` and `Status.Key`. -/
theorem UnmarshalYAML_malformed_witness :
    exampleType.UnmarshalYAML exampleDecoder badExportDocument
      = ({ exampleType with properties := [] },
          some (.wrapf (.errorf "line %d: cannot unmarshal %s into bool" [.index 1, .text "maybe"])
            "decoding %s" [.text "$export"])) ∧
    exampleType.UnmarshalYAML exampleDecoder badSecretsDocument
      = ({ exampleType with properties := [] },
          some (.errorf "unexpected yam value for %s (line %d col %d)"
            [.text "$azureGeneratedSecrets", .index 3, .index 5])) ∧
    exampleType.UnmarshalYAML exampleDecoder badGeneratedConfigsDocument
      = ({ exampleType with properties := [] },
          some (.errorf "%s entry %q must begin with $."
            [.text "$generatedConfigs", .text "Status.Key"])) :=
  ⟨(UnmarshalYAML_malformed exampleDecoder exampleType { exampleType with properties := [] }
      badExportDocument (yaml.scalar "$export" 1 1) (yaml.scalar "maybe" 1 10) [] []
      rfl rfl rfl).1 exportTag (by simp) (by decide) rfl _ rfl,
    (UnmarshalYAML_malformed exampleDecoder exampleType { exampleType with properties := [] }
      badSecretsDocument (yaml.scalar "$azureGeneratedSecrets" 1 1)
      (yaml.sequence [yaml.scalar "PrimaryKey" 2 5,
        yaml.mapping [yaml.scalar "a" 3 5, yaml.scalar "b" 3 8] 3 5] 2 3) [] []
      rfl rfl rfl).2.1 azureGeneratedSecretsTag (by simp) (by decide) rfl
      [yaml.scalar "PrimaryKey" 2 5] (yaml.mapping [yaml.scalar "a" 3 5, yaml.scalar "b" 3 8] 3 5)
      [] rfl (by decide) (by decide),
    (UnmarshalYAML_malformed exampleDecoder exampleType { exampleType with properties := [] }
      badGeneratedConfigsDocument (yaml.scalar "$generatedConfigs" 1 1)
      (yaml.mapping [yaml.scalar "primaryKey" 2 3, yaml.scalar "Status.Key" 2 15] 2 3) [] []
      rfl rfl rfl).2.2 (by decide) rfl [] (yaml.scalar "primaryKey" 2 3)
      (yaml.scalar "Status.Key" 2 15) [] rfl (by simp) rfl rfl (by decide)⟩

/-- C18: the configuration of a property is keyed ignoring case. After `addProperty K p`,
`findProperty P` returns `p`, with no error, for every `P` whose lower-casing is that of `K`.
After `UnmarshalYAML` has decoded a mapping under a key `K` other than `$generatedConfigs`, the
entries before it succeeding and no later entry registering a property with the same
lower-casing, `findProperty P` returns, with no error, the configuration decoded for `K`, whose
name is `K` as it is spelled in the document. -/
theorem findProperty_case_insensitive (dec : yaml.Decoder) (tc tc1 : TypeConfiguration)
    (doc k v : yaml.Node) (es1 es2 : List (yaml.Node × yaml.Node))
    (settings : List (String × String)) (K P : String) (p : PropertyConfiguration) :
    (ToLower P = ToLower K → ((tc.addProperty K p).findProperty P).2 = .ok p) ∧
    (doc.Kind = .MappingNode →
      yaml.pairs doc.Content = es1 ++ (k, v) :: es2 →
      v.Kind = .MappingNode →
      EqualFold k.Value generatedConfigsTag = false →
      dec.DecodeProperty v = .ok settings →
      TypeConfiguration.unmarshalEntries dec es1 { tc with properties := [] } = (tc1, none) →
      (∀ e ∈ es2, ¬ (e.2.Kind = .MappingNode ∧ EqualFold e.1.Value generatedConfigsTag = false ∧
        ToLower e.1.Value = ToLower k.Value)) →
      ToLower P = ToLower k.Value →
      ((tc.UnmarshalYAML dec doc).1.findProperty P).2
        = .ok { name := k.Value, settings := settings }) := by
  have hfind : ∀ (t : TypeConfiguration) (name : String) (pc : PropertyConfiguration),
      GoMap.get t.properties (ToLower name) = some pc → (t.findProperty name).2 = .ok pc := by
    intro t name pc h
    unfold TypeConfiguration.findProperty
    simp only [h]
  constructor
  · intro hP
    apply hfind
    show GoMap.get (GoMap.set tc.properties (ToLower K) p) (ToLower P) = some p
    rw [GoMap.get_set, if_pos hP.symm]
  · intro hdoc hentries hkind hk hdecode hbefore hafter hP
    apply hfind
    have hv : tc1.unmarshalValue dec k.Value v
        = (tc1.addProperty k.Value { name := k.Value, settings := settings }, none) := by
      rw [unmarshalValue_property dec tc1 k.Value v hk hkind, hdecode]
    rw [UnmarshalYAML_mapping dec tc doc hdoc, hentries,
      unmarshalEntries_continues dec es1 es2 k v _ tc1 _ hbefore hv, hP]
    exact unmarshalEntries_invariant dec
      (fun t => GoMap.get t.properties (ToLower k.Value)
        = some { name := k.Value, settings := settings }) es2
      (fun e he t ht => by
        show GoMap.get (t.unmarshalValue dec e.1.Value e.2).1.properties (ToLower k.Value) = _
        rw [unmarshalValue_frame_properties dec t e.1.Value e.2 _ (hafter e he)]
        exact ht) _
      (by
        show GoMap.get (GoMap.set tc1.properties (ToLower k.Value) _) (ToLower k.Value) = _
        rw [GoMap.get_set, if_pos rfl])

/-- After `addProperty "DisplayName" p`, `findProperty "DISPLAYNAME"` returns `p`; and after the
document `DisplayName: {$renameTo: Title}`, `findProperty "displayName"` returns the
configuration decoded for `DisplayName`, under that name. -/
theorem findProperty_case_insensitive_witness :
    ((exampleType.addProperty "DisplayName" (NewPropertyConfiguration "DisplayName")).findProperty
      "DISPLAYNAME").2 = .ok (NewPropertyConfiguration "DisplayName") ∧
    ((exampleType.UnmarshalYAML exampleDecoder propertyDocument).1.findProperty "displayName").2
      = .ok { name := "DisplayName", settings := [("$renameTo", "Title")] } := by
  have h := findProperty_case_insensitive exampleDecoder exampleType
    { exampleType with properties := [] } propertyDocument (yaml.scalar "DisplayName" 1 1)
    (yaml.mapping [yaml.scalar "$renameTo" 2 3, yaml.scalar "Title" 2 14] 2 3) [] []
    [("$renameTo", "Title")] "DisplayName"
  exact ⟨(h "DISPLAYNAME" (NewPropertyConfiguration "DisplayName")).1 (by decide),
    (h "displayName" (NewPropertyConfiguration "DisplayName")).2 rfl rfl rfl (by decide) rfl rfl
      (by simp) (by decide)⟩

/-- C19: directive keys are matched ignoring case. For each of the twelve directives, a key equal
to the name of the directive when case is ignored, with a value of the kind the directive
accepts, is handled in every configuration exactly as the canonically spelled key; so two
documents that differ only in the spelling of that key give the same configuration and the same
error, if any. -/
theorem UnmarshalYAML_directive_fold (dec : yaml.Decoder) (tc : TypeConfiguration)
    (doc1 doc2 k1 k2 v : yaml.Node) (es1 es2 : List (yaml.Node × yaml.Node))
    (tag : String) (kind : yaml.Kind)
    (hdoc1 : doc1.Kind = .MappingNode) (hdoc2 : doc2.Kind = .MappingNode)
    (hentries1 : yaml.pairs doc1.Content = es1 ++ (k1, v) :: es2)
    (hentries2 : yaml.pairs doc2.Content = es1 ++ (k2, v) :: es2)
    (htag : (tag, kind) ∈ directiveKinds)
    (hk1 : EqualFold k1.Value tag = true) (hk2 : k2.Value = tag) (hkind : v.Kind = kind) :
    (∀ t : TypeConfiguration, t.unmarshalValue dec k1.Value v = t.unmarshalValue dec tag v) ∧
    tc.UnmarshalYAML dec doc1 = tc.UnmarshalYAML dec doc2 := by
  have h : ∀ t : TypeConfiguration,
      t.unmarshalValue dec k1.Value v = t.unmarshalValue dec tag v :=
    fun t => unmarshalValue_fold dec t k1.Value tag kind v htag hk1 hkind
  refine ⟨h, ?_⟩
  rw [UnmarshalYAML_mapping dec tc doc1 hdoc1, UnmarshalYAML_mapping dec tc doc2 hdoc2,
    hentries1, hentries2]
  exact unmarshalEntries_middle dec es1 es2 k1 k2 v (fun t => by rw [hk2]; exact h t) _

/-- The document `$EXPORT: true` gives what the document `$export: true` gives, and that is the
configuration with `Export` set to `true`. -/
theorem UnmarshalYAML_directive_fold_witness :
    exampleType.UnmarshalYAML exampleDecoder upperExportDocument
      = exampleType.UnmarshalYAML exampleDecoder exportDocument ∧
    (exampleType.UnmarshalYAML exampleDecoder exportDocument).1.Export.value = some true ∧
    (exampleType.UnmarshalYAML exampleDecoder exportDocument).2 = none :=
  ⟨(UnmarshalYAML_directive_fold exampleDecoder exampleType upperExportDocument exportDocument
    (yaml.scalar "$EXPORT" 1 1) (yaml.scalar "$export" 1 1) (yaml.scalar "true" 1 10) [] []
    exportTag .ScalarNode rfl rfl rfl rfl (by simp [directiveKinds]) (by decide) rfl rfl).2,
    rfl, rfl⟩

/-- C20: for an entry `$renameTo` (case ignored) with a scalar value, after entries that succeed,
the handler stores in `RenameTo` the value decoded from the scalar node, not the key of the
directive; with no later `$renameTo` scalar in the document, `RenameTo` holds that decoded value
after `UnmarshalYAML`. -/
theorem UnmarshalYAML_renameTo (dec : yaml.Decoder) (tc tc1 : TypeConfiguration)
    (doc k v : yaml.Node) (es1 es2 : List (yaml.Node × yaml.Node)) (s : String)
    (hdoc : doc.Kind = .MappingNode)
    (hentries : yaml.pairs doc.Content = es1 ++ (k, v) :: es2)
    (hk : EqualFold k.Value renameTo = true)
    (hscalar : v.Kind = .ScalarNode)
    (hdecode : dec.DecodeString v = .ok s)
    (hbefore : TypeConfiguration.unmarshalEntries dec es1 { tc with properties := [] }
      = (tc1, none))
    (hafter : ∀ e ∈ es2, ¬ (EqualFold e.1.Value renameTo = true ∧ e.2.Kind = .ScalarNode)) :
    tc1.unmarshalValue dec k.Value v = ({ tc1 with RenameTo := tc1.RenameTo.Set s }, none) ∧
    (tc.UnmarshalYAML dec doc).1.RenameTo.value = some s := by
  have hv : tc1.unmarshalValue dec k.Value v
      = ({ tc1 with RenameTo := tc1.RenameTo.Set s }, none) := by
    rw [unmarshalValue_fold dec tc1 k.Value renameTo .ScalarNode v (by simp [directiveKinds])
      hk hscalar, unmarshalValue_renameTo dec tc1 v hscalar, hdecode]
  refine ⟨hv, ?_⟩
  rw [UnmarshalYAML_mapping dec tc doc hdoc, hentries,
    unmarshalEntries_continues dec es1 es2 k v _ tc1 _ hbefore hv]
  exact unmarshalEntries_invariant dec (fun t => t.RenameTo.value = some s) es2
    (fun e he t ht => by
      show (t.unmarshalValue dec e.1.Value e.2).1.RenameTo.value = some s
      rw [unmarshalValue_frame_RenameTo dec t e.1.Value e.2 (hafter e he)]
      exact ht) _ rfl

/-- After the document `$renameTo: Widget`, `RenameTo` holds `Widget`, which is not the key
`$renameTo`. -/
theorem UnmarshalYAML_renameTo_witness :
    (exampleType.UnmarshalYAML exampleDecoder renameToDocument).1.RenameTo.value = some "Widget" ∧
    "Widget" ≠ renameTo :=
  ⟨(UnmarshalYAML_renameTo exampleDecoder exampleType { exampleType with properties := [] }
    renameToDocument (yaml.scalar "$renameTo" 1 1) (yaml.scalar "Widget" 1 12) [] [] "Widget"
    rfl rfl (by decide) rfl rfl rfl (by simp)).2, by decide⟩

/-! ## The configuration of a type: lookups and visits -/

/-- What `findProperty` does: the name is recorded, and the map is looked up under the
lower-casing of the name. -/
theorem findProperty_eq (tc : TypeConfiguration) (property : String) :
    tc.findProperty property
      = ({ tc with advisor := tc.advisor.AddTerm property },
          match GoMap.get tc.properties (ToLower property) with
          | some pc => .ok pc
          | none =>
            .error ((NewNotConfiguredError ("configuration of type " ++ tc.name ++
              " has no detail for property " ++ property)).WithOptions "properties"
              tc.configuredProperties)) := by
  unfold TypeConfiguration.findProperty
  cases h : GoMap.get tc.properties (ToLower property) with
  | some pc => simp only [h]
  | none =>
    simp only [h]
    rfl

/-- A term added to an advisor is among its terms. -/
theorem AddTerm_mem (a : typo.Advisor) (term : String) : term ∈ (a.AddTerm term).terms := by
  unfold typo.Advisor.AddTerm
  by_cases h : term ∈ a.terms
  · rw [if_pos h]
    exact h
  · rw [if_neg h]
    simp

/-- C21: every call of `findProperty` records the name, as it is spelled, among the terms of the
typo advisor, on a hit as on a miss, and nothing else of the type configuration changes: the
configuration after the call is the one before with the term added to the advisor. -/
theorem findProperty_records_term (tc : TypeConfiguration) (property : String) :
    (tc.findProperty property).1 = { tc with advisor := tc.advisor.AddTerm property } ∧
    property ∈ (tc.findProperty property).1.advisor.terms ∧
    (∀ term ∈ tc.advisor.terms, term ∈ (tc.findProperty property).1.advisor.terms) ∧
    (∀ pc, GoMap.get tc.properties (ToLower property) = some pc →
      (tc.findProperty property).2 = .ok pc) ∧
    (GoMap.get tc.properties (ToLower property) = none →
      ∃ err, (tc.findProperty property).2 = .error err) := by
  rw [findProperty_eq]
  refine ⟨rfl, AddTerm_mem _ _, ?_, ?_, ?_⟩
  · intro term hterm
    show term ∈ (tc.advisor.AddTerm property).terms
    unfold typo.Advisor.AddTerm
    by_cases h : property ∈ tc.advisor.terms
    · rw [if_pos h]
      exact hterm
    · rw [if_neg h]
      simp [hterm]
  · intro pc h
    simp only [h]
  · intro h
    simp only [h]
    exact ⟨_, rfl⟩

/-- On the configuration with the properties `Zeta`, `Alpha` and `Mid`: the lookup of `ALPHA`
finds the property and records `ALPHA`; the lookup of `beta` finds nothing and records `beta`;
in both cases the properties are as before. -/
theorem findProperty_records_term_witness :
    (threeProperties.findProperty "ALPHA").2 = .ok (NewPropertyConfiguration "Alpha") ∧
    (threeProperties.findProperty "ALPHA").1.advisor.terms = ["ALPHA"] ∧
    (∃ err, (threeProperties.findProperty "beta").2 = .error err) ∧
    (threeProperties.findProperty "beta").1.advisor.terms = ["beta"] ∧
    (threeProperties.findProperty "beta").1.properties = threeProperties.properties :=
  ⟨(findProperty_records_term threeProperties "ALPHA").2.2.2.1 _ (by decide), by decide,
    (findProperty_records_term threeProperties "beta").2.2.2.2 (by decide), by decide, rfl⟩

/-- The loop of `visitProperties`: every entry is visited, from the state the visit before left,
and the error of every visit, wrapped by the advisor, is appended to the errors. -/
theorem visitEntries_eq {σ : Type} (suggest : List String → String → Option String)
    (tc : TypeConfiguration) (visitor : configurationVisitor σ)
    (entries : List (String × PropertyConfiguration)) :
    ∀ (s : σ) (errs : List (Option Error)),
      TypeConfiguration.visitEntries suggest tc visitor entries s errs
        = (visited visitor (entries.map (fun kv => kv.2)) s,
            errs ++ (visits visitor (entries.map (fun kv => kv.2)) s).map (fun x =>
              tc.advisor.Wrapf suggest x.2.2 x.1.name "property %s not seen"
                [.text x.1.name])) := by
  induction entries with
  | nil =>
    intro s errs
    simp [TypeConfiguration.visitEntries, visited, visits]
  | cons e rest ih =>
    intro s errs
    obtain ⟨key, pc⟩ := e
    simp only [TypeConfiguration.visitEntries, List.map_cons, visited, visits]
    rw [ih]
    simp

/-- The visits of a list of properties are visits of these properties, in their order. -/
theorem visits_properties {σ : Type} (visitor : configurationVisitor σ)
    (props : List PropertyConfiguration) :
    ∀ s : σ, (visits visitor props s).map (fun x => x.1) = props := by
  induction props with
  | nil =>
    intro s
    rfl
  | cons pc rest ih =>
    intro s
    simp only [visits, List.map_cons, ih]

/-- The advisor wraps an error into an error, and nil into nil. -/
theorem Wrapf_eq_none (suggest : List String → String → Option String) (a : typo.Advisor)
    (err : Option Error) (term format : String) (args : List ErrorArg) :
    a.Wrapf suggest err term format args = none ↔ err = none := by
  unfold typo.Advisor.Wrapf
  cases err with
  | none => simp
  | some e =>
    cases suggest a.terms term <;> simp

/-- A string starts a string it is extended to. -/
theorem startsWith_append (a b : String) : startsWith (a ++ b) a = true := by
  unfold startsWith
  rw [String.toList, String.toList, String.data_append]
  simp

/-- The error the advisor makes of an error: the error is its cause, and the message starts with
the format given and has the arguments given first. -/
theorem Wrapf_some (suggest : List String → String → Option String) (a : typo.Advisor)
    (cause : Error) (term format : String) (args : List ErrorArg) :
    ∃ message rest, a.Wrapf suggest (some cause) term format args
        = some (.wrapf cause message (args ++ rest)) ∧
      startsWith message format = true := by
  unfold typo.Advisor.Wrapf
  cases suggest a.terms term with
  | none =>
    refine ⟨format, [], by simp, ?_⟩
    simp [startsWith]
  | some suggestion =>
    exact ⟨_, _, rfl, startsWith_append _ _⟩

/-- What `visitProperties` returns: the state after the visits of all the properties, and the
aggregate of the wrapped errors of the visits that failed, under the name of the type; nil when
no visit failed. -/
theorem visitProperties_eq {σ : Type} (suggest : List String → String → Option String)
    (tc : TypeConfiguration) (visitor : configurationVisitor σ) (s : σ) :
    tc.visitProperties suggest visitor s
      = (visited visitor (tc.properties.map (fun kv => kv.2)) s,
          kerrors.Wrapf (kerrors.NewAggregate
            ((visits visitor (tc.properties.map (fun kv => kv.2)) s).map (fun x =>
              tc.advisor.Wrapf suggest x.2.2 x.1.name "property %s not seen"
                [.text x.1.name]))) "type %s" [.text tc.name]) := by
  unfold TypeConfiguration.visitProperties
  rw [visitEntries_eq]
  simp

/-- The aggregate of a list of errors is nil exactly when every error of the list is nil. -/
theorem NewAggregate_eq_none (errs : List (Option Error)) :
    kerrors.NewAggregate errs = none ↔ ∀ e ∈ errs, e = none := by
  unfold kerrors.NewAggregate
  cases h : errs.filterMap id with
  | nil =>
    simp only [true_iff]
    intro e he
    cases e with
    | none => rfl
    | some x =>
      have : x ∈ errs.filterMap id := by
        rw [List.mem_filterMap]
        exact ⟨some x, he, rfl⟩
      rw [h] at this
      cases this
  | cons x xs =>
    simp only [false_iff, reduceCtorEq]
    intro hall
    have hx : x ∈ errs.filterMap id := by rw [h]; simp
    rw [List.mem_filterMap] at hx
    obtain ⟨a, ha, hax⟩ := hx
    rw [hall a ha] at hax
    cases hax

/-- The aggregate of a list of errors holds the errors of the list that are not nil. -/
theorem NewAggregate_some (errs : List (Option Error)) (agg : List Error)
    (h : kerrors.NewAggregate errs = some agg) : agg = errs.filterMap id := by
  unfold kerrors.NewAggregate at h
  cases hf : errs.filterMap id with
  | nil => rw [hf] at h; cases h
  | cons x xs =>
    rw [hf] at h
    cases h
    rfl

/-- The number of values a partial function gives on a list is the number of elements on which
it gives one. -/
theorem length_filterMap_eq {α β : Type} (f : α → Option β) (p : α → Bool) (l : List α)
    (h : ∀ x ∈ l, (f x).isSome = p x) : (l.filterMap f).length = (l.filter p).length := by
  induction l with
  | nil => rfl
  | cons a rest ih =>
    have ha := h a (List.mem_cons_self _ _)
    have ih2 := ih (fun x hx => h x (List.mem_cons_of_mem _ hx))
    cases hf : f a with
    | none =>
      rw [hf] at ha
      have hp : p a = false := by rw [← ha]; rfl
      rw [List.filterMap_cons_none hf, List.filter_cons_of_neg (by simp [hp])]
      exact ih2
    | some b =>
      rw [hf] at ha
      have hp : p a = true := by rw [← ha]; rfl
      rw [List.filterMap_cons_some hf, List.filter_cons_of_pos hp, List.length_cons,
        List.length_cons, ih2]

/-- C22: `visitProperties` reports all the failing properties, not only the first. The visitor is
invoked on every configured property in turn, from the state the visit before left, whether or
not that visit failed. The result is nil exactly when every visit returned nil. Otherwise it is
the aggregate, under the message `type` with the name of the type, of one error for each visit
that failed, in the order of the visits: the error of the visit wrapped in a message that starts
with `property %s not seen` and has the name of the property as its first argument. -/
theorem visitProperties_reports_all {σ : Type} (suggest : List String → String → Option String)
    (tc : TypeConfiguration) (visitor : configurationVisitor σ) (s : σ) :
    (tc.visitProperties suggest visitor s).1
      = visited visitor (tc.properties.map (fun kv => kv.2)) s ∧
    (visits visitor (tc.properties.map (fun kv => kv.2)) s).map (fun x => x.1)
      = tc.properties.map (fun kv => kv.2) ∧
    ((tc.visitProperties suggest visitor s).2 = none ↔
      ∀ x ∈ visits visitor (tc.properties.map (fun kv => kv.2)) s, x.2.2 = none) ∧
    ∀ agg, (tc.visitProperties suggest visitor s).2 = some agg →
      agg.format = "type %s" ∧ agg.args = [.text tc.name] ∧
      agg.errors = (visits visitor (tc.properties.map (fun kv => kv.2)) s).filterMap (fun x =>
        tc.advisor.Wrapf suggest x.2.2 x.1.name "property %s not seen" [.text x.1.name]) ∧
      agg.errors.length = ((visits visitor (tc.properties.map (fun kv => kv.2)) s).filter
        (fun x => x.2.2.isSome)).length ∧
      ∀ x ∈ visits visitor (tc.properties.map (fun kv => kv.2)) s, ∀ cause,
        x.2.2 = some cause →
        ∃ message rest, Error.wrapf cause message (.text x.1.name :: rest) ∈ agg.errors ∧
          startsWith message "property %s not seen" = true := by
  rw [visitProperties_eq]
  refine ⟨rfl, visits_properties visitor _ s, ?_, ?_⟩
  · show kerrors.Wrapf _ _ _ = none ↔ _
    constructor
    · intro h x hx
      cases hagg : kerrors.NewAggregate
          ((visits visitor (tc.properties.map (fun kv => kv.2)) s).map (fun x =>
            tc.advisor.Wrapf suggest x.2.2 x.1.name "property %s not seen"
              [.text x.1.name])) with
      | some errs => rw [hagg] at h; cases h
      | none =>
        rw [NewAggregate_eq_none] at hagg
        exact (Wrapf_eq_none suggest tc.advisor x.2.2 x.1.name _ _).mp
          (hagg _ (List.mem_map_of_mem _ hx))
    · intro h
      have hagg : kerrors.NewAggregate
          ((visits visitor (tc.properties.map (fun kv => kv.2)) s).map (fun x =>
            tc.advisor.Wrapf suggest x.2.2 x.1.name "property %s not seen"
              [.text x.1.name])) = none := by
        rw [NewAggregate_eq_none]
        intro e he
        rw [List.mem_map] at he
        obtain ⟨x, hx, hxe⟩ := he
        rw [← hxe]
        exact (Wrapf_eq_none suggest tc.advisor x.2.2 x.1.name _ _).mpr (h x hx)
      rw [hagg]
      rfl
  · intro agg hagg
    change kerrors.Wrapf _ _ _ = some agg at hagg
    cases hnew : kerrors.NewAggregate
        ((visits visitor (tc.properties.map (fun kv => kv.2)) s).map (fun x =>
          tc.advisor.Wrapf suggest x.2.2 x.1.name "property %s not seen"
            [.text x.1.name])) with
    | none => rw [hnew] at hagg; cases hagg
    | some errs =>
      rw [hnew] at hagg
      have herrs := NewAggregate_some _ _ hnew
      rw [List.filterMap_map] at herrs
      cases hagg
      have hlist : errs = (visits visitor (tc.properties.map (fun kv => kv.2)) s).filterMap
          (fun x => tc.advisor.Wrapf suggest x.2.2 x.1.name "property %s not seen"
            [.text x.1.name]) := herrs
      refine ⟨rfl, rfl, hlist, ?_, ?_⟩
      · show errs.length = _
        rw [hlist]
        apply length_filterMap_eq
        intro x _
        cases hx : x.2.2 with
        | none => rw [(Wrapf_eq_none suggest tc.advisor none x.1.name _ _).mpr rfl]
        | some cause =>
          obtain ⟨message, rest, hw, _⟩ := Wrapf_some suggest tc.advisor cause x.1.name
            "property %s not seen" [.text x.1.name]
          rw [hw]
          rfl
      · intro x hx cause hcause
        obtain ⟨message, rest, hw, hstart⟩ := Wrapf_some suggest tc.advisor cause x.1.name
          "property %s not seen" [.text x.1.name]
        refine ⟨message, rest, ?_, hstart⟩
        show _ ∈ errs
        rw [hlist, List.mem_filterMap]
        exact ⟨x, hx, by rw [hcause, hw]; rfl⟩

/-- On the configuration with the properties `Zeta`, `Alpha` and `Mid`, a visitor that fails on
`Zeta` and on `Mid` makes its three visits and both failures are reported, under the name of the
type; a visitor that never fails makes its three visits and nil is returned. -/
theorem visitProperties_reports_all_witness :
    threeProperties.visitProperties noSuggestion (failingOn ["Zeta", "Mid"]) 0
      = (3, some {
          errors :=
            [.wrapf (.errorf "%s is not used" [.text "Zeta"]) "property %s not seen"
              [.text "Zeta"],
            .wrapf (.errorf "%s is not used" [.text "Mid"]) "property %s not seen"
              [.text "Mid"]],
          format := "type %s",
          args := [.text "NamedValue"] }) ∧
    threeProperties.visitProperties noSuggestion (failingOn []) 0 = (3, none) := by
  have h := visitProperties_reports_all noSuggestion threeProperties (failingOn []) 0
  exact ⟨rfl, Prod.ext h.1 (h.2.2.1.mpr (by decide))⟩

/-- The handlers other than that of `$export` leave `Export` as it was. -/
theorem unmarshalValue_frame_Export (dec : yaml.Decoder) (tc : TypeConfiguration)
    (k : String) (v : yaml.Node)
    (h : ¬ (EqualFold k exportTag = true ∧ v.Kind = .ScalarNode)) :
    (tc.unmarshalValue dec k v).1.Export = tc.Export := by
  apply unmarshalValue_elim dec tc k v (fun r => r.1.Export = tc.Export)
  case h4 => exact fun hk hkind => absurd ⟨hk, hkind⟩ h
  all_goals intros
  all_goals rfl

/-- No handler changes the directive, the scope or the consumed flag of `Export`. -/
theorem unmarshalValue_Export_cell (dec : yaml.Decoder) (tc : TypeConfiguration)
    (k : String) (v : yaml.Node) :
    (tc.unmarshalValue dec k v).1.Export.tag = tc.Export.tag ∧
    (tc.unmarshalValue dec k v).1.Export.scope = tc.Export.scope ∧
    (tc.unmarshalValue dec k v).1.Export.consumed = tc.Export.consumed := by
  apply unmarshalValue_elim dec tc k v (fun r => r.1.Export.tag = tc.Export.tag ∧
    r.1.Export.scope = tc.Export.scope ∧ r.1.Export.consumed = tc.Export.consumed)
  all_goals intros
  all_goals exact ⟨rfl, rfl, rfl⟩

/-- A cell that has been looked up at least once is consumed, and keeps its value. -/
theorem lookups_succ {α : Type} (c : configurable α) (n : Nat) :
    (c.lookups (n + 1)).consumed = true ∧ (c.lookups (n + 1)).value = c.value ∧
    (c.lookups (n + 1)).tag = c.tag := by
  induction n with
  | zero => exact ⟨rfl, rfl, rfl⟩
  | succ m ih =>
    refine ⟨rfl, ?_, ?_⟩
    · show (c.lookups (m + 1)).value = c.value
      exact ih.2.1
    · show (c.lookups (m + 1)).tag = c.tag
      exact ih.2.2

/-- C23: detection of an unused directive. After `UnmarshalYAML` on a new type configuration has
handled `$export` with a scalar that decodes to a boolean (`false` in the scenario), the entries
before it succeeding and no later entry setting `$export` again, the cell `Export` holds that
value under the directive `$export` and is not consumed; the final validation of the cell then
fails with an error that cites `$export`; and once the cell has been looked up, one time or
more, the validation reports nothing for it. -/
theorem export_unused_detected (dec : yaml.Decoder) (name : String) (tc1 : TypeConfiguration)
    (doc k v : yaml.Node) (es1 es2 : List (yaml.Node × yaml.Node)) (b : Bool)
    (hdoc : doc.Kind = .MappingNode)
    (hentries : yaml.pairs doc.Content = es1 ++ (k, v) :: es2)
    (hk : EqualFold k.Value exportTag = true)
    (hscalar : v.Kind = .ScalarNode)
    (hdecode : dec.DecodeBool v = .ok b)
    (hbefore : TypeConfiguration.unmarshalEntries dec es1
      { NewTypeConfiguration name with properties := [] } = (tc1, none))
    (hafter : ∀ e ∈ es2, ¬ (EqualFold e.1.Value exportTag = true ∧ e.2.Kind = .ScalarNode)) :
    ((NewTypeConfiguration name).UnmarshalYAML dec doc).1.Export
      = { tag := exportTag, scope := "type " ++ name, value := some b, consumed := false } ∧
    ((NewTypeConfiguration name).UnmarshalYAML dec doc).1.Export.VerifyConsumed
      = some (.errorf "%s specified for %s but was not consumed"
          [.text exportTag, .text ("type " ++ name)]) ∧
    ∀ n, ((((NewTypeConfiguration name).UnmarshalYAML dec doc).1.Export).lookups
      (n + 1)).VerifyConsumed = none := by
  have hcell : tc1.Export.tag = exportTag ∧ tc1.Export.scope = "type " ++ name ∧
      tc1.Export.consumed = false := by
    have h := unmarshalEntries_invariant dec
      (fun t => t.Export.tag = exportTag ∧ t.Export.scope = "type " ++ name ∧
        t.Export.consumed = false) es1
      (fun e _ t ht => by
        obtain ⟨h1, h2, h3⟩ := unmarshalValue_Export_cell dec t e.1.Value e.2
        exact ⟨h1.trans ht.1, h2.trans ht.2.1, h3.trans ht.2.2⟩)
      { NewTypeConfiguration name with properties := [] } ⟨rfl, rfl, rfl⟩
    rw [hbefore] at h
    exact h
  have hv : tc1.unmarshalValue dec k.Value v
      = ({ tc1 with Export := tc1.Export.Set b }, none) := by
    rw [unmarshalValue_fold dec tc1 k.Value exportTag .ScalarNode v (by simp [directiveKinds])
      hk hscalar, unmarshalValue_exportTag dec tc1 v hscalar, hdecode]
  have hexport : ((NewTypeConfiguration name).UnmarshalYAML dec doc).1.Export
      = { tag := exportTag, scope := "type " ++ name, value := some b, consumed := false } := by
    rw [UnmarshalYAML_mapping dec _ doc hdoc, hentries,
      unmarshalEntries_continues dec es1 es2 k v _ tc1 _ hbefore hv]
    refine unmarshalEntries_invariant dec
      (fun t => t.Export
        = { tag := exportTag, scope := "type " ++ name, value := some b, consumed := false }) es2
      (fun e he t ht => by
        show (t.unmarshalValue dec e.1.Value e.2).1.Export = _
        rw [unmarshalValue_frame_Export dec t e.1.Value e.2 (hafter e he)]
        exact ht) _ ?_
    show tc1.Export.Set b = _
    obtain ⟨h1, h2, h3⟩ := hcell
    cases hc : tc1.Export with
    | mk tag scope value consumed =>
      rw [hc] at h1 h2 h3
      simp only at h1 h2 h3
      subst h1
      subst h2
      subst h3
      rfl
  rw [hexport]
  refine ⟨rfl, rfl, ?_⟩
  intro n
  obtain ⟨h1, _, _⟩ := lookups_succ
    ({ tag := exportTag, scope := "type " ++ name, value := some b, consumed := false } :
      configurable Bool) n
  unfold configurable.VerifyConsumed
  rw [h1]
  simp

/-- The type configuration parsed from `$export: false`: unless `Export` is looked up, the
validation fails citing `$export`; after one lookup, and after three, it does not. -/
theorem export_unused_detected_witness :
    (exampleType.UnmarshalYAML exampleDecoder exportFalseDocument).1.Export.value = some false ∧
    (exampleType.UnmarshalYAML exampleDecoder exportFalseDocument).1.Export.VerifyConsumed
      = some (.errorf "%s specified for %s but was not consumed"
          [.text "$export", .text "type NamedValue"]) ∧
    ((exampleType.UnmarshalYAML exampleDecoder exportFalseDocument).1.Export.lookups
      1).VerifyConsumed = none ∧
    ((exampleType.UnmarshalYAML exampleDecoder exportFalseDocument).1.Export.lookups
      3).VerifyConsumed = none := by
  have h := export_unused_detected exampleDecoder "NamedValue"
    { exampleType with properties := [] } exportFalseDocument (yaml.scalar "$export" 1 1)
    (yaml.scalar "false" 1 10) [] [] false rfl rfl (by decide) rfl rfl rfl (by simp)
  exact ⟨by rw [show exampleType = NewTypeConfiguration "NamedValue" from rfl, h.1], h.2.1,
    h.2.2 0, h.2.2 2⟩

/-- C24, at the failing input: on the configuration with the properties `Zeta`, `Alpha` and
`Mid`, the property `Alpha` is configured and the visit of its configuration fails with the
error `Alpha is not used`. `visitProperty` invokes the visitor once and does not return the
error of the visit, as the comment on the function says it does: it returns another error, with
the message `configuration of type NamedValue`, of which the error of the visit is the cause. -/
theorem visitProperty_wraps_visit_error :
    GoMap.get threeProperties.properties (ToLower "Alpha")
      = some (NewPropertyConfiguration "Alpha") ∧
    (failingOn ["Alpha"]).visitProperty 0 (NewPropertyConfiguration "Alpha")
      = (1, some (.errorf "%s is not used" [.text "Alpha"])) ∧
    (threeProperties.visitProperty "Alpha" (failingOn ["Alpha"]) 0).2
      = (1, some (.wrapf (.errorf "%s is not used" [.text "Alpha"]) "configuration of type %s"
          [.text "NamedValue"])) ∧
    (threeProperties.visitProperty "Alpha" (failingOn ["Alpha"]) 0).2.2
      ≠ ((failingOn ["Alpha"]).visitProperty 0 (NewPropertyConfiguration "Alpha")).2 := by
  refine ⟨by decide, rfl, rfl, by decide⟩

/-- A visitor that returns a `NotConfiguredError` on a configured property makes
`visitProperty` return an error that is one too, the wrapping keeping the cause. -/
theorem visitProperty_passes_not_configured :
    GoMap.get threeProperties.properties (ToLower "Alpha")
      = some (NewPropertyConfiguration "Alpha") ∧
    ∃ err, (threeProperties.visitProperty "Alpha" notConfiguring 0).2.2 = some err ∧
      IsNotConfiguredError err = true := by
  refine ⟨by decide, _, rfl, by decide⟩

/-- The three results of `visitProperty`. When no configuration is registered under the
lower-casing of the property, it returns the `NotConfiguredError` of `findProperty` and the
visitor is not invoked, its state being as before; otherwise the visitor is invoked once, on the
configuration found, and `visitProperty` returns nil when the visit returns nil, and, when the
visit fails, the error built by `errors.Wrapf` from the error of the visit, the message
`configuration of type %s` and the name of the type. In both cases the name looked up is
recorded. -/
theorem visitProperty_eq {σ : Type} (tc : TypeConfiguration) (property : String)
    (visitor : configurationVisitor σ) (s : σ) :
    (GoMap.get tc.properties (ToLower property) = none →
      ∃ err, tc.visitProperty property visitor s
          = ({ tc with advisor := tc.advisor.AddTerm property }, s, some err) ∧
        IsNotConfiguredError err = true ∧
        err = (NewNotConfiguredError ("configuration of type " ++ tc.name ++
          " has no detail for property " ++ property)).WithOptions "properties"
          tc.configuredProperties) ∧
    (∀ pc, GoMap.get tc.properties (ToLower property) = some pc →
      tc.visitProperty property visitor s
        = ({ tc with advisor := tc.advisor.AddTerm property }, (visitor.visitProperty s pc).1,
            (visitor.visitProperty s pc).2.map (fun err =>
              .wrapf err "configuration of type %s" [.text tc.name]))) := by
  unfold TypeConfiguration.visitProperty
  rw [findProperty_eq]
  constructor
  · intro h
    simp only [h]
    exact ⟨_, rfl, rfl, rfl⟩
  · intro pc h
    simp only [h]
    cases hv : visitor.visitProperty s pc with
    | mk s1 err =>
      cases err <;> rfl

/-- On the configuration with the properties `Zeta`, `Alpha` and `Mid`: the visit of `beta`,
which is not configured, returns a `NotConfiguredError` and the visitor has counted no visit;
the visit of `ALPHA` by a visitor that does not fail returns nil after one visit. -/
theorem visitProperty_eq_example :
    (∃ err, (threeProperties.visitProperty "beta" (failingOn ["Alpha"]) 0).2 = (0, some err) ∧
      IsNotConfiguredError err = true) ∧
    (threeProperties.visitProperty "ALPHA" (failingOn []) 0).2 = (1, none) := by
  obtain ⟨err, h1, h2, _⟩ :=
    (visitProperty_eq threeProperties "beta" (failingOn ["Alpha"]) 0).1 (by decide)
  refine ⟨⟨err, by rw [h1], h2⟩, ?_⟩
  rw [(visitProperty_eq threeProperties "ALPHA" (failingOn []) 0).2
    (NewPropertyConfiguration "Alpha") (by decide)]
  rfl

/-- C25, at the failing input: the configuration to which the properties `Zeta`, `Alpha` and
`Mid` were added in that order. `configuredProperties` returns their names as written, one for
each property, in the order the map is enumerated, which is not ascending: `Alpha` comes after
`Zeta`. The enumeration of the entries by their keys in ascending order would give `Alpha`,
`Mid`, `Zeta`. -/
theorem configuredProperties_not_sorted :
    threeProperties.configuredProperties = ["Zeta", "Alpha", "Mid"] ∧
    ascending threeProperties.configuredProperties = false ∧
    lessChars "Alpha".toList "Zeta".toList = true ∧
    ascending ["Alpha", "Mid", "Zeta"] = true ∧
    threeProperties.configuredProperties.length = threeProperties.properties.length := by
  refine ⟨by decide, by decide, by decide, by decide, by decide⟩

/-- A sequence of scalars: the loop over the sequence succeeds and appends the values of the
elements, in their order. -/
theorem scalarElements_ok (tag : String) (content : List yaml.Node) :
    ∀ values : List String, (∀ c ∈ content, c.Kind = .ScalarNode) →
      scalarElements tag content values = .ok (values ++ content.map yaml.Node.Value) := by
  induction content with
  | nil =>
    intro values _
    simp [scalarElements]
  | cons c rest ih =>
    intro values hs
    have hc : c.Kind = .ScalarNode := hs c (List.mem_cons_self _ _)
    simp only [scalarElements, hc, if_true]
    rw [ih _ (fun x hx => hs x (List.mem_cons_of_mem _ hx))]
    simp

/-- A sequence with an element that is no scalar: the loop over the sequence fails. -/
theorem scalarElements_fails (tag : String) (content : List yaml.Node) :
    ∀ values : List String, (∃ c ∈ content, c.Kind ≠ .ScalarNode) →
      ∃ err, scalarElements tag content values = .error err := by
  induction content with
  | nil =>
    intro values h
    obtain ⟨c, hc, _⟩ := h
    cases hc
  | cons c rest ih =>
    intro values h
    by_cases hc : c.Kind = .ScalarNode
    · simp only [scalarElements, hc, if_true]
      apply ih
      obtain ⟨x, hx, hxk⟩ := h
      rcases List.mem_cons.mp hx with hxc | hxr
      · rw [hxc] at hxk
        exact absurd hc hxk
      · exact ⟨x, hxr, hxk⟩
    · simp only [scalarElements, hc, if_false]
      exact ⟨_, rfl⟩

/-- The handlers other than that of `$azureGeneratedSecrets` leave `AzureGeneratedSecrets` as it
was. -/
theorem unmarshalValue_frame_AzureGeneratedSecrets (dec : yaml.Decoder) (tc : TypeConfiguration)
    (k : String) (v : yaml.Node)
    (h : ¬ (EqualFold k azureGeneratedSecretsTag = true ∧ v.Kind = .SequenceNode)) :
    (tc.unmarshalValue dec k v).1.AzureGeneratedSecrets = tc.AzureGeneratedSecrets := by
  apply unmarshalValue_elim dec tc k v
    (fun r => r.1.AzureGeneratedSecrets = tc.AzureGeneratedSecrets)
  case h6 => exact fun hk hkind => absurd ⟨hk, hkind⟩ h
  all_goals intros
  all_goals rfl

/-- The handlers other than that of `$manualConfigs` leave `ManualConfigs` as it was. -/
theorem unmarshalValue_frame_ManualConfigs (dec : yaml.Decoder) (tc : TypeConfiguration)
    (k : String) (v : yaml.Node)
    (h : ¬ (EqualFold k manualConfigsTag = true ∧ v.Kind = .SequenceNode)) :
    (tc.unmarshalValue dec k v).1.ManualConfigs = tc.ManualConfigs := by
  apply unmarshalValue_elim dec tc k v (fun r => r.1.ManualConfigs = tc.ManualConfigs)
  case h7 => exact fun hk hkind => absurd ⟨hk, hkind⟩ h
  all_goals intros
  all_goals rfl

/-- C29: the sequence directives are decoded faithfully. For an entry `$azureGeneratedSecrets`,
and likewise `$manualConfigs`, whose value is a sequence, after entries that succeed: when all
the elements are scalars, the handler stores exactly the values of the elements, in the order of
the document, repeated values included, and the cell holds them after `UnmarshalYAML` if no
later entry sets the directive again; when some element is no scalar, `UnmarshalYAML` fails and
the configuration, the cell of the directive included, is the one the entries before left. -/
theorem UnmarshalYAML_sequences (dec : yaml.Decoder) (tc tc1 : TypeConfiguration)
    (doc k v : yaml.Node) (es1 es2 : List (yaml.Node × yaml.Node))
    (hdoc : doc.Kind = .MappingNode)
    (hentries : yaml.pairs doc.Content = es1 ++ (k, v) :: es2)
    (hseq : v.Kind = .SequenceNode)
    (hbefore : TypeConfiguration.unmarshalEntries dec es1 { tc with properties := [] }
      = (tc1, none)) :
    (EqualFold k.Value azureGeneratedSecretsTag = true →
      ((∀ c ∈ v.Content, c.Kind = .ScalarNode) →
        tc1.unmarshalValue dec k.Value v
          = ({ tc1 with AzureGeneratedSecrets :=
                tc1.AzureGeneratedSecrets.Set (v.Content.map yaml.Node.Value) }, none) ∧
        ((∀ e ∈ es2, ¬ (EqualFold e.1.Value azureGeneratedSecretsTag = true ∧
            e.2.Kind = .SequenceNode)) →
          (tc.UnmarshalYAML dec doc).1.AzureGeneratedSecrets.value
            = some (v.Content.map yaml.Node.Value))) ∧
      ((∃ c ∈ v.Content, c.Kind ≠ .ScalarNode) →
        ∃ err, tc.UnmarshalYAML dec doc = (tc1, some err))) ∧
    (EqualFold k.Value manualConfigsTag = true →
      ((∀ c ∈ v.Content, c.Kind = .ScalarNode) →
        tc1.unmarshalValue dec k.Value v
          = ({ tc1 with ManualConfigs :=
                tc1.ManualConfigs.Set (v.Content.map yaml.Node.Value) }, none) ∧
        ((∀ e ∈ es2, ¬ (EqualFold e.1.Value manualConfigsTag = true ∧
            e.2.Kind = .SequenceNode)) →
          (tc.UnmarshalYAML dec doc).1.ManualConfigs.value
            = some (v.Content.map yaml.Node.Value))) ∧
      ((∃ c ∈ v.Content, c.Kind ≠ .ScalarNode) →
        ∃ err, tc.UnmarshalYAML dec doc = (tc1, some err))) := by
  rw [UnmarshalYAML_mapping dec tc doc hdoc, hentries]
  constructor
  · intro hk
    have hfold := unmarshalValue_fold dec tc1 k.Value azureGeneratedSecretsTag .SequenceNode v
      (by simp [directiveKinds]) hk hseq
    constructor
    · intro hs
      have hv : tc1.unmarshalValue dec k.Value v
          = ({ tc1 with AzureGeneratedSecrets :=
                tc1.AzureGeneratedSecrets.Set (v.Content.map yaml.Node.Value) }, none) := by
        rw [hfold, unmarshalValue_azureGeneratedSecretsTag dec tc1 v hseq,
          scalarElements_ok azureGeneratedSecretsTag v.Content [] hs]
        rfl
      refine ⟨hv, ?_⟩
      intro hafter
      rw [unmarshalEntries_continues dec es1 es2 k v _ tc1 _ hbefore hv]
      exact unmarshalEntries_invariant dec
        (fun t => t.AzureGeneratedSecrets.value = some (v.Content.map yaml.Node.Value)) es2
        (fun e he t ht => by
          show (t.unmarshalValue dec e.1.Value e.2).1.AzureGeneratedSecrets.value = _
          rw [unmarshalValue_frame_AzureGeneratedSecrets dec t e.1.Value e.2 (hafter e he)]
          exact ht) _ rfl
    · intro hbad
      obtain ⟨err, herr⟩ := scalarElements_fails azureGeneratedSecretsTag v.Content [] hbad
      exact ⟨err, unmarshalEntries_stops dec es1 es2 k v _ tc1 tc1 err hbefore (by
        rw [hfold, unmarshalValue_azureGeneratedSecretsTag dec tc1 v hseq, herr])⟩
  · intro hk
    have hfold := unmarshalValue_fold dec tc1 k.Value manualConfigsTag .SequenceNode v
      (by simp [directiveKinds]) hk hseq
    constructor
    · intro hs
      have hv : tc1.unmarshalValue dec k.Value v
          = ({ tc1 with ManualConfigs :=
                tc1.ManualConfigs.Set (v.Content.map yaml.Node.Value) }, none) := by
        rw [hfold, unmarshalValue_manualConfigsTag dec tc1 v hseq,
          scalarElements_ok manualConfigsTag v.Content [] hs]
        rfl
      refine ⟨hv, ?_⟩
      intro hafter
      rw [unmarshalEntries_continues dec es1 es2 k v _ tc1 _ hbefore hv]
      exact unmarshalEntries_invariant dec
        (fun t => t.ManualConfigs.value = some (v.Content.map yaml.Node.Value)) es2
        (fun e he t ht => by
          show (t.unmarshalValue dec e.1.Value e.2).1.ManualConfigs.value = _
          rw [unmarshalValue_frame_ManualConfigs dec t e.1.Value e.2 (hafter e he)]
          exact ht) _ rfl
    · intro hbad
      obtain ⟨err, herr⟩ := scalarElements_fails manualConfigsTag v.Content [] hbad
      exact ⟨err, unmarshalEntries_stops dec es1 es2 k v _ tc1 tc1 err hbefore (by
        rw [hfold, unmarshalValue_manualConfigsTag dec tc1 v hseq, herr])⟩

/-- The document `$azureGeneratedSecrets: [PrimaryKey, SecondaryKey, PrimaryKey]` stores the
three values in that order; the document `$azureGeneratedSecrets: [PrimaryKey, {a: b}]` fails and
leaves the cell without a value. -/
theorem UnmarshalYAML_sequences_witness :
    (exampleType.UnmarshalYAML exampleDecoder secretsDocument).1.AzureGeneratedSecrets.value
      = some ["PrimaryKey", "SecondaryKey", "PrimaryKey"] ∧
    (∃ err, (exampleType.UnmarshalYAML exampleDecoder badSecretsDocument).2 = some err) ∧
    (exampleType.UnmarshalYAML exampleDecoder badSecretsDocument).1.AzureGeneratedSecrets.value
      = none := by
  have h1 := ((UnmarshalYAML_sequences exampleDecoder exampleType
    { exampleType with properties := [] } secretsDocument
    (yaml.scalar "$azureGeneratedSecrets" 1 1)
    (yaml.sequence [yaml.scalar "PrimaryKey" 2 5, yaml.scalar "SecondaryKey" 3 5,
      yaml.scalar "PrimaryKey" 4 5] 2 3) [] [] rfl rfl rfl rfl).1 (by decide)).1 (by decide)
  obtain ⟨err, h2⟩ := ((UnmarshalYAML_sequences exampleDecoder exampleType
    { exampleType with properties := [] } badSecretsDocument
    (yaml.scalar "$azureGeneratedSecrets" 1 1)
    (yaml.sequence [yaml.scalar "PrimaryKey" 2 5,
      yaml.mapping [yaml.scalar "a" 3 5, yaml.scalar "b" 3 8] 3 5] 2 3) [] [] rfl rfl rfl
    rfl).1 (by decide)).2 ⟨yaml.mapping [yaml.scalar "a" 3 5, yaml.scalar "b" 3 8] 3 5,
      by simp [yaml.sequence, yaml.Node.Content], by decide⟩
  exact ⟨h1.2 (by simp), ⟨err, by rw [h2]⟩, by rw [h2]; rfl⟩

/-! ## The generated resources: owner and status -/

/-- C26, at the failing input: the zero value of `FlexibleServersDatabase`, for which no owner
is given (the name of the owner is empty). `Owner` does not return nil, as the comment on the
function says it does when there is no owner: it returns a reference with the group and the kind
of the tags of the field `Owner` of the spec, and an empty name. -/
theorem FlexibleServersDatabase_Owner_not_nil :
    emptyDatabase.Spec.Owner.Name = "" ∧
    emptyDatabase.Owner
      = some { Group := "dbforpostgresql.azure.com", Kind := "FlexibleServer", Name := "" } ∧
    emptyDatabase.Owner ≠ none :=
  ⟨rfl, rfl, by decide⟩

/-- The body of `Owner`, for every database: a new reference with the group and the kind looked
up from the tags of the field `Owner` of the spec and the name `Spec.Owner.Name`. No path of the
function returns nil. -/
theorem FlexibleServersDatabase_Owner_eq (database : FlexibleServersDatabase) :
    database.Owner
      = some { Group := (genruntime.LookupOwnerGroupKind
                  FlexibleServersDatabases_Spec.OwnerTags).1,
               Kind := (genruntime.LookupOwnerGroupKind
                  FlexibleServersDatabases_Spec.OwnerTags).2,
               Name := database.Spec.Owner.Name } ∧
    genruntime.LookupOwnerGroupKind FlexibleServersDatabases_Spec.OwnerTags
      = ("dbforpostgresql.azure.com", "FlexibleServer") ∧
    database.Owner ≠ none :=
  ⟨rfl, by decide, by simp [FlexibleServersDatabase.Owner]⟩

/-- C27: `SetStatus` of `NamedValue`, and likewise of `FlexibleServersDatabase`. When the status
given is exactly a pointer to a status of the resource, the status of the resource becomes a
copy of it and nil is returned; no conversion is made. Otherwise `ConvertStatusTo` of the status
given is called on a new, zero status: when it returns nil the status of the resource becomes
the status converted, and when it returns an error that error is returned wrapped in
`failed to convert status` and the resource is as before, whatever the conversion wrote. In
every case the type information, the metadata and the spec of the resource are as before. -/
theorem SetStatus_sets_status (value : NamedValue)
    (status : genruntime.ConvertibleStatus Service_NamedValue_STATUS)
    (database : FlexibleServersDatabase)
    (databaseStatus : genruntime.ConvertibleStatus Database_Status) :
    ((∀ st, status = .exactly st →
        value.SetStatus status = ({ value with Status := st }, none)) ∧
      (∀ convert st, status = .other convert →
        convert Service_NamedValue_STATUS.zero = (st, none) →
        value.SetStatus status = ({ value with Status := st }, none)) ∧
      (∀ convert st err, status = .other convert →
        convert Service_NamedValue_STATUS.zero = (st, some err) →
        value.SetStatus status = (value, some (Wrap err "failed to convert status"))) ∧
      (value.SetStatus status).1.TypeMeta = value.TypeMeta ∧
      (value.SetStatus status).1.ObjectMeta = value.ObjectMeta ∧
      (value.SetStatus status).1.Spec = value.Spec) ∧
    ((∀ st, databaseStatus = .exactly st →
        database.SetStatus databaseStatus = ({ database with Status := st }, none)) ∧
      (∀ convert st, databaseStatus = .other convert →
        convert Database_Status.zero = (st, none) →
        database.SetStatus databaseStatus = ({ database with Status := st }, none)) ∧
      (∀ convert st err, databaseStatus = .other convert →
        convert Database_Status.zero = (st, some err) →
        database.SetStatus databaseStatus
          = (database, some (Wrap err "failed to convert status"))) ∧
      (database.SetStatus databaseStatus).1.TypeMeta = database.TypeMeta ∧
      (database.SetStatus databaseStatus).1.ObjectMeta = database.ObjectMeta ∧
      (database.SetStatus databaseStatus).1.Spec = database.Spec) := by
  constructor
  · refine ⟨?_, ?_, ?_, ?_⟩
    · intro st h
      rw [h]
      rfl
    · intro convert st h hc
      rw [h]
      simp only [NamedValue.SetStatus, hc]
    · intro convert st err h hc
      rw [h]
      simp only [NamedValue.SetStatus, hc]
    · cases status with
      | exactly st => exact ⟨rfl, rfl, rfl⟩
      | other convert =>
        simp only [NamedValue.SetStatus]
        cases hc : convert Service_NamedValue_STATUS.zero with
        | mk st err =>
          cases err <;> exact ⟨rfl, rfl, rfl⟩
  · refine ⟨?_, ?_, ?_, ?_⟩
    · intro st h
      rw [h]
      rfl
    · intro convert st h hc
      rw [h]
      simp only [FlexibleServersDatabase.SetStatus, hc]
    · intro convert st err h hc
      rw [h]
      simp only [FlexibleServersDatabase.SetStatus, hc]
    · cases databaseStatus with
      | exactly st => exact ⟨rfl, rfl, rfl⟩
      | other convert =>
        simp only [FlexibleServersDatabase.SetStatus]
        cases hc : convert Database_Status.zero with
        | mk st err =>
          cases err <;> exact ⟨rfl, rfl, rfl⟩

/-- On a named value: a status of the right type is copied; a status whose conversion succeeds
gives the status converted; a status whose conversion fails, after it has written to the
destination, gives the wrapped error and leaves the named value as it was. -/
theorem SetStatus_sets_status_witness :
    exampleNamedValue.SetStatus (.exactly readyStatus)
      = ({ exampleNamedValue with Status := readyStatus }, none) ∧
    (exampleNamedValue.SetStatus convertingStatus).1.Status.Id = some "converted" ∧
    exampleNamedValue.SetStatus failingStatus
      = (exampleNamedValue, some (.wrapf (.errorf "cannot convert" [])
          "failed to convert status" [])) := by
  have h := (SetStatus_sets_status exampleNamedValue (.exactly readyStatus) emptyDatabase
    (.exactly Database_Status.zero)).1.1 readyStatus rfl
  have h2 := (SetStatus_sets_status exampleNamedValue convertingStatus emptyDatabase
    (.exactly Database_Status.zero)).1.2.1 _
    { Service_NamedValue_STATUS.zero with Id := some "converted" } rfl rfl
  have h3 := (SetStatus_sets_status exampleNamedValue failingStatus emptyDatabase
    (.exactly Database_Status.zero)).1.2.2.1 _
    { Service_NamedValue_STATUS.zero with Id := some "partial" } (.errorf "cannot convert" [])
    rfl rfl
  exact ⟨h, by rw [h2], h3⟩

/-! ## What `transformSpec` leaves as it is -/

/-- The properties `injectOwnerProperty` yields: those of the object under another name than
`Owner` are the properties of the object. -/
theorem mem_withOwner_other (r : ResourceType) (t : ObjectType) (p : PropertyDefinition)
    (h : p.propertyName ≠ "Owner") :
    p ∈ (withOwner r t).properties ↔ p ∈ t.properties := by
  unfold withOwner injectOwnerProperty
  split_ifs
  · have hne : p ≠ createOwnerProperty r.Owner := fun he => h (by rw [he]; rfl)
    simp [ObjectType.WithProperty, List.mem_filter, createOwnerProperty_name, h, hne]
  · have hne : p ≠ createExtensionResourceOwnerProperty := fun he => h (by rw [he]; rfl)
    simp [ObjectType.WithProperty, List.mem_filter, createExtensionResourceOwnerProperty_name,
      h, hne]
  · rfl

/-- The properties `remapProperties` yields: those of the object under another name than `Name`
and `AzureName` are the properties of the object. -/
theorem mem_remapped_other (t : ObjectType) (p : PropertyDefinition)
    (h1 : p.propertyName ≠ "Name") (h2 : p.propertyName ≠ "AzureName") :
    p ∈ (remapped t).properties ↔ p ∈ t.properties := by
  cases hname : ObjectType.Property t NameProperty with
  | none => rw [remapped_of_no_name t hname]
  | some nameProp =>
    rw [remapped_of_name t nameProp hname]
    have hne : p ≠ GetAzureNameProperty.WithType (promotedNameType nameProp.propertyType) :=
      fun he => h2 (by rw [he]; rfl)
    have hn : (GetAzureNameProperty.WithType (promotedNameType nameProp.propertyType)).propertyName
        = "AzureName" := rfl
    simp [ObjectType.WithProperty, ObjectType.WithoutProperty, List.mem_filter, hn, h1, h2, hne,
      NameProperty]

/-- The capabilities and the validation rules of the object `transformSpec` yields are those of
the object of the spec. -/
theorem withOwner_remapped_rest (r : ResourceType) (t : ObjectType) :
    (withOwner r (remapped t)).interfaces = t.interfaces ∧
    (withOwner r (remapped t)).validations = t.validations := by
  have h1 : (remapped t).interfaces = t.interfaces ∧ (remapped t).validations = t.validations := by
    cases hname : ObjectType.Property t NameProperty with
    | none => rw [remapped_of_no_name t hname]; exact ⟨rfl, rfl⟩
    | some nameProp => rw [remapped_of_name t nameProp hname]; exact ⟨rfl, rfl⟩
  have h2 : ∀ u : ObjectType, (withOwner r u).interfaces = u.interfaces ∧
      (withOwner r u).validations = u.validations := by
    intro u
    unfold withOwner injectOwnerProperty
    split_ifs <;> exact ⟨rfl, rfl⟩
  exact ⟨(h2 _).1.trans h1.1, (h2 _).2.trans h1.2⟩

/-- C28: `transformSpec` preserves what it does not target. When the spec of the resource
resolves to a definition that wraps an object, the definition returned has the name and the
description of that definition, and its object has every property of the spec object whose name
is none of `Name`, `AzureName` and `Owner`, the same in type, tags, required flag and
description, and no other property under such a name; the capabilities and the validation rules
are those of the spec object; and when the spec object has no `Name` property, `AzureName` is as
in the spec object, so that none is added. -/
theorem transformSpec_preserves (c : armConversionApplier) (r : ResourceType)
    (sd : TypeDefinition) (o : ObjectType)
    (hspec : TypeDefinitionSet.Lookup c.definitions r.specType = some sd)
    (hobj : AsObjectType sd.type = some o) :
    ∃ d t, transformSpec c r = .ok d ∧ AsObjectType d.type = some t ∧
      d.name = sd.name ∧ d.description = sd.description ∧
      (∀ name, name ≠ "Name" → name ≠ "AzureName" → name ≠ "Owner" →
        ObjectType.Property t name = ObjectType.Property o name) ∧
      (∀ p : PropertyDefinition, p.propertyName ≠ "Name" → p.propertyName ≠ "AzureName" →
        p.propertyName ≠ "Owner" → (p ∈ t.properties ↔ p ∈ o.properties)) ∧
      t.interfaces = o.interfaces ∧ t.validations = o.validations ∧
      (ObjectType.Property o "Name" = none →
        ObjectType.Property t "AzureName" = ObjectType.Property o "AzureName" ∧
        ∀ p : PropertyDefinition, p.propertyName = "AzureName" →
          (p ∈ t.properties ↔ p ∈ o.properties)) := by
  refine ⟨_, withOwner r (remapped o), transformSpec_ok c r sd o hspec hobj,
    AsObjectType_replaceObject _ _ (by simp [hobj]), rfl, rfl, ?_, ?_,
    (withOwner_remapped_rest r o).1, (withOwner_remapped_rest r o).2, ?_⟩
  · intro name h1 h2 h3
    rw [Property_withOwner_other r _ name h3]
    cases hname : ObjectType.Property o NameProperty with
    | none => rw [remapped_of_no_name o hname]
    | some nameProp =>
      rw [remapped_of_name o nameProp hname,
        Property_WithProperty_other _ _ name (by
          show name ≠ GetAzureNameProperty.propertyName
          rw [GetAzureNameProperty_name]
          exact h2),
        Property_WithoutProperty_other o NameProperty name h1]
  · intro p h1 h2 h3
    rw [mem_withOwner_other r _ p h3, mem_remapped_other o p h1 h2]
  · intro hname
    have hrem := remapped_of_no_name o hname
    constructor
    · rw [Property_withOwner_other r _ "AzureName" (by decide), hrem]
    · intro p hp
      rw [mem_withOwner_other r _ p (by rw [hp]; decide), hrem]

/-- In the scenario the property `Value` of the spec of `NamedValue` is in the transformed spec
as it was. -/
theorem transformSpec_preserves_witness :
    ∃ d t, transformSpec namedValueApplier namedValueResourceType = .ok d ∧
      AsObjectType d.type = some t ∧ d.name = namedValueSpec.name ∧
      ObjectType.Property t "Value" = some (plainProperty "Value" (.optional StringType)) := by
  obtain ⟨d, t, h1, h2, h3, _, h5, _⟩ :=
    transformSpec_preserves namedValueApplier namedValueResourceType namedValueSpec
      namedValueSpecObject (by decide) (by rfl)
  exact ⟨d, t, h1, h2, h3, by rw [h5 "Value" (by decide) (by decide) (by decide)]; decide⟩

/-- C30: the owner is injected in the two documented cases only. For a resource of tenant or
location scope, or scoped to a resource group with an empty owner, `injectOwnerProperty` returns
the object it is given, unchanged and without error; and the transformed spec is the spec object
with its properties remapped only, so it has an `Owner` property exactly when the spec object
has one, and then the same. -/
theorem injectOwnerProperty_unchanged (c : armConversionApplier) (r : ResourceType)
    (sd : TypeDefinition) (o u : ObjectType)
    (hscope : r.scope = .Tenant ∨ r.scope = .Location ∨
      (r.scope = .ResourceGroup ∧ r.owner.IsEmpty = true)) :
    injectOwnerProperty r u = .ok u ∧
    (TypeDefinitionSet.Lookup c.definitions r.specType = some sd →
      AsObjectType sd.type = some o →
      ∃ d t, transformSpec c r = .ok d ∧ AsObjectType d.type = some t ∧ t = remapped o ∧
        ObjectType.Property t "Owner" = ObjectType.Property o "Owner" ∧
        ∀ p : PropertyDefinition, p.propertyName = "Owner" →
          (p ∈ t.properties ↔ p ∈ o.properties)) := by
  have h1 : r.scope ≠ .Extension := by
    rcases hscope with h | h | h
    · rw [h]; decide
    · rw [h]; decide
    · rw [h.1]; decide
  have h2 : ¬ (r.owner.IsEmpty = false ∧ r.scope = .ResourceGroup) := by
    rintro ⟨ha, hb⟩
    rcases hscope with h | h | h
    · rw [h] at hb; cases hb
    · rw [h] at hb; cases hb
    · rw [h.2] at ha; cases ha
  have hun : ∀ w : ObjectType, withOwner r w = w := fun w => withOwner_unchanged r w h1 h2
  refine ⟨by rw [injectOwnerProperty_eq, hun], ?_⟩
  intro hspec hobj
  refine ⟨sd.WithType (replaceObject (remapped o) sd.type), remapped o, ?_,
    AsObjectType_replaceObject _ _ (by simp [hobj]), rfl, ?_, ?_⟩
  · rw [transformSpec_ok c r sd o hspec hobj, hun]
  · cases hname : ObjectType.Property o NameProperty with
    | none => rw [remapped_of_no_name o hname]
    | some nameProp =>
      rw [remapped_of_name o nameProp hname,
        Property_WithProperty_other _ _ "Owner" (by
          show "Owner" ≠ GetAzureNameProperty.propertyName
          decide),
        Property_WithoutProperty_other o NameProperty "Owner" (by decide)]
  · intro p hp
    exact mem_remapped_other o p (by rw [hp]; decide) (by rw [hp]; decide)

/-- With the spec of the scenario, which has no `Owner` property: for a resource of tenant scope
and for a resource scoped to a resource group without an owner, the transformed spec has no
`Owner` property. -/
theorem injectOwnerProperty_unchanged_witness :
    injectOwnerProperty tenantResourceType namedValueSpecObject = .ok namedValueSpecObject ∧
    (∃ d t, transformSpec namedValueApplier tenantResourceType = .ok d ∧
      AsObjectType d.type = some t ∧ ObjectType.Property t "Owner" = none) ∧
    (∃ d t, transformSpec namedValueApplier unownedResourceType = .ok d ∧
      AsObjectType d.type = some t ∧ ObjectType.Property t "Owner" = none) := by
  have h1 := injectOwnerProperty_unchanged namedValueApplier tenantResourceType namedValueSpec
    namedValueSpecObject namedValueSpecObject (Or.inl rfl)
  have h2 := injectOwnerProperty_unchanged namedValueApplier unownedResourceType namedValueSpec
    namedValueSpecObject namedValueSpecObject (Or.inr (Or.inr ⟨rfl, by decide⟩))
  obtain ⟨d1, t1, a1, b1, _, c1, _⟩ := h1.2 (by decide) (by rfl)
  obtain ⟨d2, t2, a2, b2, _, c2, _⟩ := h2.2 (by decide) (by rfl)
  exact ⟨h1.1, ⟨d1, t1, a1, b1, by rw [c1]; decide⟩, ⟨d2, t2, a2, b2, by rw [c2]; decide⟩⟩

/-! ## The names of the definitions of a run -/

/-- C31: the stage neither adds nor drops a type name. Whenever `transformTypes` succeeds, a name
is the name of a definition of the output exactly when it is the name of a definition of the
input; every definition of the output has the name of the definition of the input it was made
from; and when no two definitions of the input share a name, the names of the output are the
names of the input, each once. -/
theorem transformTypes_names (x : Externals) (c : armConversionApplier)
    (res : TypeDefinitionSet) (h : transformTypes x c = .ok res) :
    (∀ n, (∃ d ∈ res, d.name = n) ↔ (∃ td ∈ c.definitions, td.name = n)) ∧
    (∀ td ∈ c.definitions, ∃ d, TypeDefinitionSet.Lookup res td.name = some d) ∧
    (TypeDefinitionSet.WellFormed c.definitions →
      (res.map (fun d => d.name)).Perm (c.definitions.map (fun d => d.name))) := by
  have hiff : ∀ n, (∃ d ∈ res, d.name = n) ↔ (∃ td ∈ c.definitions, td.name = n) := by
    intro n
    constructor
    · rintro ⟨d, hd, hn⟩
      cases run_origin x c res h d hd with
      | spec rd sd A r p hrd hr hspec hobj harm hao hp hdef hns =>
        refine ⟨sd, Lookup_mem _ _ _ hspec, ?_⟩
        rw [← hn, hdef, withCapability_name, specTransformed_name]
      | status td A p htd hst harm hao hp hdef =>
        refine ⟨td, htd, ?_⟩
        rw [← hn, hdef, withCapability_name]
      | unchanged htd hst hcond => exact ⟨d, htd, hn⟩
      | ordinary td A p htd hst hobj hflag harm hao hp hdef =>
        refine ⟨td, htd, ?_⟩
        rw [← hn, hdef, withCapability_name]
    · rintro ⟨td, htd, hn⟩
      obtain ⟨d, hd⟩ := run_total x c res h td htd
      exact ⟨d, Lookup_mem _ _ _ hd, by rw [Lookup_name _ _ _ hd, hn]⟩
  refine ⟨hiff, fun td htd => run_total x c res h td htd, ?_⟩
  intro hwf
  have hres : (res.map (fun d => d.name)).Nodup := run_wellFormed x c res h
  have hin : (c.definitions.map (fun d => d.name)).Nodup := hwf
  rw [List.perm_ext_iff_of_nodup hres hin]
  intro n
  simp only [List.mem_map]
  exact hiff n

/-- On the scenario with an ordinary object, its twin and an enumeration, the run succeeds and
the names of its result are the eight names of the input. -/
theorem transformTypes_names_witness :
    ∃ res, transformTypes exampleExternals fullApplier = .ok res ∧
      (res.map (fun d => d.name)).Perm (fullDefinitions.map (fun d => d.name)) ∧
      res.length = 8 := by
  obtain ⟨res, hres⟩ := ok_of_toBool (transformTypes exampleExternals fullApplier) (by decide)
  have h := (transformTypes_names exampleExternals fullApplier res hres).2.2 (by decide)
  refine ⟨res, hres, h, ?_⟩
  have hl := h.length_eq
  simp only [List.length_map] at hl
  rw [hl]
  rfl

/-! ## Conversions between two values of a hub type -/

/-- Between two distinct values of a hub type, each conversion method hands over to the other
method of the other value. -/
theorem callMethod_distinct {Memory : Type} (memory : Memory) (T : GoType) (hT : T ∈ hubTypes)
    (a b : Nat) (hab : a ≠ b) :
    callMethod memory (convertFrom T) { typ := T, addr := a } (some { typ := T, addr := b })
      = some (memory, .calls (convertTo T) { typ := T, addr := b } { typ := T, addr := a }) ∧
    callMethod memory (convertTo T) { typ := T, addr := a } (some { typ := T, addr := b })
      = some (memory, .calls (convertFrom T) { typ := T, addr := b } { typ := T, addr := a }) := by
  have hba : ¬ b = a := fun h => hab h.symm
  simp only [hubTypes, List.mem_cons, List.mem_singleton, List.not_mem_nil, or_false] at hT
  rcases hT with h | h | h | h <;> subst h
  · simp [callMethod, convertFrom, convertTo, Service_NamedValue_Spec.ConvertSpecFrom,
      Service_NamedValue_Spec.ConvertSpecTo, hba]
  · simp [callMethod, convertFrom, convertTo, Service_NamedValue_STATUS.ConvertStatusFrom,
      Service_NamedValue_STATUS.ConvertStatusTo, hba]
  · simp [callMethod, convertFrom, convertTo, FlexibleServersDatabases_Spec.ConvertSpecFrom,
      FlexibleServersDatabases_Spec.ConvertSpecTo, hba]
  · simp [callMethod, convertFrom, convertTo, Database_Status.ConvertStatusFrom,
      Database_Status.ConvertStatusTo, hba]

/-- C32: a conversion between two distinct values of the same hub type never produces a result.
For distinct values `a` and `b` of `Service_NamedValue_Spec`, of `Service_NamedValue_STATUS`, of
`FlexibleServersDatabases_Spec` or of `Database_Status`, `a.ConvertSpecFrom(b)` (for a status,
`ConvertStatusFrom`) only calls `b.ConvertSpecTo(a)`, which only calls `a.ConvertSpecFrom(b)`
again; so after any number of steps the conversion, started by either method, has come to a call
that is still to be made: it has not returned and the memory is as it was. -/
theorem hub_conversion_never_returns {Memory : Type} (memory : Memory) (T : GoType)
    (hT : T ∈ hubTypes) (a b : Nat) (hab : a ≠ b) :
    callMethod memory (convertFrom T) { typ := T, addr := a } (some { typ := T, addr := b })
      = some (memory, .calls (convertTo T) { typ := T, addr := b } { typ := T, addr := a }) ∧
    callMethod memory (convertTo T) { typ := T, addr := b } (some { typ := T, addr := a })
      = some (memory, .calls (convertFrom T) { typ := T, addr := a } { typ := T, addr := b }) ∧
    ∀ n, (∃ method receiver argument,
        runConversion n memory (convertFrom T) { typ := T, addr := a } { typ := T, addr := b }
          = some (memory, .calls method receiver argument)) ∧
      (∃ method receiver argument,
        runConversion n memory (convertTo T) { typ := T, addr := a } { typ := T, addr := b }
          = some (memory, .calls method receiver argument)) := by
  refine ⟨(callMethod_distinct memory T hT a b hab).1,
    (callMethod_distinct memory T hT b a (fun h => hab h.symm)).2, ?_⟩
  intro n
  induction n generalizing a b with
  | zero => exact ⟨⟨_, _, _, rfl⟩, ⟨_, _, _, rfl⟩⟩
  | succ m ih =>
    have hstep := callMethod_distinct memory T hT a b hab
    have hnext := ih b a (fun h => hab h.symm)
    constructor
    · obtain ⟨method, receiver, argument, hrun⟩ := hnext.2
      refine ⟨method, receiver, argument, ?_⟩
      simp only [runConversion, hstep.1]
      exact hrun
    · obtain ⟨method, receiver, argument, hrun⟩ := hnext.1
      refine ⟨method, receiver, argument, ?_⟩
      simp only [runConversion, hstep.2]
      exact hrun

/-- For the values at the addresses 1 and 2 of `Service_NamedValue_Spec`, after a thousand steps
`ConvertSpecFrom` has come to a call still to be made; and after five steps that call is
`ConvertSpecTo` on the second value. -/
theorem hub_conversion_never_returns_witness :
    (∃ method receiver argument,
      runConversion 1000 () .ConvertSpecFrom { typ := .Service_NamedValue_Spec, addr := 1 }
          { typ := .Service_NamedValue_Spec, addr := 2 }
        = some ((), .calls method receiver argument)) ∧
    runConversion 5 () .ConvertSpecFrom { typ := .Service_NamedValue_Spec, addr := 1 }
        { typ := .Service_NamedValue_Spec, addr := 2 }
      = some ((), .calls .ConvertSpecTo { typ := .Service_NamedValue_Spec, addr := 2 }
          { typ := .Service_NamedValue_Spec, addr := 1 }) :=
  ⟨((hub_conversion_never_returns () .Service_NamedValue_Spec (by decide) 1 2
    (by decide)).2.2 1000).1, by decide⟩

/-! ## `UnmarshalYAML` on a node that is no mapping, and on an empty mapping -/

/-- C34: for every node whose kind is not a mapping, `UnmarshalYAML` fails with
`expected mapping` and the configuration, its properties and its configurable values, is as it
was; for an empty mapping it succeeds, the configuration has no property, and its configurable
values are as they were, so that a new configuration has no directive set. -/
theorem UnmarshalYAML_expected_mapping (dec : yaml.Decoder) (tc : TypeConfiguration)
    (value : yaml.Node) :
    (value.Kind ≠ .MappingNode →
      tc.UnmarshalYAML dec value = (tc, some (.errorf "expected mapping" []))) ∧
    (value.Kind = .MappingNode → value.Content = [] →
      tc.UnmarshalYAML dec value = ({ tc with properties := [] }, none) ∧
      ∀ name, (NewTypeConfiguration name).UnmarshalYAML dec value
        = (NewTypeConfiguration name, none)) := by
  constructor
  · intro h
    unfold TypeConfiguration.UnmarshalYAML
    rw [if_pos h]
  · intro h hc
    have hrun : ∀ t : TypeConfiguration,
        t.UnmarshalYAML dec value = ({ t with properties := [] }, none) := by
      intro t
      rw [UnmarshalYAML_mapping dec t value h, hc]
      rfl
    exact ⟨hrun tc, fun name => hrun _⟩

/-- On a configuration with `$export` set and a property registered: the scalar document `true`
is rejected with `expected mapping` and the configuration is as it was; the empty mapping is
accepted and leaves no property, `$export` being as it was. On a new configuration the empty
mapping sets no directive. -/
theorem UnmarshalYAML_expected_mapping_witness :
    configuredType.UnmarshalYAML exampleDecoder scalarDocument
      = (configuredType, some (.errorf "expected mapping" [])) ∧
    (configuredType.UnmarshalYAML exampleDecoder emptyDocument).1.properties = [] ∧
    (configuredType.UnmarshalYAML exampleDecoder emptyDocument).1.Export.value = some true ∧
    (configuredType.UnmarshalYAML exampleDecoder emptyDocument).2 = none ∧
    (exampleType.UnmarshalYAML exampleDecoder emptyDocument).1.Export.value = none := by
  have h1 := (UnmarshalYAML_expected_mapping exampleDecoder configuredType scalarDocument).1
    (by decide)
  have h2 := ((UnmarshalYAML_expected_mapping exampleDecoder configuredType emptyDocument).2
    rfl rfl).1
  exact ⟨h1, by rw [h2], by rw [h2]; rfl, by rw [h2], rfl⟩

/-! ## Property keys that differ in case only -/

/-- Setting a property under the lower-casing of its name keeps the map keyed by the names. -/
theorem KeyedByName_set (m : GoMap PropertyConfiguration) (pc : PropertyConfiguration)
    (h : KeyedByName m) : KeyedByName (GoMap.set m (ToLower pc.name) pc) := by
  obtain ⟨h1, h2⟩ := h
  unfold GoMap.set
  constructor
  · intro kv hkv
    rcases List.mem_append.mp hkv with hf | hl
    · exact h1 kv (List.mem_of_mem_filter hf)
    · rw [List.mem_singleton.mp hl]
  · rw [List.map_append, List.nodup_append]
    refine ⟨(h2.sublist ((List.filter_sublist _).map _)), by simp, ?_⟩
    intro a ha hb
    simp only [List.map_cons, List.map_nil, List.mem_singleton] at hb
    rw [List.mem_map] at ha
    obtain ⟨kv, hkv, hkey⟩ := ha
    have := (List.mem_filter.mp hkv).2
    simp only [ne_eq, decide_not, Bool.not_eq_eq_eq_not, Bool.not_true,
      decide_eq_false_iff_not] at this
    exact this (hkey.trans hb)

/-- The handling of a value keeps the map of the properties keyed by the names. -/
theorem unmarshalValue_keyed (dec : yaml.Decoder) (tc : TypeConfiguration) (k : String)
    (v : yaml.Node) (h : KeyedByName tc.properties) :
    KeyedByName (tc.unmarshalValue dec k v).1.properties := by
  apply unmarshalValue_elim dec tc k v (fun r => KeyedByName r.1.properties)
  case h2 =>
    intro _ _ settings _
    exact KeyedByName_set tc.properties { name := k, settings := settings } h
  all_goals intros
  all_goals exact h

/-- After `UnmarshalYAML` on a mapping, the map of the properties is keyed by the names. -/
theorem UnmarshalYAML_keyed (dec : yaml.Decoder) (tc : TypeConfiguration) (doc : yaml.Node)
    (hdoc : doc.Kind = .MappingNode) : KeyedByName (tc.UnmarshalYAML dec doc).1.properties := by
  rw [UnmarshalYAML_mapping dec tc doc hdoc]
  exact unmarshalEntries_invariant dec (fun t => KeyedByName t.properties) _
    (fun e _ t ht => unmarshalValue_keyed dec t e.1.Value e.2 ht) _
    (by
      unfold KeyedByName
      exact ⟨fun kv hkv => absurd hkv (List.not_mem_nil kv), List.nodup_nil⟩)

/-- In a map keyed by the names, the name of the property found under a key is listed once by
`configuredProperties`, and no other name with the same lower-casing is listed. -/
theorem configuredProperties_of_keyed (tc : TypeConfiguration) (pc : PropertyConfiguration)
    (h : KeyedByName tc.properties)
    (hget : GoMap.get tc.properties (ToLower pc.name) = some pc) :
    tc.configuredProperties.count pc.name = 1 ∧
    ∀ other, other ≠ pc.name → ToLower other = ToLower pc.name →
      other ∉ tc.configuredProperties := by
  obtain ⟨h1, h2⟩ := h
  have hkeys : tc.properties.map (fun kv => kv.1)
      = tc.configuredProperties.map ToLower := by
    unfold TypeConfiguration.configuredProperties
    rw [List.map_map]
    exact List.map_congr_left (fun kv hkv => h1 kv hkv)
  rw [hkeys] at h2
  have hnodup : tc.configuredProperties.Nodup := List.Nodup.of_map _ h2
  have hmem : pc.name ∈ tc.configuredProperties := by
    unfold GoMap.get at hget
    cases hf : tc.properties.find? (fun kv => decide (kv.1 = ToLower pc.name)) with
    | none => rw [hf] at hget; cases hget
    | some kv =>
      rw [hf] at hget
      simp only [Option.map_some', Option.some.injEq] at hget
      unfold TypeConfiguration.configuredProperties
      rw [List.mem_map]
      exact ⟨kv, List.mem_of_find?_eq_some hf, by rw [hget]⟩
  refine ⟨List.count_eq_one_of_mem hnodup hmem, ?_⟩
  intro other hne hlower hother
  exact hne (List.inj_on_of_nodup_map h2 hother hmem hlower)

/-- A mapping under a key other than `$generatedConfigs`, met after entries that succeed and
followed by no entry that registers a property with the same lower-casing: after `UnmarshalYAML`
the map holds, under the lower-casing of the key, the configuration decoded for the key. -/
theorem UnmarshalYAML_registers (dec : yaml.Decoder) (tc tc1 : TypeConfiguration)
    (doc k v : yaml.Node) (es1 es2 : List (yaml.Node × yaml.Node))
    (settings : List (String × String))
    (hdoc : doc.Kind = .MappingNode)
    (hentries : yaml.pairs doc.Content = es1 ++ (k, v) :: es2)
    (hkind : v.Kind = .MappingNode)
    (hk : EqualFold k.Value generatedConfigsTag = false)
    (hdecode : dec.DecodeProperty v = .ok settings)
    (hbefore : TypeConfiguration.unmarshalEntries dec es1 { tc with properties := [] }
      = (tc1, none))
    (hafter : ∀ e ∈ es2, ¬ (e.2.Kind = .MappingNode ∧
      EqualFold e.1.Value generatedConfigsTag = false ∧ ToLower e.1.Value = ToLower k.Value)) :
    GoMap.get (tc.UnmarshalYAML dec doc).1.properties (ToLower k.Value)
      = some { name := k.Value, settings := settings } := by
  have hv : tc1.unmarshalValue dec k.Value v
      = (tc1.addProperty k.Value { name := k.Value, settings := settings }, none) := by
    rw [unmarshalValue_property dec tc1 k.Value v hk hkind, hdecode]
  rw [UnmarshalYAML_mapping dec tc doc hdoc, hentries,
    unmarshalEntries_continues dec es1 es2 k v _ tc1 _ hbefore hv]
  exact unmarshalEntries_invariant dec
    (fun t => GoMap.get t.properties (ToLower k.Value)
      = some { name := k.Value, settings := settings }) es2
    (fun e he t ht => by
      show GoMap.get (t.unmarshalValue dec e.1.Value e.2).1.properties (ToLower k.Value) = _
      rw [unmarshalValue_frame_properties dec t e.1.Value e.2 _ (hafter e he)]
      exact ht) _
    (by
      show GoMap.get (GoMap.set tc1.properties (ToLower k.Value) _) (ToLower k.Value) = _
      rw [GoMap.get_set, if_pos rfl])

/-- C33: property keys that differ in case only collide, and the last one wins. For a mapping
under a key `K2` other than `$generatedConfigs`, met after entries that succeed and followed by
no entry that registers a property with the same lower-casing, and for every other spelling
`K1` with the lower-casing of `K2`, such as an earlier key of the document: after
`UnmarshalYAML`, `findProperty` of `K1` and of `K2` return, with no error, the configuration
decoded for `K2`, named `K2`; `configuredProperties` lists `K2` once and `K1` not at all. And
`UnmarshalYAML` on a mapping discards the properties registered before the call: a key under
which the document registers no property holds nothing afterwards. -/
theorem UnmarshalYAML_last_key_wins (dec : yaml.Decoder) (tc tc1 : TypeConfiguration)
    (doc k2 v2 : yaml.Node) (es1 es2 : List (yaml.Node × yaml.Node))
    (settings : List (String × String)) (K1 : String)
    (hdoc : doc.Kind = .MappingNode)
    (hentries : yaml.pairs doc.Content = es1 ++ (k2, v2) :: es2)
    (hkind : v2.Kind = .MappingNode)
    (hk : EqualFold k2.Value generatedConfigsTag = false)
    (hdecode : dec.DecodeProperty v2 = .ok settings)
    (hbefore : TypeConfiguration.unmarshalEntries dec es1 { tc with properties := [] }
      = (tc1, none))
    (hafter : ∀ e ∈ es2, ¬ (e.2.Kind = .MappingNode ∧
      EqualFold e.1.Value generatedConfigsTag = false ∧ ToLower e.1.Value = ToLower k2.Value))
    (hlower : ToLower K1 = ToLower k2.Value) (hne : K1 ≠ k2.Value) :
    ((tc.UnmarshalYAML dec doc).1.findProperty K1).2
      = .ok { name := k2.Value, settings := settings } ∧
    ((tc.UnmarshalYAML dec doc).1.findProperty k2.Value).2
      = .ok { name := k2.Value, settings := settings } ∧
    (tc.UnmarshalYAML dec doc).1.configuredProperties.count k2.Value = 1 ∧
    K1 ∉ (tc.UnmarshalYAML dec doc).1.configuredProperties ∧
    ∀ q, (∀ e ∈ yaml.pairs doc.Content, ¬ (e.2.Kind = .MappingNode ∧
        EqualFold e.1.Value generatedConfigsTag = false ∧ ToLower e.1.Value = q)) →
      GoMap.get (tc.UnmarshalYAML dec doc).1.properties q = none := by
  have hget := UnmarshalYAML_registers dec tc tc1 doc k2 v2 es1 es2 settings hdoc hentries hkind
    hk hdecode hbefore hafter
  have hkeyed := UnmarshalYAML_keyed dec tc doc hdoc
  have hnames := configuredProperties_of_keyed (tc.UnmarshalYAML dec doc).1
    { name := k2.Value, settings := settings } hkeyed hget
  refine ⟨?_, ?_, hnames.1, hnames.2 K1 hne hlower, ?_⟩
  · rw [findProperty_eq]
    simp only [hlower, hget]
  · rw [findProperty_eq]
    simp only [hget]
  · intro q hq
    rw [UnmarshalYAML_mapping dec tc doc hdoc]
    exact unmarshalEntries_invariant dec (fun t => GoMap.get t.properties q = none) _
      (fun e he t ht => by
        show GoMap.get (t.unmarshalValue dec e.1.Value e.2).1.properties q = none
        rw [unmarshalValue_frame_properties dec t e.1.Value e.2 q (hq e he)]
        exact ht) _ rfl

/-- On a configuration in which the property `Old` is registered, the document
`DisplayName: {$renameTo: Title}`, `displayname: {$renameTo: Caption}` leaves one property: the
lookups of `DisplayName` and of `displayname` return the configuration of `displayname`, the
only name `configuredProperties` lists, and `Old` is no longer found. -/
theorem UnmarshalYAML_last_key_wins_witness :
    ((configuredType.UnmarshalYAML exampleDecoder collidingDocument).1.findProperty
      "DisplayName").2 = .ok { name := "displayname", settings := [("$renameTo", "Caption")] } ∧
    ((configuredType.UnmarshalYAML exampleDecoder collidingDocument).1.findProperty
      "displayname").2 = .ok { name := "displayname", settings := [("$renameTo", "Caption")] } ∧
    (configuredType.UnmarshalYAML exampleDecoder collidingDocument).1.configuredProperties
      = ["displayname"] ∧
    GoMap.get (configuredType.UnmarshalYAML exampleDecoder collidingDocument).1.properties "old"
      = none ∧
    GoMap.get configuredType.properties "old" = some (NewPropertyConfiguration "Old") := by
  have h := UnmarshalYAML_last_key_wins exampleDecoder configuredType
    (({ configuredType with properties := [] } : TypeConfiguration).addProperty "DisplayName"
      { name := "DisplayName", settings := [("$renameTo", "Title")] })
    collidingDocument (yaml.scalar "displayname" 3 1)
    (yaml.mapping [yaml.scalar "$renameTo" 4 3, yaml.scalar "Caption" 4 14] 4 3)
    [(yaml.scalar "DisplayName" 1 1,
      yaml.mapping [yaml.scalar "$renameTo" 2 3, yaml.scalar "Title" 2 14] 2 3)] []
    [("$renameTo", "Caption")] "DisplayName" rfl rfl rfl (by decide) rfl rfl (by simp)
    (by decide) (by decide)
  exact ⟨h.1, h.2.1, by decide, h.2.2.2.2 "old" (by decide), by decide⟩

end ARMConversion
